import Mathlib

/-!
Guest MMU virtualization: guest-physical table and TLB1 shadow manager.

A shallow embedding of `src/src/paging.c` (`vptbl_get_ptep`, `vptbl_xlate`,
`vptbl_map`) and of the TLB1 miss path of `src/src/tlb.c` (`alloc_tlb1`,
`guest_tlb1_miss`), followed by the theorems that settle the claims about them.

Machine words are natural numbers; `unsigned long` is 32 bits wide and every
operation that can leave that range is reduced modulo `2 ^ 32` explicitly.
-/

namespace Hv

/-! ## Machine words -/

/-- Width of `unsigned long` on the 32-bit Book E target. -/
def LONG_BITS : Nat := 32

/-- Modulus of `unsigned long` arithmetic. -/
def WORD : Nat := 2 ^ 32

/-- Truncation of a natural number to an `unsigned long`. -/
def u32 (x : Nat) : Nat := x % WORD

/-- Addition of `unsigned long` values (wraps). -/
def add32 (a b : Nat) : Nat := (a + b) % WORD

/-- Subtraction of `unsigned long` values (wraps). -/
def sub32 (a b : Nat) : Nat := (a % WORD + (WORD - b % WORD)) % WORD

/-- Bitwise complement `~x` of an `unsigned long`. -/
def not32 (x : Nat) : Nat := WORD - 1 - x % WORD

/-- Left shift `x << s` of an `unsigned long`; a shift by the word width or more yields 0,
as the target's `slw` instruction does. -/
def shl32 (x s : Nat) : Nat := (x <<< s) % WORD

/-! ## Constants and helpers of the missing headers -/

/-- Modelled from the spec: `PAGE_SHIFT` of the missing `libos` headers; pages are 4 KiB. -/
def PAGE_SHIFT : Nat := 12

/-- Modelled from the spec: `PGDIR_SHIFT` of the missing `paging.h`. A table is allocated
as `PAGE_SIZE * 2` bytes of 8-byte `pte_t`, that is 1024 entries, and one directory entry
covers a 4 MiB large page of 1024 small pages. -/
def PGDIR_SHIFT : Nat := 10

/-- Modelled from the spec: `PGDIR_SIZE` of the missing `paging.h`, the number of entries
of one table. -/
def PGDIR_SIZE : Nat := 1 <<< PGDIR_SHIFT

/-- Modelled from the spec: `PTE_PHYS_LEVELS` of the missing `paging.h` ("Tree has 1-2
levels"): the depth used for the guest-physical tables. -/
def PTE_PHYS_LEVELS : Nat := 2

/-- Modelled from the spec: `PTE_MAS3_MASK` of the missing `paging.h`, the permission bits
of `attr`, laid out as in MAS3. -/
def PTE_MAS3_MASK : Nat := 0x3f

/-- Modelled from the spec: `PTE_VALID` of the missing `paging.h`, the validity bit of
`attr`. -/
def PTE_VALID : Nat := 0x40

/-- Modelled from the spec: `PTE_SIZE_SHIFT` of the missing `paging.h`. The code reads the
size class as `attr >> PTE_SIZE_SHIFT` without masking, so the size class is the topmost
field of `attr`. -/
def PTE_SIZE_SHIFT : Nat := 12

/-- Modelled from the spec: `PTE_SIZE` of the missing `paging.h`, the mask of the size
class field of `attr` (all bits from `PTE_SIZE_SHIFT` upwards). -/
def PTE_SIZE : Nat := 0xfffff000

/-- Modelled from the spec: `TLB_TSIZE_4K` of the missing `libos/fsl-booke-tlb.h`; Book E
size class `k` is a page of `4 ^ k` KiB. -/
def TLB_TSIZE_4K : Nat := 1

/-- Modelled from the spec: `TLB_TSIZE_4M` of the missing `libos/fsl-booke-tlb.h`. -/
def TLB_TSIZE_4M : Nat := 6

/-- Modelled from the spec: `TLB_TSIZE_16M` of the missing `libos/fsl-booke-tlb.h`. -/
def TLB_TSIZE_16M : Nat := 7

/-- Modelled from the spec: `tsize_to_pages` of the missing `libos/fsl-booke-tlb.h`, the
number of 4 KiB pages of a size class, `1UL << (tsize * 2 - 2)`. -/
def tsize_to_pages (tsize : Nat) : Nat := shl32 1 (tsize * 2 - 2)

/-- Loop of `ilog2`: the position of the most significant set bit. -/
def ilog2_aux : Nat → Nat → Nat
  | 0, _ => 0
  | f + 1, v => if v < 2 then 0 else ilog2_aux f (v / 2) + 1

/-- Modelled from the spec: `ilog2` of the missing `libos/bitops.h`. -/
def ilog2 (v : Nat) : Nat := ilog2_aux LONG_BITS v

/-- Loop of `count_lsb_zeroes`: the number of zero bits below the lowest set bit. -/
def count_lsb_zeroes_aux : Nat → Nat → Nat
  | 0, _ => 0
  | f + 1, v => if v % 2 = 1 then 0 else count_lsb_zeroes_aux f (v / 2) + 1

/-- Modelled from the spec: `count_lsb_zeroes` of the missing `libos/bitops.h`; for 0 the
count is the word width. -/
def count_lsb_zeroes (v : Nat) : Nat := count_lsb_zeroes_aux LONG_BITS v

/-- Modelled from the spec: `pages_to_tsize` of the missing `libos/fsl-booke-tlb.h`, the
largest size class of at most `pages` pages. -/
def pages_to_tsize (pages : Nat) : Nat := ilog2 pages / 2 + 1

/-- Modelled from the spec: `natural_alignment` of the missing `libos/fsl-booke-tlb.h`, the
largest size class to which page number `page` is aligned ("bounded by address
alignment"). -/
def natural_alignment (page : Nat) : Nat := count_lsb_zeroes page / 2 + 1

/-- Modelled from the spec: `max_page_size` of the missing `libos/fsl-booke-tlb.h`, the
largest size class usable at `start` for `len` pages ("the largest naturally-aligned chunks
possible (bounded by both address alignment and remaining length)"). -/
def max_page_size (start len : Nat) : Nat :=
  min (natural_alignment start) (pages_to_tsize len)

/-- Modelled from the spec: `max_page_tsize` of the missing `libos/fsl-booke-tlb.h`, the
largest size class not above `tsize` to which `start` is aligned ("the physical region's
natural alignment"). -/
def max_page_tsize (start tsize : Nat) : Nat :=
  min (natural_alignment start) tsize

/-! ## The guest-physical table (`paging.c`) -/

/-- One `pte_t`. The C field `page` holds either a page number or the address of a
lower-level table; `dir` is an entry whose `page` is such an address and whose `attr` is
`PTE_VALID`, as `vptbl_get_ptep` writes it. -/
inductive pte_t where
  | leaf (page attr : Nat)
  | dir (tbl : Nat → pte_t)

/-- A table: an array of `PGDIR_SIZE` entries, indexed by a masked index. -/
abbrev Table := Nat → pte_t

/-- The memory `alloc` returns: every entry zero. -/
def empty_tbl : Table := fun _ => pte_t.leaf 0 0

/-- Store into `tbl[idx]`. -/
def tbl_set (tbl : Table) (idx : Nat) (e : pte_t) : Table :=
  fun j => if j = idx then e else tbl j

/-- The `attr` field of an entry. -/
def pte_t.attr : pte_t → Nat
  | pte_t.leaf _ a => a
  | pte_t.dir _ => PTE_VALID

/-- Whether the `page` field of an entry is non-zero (a table address never is zero). -/
def pte_t.page_nonzero : pte_t → Bool
  | pte_t.leaf p _ => p != 0
  | pte_t.dir _ => true

/-- What `vptbl_get_ptep` does: halt in `BUG()`, follow a `page` that is no table address,
return `NULL`, or return a pointer. A pointer is the path of indices from the root; `level`
is the value left in `*levels`, and `tbl` the table after the tables allocated on the
way. -/
inductive ptep_result where
  | bug
  | wild
  | null (level : Nat)
  | ptr (path : List Nat) (level : Nat) (tbl : Table)

/-- Embedding of `vptbl_get_ptep(tbl, &levels, epn, insert)`. -/
def vptbl_get_ptep : Table → Nat → Nat → Bool → ptep_result
  | _, 0, _, _ => ptep_result.bug
  | tbl, l + 1, epn, insert =>
    let idx := (epn >>> (PGDIR_SHIFT * l)) &&& (PGDIR_SIZE - 1)
    match tbl idx with
    | pte_t.leaf _ attr =>
      if attr &&& PTE_VALID = 0 then
        if insert = false then ptep_result.null l
        else if l = 0 then ptep_result.ptr [idx] l tbl
        else
          match vptbl_get_ptep empty_tbl l epn insert with
          | ptep_result.ptr path lv sub =>
            ptep_result.ptr (idx :: path) lv (tbl_set tbl idx (pte_t.dir sub))
          | r => r
      else if attr &&& PTE_SIZE ≠ 0 then ptep_result.ptr [idx] l tbl
      else if l = 0 then ptep_result.bug
      else ptep_result.wild
    | pte_t.dir sub =>
      match vptbl_get_ptep sub l epn insert with
      | ptep_result.ptr path lv sub1 =>
        ptep_result.ptr (idx :: path) lv (tbl_set tbl idx (pte_t.dir sub1))
      | r => r

/-- Read `*ptep`. -/
def pte_read : Table → List Nat → pte_t
  | _, [] => pte_t.leaf 0 0
  | tbl, [i] => tbl i
  | tbl, i :: j :: rest =>
    match tbl i with
    | pte_t.dir sub => pte_read sub (j :: rest)
    | pte_t.leaf p a => pte_t.leaf p a

/-- Store `*ptep = e`. -/
def pte_write : Table → List Nat → pte_t → Table
  | tbl, [], _ => tbl
  | tbl, [i], e => tbl_set tbl i e
  | tbl, i :: j :: rest, e =>
    match tbl i with
    | pte_t.dir sub => tbl_set tbl i (pte_t.dir (pte_write sub (j :: rest) e))
    | pte_t.leaf _ _ => tbl

/-- Ways in which the code halts instead of returning. -/
inductive Fault where
  | bug
  | wild
  | assert_fail
  | fuel
  deriving DecidableEq, Repr

deriving instance DecidableEq for Except

/-- The hint `(1UL << (PGDIR_SHIFT * level)) - 1` returned for a hole. -/
def hole_hint (level : Nat) : Nat := sub32 (shl32 1 (PGDIR_SHIFT * level)) 1

/-- Embedding of `vptbl_xlate(tbl, epn, &attr, level)`: the returned page number (or hole
hint) and the value stored in `*attr`. -/
def vptbl_xlate (tbl : Table) (epn : Nat) (level : Nat) : Except Fault (Nat × Nat) :=
  match vptbl_get_ptep tbl level epn false with
  | ptep_result.bug => Except.error Fault.bug
  | ptep_result.wild => Except.error Fault.wild
  | ptep_result.null lv => Except.ok (hole_hint lv, 0)
  | ptep_result.ptr path lv _ =>
    match pte_read tbl path with
    | pte_t.dir _ => Except.error Fault.wild
    | pte_t.leaf page attr =>
      let size := attr >>> PTE_SIZE_SHIFT
      if (if lv = 0 then decide (size < TLB_TSIZE_4M)
          else decide (lv = 1) && decide (size ≥ TLB_TSIZE_4M)) = false then
        Except.error Fault.assert_fail
      else if attr &&& PTE_VALID = 0 then Except.ok (hole_hint lv, attr)
      else
        let size_pages := tsize_to_pages size
        Except.ok ((page &&& not32 (sub32 size_pages 1)) ||| (epn &&& sub32 size_pages 1), attr)

/-- How a call of `vptbl_map` ends: it completes, it logs one of its two conflicts and
returns, or it halts. -/
inductive map_status where
  | done
  | large_over_small
  | small_over_large
  | halt (f : Fault)
  deriving DecidableEq, Repr

/-- How one pass through a loop body of `vptbl_map` ends: with the next values of `tbl`,
`epn`, `rpn` and `attr`, or by leaving the function. -/
inductive loop_result where
  | next (tbl : Table) (epn rpn attr : Nat)
  | stop (s : map_status) (tbl : Table)

/-- The body of the inner loop of `vptbl_map`: one entry is looked up, checked for the two
conflicts and written. -/
def vptbl_map_step (levels largepage incr attr : Nat) (tbl : Table) (epn rpn : Nat) :
    loop_result :=
  match vptbl_get_ptep tbl (levels - largepage) (epn >>> (PGDIR_SHIFT * largepage)) true with
  | ptep_result.bug => loop_result.stop (map_status.halt Fault.bug) tbl
  | ptep_result.wild => loop_result.stop (map_status.halt Fault.wild) tbl
  | ptep_result.null _ => loop_result.stop (map_status.halt Fault.wild) tbl
  | ptep_result.ptr path level tbl1 =>
    let pte := pte_read tbl1 path
    if largepage ≠ 0 ∧ pte.page_nonzero = true ∧ pte.attr &&& PTE_SIZE = 0 then
      loop_result.stop map_status.large_over_small tbl1
    else if largepage = 0 ∧ level ≠ 0 then
      loop_result.stop map_status.small_over_large tbl1
    else
      loop_result.next (pte_write tbl1 path (pte_t.leaf rpn attr))
        (add32 (epn ||| incr) 1) (add32 (rpn ||| incr) 1) attr

/-- The inner loop of `vptbl_map`, `while (epn < sub_end)`. -/
def vptbl_map_inner (levels largepage incr attr sub_end : Nat) :
    Nat → Table → Nat → Nat → loop_result
  | 0, tbl, _, _ => loop_result.stop (map_status.halt Fault.fuel) tbl
  | f + 1, tbl, epn, rpn =>
    if epn < sub_end then
      match vptbl_map_step levels largepage incr attr tbl epn rpn with
      | loop_result.next tbl1 epn1 rpn1 _ =>
        vptbl_map_inner levels largepage incr attr sub_end f tbl1 epn1 rpn1
      | loop_result.stop s tbl1 => loop_result.stop s tbl1
    else loop_result.next tbl epn rpn attr

/-- The body of the outer loop of `vptbl_map`: the size class of the next chunk is chosen
and the chunk is written by the inner loop. -/
def vptbl_map_chunk (levels end_ : Nat) (tbl : Table) (epn rpn attr : Nat) : loop_result :=
  let size := min (max_page_size epn (sub32 end_ epn)) (natural_alignment rpn)
  let size_pages := tsize_to_pages size
  let sub_end := add32 epn size_pages
  if ¬ size_pages ≤ sub32 end_ epn then loop_result.stop (map_status.halt Fault.assert_fail) tbl
  else
    let attr1 := (attr &&& not32 PTE_SIZE) ||| shl32 size PTE_SIZE_SHIFT
    if ¬ size > 0 then loop_result.stop (map_status.halt Fault.assert_fail) tbl
    else
      let largepage := if size ≥ TLB_TSIZE_4M then 1 else 0
      let incr := if largepage = 1 then PGDIR_SIZE - 1 else 0
      vptbl_map_inner levels largepage incr attr1 sub_end (size_pages + 1) tbl epn rpn

/-- The outer loop of `vptbl_map`, `while (epn < end)`. -/
def vptbl_map_loop (levels end_ : Nat) : Nat → Table → Nat → Nat → Nat → map_status × Table
  | 0, tbl, _, _, _ => (map_status.halt Fault.fuel, tbl)
  | f + 1, tbl, epn, rpn, attr =>
    if epn < end_ then
      match vptbl_map_chunk levels end_ tbl epn rpn attr with
      | loop_result.next tbl1 epn1 rpn1 attr1 => vptbl_map_loop levels end_ f tbl1 epn1 rpn1 attr1
      | loop_result.stop s tbl1 => (s, tbl1)
    else (map_status.done, tbl)

/-- Embedding of `vptbl_map(tbl, epn, rpn, npages, attr, levels)`: how the call ends and
the table it leaves. -/
def vptbl_map (tbl : Table) (epn rpn npages attr levels : Nat) : map_status × Table :=
  vptbl_map_loop levels (add32 epn npages) (npages + 1) tbl epn rpn attr

/-! ## The TLB1 shadow manager (`tlb.c`) -/

/-- Modelled from the spec: `MAS1_VALID` of the missing `libos/fsl-booke-tlb.h` (Book E
MAS1 layout). -/
def MAS1_VALID : Nat := 0x80000000

/-- Modelled from the spec: `MAS1_IPROT` of the missing `libos/fsl-booke-tlb.h`. -/
def MAS1_IPROT : Nat := 0x40000000

/-- Modelled from the spec: `MAS1_TID_MASK` of the missing `libos/fsl-booke-tlb.h`; the
code extracts the pid as `(mas1 >> MAS1_TID_SHIFT) & 0xff`. -/
def MAS1_TID_MASK : Nat := 0x00ff0000

/-- Modelled from the spec: `MAS1_TID_SHIFT` of the missing `libos/fsl-booke-tlb.h`. -/
def MAS1_TID_SHIFT : Nat := 16

/-- Modelled from the spec: `MAS1_TS` of the missing `libos/fsl-booke-tlb.h`. -/
def MAS1_TS : Nat := 0x00001000

/-- Modelled from the spec: `MAS1_TS_SHIFT` of the missing `libos/fsl-booke-tlb.h`. -/
def MAS1_TS_SHIFT : Nat := 12

/-- Modelled from the spec: `MAS1_TSIZE_MASK` of the missing `libos/fsl-booke-tlb.h`; the
code extracts the size class as `(mas1 >> MAS1_TSIZE_SHIFT) & 15`. -/
def MAS1_TSIZE_MASK : Nat := 0x00000f00

/-- Modelled from the spec: `MAS1_TSIZE_SHIFT` of the missing `libos/fsl-booke-tlb.h`. -/
def MAS1_TSIZE_SHIFT : Nat := 8

/-- Modelled from the spec: `MAS3_RPN` of the missing `libos/fsl-booke-tlb.h`, the page
number field of MAS3. -/
def MAS3_RPN : Nat := 0xfffff000

/-- Modelled from the spec: `MAS8_GTS` of the missing `libos/fsl-booke-tlb.h`. -/
def MAS8_GTS : Nat := 0x80000000

/-- Modelled from the spec: `MAS1_GETTID` of the missing `libos/fsl-booke-tlb.h`. -/
def MAS1_GETTID (mas1 : Nat) : Nat := (mas1 &&& MAS1_TID_MASK) >>> MAS1_TID_SHIFT

/-- Modelled from the spec: `MAS1_GETTSIZE` of the missing `libos/fsl-booke-tlb.h`. -/
def MAS1_GETTSIZE (mas1 : Nat) : Nat := (mas1 &&& MAS1_TSIZE_MASK) >>> MAS1_TSIZE_SHIFT

/-- Modelled from the spec: `TLB1_GSIZE` of the missing `percpu.h`, the number of logical
TLB1 entries ("a fixed-size array, e.g. 16"). -/
def TLB1_GSIZE : Nat := 16

/-- Modelled from the spec: `TLB1_SIZE` of the missing `libos` headers, the number of
physical TLB1 slots. -/
def TLB1_SIZE : Nat := 64

/-- Modelled from the spec: `GUEST_TLB_END` of the missing `percpu.h`, the last physical
slot of the dynamic range that backs guest entries. -/
def GUEST_TLB_END : Nat := 47

/-- A `tlb_entry_t` of the logical array `gtlb1`. -/
structure tlb_entry_t where
  mas1 : Nat
  mas2 : Nat
  mas3 : Nat
  mas7 : Nat

/-- Modelled from the spec: a physical TLB1 slot, holding what the missing `libos` function
`tlb1_set_entry(idx, va, pa, tsize, mas2flags, mas3flags, tid, ts, mas8)` was asked to
program; `mas1` is the word `free_tlb1` clears. -/
structure tlb1_slot where
  mas1 : Nat
  va : Nat
  pa : Nat
  tsize : Nat
  mas2flags : Nat
  mas3flags : Nat
  tid : Nat
  ts : Nat
  mas8 : Nat

/-- The state the TLB1 shadow manager works on: the fields of `gcpu_t` it uses, the
physical array `cpu->tlb1`, and of the guest the guest-physical table `guest->gphys` and
the partition id `guest->lpid`. -/
structure gcpu_t where
  gtlb1 : Nat → tlb_entry_t
  tlb1_inuse : Nat → Nat
  tlb1_map : Nat → Nat → Nat
  evict_tlb1 : Nat
  tlb1 : Nat → tlb1_slot
  gphys : Table
  lpid : Nat

/-- Store into an array of words. -/
def arr_set {α : Type} (a : Nat → α) (i : Nat) (v : α) : Nat → α :=
  fun j => if j = i then v else a j

/-- Modelled from the spec: `tlb1_set_entry` of the missing `libos`: programs physical slot
`idx` with the given mapping and marks it valid. -/
def tlb1_set_entry (g : gcpu_t) (idx va pa tsize mas2flags mas3flags tid ts mas8 : Nat) :
    gcpu_t :=
  let slot : tlb1_slot :=
    { mas1 := MAS1_VALID ||| shl32 tid MAS1_TID_SHIFT ||| shl32 ts MAS1_TS_SHIFT
                ||| shl32 tsize MAS1_TSIZE_SHIFT,
      va := va, pa := pa, tsize := tsize, mas2flags := mas2flags, mas3flags := mas3flags,
      tid := tid, ts := ts, mas8 := mas8 }
  { g with tlb1 := arr_set g.tlb1 idx slot }

/-- The first-fit scan of `alloc_tlb1`: the `do ... while (idx < TLB1_SIZE)` loop over the
words of `tlb1_inuse`. `none` is the jump to `none_avail` (or falling out of the loop). -/
def alloc_tlb1_scan (entry : Nat) : Nat → gcpu_t → Nat → Nat → Option (gcpu_t × Nat)
  | 0, _, _, _ => none
  | f + 1, g, i, idx =>
    if not32 (g.tlb1_inuse i) ≠ 0 then
      let bit := count_lsb_zeroes (not32 (g.tlb1_inuse i))
      if idx + bit > GUEST_TLB_END then none
      else
        some ({ g with
                tlb1_inuse := arr_set g.tlb1_inuse i (g.tlb1_inuse i ||| shl32 1 bit),
                tlb1_map := arr_set g.tlb1_map entry
                  (arr_set (g.tlb1_map entry) i (g.tlb1_map entry i ||| shl32 1 bit)) },
              idx + bit)
    else if idx + LONG_BITS < TLB1_SIZE then alloc_tlb1_scan entry f g (i + 1) (idx + LONG_BITS)
    else none

/-- Embedding of `alloc_tlb1(entry, evict)`: the state it leaves and the index it
returns (`-1` when nothing is free and eviction is not allowed). -/
def alloc_tlb1 (g : gcpu_t) (entry : Nat) (evict : Bool) : gcpu_t × Int :=
  match alloc_tlb1_scan entry (TLB1_SIZE / LONG_BITS) g 0 0 with
  | some (g1, idx) => (g1, (idx : Int))
  | none =>
    if evict then
      let i := g.evict_tlb1
      let e1 := add32 g.evict_tlb1 1
      ({ g with evict_tlb1 := if e1 > GUEST_TLB_END then 0 else e1 }, (i : Int))
    else (g, -1)

/-- The values `TLB_MISS_REFLECT`, `TLB_MISS_HANDLED` and `TLB_MISS_MCHECK`. -/
inductive tlb_miss where
  | TLB_MISS_REFLECT
  | TLB_MISS_HANDLED
  | TLB_MISS_MCHECK
  deriving DecidableEq, Repr

/-- The five `continue` tests of the loop of `guest_tlb1_miss`: whether logical entry
`e` is taken for the page `epn`, address space `space` and `pid`. -/
def tlb1_entry_hit (e : tlb_entry_t) (epn space pid : Nat) : Bool :=
  let entryepn := e.mas2 >>> PAGE_SHIFT
  let entrypid := MAS1_GETTID e.mas1
  let tsize := MAS1_GETTSIZE e.mas1
  if e.mas1 &&& MAS1_VALID = 0 then false
  else if shl32 space MAS1_TS_SHIFT ≠ e.mas1 &&& MAS1_TS then false
  else if pid ≠ 0 ∧ entrypid ≠ 0 ∧ pid ≠ entrypid then false
  else if entryepn > epn then false
  else if add32 entryepn (tsize_to_pages tsize) ≤ epn then false
  else true

/-- The body of the loop of `guest_tlb1_miss` once entry `i` has passed the tests: the
translation through `gphys`, the size clipping, the allocation and the programming of the
slot. -/
def guest_tlb1_fill (g : gcpu_t) (i epn space pid : Nat) : Except Fault (tlb_miss × gcpu_t) :=
  let entry := g.gtlb1 i
  let entryepn := entry.mas2 >>> PAGE_SHIFT
  let tsize := MAS1_GETTSIZE entry.mas1
  let grpn0 := (entry.mas3 >>> PAGE_SHIFT) ||| shl32 entry.mas7 (32 - PAGE_SHIFT)
  let grpn := add32 grpn0 (sub32 epn entryepn)
  match vptbl_xlate g.gphys grpn PTE_PHYS_LEVELS with
  | Except.error f => Except.error f
  | Except.ok (rpn, attr) =>
    if attr &&& PTE_VALID = 0 then Except.ok (tlb_miss.TLB_MISS_MCHECK, g)
    else
      let tsize1 := min tsize (attr >>> PTE_SIZE_SHIFT)
      let baserpn := rpn &&& not32 (sub32 (tsize_to_pages tsize1) 1)
      let mapsize := max_page_tsize baserpn tsize1
      let mappages := tsize_to_pages mapsize
      let rpn1 := rpn &&& not32 (sub32 mappages 1)
      let epn1 := epn &&& not32 (sub32 mappages 1)
      let (g1, index) := alloc_tlb1 g i true
      Except.ok (tlb_miss.TLB_MISS_HANDLED,
        tlb1_set_entry g1 index.toNat (shl32 epn1 PAGE_SHIFT) (rpn1 <<< PAGE_SHIFT) mapsize
          entry.mas2 (entry.mas3 &&& not32 MAS3_RPN) pid space MAS8_GTS)

/-- The loop `for (i = 0; i < TLB1_GSIZE; i++)` of `guest_tlb1_miss`, from index `i` with
`n` entries left. -/
def guest_tlb1_miss_loop (g : gcpu_t) (epn space pid : Nat) :
    Nat → Nat → Except Fault (tlb_miss × gcpu_t)
  | 0, _ => Except.ok (tlb_miss.TLB_MISS_REFLECT, g)
  | n + 1, i =>
    if tlb1_entry_hit (g.gtlb1 i) epn space pid then guest_tlb1_fill g i epn space pid
    else guest_tlb1_miss_loop g epn space pid n (i + 1)

/-- Embedding of `guest_tlb1_miss(vaddr, space, pid)`: the value returned and the state
left, or the way the code halts. -/
def guest_tlb1_miss (g : gcpu_t) (vaddr space pid : Nat) : Except Fault (tlb_miss × gcpu_t) :=
  guest_tlb1_miss_loop g (vaddr >>> PAGE_SHIFT) space pid TLB1_GSIZE 0

/-! ## Walks along index paths -/

/-- The index used at the level with `l` levels below it. -/
def pgidx (l q : Nat) : Nat := (q >>> (PGDIR_SHIFT * l)) &&& (PGDIR_SIZE - 1)

/-- The indices a walk of `l` levels uses for page `q`, top level first. -/
def idxs : Nat → Nat → List Nat
  | 0, _ => []
  | l + 1, q => pgidx l q :: idxs l q

/-- Where a walk along a list of indices ends: in a table after all indices, at an invalid
entry, at a valid entry with a size class, or at a valid entry without one. The number is
the count of indices left. -/
inductive walk_res where
  | tbl (T : Table)
  | miss (lv page attr : Nat)
  | hit (lv page attr : Nat)
  | nosize (lv page attr : Nat)

/-- Walk along a list of indices without inserting. -/
def walkL : Table → List Nat → walk_res
  | T, [] => walk_res.tbl T
  | T, i :: is =>
    match T i with
    | pte_t.dir sub => walkL sub is
    | pte_t.leaf p a =>
      if a &&& PTE_VALID = 0 then walk_res.miss is.length p a
      else if a &&& PTE_SIZE ≠ 0 then walk_res.hit is.length p a
      else walk_res.nosize is.length p a

/-- The kind of a walk result, forgetting the level of a miss and the table reached. -/
inductive wcls where
  | tbl
  | miss
  | hit (lv page attr : Nat)
  | nosize (lv page attr : Nat)
  deriving DecidableEq

/-- Kind of a walk result. -/
def walk_res.cls : walk_res → wcls
  | walk_res.tbl _ => wcls.tbl
  | walk_res.miss _ _ _ => wcls.miss
  | walk_res.hit lv p a => wcls.hit lv p a
  | walk_res.nosize lv p a => wcls.nosize lv p a

/-- Store `e` at the end of a path, allocating a table at each invalid entry on the way. -/
def setL : Table → List Nat → pte_t → Table
  | T, [], _ => T
  | T, [i], e => tbl_set T i e
  | T, i :: j :: is, e =>
    match T i with
    | pte_t.dir sub => tbl_set T i (pte_t.dir (setL sub (j :: is) e))
    | pte_t.leaf _ a =>
      if a &&& PTE_VALID = 0 then tbl_set T i (pte_t.dir (setL empty_tbl (j :: is) e))
      else T

/-- What a walk finds when it enters entry `e` with the indices `rest` left. -/
def enter (e : pte_t) (rest : List Nat) : walk_res :=
  match e with
  | pte_t.dir sub => walkL sub rest
  | pte_t.leaf p a =>
    if a &&& PTE_VALID = 0 then walk_res.miss rest.length p a
    else if a &&& PTE_SIZE ≠ 0 then walk_res.hit rest.length p a
    else walk_res.nosize rest.length p a

theorem walkL_cons (T : Table) (i : Nat) (is : List Nat) :
    walkL T (i :: is) = enter (T i) is := by
  cases h : T i <;> simp [walkL, enter, h]

theorem idxs_length (l q : Nat) : (idxs l q).length = l := by
  induction l with
  | zero => rfl
  | succ l ih => simp [idxs, ih]

theorem walkL_empty (is : List Nat) (h : is ≠ []) :
    walkL empty_tbl is = walk_res.miss (is.length - 1) 0 0 := by
  cases is with
  | nil => exact absurd rfl h
  | cons i is => simp [walkL, empty_tbl, PTE_VALID]

/-- The non-inserting walk of `vptbl_get_ptep` is the walk along `idxs`. -/
theorem get_ptep_false (l : Nat) : ∀ (T : Table) (q : Nat),
    match walkL T (idxs l q) with
    | walk_res.tbl _ => vptbl_get_ptep T l q false = ptep_result.bug
    | walk_res.miss lv _ _ => vptbl_get_ptep T l q false = ptep_result.null lv
    | walk_res.hit lv p a =>
        ∃ path T1, vptbl_get_ptep T l q false = ptep_result.ptr path lv T1 ∧ path ≠ [] ∧
          pte_read T path = pte_t.leaf p a
    | walk_res.nosize lv _ _ =>
        vptbl_get_ptep T l q false = if lv = 0 then ptep_result.bug else ptep_result.wild := by
  induction l with
  | zero => intro T q; simp [idxs, walkL, vptbl_get_ptep]
  | succ l ih =>
    intro T q
    simp only [idxs, walkL, vptbl_get_ptep, pgidx]
    cases hT : T ((q >>> (PGDIR_SHIFT * l)) &&& (PGDIR_SIZE - 1)) with
    | leaf p a =>
      simp only []
      by_cases hv : a &&& PTE_VALID = 0
      · simp [hv, idxs_length]
      · by_cases hs : a &&& PTE_SIZE ≠ 0
        · simp only [hv, hs, if_false, if_true, ne_eq, not_false_eq_true, idxs_length]
          exact ⟨_, _, rfl, by simp, by simp [pte_read, hT]⟩
        · simp only [hv, hs, if_false, ne_eq, idxs_length]
    | dir sub =>
      simp only []
      have h := ih sub q
      cases hw : walkL sub (idxs l q) with
      | tbl S => rw [hw] at h; simp only [] at h ⊢; rw [h]
      | miss lv p a => rw [hw] at h; simp only [] at h ⊢; rw [h]
      | hit lv p a =>
        rw [hw] at h; simp only [] at h ⊢
        obtain ⟨path, T1, h1, h2, h3⟩ := h
        rw [h1]
        refine ⟨_, _, rfl, by simp, ?_⟩
        cases path with
        | nil => exact absurd rfl h2
        | cons j rest => simp [pte_read, hT, h3]
      | nosize lv p a =>
        rw [hw] at h; simp only [] at h ⊢; rw [h]
        by_cases hl : lv = 0 <;> simp [hl]

/-- What `vptbl_xlate` computes from the entry a walk returns. -/
def xl_hit (q lv p a : Nat) : Except Fault (Nat × Nat) :=
  if (if lv = 0 then decide (a >>> PTE_SIZE_SHIFT < TLB_TSIZE_4M)
      else decide (lv = 1) && decide (a >>> PTE_SIZE_SHIFT ≥ TLB_TSIZE_4M)) = false then
    Except.error Fault.assert_fail
  else if a &&& PTE_VALID = 0 then Except.ok (hole_hint lv, a)
  else
    Except.ok ((p &&& not32 (sub32 (tsize_to_pages (a >>> PTE_SIZE_SHIFT)) 1)) |||
      (q &&& sub32 (tsize_to_pages (a >>> PTE_SIZE_SHIFT)) 1), a)

/-- `vptbl_xlate` in terms of the walk along `idxs`. -/
theorem xlate_eq (T : Table) (q L : Nat) :
    vptbl_xlate T q L =
      match walkL T (idxs L q) with
      | walk_res.tbl _ => Except.error Fault.bug
      | walk_res.miss lv _ _ => Except.ok (hole_hint lv, 0)
      | walk_res.hit lv p a => xl_hit q lv p a
      | walk_res.nosize lv _ _ => Except.error (if lv = 0 then Fault.bug else Fault.wild) := by
  have h := get_ptep_false L T q
  unfold vptbl_xlate
  cases hw : walkL T (idxs L q) with
  | tbl S => rw [hw] at h; simp only [] at h ⊢; rw [h]
  | miss lv p a => rw [hw] at h; simp only [] at h ⊢; rw [h]
  | hit lv p a =>
    rw [hw] at h; simp only [] at h ⊢
    obtain ⟨path, T1, h1, _, h3⟩ := h
    rw [h1]; simp only [h3, xl_hit]
  | nosize lv p a =>
    rw [hw] at h; simp only [] at h ⊢; rw [h]
    by_cases hl : lv = 0 <;> simp [hl]

/-- A walk that stands at an entry: an invalid one at any depth, or the last one. -/
def AtEntry : walk_res → Prop
  | walk_res.tbl _ => False
  | walk_res.miss _ _ _ => True
  | walk_res.hit lv _ _ => lv = 0
  | walk_res.nosize lv _ _ => lv = 0

/-- A store at the end of a path: a walk through the path finds the new entry, a walk that
leaves the path finds what it found before, or a fresh empty entry where a table was
allocated. -/
theorem walk_setL (path : List Nat) : ∀ (T : Table) (e : pte_t) (js : List Nat),
    path ≠ [] → AtEntry (walkL T path) →
    (∀ rest, js = path ++ rest → walkL (setL T path e) js = enter e rest) ∧
    (¬ path <+: js → ¬ js <+: path →
      walkL (setL T path e) js = walkL T js ∨
      ∃ lv p a lv', walkL T js = walk_res.miss lv p a ∧
        walkL (setL T path e) js = walk_res.miss lv' 0 0) := by
  induction path with
  | nil => intro T e js h; exact absurd rfl h
  | cons i p ih =>
    intro T e js _ hat
    cases p with
    | nil =>
      constructor
      · intro rest hr
        subst hr
        simp [setL, walkL_cons, tbl_set]
      · intro hnp hnp2
        cases js with
        | nil => exact absurd ⟨[i], by simp⟩ hnp2
        | cons j js' =>
          have hne : j ≠ i := by
            intro h; apply hnp; subst h
            exact ⟨js', by simp⟩
          left
          simp [setL, walkL_cons, tbl_set, hne]
    | cons i2 p' =>
      cases hT : T i with
      | dir sub =>
        have hat' : AtEntry (walkL sub (i2 :: p')) := by
          rw [walkL_cons, hT] at hat; exact hat
        constructor
        · intro rest hr
          subst hr
          have IH := ih sub e ((i2 :: p') ++ rest) (by simp) hat'
          have hs : setL T (i :: i2 :: p') e i = pte_t.dir (setL sub (i2 :: p') e) := by
            simp [setL, hT, tbl_set]
          show walkL (setL T (i :: i2 :: p') e) (i :: ((i2 :: p') ++ rest)) = enter e rest
          rw [walkL_cons, hs]
          exact IH.1 rest rfl
        · intro hnp hnp2
          cases js with
          | nil => exact absurd ⟨i :: i2 :: p', by simp⟩ hnp2
          | cons j js' =>
            by_cases hji : j = i
            · subst hji
              have hnp' : ¬ (i2 :: p') <+: js' := by
                intro h; apply hnp
                obtain ⟨t, ht⟩ := h
                exact ⟨t, by simp [← ht]⟩
              have hnp2' : ¬ js' <+: (i2 :: p') := by
                intro h; apply hnp2
                obtain ⟨t, ht⟩ := h
                exact ⟨t, by simp [← ht]⟩
              have IH := (ih sub e js' (by simp) hat').2 hnp' hnp2'
              simp only [setL, hT, walkL_cons, tbl_set, if_true, enter]
              exact IH
            · left
              simp [setL, hT, walkL_cons, tbl_set, hji]
      | leaf pg a =>
        have hv : a &&& PTE_VALID = 0 := by
          rw [walkL_cons, hT] at hat
          simp only [enter] at hat
          by_contra hv
          by_cases hs : a &&& PTE_SIZE ≠ 0
          · simp [hv, hs, AtEntry] at hat
          · simp [hv, hs, AtEntry] at hat
        have hat' : AtEntry (walkL empty_tbl (i2 :: p')) := by
          rw [walkL_empty _ (by simp)]; trivial
        constructor
        · intro rest hr
          subst hr
          have IH := ih empty_tbl e ((i2 :: p') ++ rest) (by simp) hat'
          have hs : setL T (i :: i2 :: p') e i = pte_t.dir (setL empty_tbl (i2 :: p') e) := by
            simp [setL, hT, hv, tbl_set]
          show walkL (setL T (i :: i2 :: p') e) (i :: ((i2 :: p') ++ rest)) = enter e rest
          rw [walkL_cons, hs]
          exact IH.1 rest rfl
        · intro hnp hnp2
          cases js with
          | nil => exact absurd ⟨i :: i2 :: p', by simp⟩ hnp2
          | cons j js' =>
            by_cases hji : j = i
            · subst hji
              have hnp' : ¬ (i2 :: p') <+: js' := by
                intro h; apply hnp
                obtain ⟨t, ht⟩ := h
                exact ⟨t, by simp [← ht]⟩
              have hnp2' : ¬ js' <+: (i2 :: p') := by
                intro h; apply hnp2
                obtain ⟨t, ht⟩ := h
                exact ⟨t, by simp [← ht]⟩
              have hjs : js' ≠ [] := by
                intro h; subst h; exact hnp2' ⟨i2 :: p', by simp⟩
              have IH := (ih empty_tbl e js' (by simp) hat').2 hnp' hnp2'
              right
              refine ⟨js'.length, pg, a, ?_⟩
              simp only [setL, hT, hv, walkL_cons, tbl_set, if_true, enter]
              rcases IH with h | ⟨lv, p, a', lv', _, h2⟩
              · exact ⟨js'.length - 1, trivial, by rw [h, walkL_empty _ hjs]⟩
              · exact ⟨lv', trivial, h2⟩
            · left
              simp [setL, hT, hv, walkL_cons, tbl_set, hji]

theorem tbl_set_set (T : Table) (i : Nat) (e1 e2 : pte_t) :
    tbl_set (tbl_set T i e1) i e2 = tbl_set T i e2 := by
  funext j; simp only [tbl_set]; split <;> rfl

theorem tbl_set_self (T : Table) (i : Nat) (e : pte_t) (h : T i = e) : tbl_set T i e = T := by
  funext j; simp only [tbl_set]; split
  · next hj => rw [hj, h]
  · rfl

theorem tbl_set_get (T : Table) (i : Nat) (e : pte_t) : tbl_set T i e i = e := by
  simp [tbl_set]

theorem pte_read_cons_dir (T : Table) (i : Nat) (sub : Table) (is : List Nat)
    (h : T i = pte_t.dir sub) (hne : is ≠ []) : pte_read T (i :: is) = pte_read sub is := by
  cases is with
  | nil => exact absurd rfl hne
  | cons j rest => simp [pte_read, h]

theorem pte_write_cons_dir (T : Table) (i : Nat) (sub : Table) (is : List Nat) (e : pte_t)
    (h : T i = pte_t.dir sub) (hne : is ≠ []) :
    pte_write T (i :: is) e = tbl_set T i (pte_t.dir (pte_write sub is e)) := by
  cases is with
  | nil => exact absurd rfl hne
  | cons j rest => simp [pte_write, h]

theorem setL_cons_dir (T : Table) (i : Nat) (sub : Table) (is : List Nat) (e : pte_t)
    (h : T i = pte_t.dir sub) (hne : is ≠ []) :
    setL T (i :: is) e = tbl_set T i (pte_t.dir (setL sub is e)) := by
  cases is with
  | nil => exact absurd rfl hne
  | cons j rest => simp [setL, h]

theorem setL_cons_invalid (T : Table) (i p a : Nat) (is : List Nat) (e : pte_t)
    (h : T i = pte_t.leaf p a) (hv : a &&& PTE_VALID = 0) (hne : is ≠ []) :
    setL T (i :: is) e = tbl_set T i (pte_t.dir (setL empty_tbl is e)) := by
  cases is with
  | nil => exact absurd rfl hne
  | cons j rest => simp [setL, h, hv]

theorem idxs_ne_nil (l q : Nat) (h : l ≠ 0) : idxs l q ≠ [] := by
  intro h'
  have := idxs_length l q
  rw [h'] at this
  simp at this
  exact h this.symm

/-- The inserting walk of `vptbl_get_ptep` in terms of the walk along `idxs`: the pointer
it returns, what the pointer reads, and what a store through it leaves. -/
theorem get_ptep_true (l : Nat) : ∀ (T : Table) (q : Nat),
    match walkL T (idxs l q) with
    | walk_res.tbl _ => vptbl_get_ptep T l q true = ptep_result.bug
    | walk_res.miss lv p a =>
        ∃ T1, vptbl_get_ptep T l q true = ptep_result.ptr (idxs l q) 0 T1 ∧
          pte_read T1 (idxs l q) = (if lv = 0 then pte_t.leaf p a else pte_t.leaf 0 0) ∧
          ∀ e, pte_write T1 (idxs l q) e = setL T (idxs l q) e
    | walk_res.hit lv p a =>
        ∃ path rest, idxs l q = path ++ rest ∧ rest.length = lv ∧ path ≠ [] ∧
          walkL T path = walk_res.hit 0 p a ∧
          vptbl_get_ptep T l q true = ptep_result.ptr path lv T ∧
          pte_read T path = pte_t.leaf p a ∧
          ∀ e, pte_write T path e = setL T path e
    | walk_res.nosize lv _ _ =>
        vptbl_get_ptep T l q true = if lv = 0 then ptep_result.bug else ptep_result.wild := by
  induction l with
  | zero => intro T q; simp [idxs, walkL, vptbl_get_ptep]
  | succ l ih =>
    intro T q
    simp only [idxs, walkL_cons, vptbl_get_ptep]
    have hidx : (q >>> (PGDIR_SHIFT * l)) &&& (PGDIR_SIZE - 1) = pgidx l q := rfl
    rw [hidx]
    cases hT : T (pgidx l q) with
    | leaf p a =>
      simp only [enter]
      by_cases hv : a &&& PTE_VALID = 0
      · simp only [hv, if_true, idxs_length]
        by_cases hl : l = 0
        · subst hl
          simp only [idxs, if_true]
          exact ⟨T, by simp, by simp [pte_read, hT], fun e => by simp [pte_write, setL]⟩
        · have hne := idxs_ne_nil l q hl
          have h := ih empty_tbl q
          rw [walkL_empty _ hne] at h
          simp only [] at h
          obtain ⟨T1, h1, h2, h3⟩ := h
          simp only [hl, if_false, h1, Bool.true_eq_false]
          refine ⟨_, rfl, ?_, fun e => ?_⟩
          · rw [pte_read_cons_dir _ _ T1 _ (tbl_set_get _ _ _) hne, h2]
            split <;> rfl
          · rw [pte_write_cons_dir _ _ T1 _ _ (tbl_set_get _ _ _) hne, tbl_set_set, h3,
              setL_cons_invalid _ _ _ _ _ _ hT hv hne]
      · by_cases hs : a &&& PTE_SIZE ≠ 0
        · simp only [hv, hs, if_false, if_true, ne_eq, not_false_eq_true, idxs_length]
          refine ⟨[pgidx l q], idxs l q, by simp, idxs_length l q, by simp, ?_, rfl, ?_, ?_⟩
          · simp [walkL_cons, hT, enter, hv, hs]
          · simp [pte_read, hT]
          · intro e; simp [pte_write, setL]
        · simp only [hv, hs, if_false, ne_eq, idxs_length]
    | dir sub =>
      simp only [enter]
      have h := ih sub q
      cases hw : walkL sub (idxs l q) with
      | tbl S => rw [hw] at h; simp only [] at h ⊢; rw [h]
      | miss lv p a =>
        rw [hw] at h; simp only [] at h ⊢
        obtain ⟨T1, h1, h2, h3⟩ := h
        have hne : idxs l q ≠ [] := by
          intro h'; rw [h'] at hw; simp [walkL] at hw
        rw [h1]
        refine ⟨_, rfl, ?_, fun e => ?_⟩
        · rw [pte_read_cons_dir _ _ T1 _ (tbl_set_get _ _ _) hne, h2]
        · rw [pte_write_cons_dir _ _ T1 _ _ (tbl_set_get _ _ _) hne, tbl_set_set, h3,
            setL_cons_dir _ _ _ _ _ hT hne]
      | hit lv p a =>
        rw [hw] at h; simp only [] at h ⊢
        obtain ⟨path, rest, h0, hr, hne, hwp, h1, h2, h3⟩ := h
        rw [h1]
        refine ⟨pgidx l q :: path, rest, by simp [h0], hr, by simp, ?_, ?_, ?_, fun e => ?_⟩
        · rw [walkL_cons, hT]; exact hwp
        · simp only []; rw [tbl_set_self _ _ _ hT]
        · rw [pte_read_cons_dir _ _ sub _ hT hne, h2]
        · rw [pte_write_cons_dir _ _ sub _ _ hT hne, h3, setL_cons_dir _ _ _ _ _ hT hne]
      | nosize lv p a =>
        rw [hw] at h; simp only [] at h ⊢; rw [h]
        by_cases hl : lv = 0 <;> simp [hl]

theorem shl32_one (k : Nat) (hk : k < 32) : shl32 1 k = 2 ^ k := by
  unfold shl32 WORD
  rw [Nat.shiftLeft_eq, Nat.one_mul]
  exact Nat.mod_eq_of_lt (Nat.pow_lt_pow_right (by norm_num) hk)

theorem tsize_to_pages_eq (s : Nat) (hs : s ≤ 16) : tsize_to_pages s = 2 ^ (s * 2 - 2) := by
  unfold tsize_to_pages
  exact shl32_one _ (by omega)

theorem sub32_one (x : Nat) (h0 : 0 < x) (hx : x < 2 ^ 32) : sub32 x 1 = x - 1 := by
  unfold sub32 WORD
  rw [Nat.mod_eq_of_lt hx]
  norm_num
  omega

theorem not32_pow (k : Nat) (hk : k ≤ 32) : not32 (2 ^ k - 1) = 2 ^ 32 - 2 ^ k := by
  unfold not32 WORD
  have h1 : 2 ^ k ≤ 2 ^ 32 := Nat.pow_le_pow_right (by norm_num) hk
  have h2 : 0 < 2 ^ k := Nat.two_pow_pos _
  rw [Nat.mod_eq_of_lt (by omega)]
  omega

theorem and_high_mask (x k : Nat) (hx : x < 2 ^ 32) (hk : k ≤ 32) :
    x &&& (2 ^ 32 - 2 ^ k) = x / 2 ^ k * 2 ^ k := by
  apply Nat.eq_of_testBit_eq
  intro i
  have h2 : 0 < 2 ^ k := Nat.two_pow_pos _
  have e : 2 ^ 32 - 2 ^ k = 2 ^ 32 - (2 ^ k - 1 + 1) := by omega
  have hlt : 2 ^ k - 1 < 2 ^ 32 := by
    have h1 : 2 ^ k ≤ 2 ^ 32 := Nat.pow_le_pow_right (by norm_num) hk
    omega
  rw [Nat.testBit_and, e, Nat.testBit_two_pow_sub_succ hlt, Nat.testBit_two_pow_sub_one,
    Nat.mul_comm, Nat.testBit_mul_pow_two, ← Nat.shiftRight_eq_div_pow, Nat.testBit_shiftRight]
  by_cases hik : i < k
  · simp [hik, Nat.not_le.mpr hik]
  · have hki : k ≤ i := Nat.not_lt.mp hik
    have : k + (i - k) = i := by omega
    simp only [hik, decide_False, Bool.not_false, Bool.and_true, ge_iff_le, hki, decide_True,
      Bool.true_and, this]
    by_cases hi : i < 32
    · simp [hi]
    · have : x.testBit i = false :=
        Nat.testBit_lt_two_pow (lt_of_lt_of_le hx (Nat.pow_le_pow_right (by norm_num) (by omega)))
      simp [hi, this]

theorem mask_combine (s p q : Nat) (hs : s ≤ 16) (hp : p < 2 ^ 32) :
    (p &&& not32 (sub32 (tsize_to_pages s) 1)) ||| (q &&& sub32 (tsize_to_pages s) 1)
      = p / tsize_to_pages s * tsize_to_pages s + q % tsize_to_pages s := by
  rw [tsize_to_pages_eq s hs]
  have hk : s * 2 - 2 < 32 := by omega
  have h2 : 0 < 2 ^ (s * 2 - 2) := Nat.two_pow_pos _
  have hlt : 2 ^ (s * 2 - 2) < 2 ^ 32 := Nat.pow_lt_pow_right (by norm_num) hk
  rw [sub32_one _ h2 hlt, not32_pow _ (by omega), and_high_mask _ _ hp (by omega),
    Nat.and_pow_two_sub_one_eq_mod, Nat.mul_comm, Nat.mul_add_lt_is_or (Nat.mod_lt _ h2)]


theorem clz_aux_dvd (f : Nat) : ∀ v, 2 ^ count_lsb_zeroes_aux f v ∣ v := by
  induction f with
  | zero => intro v; simp [count_lsb_zeroes_aux]
  | succ f ih =>
    intro v
    simp only [count_lsb_zeroes_aux]
    split
    · simp
    · next h =>
      obtain ⟨c, hc⟩ := ih (v / 2)
      refine ⟨c, ?_⟩
      rw [pow_succ]
      have : v = 2 * (v / 2) := by omega
      calc v = 2 * (v / 2) := this
        _ = 2 * (2 ^ count_lsb_zeroes_aux f (v / 2) * c) := by rw [← hc]
        _ = _ := by ring

theorem clz_aux_le (f : Nat) : ∀ v, count_lsb_zeroes_aux f v ≤ f := by
  induction f with
  | zero => intro v; simp [count_lsb_zeroes_aux]
  | succ f ih =>
    intro v
    simp only [count_lsb_zeroes_aux]
    split
    · omega
    · have := ih (v / 2); omega

theorem clz_aux_ge (f : Nat) : ∀ v k, k ≤ f → 2 ^ k ∣ v → k ≤ count_lsb_zeroes_aux f v := by
  induction f with
  | zero => intro v k hk _; omega
  | succ f ih =>
    intro v k hk hd
    cases k with
    | zero => omega
    | succ k =>
      simp only [count_lsb_zeroes_aux]
      obtain ⟨c, hc⟩ := hd
      rw [pow_succ] at hc
      have hv : v % 2 ≠ 1 := by
        have : v = 2 * (2 ^ k * c) := by rw [hc]; ring
        omega
      rw [if_neg hv]
      have hd' : 2 ^ k ∣ v / 2 := by
        refine ⟨c, ?_⟩
        have : v = 2 * (2 ^ k * c) := by rw [hc]; ring
        omega
      have := ih (v / 2) k (by omega) hd'
      omega

theorem natural_alignment_le (p : Nat) : natural_alignment p ≤ 17 := by
  unfold natural_alignment count_lsb_zeroes LONG_BITS
  have := clz_aux_le 32 p
  omega

theorem natural_alignment_pos (p : Nat) : 1 ≤ natural_alignment p := by
  unfold natural_alignment; omega

theorem natural_alignment_dvd (p s : Nat) (hs : s ≤ natural_alignment p) :
    2 ^ (s * 2 - 2) ∣ p := by
  unfold natural_alignment count_lsb_zeroes at hs
  have h := clz_aux_dvd LONG_BITS p
  exact Dvd.dvd.trans (pow_dvd_pow 2 (by omega)) h

theorem natural_alignment_ge (p s : Nat) (hs : s ≤ 17) (hd : 2 ^ (s * 2 - 2) ∣ p) :
    s ≤ natural_alignment p := by
  unfold natural_alignment count_lsb_zeroes LONG_BITS
  have := clz_aux_ge 32 p (s * 2 - 2) (by omega) hd
  omega

theorem ilog2_aux_le (f : Nat) : ∀ v, 0 < v → 2 ^ ilog2_aux f v ≤ v := by
  induction f with
  | zero => intro v hv; simpa [ilog2_aux] using hv
  | succ f ih =>
    intro v hv
    simp only [ilog2_aux]
    split
    · simpa using hv
    · next h =>
      have := ih (v / 2) (by omega)
      rw [pow_succ]
      omega

theorem pages_to_tsize_pos (len : Nat) : 1 ≤ pages_to_tsize len := by
  unfold pages_to_tsize; omega

theorem pages_to_tsize_le (len : Nat) (h0 : 0 < len) (h : len < 2 ^ 32) :
    pages_to_tsize len ≤ 16 ∧ 2 ^ (pages_to_tsize len * 2 - 2) ≤ len := by
  unfold pages_to_tsize ilog2
  have h1 := ilog2_aux_le LONG_BITS len h0
  have h2 : ilog2_aux LONG_BITS len < 32 := by
    by_contra hc
    have : 2 ^ 32 ≤ 2 ^ ilog2_aux LONG_BITS len := Nat.pow_le_pow_right (by norm_num) (by omega)
    omega
  constructor
  · omega
  · exact le_trans (Nat.pow_le_pow_right (by norm_num) (by omega)) h1

/-- The facts about the size class chosen for a chunk. -/
theorem chunk_size_facts (e len r : Nat) (h0 : 0 < len) (h : len < 2 ^ 32) :
    let size := min (max_page_size e len) (natural_alignment r)
    1 ≤ size ∧ size ≤ 16 ∧ tsize_to_pages size = 2 ^ (size * 2 - 2) ∧
      tsize_to_pages size ≤ len ∧ tsize_to_pages size ∣ e ∧ tsize_to_pages size ∣ r := by
  intro size
  have hp := pages_to_tsize_le len h0 h
  have hp1 := pages_to_tsize_pos len
  have hn1 := natural_alignment_pos e
  have hn2 := natural_alignment_pos r
  have hsz : size = min (min (natural_alignment e) (pages_to_tsize len)) (natural_alignment r) := rfl
  have h16 : size ≤ 16 := by omega
  have hts := tsize_to_pages_eq size h16
  refine ⟨by omega, h16, hts, ?_, ?_, ?_⟩
  · rw [hts]
    exact le_trans (Nat.pow_le_pow_right (by norm_num) (by omega)) hp.2
  · rw [hts]; exact natural_alignment_dvd e size (by omega)
  · rw [hts]; exact natural_alignment_dvd r size (by omega)


/-- The `attr` written for a chunk of size class `size`. -/
def set_size (attr size : Nat) : Nat := (attr &&& not32 PTE_SIZE) ||| shl32 size PTE_SIZE_SHIFT

theorem set_size_eq (attr size : Nat) (hs : size < 2 ^ 20) :
    set_size attr size = 4096 * size + attr % 4096 := by
  unfold set_size
  have h1 : not32 PTE_SIZE = 2 ^ 12 - 1 := by decide
  have h2 : shl32 size PTE_SIZE_SHIFT = 2 ^ 12 * size := by
    unfold shl32 WORD PTE_SIZE_SHIFT
    rw [Nat.shiftLeft_eq, Nat.mod_eq_of_lt (by omega), Nat.mul_comm]
  rw [h1, h2, Nat.and_pow_two_sub_one_eq_mod, Nat.or_comm,
    ← Nat.mul_add_lt_is_or (Nat.mod_lt _ (by norm_num))]

theorem set_size_shift (attr size : Nat) (hs : size < 2 ^ 20) :
    set_size attr size >>> PTE_SIZE_SHIFT = size := by
  rw [set_size_eq attr size hs, Nat.shiftRight_eq_div_pow]
  unfold PTE_SIZE_SHIFT
  omega

theorem set_size_valid (attr size : Nat) :
    set_size attr size &&& PTE_VALID = attr &&& PTE_VALID := by
  have hv : PTE_VALID = 2 ^ 6 := by decide
  have h1 : not32 PTE_SIZE = 2 ^ 12 - 1 := by decide
  rw [hv, Nat.and_two_pow, Nat.and_two_pow]
  congr 2
  unfold set_size shl32 WORD PTE_SIZE_SHIFT
  rw [h1, Nat.testBit_or, Nat.testBit_and, Nat.testBit_two_pow_sub_one, Nat.testBit_mod_two_pow,
    Nat.testBit_shiftLeft]
  simp

theorem set_size_sized (attr size : Nat) (h0 : 0 < size) (hs : size < 2 ^ 20) :
    set_size attr size &&& PTE_SIZE ≠ 0 := by
  have hp : PTE_SIZE = 2 ^ 32 - 2 ^ 12 := by decide
  have e := set_size_eq attr size hs
  rw [hp, and_high_mask _ 12 (by rw [e]; omega) (by norm_num), e]
  omega

theorem set_size_idem (attr s1 s2 : Nat) (hs : s1 < 2 ^ 20) :
    set_size (set_size attr s1) s2 = set_size attr s2 := by
  have h1 : not32 PTE_SIZE = 2 ^ 12 - 1 := by decide
  have e := set_size_eq attr s1 hs
  unfold set_size at e ⊢
  rw [e, h1, Nat.and_pow_two_sub_one_eq_mod, Nat.and_pow_two_sub_one_eq_mod]
  congr 1
  omega

theorem pgidx_eq (l q : Nat) : pgidx l q = q / 2 ^ (10 * l) % 1024 := by
  unfold pgidx PGDIR_SIZE PGDIR_SHIFT
  have : (1 <<< 10 - 1 : Nat) = 2 ^ 10 - 1 := by decide
  rw [this, Nat.and_pow_two_sub_one_eq_mod, Nat.shiftRight_eq_div_pow]

theorem idxs_eq_iff (L : Nat) : ∀ q q', idxs L q = idxs L q' ↔ q % 2 ^ (10 * L) = q' % 2 ^ (10 * L) := by
  induction L with
  | zero => intro q q'; simp [idxs, Nat.mod_one]
  | succ L ih =>
    intro q q'
    simp only [idxs, List.cons.injEq, ih, pgidx_eq]
    have e : 2 ^ (10 * (L + 1)) = 2 ^ (10 * L) * 1024 := by
      rw [Nat.mul_add, pow_add]; norm_num
    rw [e, Nat.mod_mul, Nat.mod_mul]
    have hpos : 0 < 2 ^ (10 * L) := Nat.two_pow_pos _
    constructor
    · rintro ⟨h1, h2⟩; rw [h1, h2]
    · intro h
      have a1 := Nat.mod_lt q hpos
      have a2 := Nat.mod_lt q' hpos
      have hm : q % 2 ^ (10 * L) = q' % 2 ^ (10 * L) := by
        have := congrArg (· % 2 ^ (10 * L)) h
        simp only [Nat.add_mul_mod_self_left] at this
        rwa [Nat.mod_eq_of_lt a1, Nat.mod_eq_of_lt a2] at this
      refine ⟨?_, hm⟩
      rw [hm] at h
      have := Nat.add_left_cancel h
      exact Nat.eq_of_mul_eq_mul_left hpos this

theorem idxs_split (l k : Nat) : ∀ q, idxs (l + k) q = idxs l (q >>> (PGDIR_SHIFT * k)) ++ idxs k q := by
  induction l with
  | zero => intro q; simp [idxs]
  | succ l ih =>
    intro q
    have e : l + 1 + k = (l + k) + 1 := by omega
    rw [e]
    simp only [idxs, ih, List.cons_append, List.cons.injEq, and_true]
    unfold pgidx
    rw [← Nat.shiftRight_add]
    congr 2
    ring

theorem walkL_hit_sized (is : List Nat) : ∀ (T : Table) (lv p a : Nat),
    walkL T is = walk_res.hit lv p a → a &&& PTE_VALID ≠ 0 ∧ a &&& PTE_SIZE ≠ 0 := by
  induction is with
  | nil => intro T lv p a h; simp [walkL] at h
  | cons i is ih =>
    intro T lv p a h
    rw [walkL_cons] at h
    cases hT : T i with
    | dir sub => rw [hT] at h; exact ih sub lv p a h
    | leaf pg at' =>
      rw [hT] at h
      simp only [enter] at h
      by_cases hv : at' &&& PTE_VALID = 0
      · simp [hv] at h
      · by_cases hs : at' &&& PTE_SIZE ≠ 0
        · simp only [hv, hs, if_false, if_true, ne_eq, not_false_eq_true, walk_res.hit.injEq] at h
          obtain ⟨_, _, rfl⟩ := h
          exact ⟨hv, hs⟩
        · simp [hv, hs] at h

theorem walkL_miss_invalid (is : List Nat) : ∀ (T : Table) (lv p a : Nat),
    walkL T is = walk_res.miss lv p a → a &&& PTE_VALID = 0 := by
  induction is with
  | nil => intro T lv p a h; simp [walkL] at h
  | cons i is ih =>
    intro T lv p a h
    rw [walkL_cons] at h
    cases hT : T i with
    | dir sub => rw [hT] at h; exact ih sub lv p a h
    | leaf pg at' =>
      rw [hT] at h
      simp only [enter] at h
      by_cases hv : at' &&& PTE_VALID = 0
      · simp only [hv, if_true, walk_res.miss.injEq] at h
        obtain ⟨_, _, rfl⟩ := h
        exact hv
      · by_cases hs : at' &&& PTE_SIZE ≠ 0
        · simp [hv, hs] at h
        · simp [hv, hs] at h

/-- A walk along a concatenation. -/
theorem walkL_append (is : List Nat) : ∀ (T : Table) (js : List Nat),
    walkL T (is ++ js) =
      match walkL T is with
      | walk_res.tbl S => walkL S js
      | walk_res.miss lv p a => walk_res.miss (lv + js.length) p a
      | walk_res.hit lv p a => walk_res.hit (lv + js.length) p a
      | walk_res.nosize lv p a => walk_res.nosize (lv + js.length) p a := by
  induction is with
  | nil => intro T js; simp [walkL]
  | cons i is ih =>
    intro T js
    rw [List.cons_append, walkL_cons, walkL_cons]
    cases hT : T i with
    | dir sub => exact ih sub js
    | leaf pg a =>
      simp only [enter, List.length_append]
      by_cases hv : a &&& PTE_VALID = 0
      · simp [hv]
      · by_cases hs : a &&& PTE_SIZE ≠ 0
        · simp [hv, hs]
        · simp [hv, hs]

theorem pte_write_read (path : List Nat) : ∀ (T : Table), pte_write T path (pte_read T path) = T := by
  induction path with
  | nil => intro T; simp [pte_write]
  | cons i p ih =>
    intro T
    cases p with
    | nil => simp only [pte_write, pte_read]; exact tbl_set_self _ _ _ rfl
    | cons j rest =>
      cases hT : T i with
      | dir sub =>
        simp only [pte_write, pte_read, hT]
        rw [ih sub]
        exact tbl_set_self _ _ _ hT
      | leaf pg a => simp [pte_write, hT]

/-- The body of the inner loop of `vptbl_map`, case by case on what the walk to the entry
finds. -/
theorem step_spec (L lp incr attr : Nat) (T : Table) (e r : Nat) :
    match walkL T (idxs (L - lp) (e >>> (PGDIR_SHIFT * lp))) with
    | walk_res.tbl _ =>
        vptbl_map_step L lp incr attr T e r = loop_result.stop (map_status.halt Fault.bug) T
    | walk_res.nosize lv _ _ =>
        vptbl_map_step L lp incr attr T e r =
          loop_result.stop (map_status.halt (if lv = 0 then Fault.bug else Fault.wild)) T
    | walk_res.miss lv p a =>
        if lp ≠ 0 ∧ lv = 0 ∧ p ≠ 0 ∧ a &&& PTE_SIZE = 0 then
          vptbl_map_step L lp incr attr T e r =
            loop_result.stop map_status.large_over_small
              (setL T (idxs (L - lp) (e >>> (PGDIR_SHIFT * lp))) (pte_t.leaf p a))
        else
          vptbl_map_step L lp incr attr T e r =
            loop_result.next (setL T (idxs (L - lp) (e >>> (PGDIR_SHIFT * lp))) (pte_t.leaf r attr))
              (add32 (e ||| incr) 1) (add32 (r ||| incr) 1) attr
    | walk_res.hit lv p a =>
        if lp = 0 ∧ lv ≠ 0 then
          vptbl_map_step L lp incr attr T e r = loop_result.stop map_status.small_over_large T
        else
          ∃ path rest, idxs (L - lp) (e >>> (PGDIR_SHIFT * lp)) = path ++ rest ∧
            rest.length = lv ∧ path ≠ [] ∧ walkL T path = walk_res.hit 0 p a ∧
            vptbl_map_step L lp incr attr T e r =
              loop_result.next (setL T path (pte_t.leaf r attr))
                (add32 (e ||| incr) 1) (add32 (r ||| incr) 1) attr := by
  have h := get_ptep_true (L - lp) T (e >>> (PGDIR_SHIFT * lp))
  unfold vptbl_map_step
  cases hw : walkL T (idxs (L - lp) (e >>> (PGDIR_SHIFT * lp))) with
  | tbl S => rw [hw] at h; simp only [] at h ⊢; rw [h]
  | nosize lv p a =>
    rw [hw] at h; simp only [] at h ⊢; rw [h]
    by_cases hl : lv = 0 <;> simp [hl]
  | miss lv p a =>
    rw [hw] at h; simp only [] at h ⊢
    obtain ⟨T1, h1, h2, h3⟩ := h
    rw [h1]
    simp only [h2, h3]
    have hT1 : T1 = setL T (idxs (L - lp) (e >>> (PGDIR_SHIFT * lp))) (pte_t.leaf p a) ∨ lv ≠ 0 := by
      by_cases hl : lv = 0
      · left
        rw [← h3, ← (show pte_read T1 _ = pte_t.leaf p a by rw [h2, if_pos hl]), pte_write_read]
      · right; exact hl
    by_cases hl : lv = 0
    · simp only [hl, if_true, pte_t.page_nonzero, pte_t.attr, bne_iff_ne, ne_eq, true_and]
      by_cases hc : lp ≠ 0 ∧ p ≠ 0 ∧ a &&& PTE_SIZE = 0
      · rw [if_pos (by simpa using hc), if_pos (by simpa using hc)]
        rcases hT1 with h | h
        · rw [h]
        · exact absurd hl h
      · rw [if_neg (by simpa using hc), if_neg (by simpa using hc)]
        simp
    · simp [hl, pte_t.page_nonzero]
  | hit lv p a =>
    rw [hw] at h; simp only [] at h ⊢
    obtain ⟨path, rest, h0, hr, hne, hwp, h1, h2, h3⟩ := h
    have hsz := (walkL_hit_sized _ _ _ _ _ hw).2
    rw [h1]
    simp only [h2, h3, pte_t.attr, hsz, and_false, if_false]
    by_cases hc : lp = 0 ∧ lv ≠ 0
    · rw [if_pos hc, if_pos hc]
    · rw [if_neg hc, if_neg hc]
      exact ⟨path, rest, h0, hr, hne, hwp, rfl⟩

/-- Number of pages a table of `L` levels covers. -/
def cap (L : Nat) : Nat := 2 ^ (10 * L)

/-- The leaf-level condition on the kind of a walk: small leaves at level 0, large leaves
at level 1, and no walk that would halt. -/
def GoodCls : wcls → Prop
  | wcls.tbl => False
  | wcls.miss => True
  | wcls.hit lv _ a =>
      (lv = 0 ∧ a >>> PTE_SIZE_SHIFT < TLB_TSIZE_4M) ∨ (lv = 1 ∧ TLB_TSIZE_4M ≤ a >>> PTE_SIZE_SHIFT)
  | wcls.nosize _ _ _ => False

/-- The leaf-level invariant of a table walked with `L` levels. -/
def Inv (L : Nat) (T : Table) : Prop := ∀ q, GoodCls (walkL T (idxs L q)).cls

/-- Two tables in which every page is walked to the same kind of result. -/
def SameCls (L : Nat) (T1 T : Table) : Prop :=
  ∀ q, (walkL T1 (idxs L q)).cls = (walkL T (idxs L q)).cls

theorem SameCls.refl (L : Nat) (T : Table) : SameCls L T T := fun _ => rfl

theorem SameCls.inv {L : Nat} {T1 T : Table} (h : SameCls L T1 T) (hi : Inv L T) : Inv L T1 :=
  fun q => by rw [h q]; exact hi q

theorem enter_leaf_cls (p a : Nat) (rest : List Nat) :
    (enter (pte_t.leaf p a) rest).cls =
      if a &&& PTE_VALID = 0 then wcls.miss
      else if a &&& PTE_SIZE ≠ 0 then wcls.hit rest.length p a
      else wcls.nosize rest.length p a := by
  unfold enter
  by_cases hv : a &&& PTE_VALID = 0
  · simp [hv, walk_res.cls]
  · by_cases hs : a &&& PTE_SIZE ≠ 0
    · simp [hv, hs, walk_res.cls]
    · simp [hv, hs, walk_res.cls]

/-- A store at the entry of page `e` (or of its block, for `lp = 1`), seen from the walk of
any page `q`. -/
theorem walk_page_set (L lp : Nat) (hlp : lp ≤ L) (hne : L - lp ≠ 0) (T : Table) (x : pte_t)
    (e q : Nat) (hat : AtEntry (walkL T (idxs (L - lp) (e >>> (PGDIR_SHIFT * lp))))) :
    (idxs (L - lp) (q >>> (PGDIR_SHIFT * lp)) = idxs (L - lp) (e >>> (PGDIR_SHIFT * lp)) →
      walkL (setL T (idxs (L - lp) (e >>> (PGDIR_SHIFT * lp))) x) (idxs L q) = enter x (idxs lp q)) ∧
    (idxs (L - lp) (q >>> (PGDIR_SHIFT * lp)) ≠ idxs (L - lp) (e >>> (PGDIR_SHIFT * lp)) →
      (walkL (setL T (idxs (L - lp) (e >>> (PGDIR_SHIFT * lp))) x) (idxs L q)).cls
        = (walkL T (idxs L q)).cls) := by
  have hsplit : idxs L q = idxs (L - lp) (q >>> (PGDIR_SHIFT * lp)) ++ idxs lp q := by
    have := idxs_split (L - lp) lp q
    rwa [Nat.sub_add_cancel hlp] at this
  have hpne := idxs_ne_nil (L - lp) (e >>> (PGDIR_SHIFT * lp)) hne
  have W := walk_setL _ T x (idxs L q) hpne hat
  constructor
  · intro heq
    exact W.1 _ (by rw [hsplit, heq])
  · intro hneq
    have h1 : ¬ idxs (L - lp) (e >>> (PGDIR_SHIFT * lp)) <+: idxs L q := by
      rintro ⟨t, ht⟩
      rw [hsplit] at ht
      have := (List.append_inj ht (by simp [idxs_length])).1
      exact hneq this.symm
    have h2 : ¬ idxs L q <+: idxs (L - lp) (e >>> (PGDIR_SHIFT * lp)) := by
      rintro ⟨t, ht⟩
      have hl := congrArg List.length ht
      simp only [List.length_append, idxs_length] at hl
      have ht0 : t = [] := by
        apply List.eq_nil_of_length_eq_zero; omega
      have hlp0 : lp = 0 := by omega
      subst ht0
      rw [List.append_nil, hsplit, hlp0] at ht
      simp only [idxs, List.append_nil] at ht
      apply hneq
      rw [hlp0]; exact ht
    rcases W.2 h1 h2 with h | ⟨lv, p, a, lv', ha, hb⟩
    · rw [h]
    · rw [ha, hb]; rfl

/-- `vptbl_xlate` is determined by the kind of the walk, up to the hint of a hole. -/
theorem xlate_of_cls (T : Table) (q L : Nat) :
    match (walkL T (idxs L q)).cls with
    | wcls.tbl => vptbl_xlate T q L = Except.error Fault.bug
    | wcls.miss => ∃ lv, vptbl_xlate T q L = Except.ok (hole_hint lv, 0)
    | wcls.hit lv p a => vptbl_xlate T q L = xl_hit q lv p a
    | wcls.nosize lv _ _ =>
        vptbl_xlate T q L = Except.error (if lv = 0 then Fault.bug else Fault.wild) := by
  rw [xlate_eq]
  cases walkL T (idxs L q) with
  | tbl S => rfl
  | miss lv p a => exact ⟨lv, rfl⟩
  | hit lv p a => rfl
  | nosize lv p a => rfl

/-- Rule for the inner loop of `vptbl_map`: a property kept by every pass of the body in
which `epn` grows holds when the loop is left, and whatever holds whenever the body
leaves the function holds if the loop does; the fuel given suffices. -/
theorem inner_rule (L lp incr attr sub_end : Nat) (I : Table → Nat → Nat → Prop)
    (Q : map_status → Table → Prop)
    (hstep : ∀ T e r, I T e r → e < sub_end →
      match vptbl_map_step L lp incr attr T e r with
      | loop_result.next T2 e2 r2 _ => I T2 e2 r2 ∧ e < e2
      | loop_result.stop s T1 => Q s T1) :
    ∀ f T e r, I T e r → sub_end - e < f →
      match vptbl_map_inner L lp incr attr sub_end f T e r with
      | loop_result.next T2 e2 r2 a2 => I T2 e2 r2 ∧ sub_end ≤ e2 ∧ a2 = attr
      | loop_result.stop s T1 => Q s T1 := by
  intro f
  induction f with
  | zero => intro T e r _ hf; omega
  | succ f ih =>
    intro T e r hI hf
    simp only [vptbl_map_inner]
    by_cases he : e < sub_end
    · rw [if_pos he]
      have h := hstep T e r hI he
      cases hs : vptbl_map_step L lp incr attr T e r with
      | next T2 e2 r2 a2 =>
        rw [hs] at h
        simp only [] at h ⊢
        exact ih T2 e2 r2 h.1 (by omega)
      | stop s T1 =>
        rw [hs] at h
        exact h
    · rw [if_neg he]
      exact ⟨hI, by omega, rfl⟩

/-- Rule for the outer loop of `vptbl_map`. -/
theorem outer_rule (L end_ : Nat) (I : Table → Nat → Nat → Nat → Prop)
    (Q : map_status → Table → Prop)
    (hchunk : ∀ T e r a, I T e r a → e < end_ →
      match vptbl_map_chunk L end_ T e r a with
      | loop_result.next T2 e2 r2 a2 => I T2 e2 r2 a2 ∧ e < e2
      | loop_result.stop s T1 => s ≠ map_status.done ∧ Q s T1) :
    ∀ f T e r a, I T e r a → end_ - e < f →
      ((vptbl_map_loop L end_ f T e r a).1 = map_status.done ∧
        ∃ e2 r2 a2, I (vptbl_map_loop L end_ f T e r a).2 e2 r2 a2 ∧ end_ ≤ e2) ∨
      ((vptbl_map_loop L end_ f T e r a).1 ≠ map_status.done ∧
        Q (vptbl_map_loop L end_ f T e r a).1 (vptbl_map_loop L end_ f T e r a).2) := by
  intro f
  induction f with
  | zero => intro T e r a _ hf; omega
  | succ f ih =>
    intro T e r a hI hf
    simp only [vptbl_map_loop]
    by_cases he : e < end_
    · rw [if_pos he]
      have h := hchunk T e r a hI he
      cases hs : vptbl_map_chunk L end_ T e r a with
      | next T2 e2 r2 a2 =>
        rw [hs] at h
        simp only [] at h ⊢
        exact ih T2 e2 r2 a2 h.1 (by omega)
      | stop s T1 =>
        rw [hs] at h
        simp only [] at h ⊢
        exact Or.inr h
    · rw [if_neg he]
      left
      exact ⟨rfl, e, r, a, hI, by omega⟩

/-- Kind of the walk of page `q`. -/
def PageCls (L : Nat) (T : Table) (q : Nat) : wcls := (walkL T (idxs L q)).cls

theorem idxs_zero_shift (L e : Nat) : idxs L (e >>> (PGDIR_SHIFT * 0)) = idxs L e := by
  simp

/-- The walk of a page goes through the entry of its block. -/
theorem walk_page_via_block (L : Nat) (hL : 1 ≤ L) (T : Table) (e : Nat) :
    walkL T (idxs L e) =
      match walkL T (idxs (L - 1) (e >>> (PGDIR_SHIFT * 1))) with
      | walk_res.tbl S => walkL S (idxs 1 e)
      | walk_res.miss lv p a => walk_res.miss (lv + 1) p a
      | walk_res.hit lv p a => walk_res.hit (lv + 1) p a
      | walk_res.nosize lv p a => walk_res.nosize (lv + 1) p a := by
  have hs := idxs_split (L - 1) 1 e
  rw [Nat.sub_add_cancel hL] at hs
  rw [hs, walkL_append]
  cases walkL T (idxs (L - 1) (e >>> (PGDIR_SHIFT * 1))) <;> simp [idxs]

/-- The body of the inner loop on a table with the leaf-level invariant: either it goes
on, having stored the new leaf at the entry of the page (or block), or it leaves the
function with every walk as before. -/
theorem step_under_inv (L lp incr attr : Nat) (T : Table) (e r : Nat) (hInv : Inv L T)
    (hlp : lp = 0 ∨ lp = 1) :
    match vptbl_map_step L lp incr attr T e r with
    | loop_result.next T2 e2 r2 a2 =>
        T2 = setL T (idxs (L - lp) (e >>> (PGDIR_SHIFT * lp))) (pte_t.leaf r attr) ∧
        lp ≤ L ∧ L - lp ≠ 0 ∧ AtEntry (walkL T (idxs (L - lp) (e >>> (PGDIR_SHIFT * lp)))) ∧
        e2 = add32 (e ||| incr) 1 ∧ r2 = add32 (r ||| incr) 1 ∧ a2 = attr
    | loop_result.stop s T1 =>
        s ≠ map_status.done ∧ s ≠ map_status.halt Fault.fuel ∧ SameCls L T1 T ∧
        (lp = 0 → PageCls L T e ≠ wcls.miss) ∧
        (lp = 1 → ¬ ∃ lv, walkL T (idxs (L - lp) (e >>> (PGDIR_SHIFT * lp))) = walk_res.miss lv 0 0) := by
  have h := step_spec L lp incr attr T e r
  cases hw : walkL T (idxs (L - lp) (e >>> (PGDIR_SHIFT * lp))) with
  | tbl S =>
    rw [hw] at h; simp only [] at h; rw [h]
    refine ⟨by simp, by simp, SameCls.refl _ _, ?_, ?_⟩
    · intro h0; subst h0
      simp only [Nat.sub_zero, Nat.mul_zero, Nat.shiftRight_zero] at hw
      simp [PageCls, hw, walk_res.cls]
    · intro _; simp
  | nosize lv p a =>
    rw [hw] at h; simp only [] at h; rw [h]
    refine ⟨by simp, ?_, SameCls.refl _ _, ?_, ?_⟩
    · by_cases hl : lv = 0 <;> simp [hl]
    · intro h0; subst h0
      simp only [Nat.sub_zero, Nat.mul_zero, Nat.shiftRight_zero] at hw
      simp [PageCls, hw, walk_res.cls]
    · intro _; simp
  | miss lv p a =>
    rw [hw] at h; simp only [] at h
    have hne : L - lp ≠ 0 := by
      intro h0; rw [h0] at hw; simp [idxs, walkL] at hw
    have hle : lp ≤ L := by omega
    have hat : AtEntry (walkL T (idxs (L - lp) (e >>> (PGDIR_SHIFT * lp)))) := by
      rw [hw]; trivial
    by_cases hc : lp ≠ 0 ∧ lv = 0 ∧ p ≠ 0 ∧ a &&& PTE_SIZE = 0
    · rw [if_pos hc] at h; rw [h]
      refine ⟨by simp, by simp, ?_, ?_, ?_⟩
      · intro q
        have W := walk_page_set L lp hle hne T (pte_t.leaf p a) e q hat
        by_cases hq : idxs (L - lp) (q >>> (PGDIR_SHIFT * lp)) = idxs (L - lp) (e >>> (PGDIR_SHIFT * lp))
        · rw [W.1 hq, enter_leaf_cls, if_pos (walkL_miss_invalid _ _ _ _ _ hw)]
          have hs := idxs_split (L - lp) lp q
          rw [Nat.sub_add_cancel hle] at hs
          rw [hs, hq, walkL_append, hw]
          rfl
        · exact W.2 hq
      · intro h0; exact absurd h0 hc.1
      · intro _
        rintro ⟨lv', h'⟩
        simp only [walk_res.miss.injEq] at h'
        exact hc.2.2.1 h'.2.1
    · rw [if_neg hc] at h; rw [h]
      exact ⟨rfl, hle, hne, trivial, rfl, rfl, rfl⟩
  | hit lv p a =>
    rw [hw] at h; simp only [] at h
    have hne : L - lp ≠ 0 := by
      intro h0; rw [h0] at hw; simp [idxs, walkL] at hw
    have hle : lp ≤ L := by omega
    by_cases hc : lp = 0 ∧ lv ≠ 0
    · rw [if_pos hc] at h; rw [h]
      refine ⟨by simp, by simp, SameCls.refl _ _, ?_, ?_⟩
      · intro _
        have hw' := hw
        rw [hc.1] at hw'
        simp only [Nat.sub_zero, Nat.mul_zero, Nat.shiftRight_zero] at hw'
        simp [PageCls, hw', walk_res.cls]
      · intro h1; omega
    · rw [if_neg hc] at h
      obtain ⟨path, rest, h0, hr, hpne, hwp, hstep⟩ := h
      have hlv : lv = 0 := by
        rcases hlp with h0' | h1
        · by_contra hl; exact hc ⟨h0', hl⟩
        · subst h1
          have hg := hInv e
          rw [walk_page_via_block L (by omega) T e, hw] at hg
          simp only [walk_res.cls, GoodCls] at hg
          omega
      have hrest : rest = [] := List.eq_nil_of_length_eq_zero (by omega)
      subst hrest
      rw [List.append_nil] at h0
      rw [hstep, ← h0]
      refine ⟨rfl, hle, hne, ?_, rfl, rfl, rfl⟩
      rw [hlv]; trivial

/-- What the leaf-level invariant asks of the `attr` written with `largepage = lp`. -/
def GoodAttr (lp attr : Nat) : Prop :=
  attr &&& PTE_VALID ≠ 0 →
    attr &&& PTE_SIZE ≠ 0 ∧ (lp = 0 → attr >>> PTE_SIZE_SHIFT < TLB_TSIZE_4M) ∧
      (lp = 1 → TLB_TSIZE_4M ≤ attr >>> PTE_SIZE_SHIFT)

theorem inv_set (L lp : Nat) (T : Table) (e r attr : Nat) (hInv : Inv L T) (hle : lp ≤ L)
    (hne : L - lp ≠ 0) (hlp : lp = 0 ∨ lp = 1)
    (hat : AtEntry (walkL T (idxs (L - lp) (e >>> (PGDIR_SHIFT * lp)))))
    (hga : GoodAttr lp attr) :
    Inv L (setL T (idxs (L - lp) (e >>> (PGDIR_SHIFT * lp))) (pte_t.leaf r attr)) := by
  intro q
  have W := walk_page_set L lp hle hne T (pte_t.leaf r attr) e q hat
  by_cases hq : idxs (L - lp) (q >>> (PGDIR_SHIFT * lp)) = idxs (L - lp) (e >>> (PGDIR_SHIFT * lp))
  · rw [W.1 hq, enter_leaf_cls]
    by_cases hv : attr &&& PTE_VALID = 0
    · rw [if_pos hv]; trivial
    · have hg := hga hv
      rw [if_neg hv, if_pos hg.1, idxs_length]
      simp only [GoodCls]
      rcases hlp with h0 | h1
      · left; exact ⟨h0, hg.2.1 h0⟩
      · right; exact ⟨h1, hg.2.2 h1⟩
  · rw [W.2 hq]; exact hInv q

theorem good_attr_set_size (attr size : Nat) (h0 : 0 < size) (hs : size ≤ 17) :
    GoodAttr (if size ≥ TLB_TSIZE_4M then 1 else 0)
      ((attr &&& not32 PTE_SIZE) ||| shl32 size PTE_SIZE_SHIFT) := by
  intro _
  have e : (attr &&& not32 PTE_SIZE) ||| shl32 size PTE_SIZE_SHIFT = set_size attr size := rfl
  rw [e, set_size_shift attr size (by omega)]
  refine ⟨set_size_sized attr size h0 (by omega), ?_, ?_⟩
  · intro h; by_contra hc
    rw [if_pos (by omega)] at h; omega
  · intro h; by_contra hc
    rw [if_neg (by omega)] at h; omega

theorem advance_small (x : Nat) (hx : x + 1 < 2 ^ 32) : add32 (x ||| 0) 1 = x + 1 := by
  unfold add32 WORD
  rw [Nat.or_zero, Nat.mod_eq_of_lt hx]

theorem or_1023 (x : Nat) (hd : 1024 ∣ x) : x ||| 1023 = x + 1023 := by
  obtain ⟨k, rfl⟩ := hd
  have := Nat.mul_add_lt_is_or (i := 10) (b := 1023) (by norm_num) k
  norm_num at this
  exact this.symm

theorem advance_large (x : Nat) (hd : 1024 ∣ x) (hx : x + 1024 < 2 ^ 32) :
    add32 (x ||| (PGDIR_SIZE - 1)) 1 = x + 1024 := by
  have : PGDIR_SIZE - 1 = 1023 := by decide
  rw [this, or_1023 x hd]
  unfold add32 WORD
  rw [Nat.mod_eq_of_lt (by omega)]

theorem sub32_eq (a b : Nat) (hb : b ≤ a) (ha : a < 2 ^ 32) : sub32 a b = a - b := by
  unfold sub32 WORD
  have hb' : b < 2 ^ 32 := by omega
  rw [Nat.mod_eq_of_lt ha, Nat.mod_eq_of_lt hb']
  have : a + (2 ^ 32 - b) = (a - b) + 2 ^ 32 := by omega
  rw [this, Nat.add_mod_right, Nat.mod_eq_of_lt (by omega)]

theorem add32_eq (a b : Nat) (h : a + b < 2 ^ 32) : add32 a b = a + b := by
  unfold add32 WORD
  exact Nat.mod_eq_of_lt h

/-- The size class of a chunk that holds at least 1024 pages is a multiple of 1024. -/
theorem large_pages_dvd (s : Nat) (h6 : TLB_TSIZE_4M ≤ s) : 1024 ∣ 2 ^ (s * 2 - 2) := by
  have : (1024 : Nat) = 2 ^ 10 := by norm_num
  rw [this]
  unfold TLB_TSIZE_4M at h6
  exact pow_dvd_pow 2 (by omega)

/-- One chunk of `vptbl_map` keeps the leaf-level invariant, moves `epn` forward and does
not run out of fuel. -/
theorem chunk_inv (L end_ : Nat) (T : Table) (e r a : Nat) (hend : end_ < 2 ^ 32)
    (he : e < end_) (hInv : Inv L T) :
    match vptbl_map_chunk L end_ T e r a with
    | loop_result.next T2 e2 _ _ => Inv L T2 ∧ e < e2
    | loop_result.stop s T1 =>
        s ≠ map_status.done ∧ (s ≠ map_status.halt Fault.fuel ∧ Inv L T1) := by
  have hlen : sub32 end_ e = end_ - e := sub32_eq _ _ (by omega) hend
  obtain ⟨hs1, hs16, hsp, hsple, hde, hdr⟩ := chunk_size_facts e (end_ - e) r (by omega) (by omega)
  unfold vptbl_map_chunk
  simp only [hlen]
  generalize hsz : min (max_page_size e (end_ - e)) (natural_alignment r) = size at *
  have hpos : 0 < 2 ^ (size * 2 - 2) := Nat.two_pow_pos _
  rw [if_neg (by simpa using hsple), if_neg (by simp; omega)]
  have hsub : add32 e (tsize_to_pages size) = e + tsize_to_pages size := add32_eq _ _ (by omega)
  rw [hsub]
  generalize hlp : (if size ≥ TLB_TSIZE_4M then 1 else 0) = lp
  generalize hat : ((a &&& not32 PTE_SIZE) ||| shl32 size PTE_SIZE_SHIFT) = attr1
  have hga : GoodAttr lp attr1 := by
    rw [← hlp, ← hat]; exact good_attr_set_size a size (by omega) (by omega)
  have hlp01 : lp = 0 ∨ lp = 1 := by
    rw [← hlp]; by_cases h : size ≥ TLB_TSIZE_4M <;> simp [h]
  have h1024 : lp = 1 → 1024 ∣ tsize_to_pages size ∧ 1024 ∣ e := by
    intro h1
    have h6 : TLB_TSIZE_4M ≤ size := by
      by_contra hc; rw [if_neg hc] at hlp; omega
    have := large_pages_dvd size h6
    rw [hsp]
    exact ⟨this, Dvd.dvd.trans this (hsp ▸ hde)⟩
  have R := inner_rule L lp (if lp = 1 then PGDIR_SIZE - 1 else 0) attr1 (e + tsize_to_pages size)
    (fun T x _ => Inv L T ∧ e ≤ x ∧ x ≤ e + tsize_to_pages size ∧ (lp = 1 → 1024 ∣ x))
    (fun s T1 => s ≠ map_status.done ∧ (s ≠ map_status.halt Fault.fuel ∧ Inv L T1))
    (by
      intro T x rx ⟨hI, hx1, _, hx3⟩ hxlt
      have S := step_under_inv L lp (if lp = 1 then PGDIR_SIZE - 1 else 0) attr1 T x rx hI hlp01
      cases hst : vptbl_map_step L lp (if lp = 1 then PGDIR_SIZE - 1 else 0) attr1 T x rx with
      | next T2 e2 r2 a2 =>
        rw [hst] at S
        simp only [] at S ⊢
        obtain ⟨hT2, hle, hne, hae, he2, _, _⟩ := S
        have hI2 : Inv L T2 := by rw [hT2]; exact inv_set L lp T x rx attr1 hI hle hne hlp01 hae hga
        rcases hlp01 with h0 | h1
        · rw [if_neg (by omega)] at he2
          rw [advance_small x (by omega)] at he2
          exact ⟨⟨hI2, by omega, by omega, by omega⟩, by omega⟩
        · rw [if_pos h1] at he2
          obtain ⟨d1, d2⟩ := h1024 h1
          have dx := hx3 h1
          have hle2 : x + 1024 ≤ e + tsize_to_pages size := by
            obtain ⟨k1, hk1⟩ := dx
            obtain ⟨k2, hk2⟩ := Dvd.dvd.add d2 d1
            rw [hk1, hk2] at hxlt ⊢
            have : k1 < k2 := by
              by_contra hc
              have := Nat.mul_le_mul_left 1024 (Nat.not_lt.mp hc)
              omega
            have := Nat.mul_le_mul_left 1024 (Nat.succ_le_of_lt this)
            omega
          rw [advance_large x dx (by omega)] at he2
          refine ⟨⟨hI2, by omega, by omega, fun _ => ?_⟩, by omega⟩
          rw [he2]; exact Dvd.dvd.add dx (dvd_refl _)
      | stop s T1 =>
        rw [hst] at S
        simp only [] at S ⊢
        exact ⟨S.1, S.2.1, S.2.2.1.inv hI⟩)
    (tsize_to_pages size + 1) T e r
    ⟨hInv, le_refl _, by omega, fun h1 => (h1024 h1).2⟩ (by omega)
  cases hin : vptbl_map_inner L lp (if lp = 1 then PGDIR_SIZE - 1 else 0) attr1
      (e + tsize_to_pages size) (tsize_to_pages size + 1) T e r with
  | next T2 e2 r2 a2 =>
    rw [hin] at R
    simp only [] at R ⊢
    exact ⟨R.1.1, by omega⟩
  | stop s T1 =>
    rw [hin] at R
    exact R

/-- `vptbl_map` keeps the leaf-level invariant and does not run out of fuel. -/
theorem map_inv (L : Nat) (T : Table) (epn rpn npages attr : Nat) (hInv : Inv L T) :
    Inv L (vptbl_map T epn rpn npages attr L).2 ∧
      (vptbl_map T epn rpn npages attr L).1 ≠ map_status.halt Fault.fuel := by
  unfold vptbl_map
  have hend : add32 epn npages < 2 ^ 32 := Nat.mod_lt _ (by decide)
  have hf : add32 epn npages - epn < npages + 1 := by
    have : add32 epn npages ≤ epn + npages := Nat.mod_le _ _
    omega
  have R := outer_rule L (add32 epn npages) (fun T _ _ _ => Inv L T)
    (fun s T1 => s ≠ map_status.halt Fault.fuel ∧ Inv L T1)
    (fun T e r a hI he => chunk_inv L _ T e r a hend he hI)
    (npages + 1) T epn rpn attr hInv hf
  rcases R with ⟨h1, _, _, _, h2, _⟩ | ⟨_, h2, h3⟩
  · exact ⟨h2, by rw [h1]; simp⟩
  · exact ⟨h3, h2⟩

theorem inv_levels_pos (L : Nat) (T : Table) (h : Inv L T) : 1 ≤ L := by
  by_contra hc
  have h0 : L = 0 := by omega
  subst h0
  have := h 0
  simp [idxs, walkL, walk_res.cls, GoodCls] at this

theorem cap_split (L lp : Nat) (hle : lp ≤ L) : cap L = 2 ^ (10 * lp) * 2 ^ (10 * (L - lp)) := by
  unfold cap
  rw [← pow_add]
  congr 1
  omega

/-- For pages within the capacity of the table, two pages use the same entry (`lp = 0`),
or the same block entry (`lp = 1`), iff they agree above the low `10 * lp` bits. -/
theorem covers_iff (L lp q x : Nat) (hq : q < cap L) (hx : x < cap L) (hle : lp ≤ L) :
    idxs (L - lp) (q >>> (PGDIR_SHIFT * lp)) = idxs (L - lp) (x >>> (PGDIR_SHIFT * lp)) ↔
      q / 2 ^ (10 * lp) = x / 2 ^ (10 * lp) := by
  rw [idxs_eq_iff, Nat.shiftRight_eq_div_pow, Nat.shiftRight_eq_div_pow]
  have hc := cap_split L lp hle
  have hpos : 0 < 2 ^ (10 * lp) := Nat.two_pow_pos _
  have e : PGDIR_SHIFT * lp = 10 * lp := rfl
  rw [e]
  have h1 : q / 2 ^ (10 * lp) < 2 ^ (10 * (L - lp)) := by
    apply Nat.div_lt_of_lt_mul; rw [← hc]; exact hq
  have h2 : x / 2 ^ (10 * lp) < 2 ^ (10 * (L - lp)) := by
    apply Nat.div_lt_of_lt_mul; rw [← hc]; exact hx
  rw [Nat.mod_eq_of_lt h1, Nat.mod_eq_of_lt h2]

/-- Effect of the store of one pass of the inner loop on the kind of the walk of every
page within the capacity of the table. -/
theorem page_cls_set (L lp : Nat) (T : Table) (x r attr q : Nat) (hle : lp ≤ L)
    (hne : L - lp ≠ 0) (hat : AtEntry (walkL T (idxs (L - lp) (x >>> (PGDIR_SHIFT * lp)))))
    (hx : x < cap L) (hq : q < cap L) :
    PageCls L (setL T (idxs (L - lp) (x >>> (PGDIR_SHIFT * lp))) (pte_t.leaf r attr)) q =
      if q / 2 ^ (10 * lp) = x / 2 ^ (10 * lp) then
        (if attr &&& PTE_VALID = 0 then wcls.miss
         else if attr &&& PTE_SIZE ≠ 0 then wcls.hit lp r attr else wcls.nosize lp r attr)
      else PageCls L T q := by
  have W := walk_page_set L lp hle hne T (pte_t.leaf r attr) x q hat
  have C := covers_iff L lp q x hq hx hle
  unfold PageCls
  by_cases h : q / 2 ^ (10 * lp) = x / 2 ^ (10 * lp)
  · rw [if_pos h, W.1 (C.mpr h), enter_leaf_cls, idxs_length]
  · rw [if_neg h, W.2 (fun hc => h (C.mp hc))]

/-- A store of the inner loop leaves the entry of every other block fresh. -/
theorem fresh_blk_set (L lp : Nat) (T : Table) (x r attr b : Nat) (hL : 1 ≤ L)
    (hlp : lp = 0 ∨ lp = 1) (hne : L - lp ≠ 0)
    (hat : AtEntry (walkL T (idxs (L - lp) (x >>> (PGDIR_SHIFT * lp)))))
    (hx : x < cap L) (hb : b * 1024 < cap L) (hbx : b ≠ x / 1024)
    (hf : ∃ lv, walkL T (idxs (L - 1) b) = walk_res.miss lv 0 0) :
    ∃ lv, walkL (setL T (idxs (L - lp) (x >>> (PGDIR_SHIFT * lp))) (pte_t.leaf r attr))
      (idxs (L - 1) b) = walk_res.miss lv 0 0 := by
  have hpne := idxs_ne_nil (L - lp) (x >>> (PGDIR_SHIFT * lp)) hne
  have W := (walk_setL _ T (pte_t.leaf r attr) (idxs (L - 1) b) hpne hat).2
  -- the block path of `b` against the block path of `x`
  have hblk : idxs (L - 1) b ≠ idxs (L - 1) (x >>> (PGDIR_SHIFT * 1)) := by
    intro h
    have e1 : b = (b * 1024) >>> (PGDIR_SHIFT * 1) := by
      rw [Nat.shiftRight_eq_div_pow]; unfold PGDIR_SHIFT; omega
    rw [e1] at h
    have := (covers_iff L 1 (b * 1024) x hb hx hL).mp h
    norm_num at this
    omega
  have hsplit : idxs L x = idxs (L - 1) (x >>> (PGDIR_SHIFT * 1)) ++ idxs 1 x := by
    have := idxs_split (L - 1) 1 x
    rwa [Nat.sub_add_cancel hL] at this
  have h1 : ¬ idxs (L - lp) (x >>> (PGDIR_SHIFT * lp)) <+: idxs (L - 1) b := by
    rintro ⟨t, ht⟩
    rcases hlp with h0 | h1
    · subst h0
      have hl := congrArg List.length ht
      simp only [List.length_append, idxs_length] at hl
      omega
    · subst h1
      have hl := congrArg List.length ht
      simp only [List.length_append, idxs_length] at hl
      have ht0 : t = [] := List.eq_nil_of_length_eq_zero (by omega)
      subst ht0
      rw [List.append_nil] at ht
      exact hblk ht.symm
  have h2 : ¬ idxs (L - 1) b <+: idxs (L - lp) (x >>> (PGDIR_SHIFT * lp)) := by
    rintro ⟨t, ht⟩
    rcases hlp with h0 | h1
    · subst h0
      simp only [Nat.sub_zero, Nat.mul_zero, Nat.shiftRight_zero] at ht
      rw [hsplit] at ht
      exact hblk (List.append_inj ht (by simp [idxs_length])).1
    · subst h1
      have hl := congrArg List.length ht
      simp only [List.length_append, idxs_length] at hl
      have ht0 : t = [] := List.eq_nil_of_length_eq_zero (by omega)
      subst ht0
      rw [List.append_nil] at ht
      exact hblk ht
  obtain ⟨lv, hlv⟩ := hf
  rcases W h1 h2 with h | ⟨_, _, _, lv', _, h⟩
  · exact ⟨lv, by rw [h, hlv]⟩
  · exact ⟨lv', h⟩

theorem set_size_low (a s : Nat) (hs : s < 2 ^ 20) :
    set_size a s &&& not32 PTE_SIZE = a &&& not32 PTE_SIZE := by
  have h1 : not32 PTE_SIZE = 2 ^ 12 - 1 := by decide
  rw [set_size_eq a s hs, h1, Nat.and_pow_two_sub_one_eq_mod, Nat.and_pow_two_sub_one_eq_mod]
  omega

theorem set_size_congr (a a0 s : Nat) (h : a &&& not32 PTE_SIZE = a0 &&& not32 PTE_SIZE) :
    set_size a s = set_size a0 s := by
  unfold set_size; rw [h]

/-- The kind of walk `vptbl_map` leaves for page `q` of the chunk that starts at page `c`
with size class `s`, real page `R` and the caller's `attr` `a0`. -/
def written_cls (a0 s R c q : Nat) : wcls :=
  if a0 &&& PTE_VALID = 0 then wcls.miss
  else if s < TLB_TSIZE_4M then wcls.hit 0 (R + (q - c)) (set_size a0 s)
  else wcls.hit 1 (R + (q - c) / 1024 * 1024) (set_size a0 s)

/-- Page `q` lies in a chunk written whole by the call `vptbl_map(tbl, gpn, rpn0, _, a0)`
below page `hi`: the chunk is aligned, guest and real, to its size, and each of its pages
is walked to the leaf the call wrote. -/
def ChunkOK (L : Nat) (T : Table) (gpn rpn0 a0 hi q : Nat) : Prop :=
  ∃ c s, 1 ≤ s ∧ s ≤ 16 ∧ gpn ≤ c ∧ c ≤ q ∧ q < c + 2 ^ (s * 2 - 2) ∧
    c + 2 ^ (s * 2 - 2) ≤ hi ∧ 2 ^ (s * 2 - 2) ∣ c ∧ 2 ^ (s * 2 - 2) ∣ (rpn0 + (c - gpn)) ∧
    ∀ q', c ≤ q' → q' < c + 2 ^ (s * 2 - 2) →
      PageCls L T q' = written_cls a0 s (rpn0 + (c - gpn)) c q'

/-- Every block entry from page `x` on is an invalid entry that is all zero. -/
def FreshBlk (L : Nat) (T : Table) (x : Nat) : Prop :=
  ∀ b, x ≤ b * 1024 → b * 1024 < cap L → ∃ lv, walkL T (idxs (L - 1) b) = walk_res.miss lv 0 0

/-- Invariant of the outer loop of the call `vptbl_map(T0, gpn, rpn0, end_ - gpn, a0, L)`. -/
structure MapInv (L gpn rpn0 a0 end_ : Nat) (T0 T : Table) (e r a : Nat) : Prop where
  lo : gpn ≤ e
  hi : e ≤ end_
  rp : r = (rpn0 + (e - gpn)) % WORD
  ae : a &&& not32 PTE_SIZE = a0 &&& not32 PTE_SIZE
  inv : Inv L T
  frame : ∀ q, q < cap L → (q < gpn ∨ e ≤ q) → PageCls L T q = PageCls L T0 q
  wr : ∀ q, gpn ≤ q → q < e → ChunkOK L T gpn rpn0 a0 e q
  fresh : FreshBlk L T0 gpn → FreshBlk L T e

/-- Invariant of the inner loop of the same call, within the chunk at `c` of size class
`s`. -/
structure MidInv (L gpn rpn0 a0 : Nat) (T0 : Table) (c s lp : Nat) (T : Table) (x rx : Nat) :
    Prop where
  lo : c ≤ x
  hi : x ≤ c + 2 ^ (s * 2 - 2)
  al : lp = 1 → 1024 ∣ x
  rp : rx = (rpn0 + (x - gpn)) % WORD
  inv : Inv L T
  frame : ∀ q, q < cap L → (q < gpn ∨ x ≤ q) → PageCls L T q = PageCls L T0 q
  old : ∀ q, gpn ≤ q → q < c → ChunkOK L T gpn rpn0 a0 c q
  new : ∀ q, c ≤ q → q < x → PageCls L T q = written_cls a0 s (rpn0 + (c - gpn)) c q
  fresh : FreshBlk L T0 gpn → FreshBlk L T x

/-- What holds when the call leaves the function from inside a loop: no fuel ran out, the
invariant and the pages outside the range are as before, and the range was not fresh. -/
def MapStop (L gpn end_ : Nat) (T0 : Table) (s : map_status) (T1 : Table) : Prop :=
  s ≠ map_status.halt Fault.fuel ∧ Inv L T1 ∧
    (∀ q, q < cap L → (q < gpn ∨ end_ ≤ q) → PageCls L T1 q = PageCls L T0 q) ∧
    ¬ (FreshBlk L T0 gpn ∧ ∀ q, gpn ≤ q → q < end_ → PageCls L T0 q = wcls.miss)

theorem ChunkOK.mono {L : Nat} {T : Table} {gpn rpn0 a0 hi hi' q : Nat}
    (h : ChunkOK L T gpn rpn0 a0 hi q) (hh : hi ≤ hi') : ChunkOK L T gpn rpn0 a0 hi' q := by
  obtain ⟨c, s, h1, h2, h3, h4, h5, h6, h7⟩ := h
  exact ⟨c, s, h1, h2, h3, h4, h5, by omega, h7⟩

theorem ChunkOK.transfer {L : Nat} {T T2 : Table} {gpn rpn0 a0 hi q : Nat}
    (h : ChunkOK L T gpn rpn0 a0 hi q) (hT : ∀ q', q' < hi → PageCls L T2 q' = PageCls L T q') :
    ChunkOK L T2 gpn rpn0 a0 hi q := by
  obtain ⟨c, s, h1, h2, h3, h4, h5, h6, h7, h8, h9⟩ := h
  exact ⟨c, s, h1, h2, h3, h4, h5, h6, h7, h8, fun q' a b => by rw [hT q' (by omega)]; exact h9 q' a b⟩

theorem written_cls_small (a0 s R c q : Nat) (h : s < TLB_TSIZE_4M) :
    written_cls a0 s R c q =
      if a0 &&& PTE_VALID = 0 then wcls.miss else wcls.hit 0 (R + (q - c)) (set_size a0 s) := by
  unfold written_cls; rw [if_pos h]

theorem written_cls_large (a0 s R c q : Nat) (h : ¬ s < TLB_TSIZE_4M) :
    written_cls a0 s R c q =
      if a0 &&& PTE_VALID = 0 then wcls.miss
      else wcls.hit 1 (R + (q - c) / 1024 * 1024) (set_size a0 s) := by
  unfold written_cls; rw [if_neg h]

theorem advance_large_mod (x : Nat) (hd : 1024 ∣ x) :
    add32 (x ||| (PGDIR_SIZE - 1)) 1 = (x + 1024) % WORD := by
  have : PGDIR_SIZE - 1 = 1023 := by decide
  rw [this, or_1023 x hd]
  unfold add32
  rfl

set_option maxHeartbeats 1000000 in
/-- One pass of the inner loop keeps the invariant of the inner loop and moves `epn`
forward, or leaves the function as `MapStop` says. -/
theorem mid_step (L gpn rpn0 a0 end_ : Nat) (T0 : Table) (c s lp : Nat)
    (hend : end_ < 2 ^ 32) (hcap : end_ ≤ cap L) (hr : rpn0 + (end_ - gpn) ≤ 2 ^ 32)
    (hgc : gpn ≤ c) (hce : c + 2 ^ (s * 2 - 2) ≤ end_) (hs1 : 1 ≤ s) (hs16 : s ≤ 16)
    (hdc : 2 ^ (s * 2 - 2) ∣ c) (hdr : 2 ^ (s * 2 - 2) ∣ rpn0 + (c - gpn))
    (hlp : lp = if s ≥ TLB_TSIZE_4M then 1 else 0)
    (T : Table) (x rx : Nat) (hM : MidInv L gpn rpn0 a0 T0 c s lp T x rx)
    (hx : x < c + 2 ^ (s * 2 - 2)) :
    match vptbl_map_step L lp (if lp = 1 then PGDIR_SIZE - 1 else 0) (set_size a0 s) T x rx with
    | loop_result.next T2 e2 r2 _ => MidInv L gpn rpn0 a0 T0 c s lp T2 e2 r2 ∧ x < e2
    | loop_result.stop st T1 => st ≠ map_status.done ∧ MapStop L gpn end_ T0 st T1 := by
  have hlp01 : lp = 0 ∨ lp = 1 := by
    rw [hlp]; by_cases h : s ≥ TLB_TSIZE_4M <;> simp [h]
  have S := step_under_inv L lp (if lp = 1 then PGDIR_SIZE - 1 else 0) (set_size a0 s) T x rx
    hM.inv hlp01
  have hxcap : x < cap L := by omega
  have hW : WORD = 2 ^ 32 := rfl
  have hrx : rx = rpn0 + (x - gpn) := by
    rw [hM.rp, hW]; exact Nat.mod_eq_of_lt (by have := hM.lo; omega)
  have hlo := hM.lo
  generalize hP : 2 ^ (s * 2 - 2) = P at *
  have hvalid := set_size_valid a0 s
  have hsized := set_size_sized a0 s (by omega) (by omega)
  cases hst : vptbl_map_step L lp (if lp = 1 then PGDIR_SIZE - 1 else 0) (set_size a0 s) T x rx with
  | next T2 e2 r2 a2 =>
    rw [hst] at S
    simp only [] at S ⊢
    obtain ⟨hT2, hle, hne, hae, he2, hr2, _⟩ := S
    have hI2 : Inv L T2 := by
      rw [hT2]
      refine inv_set L lp T x rx _ hM.inv hle hne hlp01 hae ?_
      have := good_attr_set_size a0 s (by omega) (by omega)
      rw [← hlp] at this
      exact this
    have PC : ∀ q, q < cap L → PageCls L T2 q =
        if q / 2 ^ (10 * lp) = x / 2 ^ (10 * lp) then
          (if a0 &&& PTE_VALID = 0 then wcls.miss else wcls.hit lp rx (set_size a0 s))
        else PageCls L T q := by
      intro q hq
      rw [hT2, page_cls_set L lp T x rx _ q hle hne hae hxcap hq, hvalid, if_pos hsized]
    have FB : ∀ b, b * 1024 < cap L → b ≠ x / 1024 →
        (∃ lv, walkL T (idxs (L - 1) b) = walk_res.miss lv 0 0) →
        ∃ lv, walkL T2 (idxs (L - 1) b) = walk_res.miss lv 0 0 := by
      intro b hb hbx hf
      rw [hT2]
      exact fresh_blk_set L lp T x rx _ b (inv_levels_pos L T hM.inv) hlp01 hne hae hxcap hb hbx hf
    rcases hlp01 with h0 | h1
    · -- small pages
      have hs6 : s < TLB_TSIZE_4M := by
        by_contra hc; rw [if_pos (by omega)] at hlp; omega
      subst h0
      simp only [Nat.mul_zero, pow_zero, Nat.div_one] at PC
      rw [if_neg (by omega)] at he2 hr2
      rw [advance_small x (by omega)] at he2
      have hr2' : r2 = (rx + 1) % WORD := by rw [hr2]; unfold add32; rw [Nat.or_zero]
      refine ⟨⟨by omega, by omega, by omega, ?_, hI2, ?_, ?_, ?_, ?_⟩, by omega⟩
      · rw [hr2', hrx, he2]; congr 1; omega
      · intro q hq hq2
        rw [PC q hq, if_neg (by omega)]
        exact hM.frame q hq (by omega)
      · intro q hq1 hq2
        exact (hM.old q hq1 hq2).transfer (fun q' hq' => by
          rw [PC q' (by omega), if_neg (by omega)])
      · intro q hq1 hq2
        by_cases hqx : q = x
        · rw [PC q (by omega), if_pos hqx, written_cls_small _ _ _ _ _ hs6, hrx, hqx]
          have : rpn0 + (c - gpn) + (x - c) = rpn0 + (x - gpn) := by omega
          rw [this]
        · rw [PC q (by omega), if_neg hqx]
          exact hM.new q hq1 (by omega)
      · intro hf b hb1 hb2
        exact FB b hb2 (by omega) (hM.fresh hf b (by omega) hb2)
    · -- large pages
      have hs6 : ¬ s < TLB_TSIZE_4M := by
        intro hc; rw [if_neg (by omega)] at hlp; omega
      have d1 : 1024 ∣ P := by rw [← hP]; exact large_pages_dvd s (by omega)
      have d2 : 1024 ∣ c := Dvd.dvd.trans d1 hdc
      have d3 : 1024 ∣ rpn0 + (c - gpn) := Dvd.dvd.trans d1 hdr
      have dx : 1024 ∣ x := hM.al h1
      subst h1
      have e1024 : (2 : Nat) ^ (10 * 1) = 1024 := by norm_num
      simp only [e1024] at PC
      rw [if_pos rfl] at he2 hr2
      rw [advance_large x dx (by omega)] at he2
      have drx : 1024 ∣ rx := by rw [hrx]; omega
      rw [advance_large_mod rx drx] at hr2
      refine ⟨⟨by omega, by omega, fun _ => by omega, ?_, hI2, ?_, ?_, ?_, ?_⟩, by omega⟩
      · rw [hr2, hrx, he2]; congr 1; omega
      · intro q hq hq2
        rw [PC q hq, if_neg (by omega)]
        exact hM.frame q hq (by omega)
      · intro q hq1 hq2
        exact (hM.old q hq1 hq2).transfer (fun q' hq' => by
          rw [PC q' (by omega), if_neg (by omega)])
      · intro q hq1 hq2
        by_cases hqx : q / 1024 = x / 1024
        · rw [PC q (by omega), if_pos hqx, written_cls_large _ _ _ _ _ hs6, hrx]
          have : rpn0 + (c - gpn) + (q - c) / 1024 * 1024 = rpn0 + (x - gpn) := by omega
          rw [this]
        · rw [PC q (by omega), if_neg hqx]
          exact hM.new q hq1 (by omega)
      · intro hf b hb1 hb2
        exact FB b hb2 (by omega) (hM.fresh hf b (by omega) hb2)
  | stop st T1 =>
    rw [hst] at S
    simp only [] at S ⊢
    obtain ⟨hd, hfu, hsame, hr0, hr1⟩ := S
    refine ⟨hd, hfu, hsame.inv hM.inv, ?_, ?_⟩
    · intro q hq hq2
      have := hsame q
      unfold PageCls
      rw [this]
      exact hM.frame q hq (by omega)
    · rintro ⟨hfb, hfp⟩
      rcases hlp01 with h0 | h1
      · apply hr0 h0
        rw [hM.frame x hxcap (by omega)]
        exact hfp x (by omega) (by omega)
      · apply hr1 h1
        have dx : 1024 ∣ x := hM.al h1
        have := hM.fresh hfb (x / 1024) (by omega) (by omega)
        subst h1
        have e : x >>> (PGDIR_SHIFT * 1) = x / 1024 := by
          rw [Nat.shiftRight_eq_div_pow]; rfl
        rw [e]
        exact this

set_option maxHeartbeats 1000000 in
/-- One chunk keeps the invariant of the outer loop and moves `epn` forward, or leaves
the function as `MapStop` says. -/
theorem chunk_map (L gpn rpn0 a0 end_ : Nat) (T0 : Table)
    (hend : end_ < 2 ^ 32) (hcap : end_ ≤ cap L) (hr : rpn0 + (end_ - gpn) ≤ 2 ^ 32)
    (T : Table) (e r a : Nat) (hI : MapInv L gpn rpn0 a0 end_ T0 T e r a) (he : e < end_) :
    match vptbl_map_chunk L end_ T e r a with
    | loop_result.next T2 e2 r2 a2 => MapInv L gpn rpn0 a0 end_ T0 T2 e2 r2 a2 ∧ e < e2
    | loop_result.stop st T1 => st ≠ map_status.done ∧ MapStop L gpn end_ T0 st T1 := by
  have hlen : sub32 end_ e = end_ - e := sub32_eq _ _ (by omega) hend
  obtain ⟨hs1, hs16, hsp, hsple, hde, hdr⟩ := chunk_size_facts e (end_ - e) r (by omega) (by omega)
  have hW : WORD = 2 ^ 32 := rfl
  have hlo := hI.lo
  have hre : r = rpn0 + (e - gpn) := by
    rw [hI.rp, hW]; exact Nat.mod_eq_of_lt (by omega)
  unfold vptbl_map_chunk
  simp only [hlen]
  generalize hsz : min (max_page_size e (end_ - e)) (natural_alignment r) = size at *
  have hpos : 0 < 2 ^ (size * 2 - 2) := Nat.two_pow_pos _
  rw [if_neg (by simpa using hsple), if_neg (by simp; omega)]
  have hsub : add32 e (tsize_to_pages size) = e + tsize_to_pages size := add32_eq _ _ (by omega)
  rw [hsub]
  have hat : ((a &&& not32 PTE_SIZE) ||| shl32 size PTE_SIZE_SHIFT) = set_size a0 size :=
    set_size_congr a a0 size hI.ae
  rw [hat, hsp]
  rw [hsp] at hsple hde hdr
  generalize hlp : (if size ≥ TLB_TSIZE_4M then 1 else 0) = lp
  have h1024 : lp = 1 → 1024 ∣ e := by
    intro h1
    have h6 : TLB_TSIZE_4M ≤ size := by
      by_contra hc; rw [if_neg hc] at hlp; omega
    exact Dvd.dvd.trans (large_pages_dvd size h6) hde
  have hgc : gpn ≤ e := hI.lo
  have hdr' : 2 ^ (size * 2 - 2) ∣ rpn0 + (e - gpn) := by rw [← hre]; exact hdr
  have R := inner_rule L lp (if lp = 1 then PGDIR_SIZE - 1 else 0) (set_size a0 size)
    (e + 2 ^ (size * 2 - 2))
    (MidInv L gpn rpn0 a0 T0 e size lp)
    (fun st T1 => st ≠ map_status.done ∧ MapStop L gpn end_ T0 st T1)
    (fun T x rx hM hx => mid_step L gpn rpn0 a0 end_ T0 e size lp hend hcap hr hgc
      (by omega) hs1 hs16 hde hdr' hlp.symm T x rx hM hx)
    (2 ^ (size * 2 - 2) + 1) T e r
    ⟨le_refl _, by omega, h1024, hI.rp, hI.inv, hI.frame, hI.wr, fun q h1 h2 => by omega,
      hI.fresh⟩ (by omega)
  cases hin : vptbl_map_inner L lp (if lp = 1 then PGDIR_SIZE - 1 else 0) (set_size a0 size)
      (e + 2 ^ (size * 2 - 2)) (2 ^ (size * 2 - 2) + 1) T e r with
  | next T2 e2 r2 a2 =>
    rw [hin] at R
    simp only [] at R ⊢
    obtain ⟨hM, hge, ha2⟩ := R
    have he2 : e2 = e + 2 ^ (size * 2 - 2) := by have := hM.hi; omega
    refine ⟨⟨by omega, by omega, hM.rp, ?_, hM.inv, hM.frame, ?_, hM.fresh⟩, by omega⟩
    · rw [ha2]; exact set_size_low a0 size (by omega)
    · intro q hq1 hq2
      by_cases hqe : q < e
      · exact (hM.old q hq1 hqe).mono (by omega)
      · exact ⟨e, size, hs1, hs16, hgc, by omega, by omega, by omega, hde, hdr',
          fun q' h1 h2 => hM.new q' h1 (by omega)⟩
  | stop st T1 =>
    rw [hin] at R
    exact R

/-- What a call of `vptbl_map` leaves, for a range within the capacity of the table and
without wrap-around: either it completes with the invariant of the outer loop at the end
of the range, or it leaves the function as `MapStop` says. -/
theorem map_post (L : Nat) (T0 : Table) (gpn rpn0 n a0 : Nat) (hInv : Inv L T0)
    (h32 : gpn + n < 2 ^ 32) (hcap : gpn + n ≤ cap L) (hr : rpn0 + n ≤ 2 ^ 32)
    (hr0 : rpn0 < 2 ^ 32) :
    ((vptbl_map T0 gpn rpn0 n a0 L).1 = map_status.done ∧
      ∃ r a, MapInv L gpn rpn0 a0 (gpn + n) T0 (vptbl_map T0 gpn rpn0 n a0 L).2 (gpn + n) r a) ∨
    ((vptbl_map T0 gpn rpn0 n a0 L).1 ≠ map_status.done ∧
      MapStop L gpn (gpn + n) T0 (vptbl_map T0 gpn rpn0 n a0 L).1
        (vptbl_map T0 gpn rpn0 n a0 L).2) := by
  unfold vptbl_map
  rw [add32_eq _ _ h32]
  have hW : WORD = 2 ^ 32 := rfl
  have R := outer_rule L (gpn + n) (MapInv L gpn rpn0 a0 (gpn + n) T0)
    (MapStop L gpn (gpn + n) T0)
    (fun T e r a hI he => chunk_map L gpn rpn0 a0 (gpn + n) T0 h32 hcap (by omega) T e r a hI he)
    (n + 1) T0 gpn rpn0 a0
    ⟨le_refl _, by omega, by rw [Nat.sub_self, Nat.add_zero, hW, Nat.mod_eq_of_lt hr0], rfl,
      hInv, fun _ _ _ => rfl, fun q h1 h2 => by omega, fun h => h⟩ (by omega)
  rcases R with ⟨h1, e2, r2, a2, hM, hge⟩ | h
  · left
    have : e2 = gpn + n := by have := hM.hi; omega
    subst this
    exact ⟨h1, r2, a2, hM⟩
  · right; exact h

theorem div_mul_of_dvd_add (sp R t : Nat) (hd : sp ∣ R) (ht : t < sp) : (R + t) / sp * sp = R := by
  obtain ⟨k, rfl⟩ := hd
  have hpos : 0 < sp := by omega
  rw [Nat.mul_add_div hpos, Nat.div_eq_of_lt ht, Nat.add_zero, Nat.mul_comm]

theorem mod_of_dvd_add (sp c q : Nat) (hd : sp ∣ c) (h1 : c ≤ q) (h2 : q < c + sp) :
    q % sp = q - c := by
  obtain ⟨k, rfl⟩ := hd
  have : q = sp * k + (q - sp * k) := by omega
  rw [this, Nat.mul_add_mod, Nat.mod_eq_of_lt (by omega)]
  omega

/-- A page of a chunk written whole by `vptbl_map` with a valid `attr` translates to its
real page, with the `attr` of the chunk. -/
theorem xlate_written (L : Nat) (T : Table) (gpn rpn0 a0 hi q : Nat)
    (hv : a0 &&& PTE_VALID ≠ 0) (hb : rpn0 + (hi - gpn) ≤ 2 ^ 32)
    (hC : ChunkOK L T gpn rpn0 a0 hi q) :
    ∃ s, 1 ≤ s ∧ s ≤ 16 ∧ vptbl_xlate T q L = Except.ok (rpn0 + (q - gpn), set_size a0 s) := by
  obtain ⟨c, s, h1, h16, hgc, hcq, hqc, hchi, hdc, hdr, hw⟩ := hC
  refine ⟨s, h1, h16, ?_⟩
  have hcls := hw q hcq hqc
  have hx := xlate_of_cls T q L
  unfold PageCls at hcls
  rw [hcls] at hx
  have hsh := set_size_shift a0 s (by omega)
  have hva : set_size a0 s &&& PTE_VALID ≠ 0 := by rw [set_size_valid]; exact hv
  have htp := tsize_to_pages_eq s h16
  generalize hP : 2 ^ (s * 2 - 2) = P at *
  have hPpos : 0 < P := by rw [← hP]; exact Nat.two_pow_pos _
  by_cases hs6 : s < TLB_TSIZE_4M
  · rw [written_cls_small _ _ _ _ _ hs6, if_neg hv] at hx
    simp only [] at hx
    rw [hx]
    unfold xl_hit
    simp only [hsh, hs6, if_true, decide_True, if_neg hva, Bool.true_eq_false, if_false]
    rw [mask_combine s _ q h16 (by omega), htp,
      div_mul_of_dvd_add P _ (q - c) hdr (by omega), mod_of_dvd_add P c q hdc hcq hqc]
    congr 2; omega
  · rw [written_cls_large _ _ _ _ _ hs6, if_neg hv] at hx
    simp only [] at hx
    rw [hx]
    unfold xl_hit
    have h6 : TLB_TSIZE_4M ≤ s := by omega
    simp only [hsh, one_ne_zero, if_false, decide_True, Bool.true_and, ge_iff_le, h6,
      if_neg hva, Bool.true_eq_false]
    have hle : (q - c) / 1024 * 1024 ≤ q - c := Nat.div_mul_le_self _ _
    rw [mask_combine s _ q h16 (by omega), htp,
      div_mul_of_dvd_add P _ ((q - c) / 1024 * 1024) hdr (by omega),
      mod_of_dvd_add P c q hdc hcq hqc]
    congr 2; omega

theorem inv_empty (L : Nat) (hL : 1 ≤ L) : Inv L empty_tbl := by
  intro q
  rw [walkL_empty _ (idxs_ne_nil L q (by omega))]
  trivial

theorem fresh_empty (L : Nat) (hL : 2 ≤ L) (x : Nat) : FreshBlk L empty_tbl x := by
  intro b _ _
  exact ⟨_, walkL_empty _ (idxs_ne_nil (L - 1) b (by omega))⟩

/-- C1 (amended). Round trip of `vptbl_map` and `vptbl_xlate` on a table of at least two
levels that can hold the range: for the empty table, `levels ≥ 2`, `n ≥ 1`,
`gpn + n < 2 ^ 32`, `gpn + n ≤ 2 ^ (10 * levels)`, `rpn + n ≤ 2 ^ 32` and `attr` with
`PTE_VALID`, the call `vptbl_map(tbl, gpn, rpn, n, attr, levels)` completes and
afterwards, for every `i < n`, `vptbl_xlate(tbl, gpn + i, &a, levels)` returns `rpn + i`
with `PTE_VALID` set in `a`. -/
theorem vptbl_map_xlate_round_trip (levels gpn rpn n attr : Nat) (hL : 2 ≤ levels)
    (hn : 1 ≤ n) (hg : gpn + n < 2 ^ 32) (hcap : gpn + n ≤ 2 ^ (10 * levels))
    (hr : rpn + n ≤ 2 ^ 32) (hv : attr &&& PTE_VALID ≠ 0) :
    (vptbl_map empty_tbl gpn rpn n attr levels).1 = map_status.done ∧
      ∀ i, i < n → ∃ a,
        vptbl_xlate (vptbl_map empty_tbl gpn rpn n attr levels).2 (gpn + i) levels
          = Except.ok (rpn + i, a) ∧ a &&& PTE_VALID ≠ 0 := by
  have P := map_post levels empty_tbl gpn rpn n attr (inv_empty levels (by omega)) hg hcap hr
    (by omega)
  rcases P with ⟨hd, r, a, hM⟩ | ⟨_, _, _, _, hnf⟩
  · refine ⟨hd, fun i hi => ?_⟩
    obtain ⟨s, _, _, hx⟩ := xlate_written levels _ gpn rpn attr (gpn + n) (gpn + i) hv
      (by omega) (hM.wr (gpn + i) (by omega) (by omega))
    refine ⟨set_size attr s, ?_, by rw [set_size_valid]; exact hv⟩
    rw [hx]; congr 2; omega
  · exfalso
    apply hnf
    refine ⟨fresh_empty levels hL gpn, fun q _ _ => ?_⟩
    unfold PageCls
    rw [walkL_empty _ (idxs_ne_nil levels q (by omega))]
    rfl

/-- Witness of C1: `gpn = 0x1`, `rpn = 0x5`, `n = 1` on a two-level table. -/
theorem vptbl_map_xlate_round_trip_witness :
    (vptbl_map empty_tbl 1 5 1 0x4f 2).1 = map_status.done ∧
      ∀ i, i < 1 → ∃ a,
        vptbl_xlate (vptbl_map empty_tbl 1 5 1 0x4f 2).2 (1 + i) 2 = Except.ok (5 + i, a) ∧
          a &&& PTE_VALID ≠ 0 :=
  vptbl_map_xlate_round_trip 2 1 5 1 0x4f (by decide) (by decide) (by decide) (by decide)
    (by decide) (by decide)

/-- C1 (counterexample). With `levels = 1` the call `vptbl_map(tbl, 0, 0x400, 0x400,
attr, 1)` on the empty table, over the 4 MiB that a one-level table indexes, chooses one
4 MiB chunk, calls `vptbl_get_ptep` with no level left and halts in its `BUG()`; page `0`
is not translated to `0x400`. -/
theorem vptbl_map_xlate_round_trip_counterexample :
    (vptbl_map empty_tbl 0 0x400 0x400 0x7f 1).1 = map_status.halt Fault.bug ∧
      ¬ ∃ a, vptbl_xlate (vptbl_map empty_tbl 0 0x400 0x400 0x7f 1).2 0 1
          = Except.ok (0x400, a) ∧ a &&& PTE_VALID ≠ 0 := by
  refine ⟨by decide, ?_⟩
  have h : vptbl_xlate (vptbl_map empty_tbl 0 0x400 0x400 0x7f 1).2 0 1
      = Except.ok (0, 0) := by decide
  rintro ⟨a, h1, _⟩
  rw [h] at h1
  simp only [Except.ok.injEq, Prod.mk.injEq] at h1
  omega

theorem walkL_miss_lt (is : List Nat) : ∀ (T : Table) (lv p a : Nat),
    walkL T is = walk_res.miss lv p a → lv < is.length := by
  induction is with
  | nil => intro T lv p a h; simp [walkL] at h
  | cons i is ih =>
    intro T lv p a h
    rw [walkL_cons] at h
    cases hT : T i with
    | dir sub =>
      rw [hT] at h
      have := ih sub lv p a h
      simp only [List.length_cons]; omega
    | leaf pg at' =>
      rw [hT] at h
      simp only [enter] at h
      by_cases hv : at' &&& PTE_VALID = 0
      · simp only [hv, if_true, walk_res.miss.injEq] at h
        simp only [List.length_cons]; omega
      · by_cases hs : at' &&& PTE_SIZE ≠ 0
        · simp [hv, hs] at h
        · simp [hv, hs] at h

/-- Pages that agree above the low `10 * lv` bits miss at the same entry. -/
theorem miss_same_entry (L : Nat) (T : Table) (p q lv pg a : Nat)
    (h : walkL T (idxs L p) = walk_res.miss lv pg a)
    (hq : q >>> (PGDIR_SHIFT * lv) = p >>> (PGDIR_SHIFT * lv)) :
    walkL T (idxs L q) = walk_res.miss lv pg a := by
  have hlt := walkL_miss_lt _ _ _ _ _ h
  rw [idxs_length] at hlt
  have sp := idxs_split (L - lv) lv p
  have sq := idxs_split (L - lv) lv q
  rw [Nat.sub_add_cancel (by omega)] at sp sq
  rw [sp, walkL_append] at h
  rw [sq, hq, walkL_append]
  cases hw : walkL T (idxs (L - lv) (p >>> (PGDIR_SHIFT * lv))) with
  | tbl S =>
    rw [hw] at h; simp only [] at h
    have := walkL_miss_lt _ _ _ _ _ h
    rw [idxs_length] at this; omega
  | miss l0 p0 a0 =>
    rw [hw] at h; simp only [idxs_length, walk_res.miss.injEq] at h ⊢
    exact h
  | hit l0 p0 a0 => rw [hw] at h; simp at h
  | nosize l0 p0 a0 => rw [hw] at h; simp at h

theorem or_low_mask (p k : Nat) : p ||| (2 ^ k - 1) = p / 2 ^ k * 2 ^ k + (2 ^ k - 1) := by
  have h2 : 0 < 2 ^ k := Nat.two_pow_pos _
  rw [Nat.mul_comm, Nat.mul_add_lt_is_or (by omega)]
  apply Nat.eq_of_testBit_eq
  intro i
  rw [Nat.testBit_or, Nat.testBit_or, Nat.testBit_mul_pow_two, ← Nat.shiftRight_eq_div_pow,
    Nat.testBit_shiftRight, Nat.testBit_two_pow_sub_one]
  by_cases hik : i < k
  · simp [hik]
  · have : k + (i - k) = i := by omega
    simp [hik, this, Nat.not_lt.mp hik]

/-- The pages between `p & ~h` and `p | h`, for the hint `h` of level `lv`, agree with `p`
above the low `10 * lv` bits. -/
theorem hint_range (p q lv : Nat) (hp : p < 2 ^ 32)
    (h1 : p &&& not32 (hole_hint lv) ≤ q) (h2 : q ≤ p ||| hole_hint lv) :
    q >>> (PGDIR_SHIFT * lv) = p >>> (PGDIR_SHIFT * lv) := by
  have e : PGDIR_SHIFT * lv = 10 * lv := rfl
  rw [e, Nat.shiftRight_eq_div_pow, Nat.shiftRight_eq_div_pow]
  by_cases hk : 10 * lv < 32
  · have hh : hole_hint lv = 2 ^ (10 * lv) - 1 := by
      unfold hole_hint
      rw [e, shl32_one _ hk, sub32_one _ (Nat.two_pow_pos _) (Nat.pow_lt_pow_right (by norm_num) hk)]
    rw [hh, not32_pow _ (by omega), and_high_mask p _ hp (by omega)] at h1
    rw [hh, or_low_mask] at h2
    have hpos : 0 < 2 ^ (10 * lv) := Nat.two_pow_pos _
    generalize 2 ^ (10 * lv) = P at *
    have a1 : p / P ≤ q / P := by
      rw [Nat.le_div_iff_mul_le hpos]; exact h1
    have a2 : q / P ≤ p / P := by
      rw [← Nat.lt_succ_iff, Nat.div_lt_iff_lt_mul hpos, Nat.succ_mul]; omega
    omega
  · have hh : hole_hint lv = 2 ^ 32 - 1 := by
      unfold hole_hint shl32
      rw [e, Nat.shiftLeft_eq, Nat.one_mul]
      have : (2 : Nat) ^ (10 * lv) = 2 ^ 32 * 2 ^ (10 * lv - 32) := by
        rw [← pow_add]; congr 1; omega
      rw [this]
      unfold WORD
      rw [Nat.mul_mod_right]
      rfl
    rw [hh] at h2
    have hq : q < 2 ^ 32 := by
      have : p ||| (2 ^ 32 - 1) < 2 ^ 32 := Nat.or_lt_two_pow hp (by norm_num)
      omega
    have hle : 2 ^ 32 ≤ 2 ^ (10 * lv) := Nat.pow_le_pow_right (by norm_num) (by omega)
    rw [Nat.div_eq_of_lt (by omega), Nat.div_eq_of_lt (by omega)]

theorem xl_hit_attr (q lv p a h attr : Nat) (hva : a &&& PTE_VALID ≠ 0)
    (hx : xl_hit q lv p a = Except.ok (h, attr)) : attr = a := by
  unfold xl_hit at hx
  rw [if_neg hva] at hx
  by_cases hc : (if lv = 0 then decide (a >>> PTE_SIZE_SHIFT < TLB_TSIZE_4M)
      else decide (lv = 1) && decide (a >>> PTE_SIZE_SHIFT ≥ TLB_TSIZE_4M)) = false
  · rw [if_pos hc] at hx; simp at hx
  · rw [if_neg hc] at hx
    simp only [Except.ok.injEq, Prod.mk.injEq] at hx
    exact hx.2.symm

/-- C7. Hole reporting by `vptbl_xlate`: for every table, every depth and every page `p`
(an `unsigned long`), if `vptbl_xlate(tbl, p, &attr, levels)` returns with `attr` lacking
`PTE_VALID`, then `attr = 0` and no page `q` with `(p & ~h) ≤ q ≤ (p | h)`, `h` the returned
hint, has a valid translation: `vptbl_xlate` reports a hole for each of them. -/
theorem vptbl_xlate_hole_hint (tbl : Table) (levels p h attr : Nat) (hp : p < 2 ^ 32)
    (hx : vptbl_xlate tbl p levels = Except.ok (h, attr)) (hv : attr &&& PTE_VALID = 0) :
    attr = 0 ∧ ∀ q, p &&& not32 h ≤ q → q ≤ p ||| h →
      ∃ h', vptbl_xlate tbl q levels = Except.ok (h', 0) := by
  rw [xlate_eq] at hx
  cases hw : walkL tbl (idxs levels p) with
  | tbl S => rw [hw] at hx; simp at hx
  | nosize lv pg a => rw [hw] at hx; simp at hx
  | hit lv pg a =>
    rw [hw] at hx
    have hva := (walkL_hit_sized _ _ _ _ _ hw).1
    simp only [] at hx
    rw [xl_hit_attr _ _ _ _ _ _ hva hx] at hv
    exact absurd hv hva
  | miss lv pg a =>
    rw [hw] at hx
    simp only [Except.ok.injEq, Prod.mk.injEq] at hx
    obtain ⟨hh, ha⟩ := hx
    refine ⟨ha.symm, fun q h1 h2 => ?_⟩
    rw [← hh] at h1 h2
    have := miss_same_entry levels tbl p q lv pg a hw (hint_range p q lv hp h1 h2)
    exact ⟨hole_hint lv, by rw [xlate_eq, this]⟩

/-- Witness of C7: page 5 of the empty two-level table. -/
theorem vptbl_xlate_hole_hint_witness :
    (0 : Nat) = 0 ∧ ∀ q, 5 &&& not32 1023 ≤ q → q ≤ 5 ||| 1023 →
      ∃ h', vptbl_xlate empty_tbl q 2 = Except.ok (h', 0) :=
  vptbl_xlate_hole_hint empty_tbl 2 5 1023 0 (by decide) (by decide) (by decide)

/-- A small-page chunk on a large page, at the first chunk of a call: for every table in
which page `gpn` is covered by a leaf found above level 0 (a large-page leaf), a call
`vptbl_map(tbl, gpn, rpn, n, attr, levels)` whose first chunk is a small-page mapping (size
class below `TLB_TSIZE_4M`) returns at that chunk with the conflict "large page overwritten
by a small page" logged, and the table is left as it was, so every page translates as
before the call. -/
theorem small_over_large_first_chunk (tbl : Table) (levels gpn rpn n attr : Nat)
    (path : List Nat) (lv : Nat) (tbl1 : Table)
    (hleaf : vptbl_get_ptep tbl levels gpn false = ptep_result.ptr path lv tbl1)
    (hlv : lv ≠ 0) (hn : 1 ≤ n) (hg : gpn + n < 2 ^ 32)
    (hsmall : min (max_page_size gpn n) (natural_alignment rpn) < TLB_TSIZE_4M) :
    (vptbl_map tbl gpn rpn n attr levels).1 = map_status.small_over_large ∧
      (vptbl_map tbl gpn rpn n attr levels).2 = tbl ∧
      ∀ q, vptbl_xlate (vptbl_map tbl gpn rpn n attr levels).2 q levels
        = vptbl_xlate tbl q levels := by
  have hw : ∃ p a, walkL tbl (idxs levels gpn) = walk_res.hit lv p a := by
    have h := get_ptep_false levels tbl gpn
    cases hw : walkL tbl (idxs levels gpn) with
    | tbl S => rw [hw] at h; simp only [] at h; rw [h] at hleaf; simp at hleaf
    | miss l p a => rw [hw] at h; simp only [] at h; rw [h] at hleaf; simp at hleaf
    | nosize l p a =>
      rw [hw] at h; simp only [] at h; rw [h] at hleaf
      by_cases hl : l = 0 <;> simp [hl] at hleaf
    | hit l p a =>
      rw [hw] at h; simp only [] at h
      obtain ⟨path', T1, h1, _, _⟩ := h
      rw [h1] at hleaf
      simp only [ptep_result.ptr.injEq] at hleaf
      exact ⟨p, a, by rw [hleaf.2.1]⟩
  obtain ⟨p, a, hw⟩ := hw
  have key : vptbl_map tbl gpn rpn n attr levels = (map_status.small_over_large, tbl) := by
    unfold vptbl_map
    rw [add32_eq _ _ hg]
    simp only [vptbl_map_loop]
    rw [if_pos (by omega)]
    have hlen : sub32 (gpn + n) gpn = n := by rw [sub32_eq _ _ (by omega) hg]; omega
    obtain ⟨hs1, hs16, hsp, hsple, _, _⟩ := chunk_size_facts gpn n rpn (by omega) (by omega)
    have hpos : 0 < 2 ^ (min (max_page_size gpn n) (natural_alignment rpn) * 2 - 2) :=
      Nat.two_pow_pos _
    have hchunk : vptbl_map_chunk levels (gpn + n) tbl gpn rpn attr
        = loop_result.stop map_status.small_over_large tbl := by
      unfold vptbl_map_chunk
      simp only [hlen]
      rw [if_neg (by simpa using hsple), if_neg (by simp; omega)]
      rw [if_neg (by omega : ¬ min (max_page_size gpn n) (natural_alignment rpn) ≥ TLB_TSIZE_4M)]
      simp only [vptbl_map_inner]
      rw [if_pos (by rw [add32_eq _ _ (by omega)]; omega)]
      have S := step_spec levels 0 (if (0 : Nat) = 1 then PGDIR_SIZE - 1 else 0)
        (attr &&& not32 PTE_SIZE |||
          shl32 (min (max_page_size gpn n) (natural_alignment rpn)) PTE_SIZE_SHIFT) tbl gpn rpn
      simp only [Nat.sub_zero, Nat.mul_zero, Nat.shiftRight_zero] at S
      rw [hw] at S
      simp only [] at S
      rw [if_pos ⟨trivial, hlv⟩] at S
      rw [S]
    rw [hchunk]
  rw [key]
  exact ⟨rfl, rfl, fun _ => rfl⟩

/-- Block 1 of a two-level table is one 4 MiB page, and one small page is mapped at its
first page. -/
theorem small_over_large_first_chunk_example :
    (vptbl_map (vptbl_map empty_tbl 0x400 0x400 0x400 0x7f 2).2 0x400 0x7 1 0x7f 2).1
        = map_status.small_over_large ∧
      (vptbl_map (vptbl_map empty_tbl 0x400 0x400 0x400 0x7f 2).2 0x400 0x7 1 0x7f 2).2
        = (vptbl_map empty_tbl 0x400 0x400 0x400 0x7f 2).2 ∧
      ∀ q, vptbl_xlate
          (vptbl_map (vptbl_map empty_tbl 0x400 0x400 0x400 0x7f 2).2 0x400 0x7 1 0x7f 2).2 q 2
        = vptbl_xlate (vptbl_map empty_tbl 0x400 0x400 0x400 0x7f 2).2 q 2 :=
  small_over_large_first_chunk (vptbl_map empty_tbl 0x400 0x400 0x400 0x7f 2).2 2 0x400 0x7 1 0x7f
    [1] 1 (vptbl_map empty_tbl 0x400 0x400 0x400 0x7f 2).2
    (by rfl)
    (by decide) (by decide) (by decide) (by decide)

set_option maxRecDepth 100000 in
/-- C8 (counterexample). In a two-level table whose block 1 is one 4 MiB page and whose
page `0x3ff` is mapped to `0x9`, the call `vptbl_map(tbl, 0x3ff, 0x7, 2, attr, 2)` writes
the chunk of page `0x3ff` and only then returns at the chunk of page `0x400` with the
conflict logged: page `0x400`, covered by the large page, is refused, but page `0x3ff`
now translates to `0x7`, not to `0x9` as before the call. -/
theorem vptbl_map_small_over_large_counterexample :
    vptbl_xlate (vptbl_map (vptbl_map empty_tbl 0x400 0x400 0x400 0x7f 2).2 0x3ff 0x9 1 0x7f 2).2
        0x3ff 2 = Except.ok (0x9, 0x107f) ∧
    (vptbl_map (vptbl_map (vptbl_map empty_tbl 0x400 0x400 0x400 0x7f 2).2 0x3ff 0x9 1 0x7f 2).2
        0x3ff 0x7 2 0x7f 2).1 = map_status.small_over_large ∧
    vptbl_xlate
      (vptbl_map (vptbl_map (vptbl_map empty_tbl 0x400 0x400 0x400 0x7f 2).2 0x3ff 0x9 1 0x7f 2).2
        0x3ff 0x7 2 0x7f 2).2 0x3ff 2 = Except.ok (0x7, 0x107f) := by
  refine ⟨by decide, by decide, by decide⟩

set_option maxRecDepth 100000 in
/-- C9 (failing input). Page `0x401` of a two-level table holds a small page, so the
directory entry of block 1 points to a lower-level table; the call
`vptbl_map(tbl, 0x400, 0x400, 0x400, attr, 2)`, one 4 MiB chunk over that block, does not
return: `vptbl_get_ptep` runs out of levels at the directory entry and halts in
`BUG()`, before the check of `vptbl_map` for this conflict is reached. -/
theorem vptbl_map_large_over_small_bug :
    vptbl_xlate (vptbl_map empty_tbl 0x401 0x5 1 0x7f 2).2 0x401 2 = Except.ok (0x5, 0x107f) ∧
    (vptbl_map (vptbl_map empty_tbl 0x401 0x5 1 0x7f 2).2 0x400 0x400 0x400 0x7f 2).1
      = map_status.halt Fault.bug := by
  refine ⟨by decide, by decide⟩

/-- The tables the code can build: the empty table, and what a call of `vptbl_map` with
any arguments leaves of such a table. -/
inductive Reachable (levels : Nat) : Table → Prop where
  | empty : Reachable levels empty_tbl
  | map (tbl : Table) (epn rpn npages attr : Nat) :
      Reachable levels tbl → Reachable levels (vptbl_map tbl epn rpn npages attr levels).2

theorem reachable_inv (levels : Nat) (hL : 1 ≤ levels) (tbl : Table)
    (h : Reachable levels tbl) : Inv levels tbl := by
  induction h with
  | empty => exact inv_empty levels hL
  | map tbl epn rpn npages attr _ ih => exact (map_inv levels tbl epn rpn npages attr ih).1

/-- C10. Leaf-level invariant of the guest-physical table: in every table reachable from
the empty table by calls of `vptbl_map` (any arguments, one depth `levels`), a leaf that
the walk of any page finds at level 0 has a size class below `TLB_TSIZE_4M`, a leaf found
above level 0 is at level 1 with a size class of at least `TLB_TSIZE_4M`, no assertion of
`vptbl_xlate` fails, and with at least one level `vptbl_xlate` returns. -/
theorem vptbl_leaf_level_invariant (levels : Nat) (tbl : Table) (h : Reachable levels tbl)
    (q : Nat) :
    (∀ path lv tbl1, vptbl_get_ptep tbl levels q false = ptep_result.ptr path lv tbl1 →
      (lv = 0 ∧ (pte_read tbl path).attr >>> PTE_SIZE_SHIFT < TLB_TSIZE_4M) ∨
      (lv = 1 ∧ TLB_TSIZE_4M ≤ (pte_read tbl path).attr >>> PTE_SIZE_SHIFT)) ∧
    vptbl_xlate tbl q levels ≠ Except.error Fault.assert_fail ∧
    (1 ≤ levels → ∃ r, vptbl_xlate tbl q levels = Except.ok r) := by
  by_cases hL : 1 ≤ levels
  · have hI := reachable_inv levels hL tbl h q
    have hg := get_ptep_false levels tbl q
    have hx := xlate_eq tbl q levels
    cases hw : walkL tbl (idxs levels q) with
    | tbl S => rw [hw] at hI; exact absurd hI (by simp [walk_res.cls, GoodCls])
    | nosize lv p a => rw [hw] at hI; exact absurd hI (by simp [walk_res.cls, GoodCls])
    | miss lv p a =>
      rw [hw] at hg hx; simp only [] at hg hx
      refine ⟨fun path lv' t1 hp => ?_, by rw [hx]; simp, fun _ => ⟨_, hx⟩⟩
      rw [hg] at hp; simp at hp
    | hit lv p a =>
      rw [hw] at hg hx hI; simp only [walk_res.cls, GoodCls] at hg hx hI
      obtain ⟨path', T1, h1, _, h3⟩ := hg
      have hva := (walkL_hit_sized _ _ _ _ _ hw).1
      have hxl : xl_hit q lv p a = Except.ok
          ((p &&& not32 (sub32 (tsize_to_pages (a >>> PTE_SIZE_SHIFT)) 1)) |||
            (q &&& sub32 (tsize_to_pages (a >>> PTE_SIZE_SHIFT)) 1), a) := by
        unfold xl_hit
        rw [if_neg hva]
        rcases hI with ⟨h0, hs⟩ | ⟨h1', hs⟩
        · simp [h0, hs]
        · simp [h1', hs]
      refine ⟨fun path lv' t1 hp => ?_, by rw [hx, hxl]; simp, fun _ => ⟨_, by rw [hx, hxl]⟩⟩
      rw [h1] at hp
      simp only [ptep_result.ptr.injEq] at hp
      obtain ⟨rfl, rfl, _⟩ := hp
      rw [h3]
      exact hI
  · have h0 : levels = 0 := by omega
    subst h0
    refine ⟨fun path lv t1 hp => ?_, ?_, fun h => absurd h hL⟩
    · simp [vptbl_get_ptep] at hp
    · simp [vptbl_xlate, vptbl_get_ptep]

/-- Witness of C10: the table left by mapping page 1 in the empty two-level table. -/
theorem vptbl_leaf_level_invariant_witness :
    (∀ path lv tbl1,
      vptbl_get_ptep (vptbl_map empty_tbl 1 5 1 0x4f 2).2 2 1 false = ptep_result.ptr path lv tbl1 →
      (lv = 0 ∧ (pte_read (vptbl_map empty_tbl 1 5 1 0x4f 2).2 path).attr >>> PTE_SIZE_SHIFT
          < TLB_TSIZE_4M) ∨
      (lv = 1 ∧ TLB_TSIZE_4M ≤
          (pte_read (vptbl_map empty_tbl 1 5 1 0x4f 2).2 path).attr >>> PTE_SIZE_SHIFT)) ∧
    vptbl_xlate (vptbl_map empty_tbl 1 5 1 0x4f 2).2 1 2 ≠ Except.error Fault.assert_fail ∧
    (1 ≤ 2 → ∃ r, vptbl_xlate (vptbl_map empty_tbl 1 5 1 0x4f 2).2 1 2 = Except.ok r) :=
  vptbl_leaf_level_invariant 2 (vptbl_map empty_tbl 1 5 1 0x4f 2).2
    (Reachable.map empty_tbl 1 5 1 0x4f Reachable.empty) 1

/-- The guest-physical page `guest_tlb1_miss` looks up for logical entry `e` and the
faulting page `epn`: the `grpn` of the entry plus the offset of `epn` in the entry. -/
def entry_grpn (e : tlb_entry_t) (epn : Nat) : Nat :=
  add32 ((e.mas3 >>> PAGE_SHIFT) ||| shl32 e.mas7 (32 - PAGE_SHIFT))
    (sub32 epn (e.mas2 >>> PAGE_SHIFT))

/-- The all-zero state of a virtual core, with an empty guest-physical table. -/
def gcpu_zero : gcpu_t :=
  { gtlb1 := fun _ => { mas1 := 0, mas2 := 0, mas3 := 0, mas7 := 0 },
    tlb1_inuse := fun _ => 0,
    tlb1_map := fun _ _ => 0,
    evict_tlb1 := 0,
    tlb1 := fun _ => { mas1 := 0, va := 0, pa := 0, tsize := 0, mas2flags := 0, mas3flags := 0,
                       tid := 0, ts := 0, mas8 := 0 },
    gphys := empty_tbl,
    lpid := 0 }

/-- The loop of `guest_tlb1_miss` passes over entries that fail the tests. -/
theorem miss_loop_skip (g : gcpu_t) (epn space pid : Nat) : ∀ n i k,
    k ≤ n → (∀ j, i ≤ j → j < i + k → tlb1_entry_hit (g.gtlb1 j) epn space pid = false) →
    guest_tlb1_miss_loop g epn space pid n i = guest_tlb1_miss_loop g epn space pid (n - k) (i + k) := by
  intro n
  induction n with
  | zero => intro i k hk _; have : k = 0 := by omega
            subst this; rfl
  | succ n ih =>
    intro i k hk hj
    cases k with
    | zero => rfl
    | succ k =>
      simp only [guest_tlb1_miss_loop]
      rw [hj i (le_refl _) (by omega)]
      simp only [Bool.false_eq_true, if_false]
      rw [ih (i + 1) k (by omega) (fun j h1 h2 => hj j (by omega) (by omega))]
      congr 1 <;> omega

/-- `guest_tlb1_miss` is decided by the lowest-index entry that passes the tests. -/
theorem miss_first_hit (g : gcpu_t) (vaddr space pid i : Nat) (hi : i < TLB1_GSIZE)
    (hhit : tlb1_entry_hit (g.gtlb1 i) (vaddr >>> PAGE_SHIFT) space pid = true)
    (hlow : ∀ j, j < i → tlb1_entry_hit (g.gtlb1 j) (vaddr >>> PAGE_SHIFT) space pid = false) :
    guest_tlb1_miss g vaddr space pid = guest_tlb1_fill g i (vaddr >>> PAGE_SHIFT) space pid := by
  unfold guest_tlb1_miss
  rw [miss_loop_skip g _ space pid TLB1_GSIZE 0 i (by omega) (fun j _ h2 => hlow j (by omega))]
  have : TLB1_GSIZE - i = (TLB1_GSIZE - i - 1) + 1 := by omega
  rw [this]
  simp only [guest_tlb1_miss_loop, Nat.zero_add, hhit, if_true]

theorem miss_no_hit (g : gcpu_t) (vaddr space pid : Nat)
    (hno : ∀ j, j < TLB1_GSIZE → tlb1_entry_hit (g.gtlb1 j) (vaddr >>> PAGE_SHIFT) space pid = false) :
    guest_tlb1_miss g vaddr space pid = Except.ok (tlb_miss.TLB_MISS_REFLECT, g) := by
  unfold guest_tlb1_miss
  rw [miss_loop_skip g _ space pid TLB1_GSIZE 0 TLB1_GSIZE (le_refl _)
    (fun j _ h2 => hno j (by omega))]
  simp [guest_tlb1_miss_loop]

/-- The lowest index below `n` at which a test holds, if any. -/
theorem exists_first (P : Nat → Bool) (n : Nat) :
    (∀ j, j < n → P j = false) ∨ ∃ i, i < n ∧ P i = true ∧ ∀ j, j < i → P j = false := by
  induction n with
  | zero => left; intro j hj; omega
  | succ n ih =>
    rcases ih with h | ⟨i, hi, hp, hl⟩
    · by_cases hn : P n = true
      · right; exact ⟨n, by omega, hn, h⟩
      · left; intro j hj
        by_cases hjn : j = n
        · subst hjn; simpa using hn
        · exact h j (by omega)
    · right; exact ⟨i, by omega, hp, hl⟩

theorem fill_not_reflect (g : gcpu_t) (i epn space pid : Nat) (g' : gcpu_t) :
    guest_tlb1_fill g i epn space pid ≠ Except.ok (tlb_miss.TLB_MISS_REFLECT, g') := by
  unfold guest_tlb1_fill
  simp only []
  cases vptbl_xlate g.gphys _ PTE_PHYS_LEVELS with
  | error f => simp
  | ok ra =>
    obtain ⟨r, a⟩ := ra
    simp only []
    split <;> simp

/-- C2. `guest_tlb1_miss` returns `TLB_MISS_MCHECK` without installing anything: for every
state, `vaddr`, `space` and `pid`, if `i` is the lowest-index logical entry that passes
the tests of the loop and `vptbl_xlate` of its guest-physical page returns an `attr`
without `PTE_VALID`, then `guest_tlb1_miss` returns `TLB_MISS_MCHECK` and leaves the
state (physical slots, `tlb1_inuse`, `tlb1_map`, the eviction cursor, the logical entries)
as it was. -/
theorem guest_tlb1_miss_mcheck (g : gcpu_t) (vaddr space pid i rpn attr : Nat)
    (hi : i < TLB1_GSIZE)
    (hhit : tlb1_entry_hit (g.gtlb1 i) (vaddr >>> PAGE_SHIFT) space pid = true)
    (hlow : ∀ j, j < i → tlb1_entry_hit (g.gtlb1 j) (vaddr >>> PAGE_SHIFT) space pid = false)
    (hx : vptbl_xlate g.gphys (entry_grpn (g.gtlb1 i) (vaddr >>> PAGE_SHIFT)) PTE_PHYS_LEVELS
      = Except.ok (rpn, attr))
    (hv : attr &&& PTE_VALID = 0) :
    guest_tlb1_miss g vaddr space pid = Except.ok (tlb_miss.TLB_MISS_MCHECK, g) := by
  rw [miss_first_hit g vaddr space pid i hi hhit hlow]
  unfold guest_tlb1_fill
  unfold entry_grpn at hx
  simp only [hx, hv, if_true]

/-- A state with one valid logical entry: entry 0 maps the 16 MiB at effective address
`0x01000000` to guest-physical `0x01000000`, address space 0, pid 0. -/
def gcpu_one (gphys : Table) : gcpu_t :=
  { gcpu_zero with
    gtlb1 := arr_set gcpu_zero.gtlb1 0
      { mas1 := 0x80000700, mas2 := 0x01000000, mas3 := 0x0100003f, mas7 := 0 },
    gphys := gphys }

/-- Witness of C2: the guest-physical table is empty, so the page behind entry 0 is a
hole. -/
theorem guest_tlb1_miss_mcheck_witness :
    guest_tlb1_miss (gcpu_one empty_tbl) 0x01000000 0 0
      = Except.ok (tlb_miss.TLB_MISS_MCHECK, gcpu_one empty_tbl) :=
  guest_tlb1_miss_mcheck (gcpu_one empty_tbl) 0x01000000 0 0 0 1023 0 (by decide) (by decide)
    (fun j hj => absurd hj (by omega)) (by decide) (by decide)

/-- Following the words of the claim: logical entry `e` matches `(vaddr, space, pid)` iff
it has `MAS1_VALID`, its TS bit equals `space`, `pid = 0` or its TID is 0 or its TID is
`pid`, and `epn_e ≤ vaddr >> PAGE_SHIFT < epn_e + tsize_to_pages(tsize_e)`. -/
def entry_matches (e : tlb_entry_t) (vaddr space pid : Nat) : Prop :=
  e.mas1 &&& MAS1_VALID ≠ 0 ∧
  (e.mas1 >>> MAS1_TS_SHIFT) &&& 1 = space ∧
  (pid = 0 ∨ MAS1_GETTID e.mas1 = 0 ∨ MAS1_GETTID e.mas1 = pid) ∧
  e.mas2 >>> PAGE_SHIFT ≤ vaddr >>> PAGE_SHIFT ∧
  vaddr >>> PAGE_SHIFT < (e.mas2 >>> PAGE_SHIFT) + tsize_to_pages (MAS1_GETTSIZE e.mas1)

theorem gettsize_le (mas1 : Nat) : MAS1_GETTSIZE mas1 ≤ 15 := by
  unfold MAS1_GETTSIZE MAS1_TSIZE_MASK MAS1_TSIZE_SHIFT
  have : mas1 &&& 0xf00 ≤ 0xf00 := Nat.and_le_right
  rw [Nat.shiftRight_eq_div_pow]
  omega

theorem tsize_pages_le (t : Nat) (ht : t ≤ 15) : tsize_to_pages t ≤ 2 ^ 28 := by
  rw [tsize_to_pages_eq t (by omega)]
  exact Nat.pow_le_pow_right (by norm_num) (by omega)

theorem ts_test (mas1 space : Nat) (hsp : space < 2) :
    shl32 space MAS1_TS_SHIFT = mas1 &&& MAS1_TS ↔ (mas1 >>> MAS1_TS_SHIFT) &&& 1 = space := by
  have h1 : MAS1_TS = 2 ^ 12 := by decide
  have h2 : (1 : Nat) = 2 ^ 1 - 1 := by decide
  unfold shl32 WORD MAS1_TS_SHIFT
  rw [h1, Nat.and_two_pow, Nat.shiftLeft_eq, Nat.mod_eq_of_lt (by omega)]
  conv_rhs => rw [h2, Nat.and_pow_two_sub_one_eq_mod, Nat.shiftRight_eq_div_pow]
  rw [Nat.toNat_testBit]
  omega

theorem hit_true_iff (e : tlb_entry_t) (epn space pid : Nat) :
    tlb1_entry_hit e epn space pid = true ↔
      (¬ e.mas1 &&& MAS1_VALID = 0) ∧ (¬ shl32 space MAS1_TS_SHIFT ≠ e.mas1 &&& MAS1_TS) ∧
      (¬ (pid ≠ 0 ∧ MAS1_GETTID e.mas1 ≠ 0 ∧ pid ≠ MAS1_GETTID e.mas1)) ∧
      (¬ e.mas2 >>> PAGE_SHIFT > epn) ∧
      (¬ add32 (e.mas2 >>> PAGE_SHIFT) (tsize_to_pages (MAS1_GETTSIZE e.mas1)) ≤ epn) := by
  unfold tlb1_entry_hit
  simp only []
  by_cases h1 : e.mas1 &&& MAS1_VALID = 0
  · rw [if_pos h1]
    simp only [Bool.false_eq_true, false_iff]
    exact fun h => h.1 h1
  · rw [if_neg h1]
    by_cases h2 : shl32 space MAS1_TS_SHIFT ≠ e.mas1 &&& MAS1_TS
    · rw [if_pos h2]
      simp only [Bool.false_eq_true, false_iff]
      exact fun h => h.2.1 h2
    · rw [if_neg h2]
      by_cases h3 : pid ≠ 0 ∧ MAS1_GETTID e.mas1 ≠ 0 ∧ pid ≠ MAS1_GETTID e.mas1
      · rw [if_pos h3]
        simp only [Bool.false_eq_true, false_iff]
        exact fun h => h.2.2.1 h3
      · rw [if_neg h3]
        by_cases h4 : e.mas2 >>> PAGE_SHIFT > epn
        · rw [if_pos h4]
          simp only [Bool.false_eq_true, false_iff]
          exact fun h => h.2.2.2.1 h4
        · rw [if_neg h4]
          by_cases h5 : add32 (e.mas2 >>> PAGE_SHIFT) (tsize_to_pages (MAS1_GETTSIZE e.mas1)) ≤ epn
          · rw [if_pos h5]
            simp only [Bool.false_eq_true, false_iff]
            exact fun h => h.2.2.2.2 h5
          · rw [if_neg h5]
            simp only [true_iff]
            exact ⟨h1, h2, h3, h4, h5⟩

theorem hit_iff_matches (e : tlb_entry_t) (vaddr space pid : Nat) (hsp : space < 2)
    (hm2 : e.mas2 < 2 ^ 32) :
    tlb1_entry_hit e (vaddr >>> PAGE_SHIFT) space pid = true ↔ entry_matches e vaddr space pid := by
  have hE : e.mas2 >>> PAGE_SHIFT < 2 ^ 20 := by
    rw [Nat.shiftRight_eq_div_pow]; unfold PAGE_SHIFT; omega
  have hP := tsize_pages_le _ (gettsize_le e.mas1)
  have hadd : add32 (e.mas2 >>> PAGE_SHIFT) (tsize_to_pages (MAS1_GETTSIZE e.mas1))
      = e.mas2 >>> PAGE_SHIFT + tsize_to_pages (MAS1_GETTSIZE e.mas1) := add32_eq _ _ (by omega)
  have hts := ts_test e.mas1 space hsp
  rw [hit_true_iff, hadd]
  unfold entry_matches
  constructor
  · rintro ⟨h1, h2, h3, h4, h5⟩
    refine ⟨h1, hts.mp (not_not.mp h2), ?_, by omega, by omega⟩
    by_contra hc
    push_neg at hc
    exact h3 ⟨hc.1, hc.2.1, fun h => hc.2.2 h.symm⟩
  · rintro ⟨h1, h2, h3, h4, h5⟩
    refine ⟨h1, not_not.mpr (hts.mpr h2), ?_, by omega, by omega⟩
    rintro ⟨a, b, c⟩
    rcases h3 with h | h | h
    · exact a h
    · exact b h
    · exact c h.symm

/-- C5. `guest_tlb1_miss` scans the logical entries in index order and is decided by the
first match, with "matches" as the claim words it: for `space` 0 or 1 and entries whose
MAS2 is a 32-bit word, it returns `TLB_MISS_REFLECT` iff no entry below `TLB1_GSIZE`
matches, and otherwise it does what the body of the loop does for the lowest-index
matching entry, whatever the entries above it hold. -/
theorem guest_tlb1_miss_first_match (g : gcpu_t) (vaddr space pid : Nat) (hsp : space < 2)
    (hw : ∀ i, i < TLB1_GSIZE → (g.gtlb1 i).mas2 < 2 ^ 32) :
    ((∃ g', guest_tlb1_miss g vaddr space pid = Except.ok (tlb_miss.TLB_MISS_REFLECT, g')) ↔
      ∀ i, i < TLB1_GSIZE → ¬ entry_matches (g.gtlb1 i) vaddr space pid) ∧
    (∀ i, i < TLB1_GSIZE → entry_matches (g.gtlb1 i) vaddr space pid →
      (∀ j, j < i → ¬ entry_matches (g.gtlb1 j) vaddr space pid) →
      guest_tlb1_miss g vaddr space pid
        = guest_tlb1_fill g i (vaddr >>> PAGE_SHIFT) space pid) := by
  have key : ∀ i, i < TLB1_GSIZE → entry_matches (g.gtlb1 i) vaddr space pid →
      (∀ j, j < i → ¬ entry_matches (g.gtlb1 j) vaddr space pid) →
      guest_tlb1_miss g vaddr space pid
        = guest_tlb1_fill g i (vaddr >>> PAGE_SHIFT) space pid := by
    intro i hi hm hl
    apply miss_first_hit g vaddr space pid i hi
    · exact (hit_iff_matches _ _ _ _ hsp (hw i hi)).mpr hm
    · intro j hj
      have := hl j hj
      rw [← hit_iff_matches _ _ _ _ hsp (hw j (by omega))] at this
      simpa using this
  refine ⟨⟨?_, ?_⟩, key⟩
  · rintro ⟨g', hg⟩ i hi hm
    rcases exists_first (fun j => tlb1_entry_hit (g.gtlb1 j) (vaddr >>> PAGE_SHIFT) space pid)
      TLB1_GSIZE with h | ⟨k, hk, hp, hl⟩
    · have := h i hi
      simp only [] at this
      rw [(hit_iff_matches _ _ _ _ hsp (hw i hi)).mpr hm] at this
      simp at this
    · rw [miss_first_hit g vaddr space pid k hk hp hl] at hg
      exact fill_not_reflect _ _ _ _ _ _ hg
  · intro hno
    refine ⟨g, miss_no_hit g vaddr space pid (fun j hj => ?_)⟩
    have := hno j hj
    rw [← hit_iff_matches _ _ _ _ hsp (hw j hj)] at this
    simpa using this

/-- A state with two valid logical entries for the 16 MiB at effective address
`0x01000000`, address space 0, pid 0: entry 1 maps them to guest-physical `0x01000000`,
entry 3 to guest-physical `0x02000000`. The guest-physical table maps guest page `0x1000`
to real page 5 and nothing else, so entry 1 is backed at the faulting page and entry 3 is
not. -/
def gcpu_two : gcpu_t :=
  { gcpu_zero with
    gtlb1 := arr_set (arr_set gcpu_zero.gtlb1 1
        { mas1 := 0x80000700, mas2 := 0x01000000, mas3 := 0x0100003f, mas7 := 0 }) 3
      { mas1 := 0x80000700, mas2 := 0x01000000, mas3 := 0x0200003f, mas7 := 0 },
    gphys := (vptbl_map empty_tbl 0x1000 0x5 1 0x7f 2).2 }

/-- The state `guest_tlb1_miss(0x01000000, 0, 0)` leaves from `gcpu_two`: one 4 KiB slot,
bound to logical entry 1, from effective page `0x1000` to real page 5. -/
def gcpu_two_filled : gcpu_t :=
  tlb1_set_entry (alloc_tlb1 gcpu_two 1 true).1 (alloc_tlb1 gcpu_two 1 true).2.toNat
    0x01000000 0x5000 1 0x01000000 0x3f 0 0 MAS8_GTS

/-- Witness of C5: in `gcpu_two` the entries 1 and 3 both match the miss at `0x01000000`
and entry 0 does not. The call is decided by entry 1, the lowest match: it returns
`TLB_MISS_HANDLED` with the slot of entry 1, where entry 3 alone would have given
`TLB_MISS_MCHECK`; and it does not return `TLB_MISS_REFLECT`. -/
theorem guest_tlb1_miss_first_match_witness :
    entry_matches (gcpu_two.gtlb1 1) 0x01000000 0 0 ∧
    entry_matches (gcpu_two.gtlb1 3) 0x01000000 0 0 ∧
    ¬ entry_matches (gcpu_two.gtlb1 0) 0x01000000 0 0 ∧
    guest_tlb1_miss gcpu_two 0x01000000 0 0
      = guest_tlb1_fill gcpu_two 1 (0x01000000 >>> PAGE_SHIFT) 0 0 ∧
    guest_tlb1_fill gcpu_two 1 (0x01000000 >>> PAGE_SHIFT) 0 0
      = Except.ok (tlb_miss.TLB_MISS_HANDLED, gcpu_two_filled) ∧
    guest_tlb1_fill gcpu_two 3 (0x01000000 >>> PAGE_SHIFT) 0 0
      = Except.ok (tlb_miss.TLB_MISS_MCHECK, gcpu_two) ∧
    (gcpu_two_filled.tlb1_map 1 0 = 1 ∧ gcpu_two_filled.tlb1_map 3 0 = 0) ∧
    ¬ ∃ g', guest_tlb1_miss gcpu_two 0x01000000 0 0
      = Except.ok (tlb_miss.TLB_MISS_REFLECT, g') :=
  ⟨by unfold entry_matches; decide, by unfold entry_matches; decide,
    by unfold entry_matches; decide,
    (guest_tlb1_miss_first_match gcpu_two 0x01000000 0 0 (by decide) (by decide)).2 1
      (by decide) (by unfold entry_matches; decide)
      (fun j hj => by
        have h0 : j = 0 := by omega
        subst h0
        unfold entry_matches
        decide),
    by rfl, by rfl, ⟨by decide, by decide⟩,
    fun h => (guest_tlb1_miss_first_match gcpu_two 0x01000000 0 0 (by decide) (by decide)).1.mp
      h 1 (by decide) (by unfold entry_matches; decide)⟩

theorem and_high_mask_dvd (x k : Nat) (hk : k ≤ 32) : 2 ^ k ∣ x &&& (2 ^ 32 - 2 ^ k) := by
  have hM : 2 ^ 32 - 2 ^ k < 2 ^ 32 := by
    have := Nat.two_pow_pos k; omega
  have e : x &&& (2 ^ 32 - 2 ^ k) = (x % 2 ^ 32) &&& (2 ^ 32 - 2 ^ k) := by
    apply Nat.eq_of_testBit_eq
    intro i
    rw [Nat.testBit_and, Nat.testBit_and, Nat.testBit_mod_two_pow]
    by_cases hi : i < 32
    · simp [hi]
    · have : (2 ^ 32 - 2 ^ k).testBit i = false :=
        Nat.testBit_lt_two_pow (lt_of_lt_of_le hM (Nat.pow_le_pow_right (by norm_num) (by omega)))
      rw [this]; simp
  rw [e, and_high_mask _ k (Nat.mod_lt _ (by norm_num)) hk]
  exact Dvd.intro_left _ rfl

/-- `x & ~(pages - 1)` is a multiple of `pages`, the page count of a size class. -/
theorem mask_dvd (x t : Nat) (ht : t ≤ 16) :
    tsize_to_pages t ∣ x &&& not32 (sub32 (tsize_to_pages t) 1) := by
  rw [tsize_to_pages_eq t ht]
  have hk : t * 2 - 2 < 32 := by omega
  rw [sub32_one _ (Nat.two_pow_pos _) (Nat.pow_lt_pow_right (by norm_num) hk),
    not32_pow _ (by omega)]
  exact and_high_mask_dvd x _ (by omega)

theorem mask_le (x m : Nat) : x &&& m ≤ x := Nat.and_le_left

/-- The size class `guest_tlb1_miss` programs is the smaller of the size class of the
logical entry and that of the table entry. -/
theorem mapsize_eq (rpn t : Nat) (ht : t ≤ 16) :
    max_page_tsize (rpn &&& not32 (sub32 (tsize_to_pages t) 1)) t = t := by
  unfold max_page_tsize
  have hd := mask_dvd rpn t ht
  rw [tsize_to_pages_eq t ht] at hd ⊢
  exact min_eq_right (natural_alignment_ge _ t (by omega) hd)

/-- What `guest_tlb1_miss` has done when the body of its loop returns
`TLB_MISS_HANDLED` for entry `i`. -/
theorem fill_handled (g g' : gcpu_t) (i epn space pid : Nat)
    (h : guest_tlb1_fill g i epn space pid = Except.ok (tlb_miss.TLB_MISS_HANDLED, g')) :
    ∃ rpn attr,
      vptbl_xlate g.gphys (entry_grpn (g.gtlb1 i) epn) PTE_PHYS_LEVELS = Except.ok (rpn, attr) ∧
      attr &&& PTE_VALID ≠ 0 ∧
      g' = tlb1_set_entry (alloc_tlb1 g i true).1 (alloc_tlb1 g i true).2.toNat
        (shl32 (epn &&& not32 (sub32 (tsize_to_pages
          (min (MAS1_GETTSIZE (g.gtlb1 i).mas1) (attr >>> PTE_SIZE_SHIFT))) 1)) PAGE_SHIFT)
        ((rpn &&& not32 (sub32 (tsize_to_pages
          (min (MAS1_GETTSIZE (g.gtlb1 i).mas1) (attr >>> PTE_SIZE_SHIFT))) 1)) <<< PAGE_SHIFT)
        (min (MAS1_GETTSIZE (g.gtlb1 i).mas1) (attr >>> PTE_SIZE_SHIFT))
        (g.gtlb1 i).mas2 ((g.gtlb1 i).mas3 &&& not32 MAS3_RPN) pid space MAS8_GTS := by
  unfold guest_tlb1_fill at h
  simp only [] at h
  unfold entry_grpn
  cases hx : vptbl_xlate g.gphys
      (add32 ((g.gtlb1 i).mas3 >>> PAGE_SHIFT ||| shl32 (g.gtlb1 i).mas7 (32 - PAGE_SHIFT))
        (sub32 epn ((g.gtlb1 i).mas2 >>> PAGE_SHIFT))) PTE_PHYS_LEVELS with
  | error f => rw [hx] at h; simp at h
  | ok ra =>
    obtain ⟨rpn, attr⟩ := ra
    rw [hx] at h
    simp only [] at h
    by_cases hv : attr &&& PTE_VALID = 0
    · rw [if_pos hv] at h; simp at h
    · rw [if_neg hv] at h
      simp only [Except.ok.injEq, Prod.mk.injEq, true_and] at h
      have ht : min (MAS1_GETTSIZE (g.gtlb1 i).mas1) (attr >>> PTE_SIZE_SHIFT) ≤ 16 := by
        have := gettsize_le (g.gtlb1 i).mas1; omega
      rw [mapsize_eq rpn _ ht] at h
      exact ⟨rpn, attr, rfl, hv, h.symm⟩

theorem tlb1_set_entry_slot (g : gcpu_t) (idx va pa tsize m2 m3 tid ts mas8 : Nat) :
    ((tlb1_set_entry g idx va pa tsize m2 m3 tid ts mas8).tlb1 idx).va = va ∧
    ((tlb1_set_entry g idx va pa tsize m2 m3 tid ts mas8).tlb1 idx).pa = pa ∧
    ((tlb1_set_entry g idx va pa tsize m2 m3 tid ts mas8).tlb1 idx).tsize = tsize ∧
    ((tlb1_set_entry g idx va pa tsize m2 m3 tid ts mas8).tlb1 idx).mas3flags = m3 := by
  simp [tlb1_set_entry, arr_set]

theorem shl_shr_page (x : Nat) (hx : x < 2 ^ 20) : shl32 x PAGE_SHIFT >>> PAGE_SHIFT = x := by
  unfold shl32 WORD PAGE_SHIFT
  rw [Nat.shiftLeft_eq, Nat.mod_eq_of_lt (by omega), Nat.shiftRight_eq_div_pow]
  omega

theorem shl_shr_nat (x k : Nat) : x <<< k >>> k = x := by
  rw [Nat.shiftLeft_eq, Nat.shiftRight_eq_div_pow]
  exact Nat.mul_div_cancel _ (Nat.two_pow_pos _)

/-- A handled miss comes from the lowest-index entry that passes the tests. -/
theorem miss_handled_first (g g' : gcpu_t) (vaddr space pid : Nat)
    (h : guest_tlb1_miss g vaddr space pid = Except.ok (tlb_miss.TLB_MISS_HANDLED, g')) :
    ∃ i, i < TLB1_GSIZE ∧
      tlb1_entry_hit (g.gtlb1 i) (vaddr >>> PAGE_SHIFT) space pid = true ∧
      (∀ j, j < i → tlb1_entry_hit (g.gtlb1 j) (vaddr >>> PAGE_SHIFT) space pid = false) ∧
      guest_tlb1_fill g i (vaddr >>> PAGE_SHIFT) space pid
        = Except.ok (tlb_miss.TLB_MISS_HANDLED, g') := by
  rcases exists_first (fun j => tlb1_entry_hit (g.gtlb1 j) (vaddr >>> PAGE_SHIFT) space pid)
    TLB1_GSIZE with hno | ⟨k, hk, hp, hl⟩
  · rw [miss_no_hit g vaddr space pid hno] at h
    simp at h
  · exact ⟨k, hk, hp, hl, by rw [← miss_first_hit g vaddr space pid k hk hp hl]; exact h⟩

/-- C6. Size clipping on a handled miss: whenever `guest_tlb1_miss` returns
`TLB_MISS_HANDLED` (for a 32-bit `vaddr`), the slot it programs, at the index
`alloc_tlb1` returned for the lowest-index matching entry `i`, has the size class
`min(tsize_i, attr >> PTE_SIZE_SHIFT)`, with `attr` the valid `attr` of the table entry
backing the faulting page, and the effective and the real page number it programs are
multiples of the page count of that size class. -/
theorem guest_tlb1_miss_size_clip (g g' : gcpu_t) (vaddr space pid : Nat)
    (hva : vaddr < 2 ^ 32)
    (h : guest_tlb1_miss g vaddr space pid = Except.ok (tlb_miss.TLB_MISS_HANDLED, g')) :
    ∃ i rpn attr, i < TLB1_GSIZE ∧
      tlb1_entry_hit (g.gtlb1 i) (vaddr >>> PAGE_SHIFT) space pid = true ∧
      (∀ j, j < i → tlb1_entry_hit (g.gtlb1 j) (vaddr >>> PAGE_SHIFT) space pid = false) ∧
      vptbl_xlate g.gphys (entry_grpn (g.gtlb1 i) (vaddr >>> PAGE_SHIFT)) PTE_PHYS_LEVELS
        = Except.ok (rpn, attr) ∧
      attr &&& PTE_VALID ≠ 0 ∧
      (g'.tlb1 (alloc_tlb1 g i true).2.toNat).tsize
        = min (MAS1_GETTSIZE (g.gtlb1 i).mas1) (attr >>> PTE_SIZE_SHIFT) ∧
      tsize_to_pages (g'.tlb1 (alloc_tlb1 g i true).2.toNat).tsize ∣
        (g'.tlb1 (alloc_tlb1 g i true).2.toNat).va >>> PAGE_SHIFT ∧
      tsize_to_pages (g'.tlb1 (alloc_tlb1 g i true).2.toNat).tsize ∣
        (g'.tlb1 (alloc_tlb1 g i true).2.toNat).pa >>> PAGE_SHIFT := by
  obtain ⟨i, hi, hhit, hlow, hfill⟩ := miss_handled_first g g' vaddr space pid h
  obtain ⟨rpn, attr, hx, hv, hg'⟩ := fill_handled g g' i _ space pid hfill
  refine ⟨i, rpn, attr, hi, hhit, hlow, hx, hv, ?_⟩
  have ht : min (MAS1_GETTSIZE (g.gtlb1 i).mas1) (attr >>> PTE_SIZE_SHIFT) ≤ 16 := by
    have := gettsize_le (g.gtlb1 i).mas1; omega
  have hepn : vaddr >>> PAGE_SHIFT < 2 ^ 20 := by
    rw [Nat.shiftRight_eq_div_pow]; unfold PAGE_SHIFT; omega
  rw [hg']
  obtain ⟨s1, s2, s3, _⟩ := tlb1_set_entry_slot (alloc_tlb1 g i true).1 (alloc_tlb1 g i true).2.toNat
    (shl32 (vaddr >>> PAGE_SHIFT &&& not32 (sub32 (tsize_to_pages
      (min (MAS1_GETTSIZE (g.gtlb1 i).mas1) (attr >>> PTE_SIZE_SHIFT))) 1)) PAGE_SHIFT)
    ((rpn &&& not32 (sub32 (tsize_to_pages
      (min (MAS1_GETTSIZE (g.gtlb1 i).mas1) (attr >>> PTE_SIZE_SHIFT))) 1)) <<< PAGE_SHIFT)
    (min (MAS1_GETTSIZE (g.gtlb1 i).mas1) (attr >>> PTE_SIZE_SHIFT))
    (g.gtlb1 i).mas2 ((g.gtlb1 i).mas3 &&& not32 MAS3_RPN) pid space MAS8_GTS
  rw [s1, s2, s3]
  refine ⟨rfl, ?_, ?_⟩
  · rw [shl_shr_page _ (lt_of_le_of_lt (mask_le _ _) hepn)]
    exact mask_dvd _ _ ht
  · rw [shl_shr_nat]
    exact mask_dvd _ _ ht

/-- State of a virtual core whose entry 0 covers 16 MiB at 0x01000000, while the
guest-physical table maps only the 4 KiB page 0x1000, to real page 5. -/
def gcpu_small_backing : gcpu_t := gcpu_one (vptbl_map empty_tbl 0x1000 0x5 1 0x7f 2).2

/-- Witness of C6: a 16 MiB entry backed by a 4 KiB table entry gives a 4 KiB slot. -/
theorem guest_tlb1_miss_size_clip_witness :
    ∃ i rpn attr, i < TLB1_GSIZE ∧
      tlb1_entry_hit (gcpu_small_backing.gtlb1 i) (0x01000000 >>> PAGE_SHIFT) 0 0 = true ∧
      (∀ j, j < i →
        tlb1_entry_hit (gcpu_small_backing.gtlb1 j) (0x01000000 >>> PAGE_SHIFT) 0 0 = false) ∧
      vptbl_xlate gcpu_small_backing.gphys
          (entry_grpn (gcpu_small_backing.gtlb1 i) (0x01000000 >>> PAGE_SHIFT)) PTE_PHYS_LEVELS
        = Except.ok (rpn, attr) ∧
      attr &&& PTE_VALID ≠ 0 ∧
      ((tlb1_set_entry (alloc_tlb1 gcpu_small_backing 0 true).1
          (alloc_tlb1 gcpu_small_backing 0 true).2.toNat
          0x01000000 0x5000 1 0x01000000 0x3f 0 0 MAS8_GTS).tlb1
          (alloc_tlb1 gcpu_small_backing i true).2.toNat).tsize
        = min (MAS1_GETTSIZE (gcpu_small_backing.gtlb1 i).mas1) (attr >>> PTE_SIZE_SHIFT) ∧
      tsize_to_pages ((tlb1_set_entry (alloc_tlb1 gcpu_small_backing 0 true).1
          (alloc_tlb1 gcpu_small_backing 0 true).2.toNat
          0x01000000 0x5000 1 0x01000000 0x3f 0 0 MAS8_GTS).tlb1
          (alloc_tlb1 gcpu_small_backing i true).2.toNat).tsize ∣
        ((tlb1_set_entry (alloc_tlb1 gcpu_small_backing 0 true).1
          (alloc_tlb1 gcpu_small_backing 0 true).2.toNat
          0x01000000 0x5000 1 0x01000000 0x3f 0 0 MAS8_GTS).tlb1
          (alloc_tlb1 gcpu_small_backing i true).2.toNat).va >>> PAGE_SHIFT ∧
      tsize_to_pages ((tlb1_set_entry (alloc_tlb1 gcpu_small_backing 0 true).1
          (alloc_tlb1 gcpu_small_backing 0 true).2.toNat
          0x01000000 0x5000 1 0x01000000 0x3f 0 0 MAS8_GTS).tlb1
          (alloc_tlb1 gcpu_small_backing i true).2.toNat).tsize ∣
        ((tlb1_set_entry (alloc_tlb1 gcpu_small_backing 0 true).1
          (alloc_tlb1 gcpu_small_backing 0 true).2.toNat
          0x01000000 0x5000 1 0x01000000 0x3f 0 0 MAS8_GTS).tlb1
          (alloc_tlb1 gcpu_small_backing i true).2.toNat).pa >>> PAGE_SHIFT :=
  guest_tlb1_miss_size_clip gcpu_small_backing
    (tlb1_set_entry (alloc_tlb1 gcpu_small_backing 0 true).1
      (alloc_tlb1 gcpu_small_backing 0 true).2.toNat
      0x01000000 0x5000 1 0x01000000 0x3f 0 0 MAS8_GTS)
    0x01000000 0 0 (by decide) (by rfl)

/-- The arguments of one call `vptbl_map(tbl, gpn, rpn, npages, attr, levels)`. -/
structure map_call where
  gpn : Nat
  rpn : Nat
  npages : Nat
  attr : Nat

/-- Tables built from the empty one by calls of `vptbl_map` that ran to the end, over
pairwise disjoint ranges of guest pages that a table of `levels` levels can index and
without wrap of the page numbers; the list holds the arguments of the calls. -/
inductive Built (levels : Nat) : Table → List map_call → Prop where
  | empty : Built levels empty_tbl []
  | map (tbl : Table) (calls : List map_call) (c : map_call) :
      Built levels tbl calls →
      c.gpn + c.npages < 2 ^ 32 → c.gpn + c.npages ≤ cap levels →
      c.rpn < 2 ^ 32 → c.rpn + c.npages ≤ 2 ^ 32 →
      (∀ d, d ∈ calls → c.gpn + c.npages ≤ d.gpn ∨ d.gpn + d.npages ≤ c.gpn) →
      (vptbl_map tbl c.gpn c.rpn c.npages c.attr levels).1 = map_status.done →
      Built levels (vptbl_map tbl c.gpn c.rpn c.npages c.attr levels).2 (c :: calls)

/-- What holds of a table built by the calls `calls`: the leaf-level invariant, pages
outside every range are unmapped, and each page of a range lies in a chunk written whole
by the call of that range. -/
def BuiltInv (L : Nat) (T : Table) (calls : List map_call) : Prop :=
  Inv L T ∧
  (∀ d, d ∈ calls → d.gpn + d.npages ≤ cap L ∧ d.rpn + d.npages ≤ 2 ^ 32) ∧
  (∀ q, q < cap L → (∀ d, d ∈ calls → q < d.gpn ∨ d.gpn + d.npages ≤ q) →
    PageCls L T q = wcls.miss) ∧
  (∀ d, d ∈ calls → ∀ q, d.gpn ≤ q → q < d.gpn + d.npages →
    ChunkOK L T d.gpn d.rpn d.attr (d.gpn + d.npages) q)

theorem ChunkOK.transfer_in {L : Nat} {T T2 : Table} {gpn rpn0 a0 hi q : Nat}
    (h : ChunkOK L T gpn rpn0 a0 hi q)
    (hT : ∀ q', gpn ≤ q' → q' < hi → PageCls L T2 q' = PageCls L T q') :
    ChunkOK L T2 gpn rpn0 a0 hi q := by
  obtain ⟨c, s, h1, h2, h3, h4, h5, h6, h7, h8, h9⟩ := h
  exact ⟨c, s, h1, h2, h3, h4, h5, h6, h7, h8,
    fun q' a b => by rw [hT q' (by omega) (by omega)]; exact h9 q' a b⟩

theorem built_inv (L : Nat) (hL : 1 ≤ L) (T : Table) (calls : List map_call)
    (h : Built L T calls) : BuiltInv L T calls := by
  induction h with
  | empty =>
    refine ⟨inv_empty L hL, fun d hd => absurd hd (List.not_mem_nil d), fun q _ _ => ?_,
      fun d hd => absurd hd (List.not_mem_nil d)⟩
    unfold PageCls
    rw [walkL_empty _ (idxs_ne_nil L q (by omega))]
    rfl
  | map tbl calls c _ h32 hcap hr0 hr hdis hdone ih =>
    obtain ⟨hInv, hbd, hout, hin⟩ := ih
    rcases map_post L tbl c.gpn c.rpn c.npages c.attr hInv h32 hcap hr hr0 with
      ⟨_, r, a, hM⟩ | ⟨hne, _⟩
    · refine ⟨hM.inv, ?_, ?_, ?_⟩
      · intro d hd
        rcases List.mem_cons.1 hd with rfl | hd
        · exact ⟨hcap, hr⟩
        · exact hbd d hd
      · intro q hq hno
        have hc := hno c (List.mem_cons_self _ _)
        rw [hM.frame q hq (by omega)]
        exact hout q hq (fun d hd => hno d (List.mem_cons_of_mem _ hd))
      · intro d hd q h1 h2
        rcases List.mem_cons.1 hd with rfl | hd
        · exact hM.wr q h1 h2
        · have hdd := hdis d hd
          have hdc := (hbd d hd).1
          exact (hin d hd q h1 h2).transfer_in
            (fun q' a b => hM.frame q' (by omega) (by omega))
    · exact absurd hdone hne

theorem page_cls_mod (L : Nat) (T : Table) (q : Nat) :
    PageCls L T q = PageCls L T (q % cap L) := by
  unfold PageCls cap
  rw [(idxs_eq_iff L q (q % 2 ^ (10 * L))).2 (Nat.mod_mod _ _).symm]

/-- A page whose walk is the one a chunk left translates to the real page of the chunk
at the same offset. -/
theorem xlate_in_chunk (L : Nat) (T : Table) (a0 s R c q0 q : Nat)
    (hv : a0 &&& PTE_VALID ≠ 0) (h1 : 1 ≤ s) (h16 : s ≤ 16)
    (hcq : c ≤ q0) (hqc : q0 < c + 2 ^ (s * 2 - 2))
    (hdc : 2 ^ (s * 2 - 2) ∣ c) (hdr : 2 ^ (s * 2 - 2) ∣ R) (hR : R + 2 ^ (s * 2 - 2) ≤ 2 ^ 32)
    (hmod : q % 2 ^ (s * 2 - 2) = q0 % 2 ^ (s * 2 - 2))
    (hcls : PageCls L T q = written_cls a0 s R c q0) :
    vptbl_xlate T q L = Except.ok (R + (q0 - c), set_size a0 s) := by
  have hx := xlate_of_cls T q L
  unfold PageCls at hcls
  rw [hcls] at hx
  have hsh := set_size_shift a0 s (by omega)
  have hva : set_size a0 s &&& PTE_VALID ≠ 0 := by rw [set_size_valid]; exact hv
  have htp := tsize_to_pages_eq s h16
  generalize hP : 2 ^ (s * 2 - 2) = P at *
  have hPpos : 0 < P := by rw [← hP]; exact Nat.two_pow_pos _
  by_cases hs6 : s < TLB_TSIZE_4M
  · rw [written_cls_small _ _ _ _ _ hs6, if_neg hv] at hx
    simp only [] at hx
    rw [hx]
    unfold xl_hit
    simp only [hsh, hs6, if_true, decide_True, if_neg hva, Bool.true_eq_false, if_false]
    rw [mask_combine s _ q h16 (by omega), htp,
      div_mul_of_dvd_add P _ (q0 - c) hdr (by omega), hmod, mod_of_dvd_add P c q0 hdc hcq hqc]
  · rw [written_cls_large _ _ _ _ _ hs6, if_neg hv] at hx
    simp only [] at hx
    rw [hx]
    unfold xl_hit
    have h6 : TLB_TSIZE_4M ≤ s := by omega
    simp only [hsh, one_ne_zero, if_false, decide_True, Bool.true_and, ge_iff_le, h6,
      if_neg hva, Bool.true_eq_false]
    have hle : (q0 - c) / 1024 * 1024 ≤ q0 - c := Nat.div_mul_le_self _ _
    rw [mask_combine s _ q h16 (by omega), htp,
      div_mul_of_dvd_add P _ ((q0 - c) / 1024 * 1024) hdr (by omega), hmod,
      mod_of_dvd_add P c q0 hdc hcq hqc]

theorem zero_and_valid : (0 : Nat) &&& PTE_VALID = 0 := by decide

/-- In a built table a valid translation comes from one chunk of one call, and every
page whose index path is that of a page of the chunk translates within it. -/
theorem built_block (L : Nat) (hL : 1 ≤ L) (T : Table) (calls : List map_call)
    (hB : Built L T calls) (q rpn attr : Nat)
    (hx : vptbl_xlate T q L = Except.ok (rpn, attr)) (hv : attr &&& PTE_VALID ≠ 0) :
    ∃ d, d ∈ calls ∧ ∃ c s, 1 ≤ s ∧ s ≤ 16 ∧ attr >>> PTE_SIZE_SHIFT = s ∧
      d.attr &&& PTE_VALID ≠ 0 ∧
      d.gpn ≤ c ∧ c + 2 ^ (s * 2 - 2) ≤ d.gpn + d.npages ∧
      d.gpn + d.npages ≤ cap L ∧ d.rpn + d.npages ≤ 2 ^ 32 ∧
      2 ^ (s * 2 - 2) ∣ c ∧ 2 ^ (s * 2 - 2) ∣ d.rpn + (c - d.gpn) ∧
      c ≤ q % cap L ∧ q % cap L < c + 2 ^ (s * 2 - 2) ∧
      rpn = d.rpn + (q % cap L - d.gpn) ∧
      ∀ q', c ≤ q' % cap L → q' % cap L < c + 2 ^ (s * 2 - 2) →
        vptbl_xlate T q' L = Except.ok (d.rpn + (q' % cap L - d.gpn), attr) := by
  obtain ⟨hInv, hbd, hout, hin⟩ := built_inv L hL T calls hB
  have hcap0 : 0 < cap L := Nat.two_pow_pos _
  have hq0 : q % cap L < cap L := Nat.mod_lt _ hcap0
  have hmiss : PageCls L T q ≠ wcls.miss := by
    intro hm
    have h := xlate_of_cls T q L
    unfold PageCls at hm
    rw [hm] at h
    obtain ⟨lv, h⟩ := h
    rw [h] at hx
    simp only [Except.ok.injEq, Prod.mk.injEq] at hx
    rw [← hx.2] at hv
    exact hv zero_and_valid
  by_cases hex : ∃ d, d ∈ calls ∧ d.gpn ≤ q % cap L ∧ q % cap L < d.gpn + d.npages
  · obtain ⟨d, hd, hlo, hhi⟩ := hex
    obtain ⟨hdc, hdr⟩ := hbd d hd
    obtain ⟨c, s, h1, h16, hgc, hcq, hqc, hchi, hdvc, hdvr, hw⟩ := hin d hd _ hlo hhi
    have hcls := hw _ hcq hqc
    have hva : d.attr &&& PTE_VALID ≠ 0 := by
      intro h0
      apply hmiss
      rw [page_cls_mod, hcls]
      unfold written_cls
      rw [if_pos h0]
    have hk : s * 2 - 2 ≤ 10 * L := by
      have : 2 ^ (s * 2 - 2) ≤ 2 ^ (10 * L) := by unfold cap at hdc; omega
      exact (Nat.pow_le_pow_iff_right (by norm_num)).1 this
    have hPc : 2 ^ (s * 2 - 2) ∣ cap L := Nat.pow_dvd_pow 2 hk
    have hall : ∀ q', c ≤ q' % cap L → q' % cap L < c + 2 ^ (s * 2 - 2) →
        vptbl_xlate T q' L
          = Except.ok (d.rpn + (c - d.gpn) + (q' % cap L - c), set_size d.attr s) := by
      intro q' ha hb
      apply xlate_in_chunk L T d.attr s _ c (q' % cap L) q' hva h1 h16 ha hb hdvc hdvr
        (by omega) (Nat.mod_mod_of_dvd _ hPc).symm
      rw [page_cls_mod]
      exact hw _ ha hb
    have hme := hall q hcq hqc
    rw [hx] at hme
    simp only [Except.ok.injEq, Prod.mk.injEq] at hme
    refine ⟨d, hd, c, s, h1, h16, ?_, hva, hgc, hchi, hdc, hdr, hdvc, hdvr, hcq, hqc, ?_, ?_⟩
    · rw [hme.2]; exact set_size_shift d.attr s (by omega)
    · rw [hme.1]; omega
    · intro q' ha hb
      rw [hall q' ha hb, hme.2]
      congr 2; omega
  · exfalso
    apply hmiss
    rw [page_cls_mod]
    apply hout _ hq0
    intro d hd
    by_contra hc
    exact hex ⟨d, hd, by omega, by omega⟩

theorem div_mul_shift (mp c x : Nat) (hmp : 0 < mp) (hd : mp ∣ c) (h : c ≤ x) :
    x / mp * mp = c + (x - c) / mp * mp := by
  obtain ⟨k, rfl⟩ := hd
  have e : x = mp * k + (x - mp * k) := by omega
  conv_lhs => rw [e, Nat.mul_add_div hmp]
  rw [Nat.add_mul, Nat.mul_comm k mp]

theorem block_in (mp P t : Nat) (hmp : 0 < mp) (hd : mp ∣ P) (ht : t < P) :
    t / mp * mp + mp ≤ P := by
  obtain ⟨k, rfl⟩ := hd
  have h1 : t / mp < k := (Nat.div_lt_iff_lt_mul hmp).2 (by rw [Nat.mul_comm]; exact ht)
  have h2 : (t / mp + 1) * mp ≤ k * mp := Nat.mul_le_mul_right _ h1
  rw [Nat.add_mul, Nat.one_mul, Nat.mul_comm k mp] at h2
  exact h2

theorem mask_floor (s p : Nat) (hs : s ≤ 16) (hp : p < 2 ^ 32) :
    p &&& not32 (sub32 (tsize_to_pages s) 1) = p / 2 ^ (s * 2 - 2) * 2 ^ (s * 2 - 2) := by
  have h := mask_combine s p 0 hs hp
  rw [Nat.zero_and, Nat.or_zero, Nat.zero_mod, Nat.add_zero, tsize_to_pages_eq s hs] at h
  rw [tsize_to_pages_eq s hs]
  exact h

theorem mod_div_congr (a b mp M : Nat) (hd : mp ∣ M) (h : a / mp = b / mp) :
    a % M / mp = b % M / mp := by
  obtain ⟨k, rfl⟩ := hd
  rw [Nat.mod_mul_right_div_self, Nat.mod_mul_right_div_self, h]

/-- In a built table, the aligned window of size class `m` around a page with a valid
translation, `m` at most the size class of its entry, lies in one call of `vptbl_map`, in
guest and in real pages, and every page whose index is in the window translates to the
real page at the same offset in the real window. -/
theorem built_window (L : Nat) (hL : 1 ≤ L) (T : Table) (calls : List map_call)
    (hB : Built L T calls) (q rpn attr m : Nat)
    (hx : vptbl_xlate T q L = Except.ok (rpn, attr)) (hv : attr &&& PTE_VALID ≠ 0)
    (hm : m ≤ attr >>> PTE_SIZE_SHIFT) :
    ∃ d, d ∈ calls ∧ d.attr &&& PTE_VALID ≠ 0 ∧ rpn < 2 ^ 32 ∧ m ≤ 16 ∧
      2 ^ (m * 2 - 2) ∣ cap L ∧
      d.rpn ≤ rpn / 2 ^ (m * 2 - 2) * 2 ^ (m * 2 - 2) ∧
      rpn / 2 ^ (m * 2 - 2) * 2 ^ (m * 2 - 2) + 2 ^ (m * 2 - 2) ≤ d.rpn + d.npages ∧
      d.gpn ≤ q % cap L / 2 ^ (m * 2 - 2) * 2 ^ (m * 2 - 2) ∧
      q % cap L / 2 ^ (m * 2 - 2) * 2 ^ (m * 2 - 2) + 2 ^ (m * 2 - 2) ≤ d.gpn + d.npages ∧
      d.gpn + d.npages ≤ cap L ∧
      ∀ q', q' % cap L / 2 ^ (m * 2 - 2) = q % cap L / 2 ^ (m * 2 - 2) →
        vptbl_xlate T q' L
          = Except.ok (rpn / 2 ^ (m * 2 - 2) * 2 ^ (m * 2 - 2) + q' % cap L % 2 ^ (m * 2 - 2),
              attr) := by
  obtain ⟨d, hd, c, s, h1, h16, hs, hva, hgc, hchi, hdc, hdr, hdvc, hdvr, hcq, hqc, hrpn, hall⟩ :=
    built_block L hL T calls hB q rpn attr hx hv
  rw [hs] at hm
  have hk : m * 2 - 2 ≤ s * 2 - 2 := by omega
  have hmP : 2 ^ (m * 2 - 2) ∣ 2 ^ (s * 2 - 2) := Nat.pow_dvd_pow 2 hk
  have hsL : s * 2 - 2 ≤ 10 * L := by
    have : 2 ^ (s * 2 - 2) ≤ 2 ^ (10 * L) := by unfold cap at hdc; omega
    exact (Nat.pow_le_pow_iff_right (by norm_num)).1 this
  have hmc : 2 ^ (m * 2 - 2) ∣ cap L := Nat.pow_dvd_pow 2 (by omega)
  have hPpos : 0 < 2 ^ (s * 2 - 2) := Nat.two_pow_pos _
  have hpos : 0 < 2 ^ (m * 2 - 2) := Nat.two_pow_pos _
  generalize hP : 2 ^ (s * 2 - 2) = P at *
  generalize hMP : 2 ^ (m * 2 - 2) = mp at *
  generalize hq0 : q % cap L = q0 at *
  have hR : mp ∣ d.rpn + (c - d.gpn) := Nat.dvd_trans hmP hdvr
  have hc : mp ∣ c := Nat.dvd_trans hmP hdvc
  have e1 : rpn / mp * mp = d.rpn + (c - d.gpn) + (q0 - c) / mp * mp := by
    have := div_mul_shift mp (d.rpn + (c - d.gpn)) rpn hpos hR (by omega)
    rw [this]
    congr 3; omega
  have e2 : q0 / mp * mp = c + (q0 - c) / mp * mp := div_mul_shift mp c q0 hpos hc hcq
  have e3 : (q0 - c) / mp * mp + mp ≤ P := block_in mp P (q0 - c) hpos hmP (by omega)
  refine ⟨d, hd, hva, by omega, by omega, hmc, by omega, by omega, by omega, by omega, hdc, ?_⟩
  intro q' hq'
  have hsplit : q' % cap L = q0 / mp * mp + q' % cap L % mp := by
    have := Nat.div_add_mod (q' % cap L) mp
    rw [hq', Nat.mul_comm] at this
    exact this.symm
  have hlt : q' % cap L % mp < mp := Nat.mod_lt _ hpos
  rw [hall q' (by omega) (by omega)]
  congr 2
  omega

/-- C3. Isolation of the miss handler: for every guest-physical table built by calls of
`vptbl_map` over pairwise disjoint guest ranges, and every state of the logical TLB1,
`vaddr`, `space` and `pid`, whenever `guest_tlb1_miss` returns `TLB_MISS_HANDLED`, the
range of real pages `[rpn, rpn + pages(mapsize))` it programs into the slot lies inside
the real range of one call with a valid `attr`, and every real page of it is the valid
translation through `gphys` of a guest page of the guest range of that call. -/
theorem guest_tlb1_miss_isolation (g g' : gcpu_t) (calls : List map_call)
    (vaddr space pid : Nat)
    (hB : Built PTE_PHYS_LEVELS g.gphys calls)
    (h : guest_tlb1_miss g vaddr space pid = Except.ok (tlb_miss.TLB_MISS_HANDLED, g')) :
    ∃ i, i < TLB1_GSIZE ∧
      tlb1_entry_hit (g.gtlb1 i) (vaddr >>> PAGE_SHIFT) space pid = true ∧
      (∀ j, j < i → tlb1_entry_hit (g.gtlb1 j) (vaddr >>> PAGE_SHIFT) space pid = false) ∧
      ∃ d, d ∈ calls ∧ d.attr &&& PTE_VALID ≠ 0 ∧
        d.rpn ≤ (g'.tlb1 (alloc_tlb1 g i true).2.toNat).pa >>> PAGE_SHIFT ∧
        (g'.tlb1 (alloc_tlb1 g i true).2.toNat).pa >>> PAGE_SHIFT
            + tsize_to_pages (g'.tlb1 (alloc_tlb1 g i true).2.toNat).tsize
          ≤ d.rpn + d.npages ∧
        ∀ j, j < tsize_to_pages (g'.tlb1 (alloc_tlb1 g i true).2.toNat).tsize →
          ∃ gp a, d.gpn ≤ gp ∧ gp < d.gpn + d.npages ∧
            vptbl_xlate g.gphys gp PTE_PHYS_LEVELS
              = Except.ok ((g'.tlb1 (alloc_tlb1 g i true).2.toNat).pa >>> PAGE_SHIFT + j, a) ∧
            a &&& PTE_VALID ≠ 0 := by
  obtain ⟨i, hi, hhit, hlow, hfill⟩ := miss_handled_first g g' vaddr space pid h
  obtain ⟨rpn, attr, hx, hv, hg'⟩ := fill_handled g g' i _ space pid hfill
  refine ⟨i, hi, hhit, hlow, ?_⟩
  obtain ⟨d, hd, hva, hrpn, hm16, hmc, hr1, hr2, hg1, hg2, hcap, hall⟩ :=
    built_window PTE_PHYS_LEVELS (by decide) g.gphys calls hB _ rpn attr
      (min (MAS1_GETTSIZE (g.gtlb1 i).mas1) (attr >>> PTE_SIZE_SHIFT)) hx hv (Nat.min_le_right _ _)
  rw [hg']
  obtain ⟨_, s2, s3, _⟩ := tlb1_set_entry_slot (alloc_tlb1 g i true).1
    (alloc_tlb1 g i true).2.toNat
    (shl32 (vaddr >>> PAGE_SHIFT &&& not32 (sub32 (tsize_to_pages
      (min (MAS1_GETTSIZE (g.gtlb1 i).mas1) (attr >>> PTE_SIZE_SHIFT))) 1)) PAGE_SHIFT)
    ((rpn &&& not32 (sub32 (tsize_to_pages
      (min (MAS1_GETTSIZE (g.gtlb1 i).mas1) (attr >>> PTE_SIZE_SHIFT))) 1)) <<< PAGE_SHIFT)
    (min (MAS1_GETTSIZE (g.gtlb1 i).mas1) (attr >>> PTE_SIZE_SHIFT))
    (g.gtlb1 i).mas2 ((g.gtlb1 i).mas3 &&& not32 MAS3_RPN) pid space MAS8_GTS
  rw [s2, s3, shl_shr_nat, mask_floor _ rpn hm16 hrpn, tsize_to_pages_eq _ hm16]
  generalize min (MAS1_GETTSIZE (g.gtlb1 i).mas1) (attr >>> PTE_SIZE_SHIFT) = m at *
  have hpos : 0 < 2 ^ (m * 2 - 2) := Nat.two_pow_pos _
  generalize 2 ^ (m * 2 - 2) = mp at *
  refine ⟨d, hd, hva, hr1, hr2, ?_⟩
  intro j hj
  generalize hq0 : entry_grpn (g.gtlb1 i) (vaddr >>> PAGE_SHIFT) % cap PTE_PHYS_LEVELS = q0 at *
  have hlt : q0 / mp * mp + j < cap PTE_PHYS_LEVELS := by omega
  have hdiv : (q0 / mp * mp + j) / mp = q0 / mp := by
    rw [Nat.mul_comm, Nat.mul_add_div hpos, Nat.div_eq_of_lt hj, Nat.add_zero]
  have hmod : (q0 / mp * mp + j) % mp = j := by
    rw [Nat.mul_comm, Nat.mul_add_mod, Nat.mod_eq_of_lt hj]
  refine ⟨q0 / mp * mp + j, attr, by omega, by omega, ?_, hv⟩
  have := hall (q0 / mp * mp + j) (by rw [Nat.mod_eq_of_lt hlt, hdiv])
  rw [Nat.mod_eq_of_lt hlt, hmod] at this
  exact this

/-- The state the miss at 0x01000000 leaves from `gcpu_small_backing`: one 4 KiB slot
from effective page 0x1000 to real page 5. -/
def gcpu_small_filled : gcpu_t :=
  tlb1_set_entry (alloc_tlb1 gcpu_small_backing 0 true).1
    (alloc_tlb1 gcpu_small_backing 0 true).2.toNat
    0x01000000 0x5000 1 0x01000000 0x3f 0 0 MAS8_GTS

/-- The table of `gcpu_small_backing` is built by one call. -/
theorem small_backing_built :
    Built PTE_PHYS_LEVELS gcpu_small_backing.gphys
      [{ gpn := 0x1000, rpn := 0x5, npages := 1, attr := 0x7f }] :=
  Built.map empty_tbl [] { gpn := 0x1000, rpn := 0x5, npages := 1, attr := 0x7f }
    Built.empty (by decide) (by decide) (by decide) (by decide)
    (fun d hd => absurd hd (List.not_mem_nil d)) (by decide)

/-- Witness of C3: the 16 MiB entry of `gcpu_small_backing` over a table with the single
4 KiB mapping of guest page 0x1000 to real page 5. -/
theorem guest_tlb1_miss_isolation_witness :
    ∃ i, i < TLB1_GSIZE ∧
      tlb1_entry_hit (gcpu_small_backing.gtlb1 i) (0x01000000 >>> PAGE_SHIFT) 0 0 = true ∧
      (∀ j, j < i →
        tlb1_entry_hit (gcpu_small_backing.gtlb1 j) (0x01000000 >>> PAGE_SHIFT) 0 0 = false) ∧
      ∃ d, d ∈ [({ gpn := 0x1000, rpn := 0x5, npages := 1, attr := 0x7f } : map_call)] ∧
        d.attr &&& PTE_VALID ≠ 0 ∧
        d.rpn ≤ (gcpu_small_filled.tlb1
          (alloc_tlb1 gcpu_small_backing i true).2.toNat).pa >>> PAGE_SHIFT ∧
        (gcpu_small_filled.tlb1 (alloc_tlb1 gcpu_small_backing i true).2.toNat).pa >>> PAGE_SHIFT
            + tsize_to_pages
                (gcpu_small_filled.tlb1 (alloc_tlb1 gcpu_small_backing i true).2.toNat).tsize
          ≤ d.rpn + d.npages ∧
        ∀ j, j < tsize_to_pages
            (gcpu_small_filled.tlb1 (alloc_tlb1 gcpu_small_backing i true).2.toNat).tsize →
          ∃ gp a, d.gpn ≤ gp ∧ gp < d.gpn + d.npages ∧
            vptbl_xlate gcpu_small_backing.gphys gp PTE_PHYS_LEVELS
              = Except.ok ((gcpu_small_filled.tlb1
                  (alloc_tlb1 gcpu_small_backing i true).2.toNat).pa >>> PAGE_SHIFT + j, a) ∧
            a &&& PTE_VALID ≠ 0 :=
  guest_tlb1_miss_isolation gcpu_small_backing gcpu_small_filled
    [{ gpn := 0x1000, rpn := 0x5, npages := 1, attr := 0x7f }] 0x01000000 0 0
    small_backing_built (by rfl)

/-- The body of the loop of `guest_tlb1_miss` for an entry backed by a valid translation:
it returns `TLB_MISS_HANDLED` and programs the slot `alloc_tlb1` gives. -/
theorem fill_valid (g : gcpu_t) (i epn space pid rpn attr : Nat)
    (hx : vptbl_xlate g.gphys (entry_grpn (g.gtlb1 i) epn) PTE_PHYS_LEVELS
      = Except.ok (rpn, attr))
    (hv : attr &&& PTE_VALID ≠ 0) :
    guest_tlb1_fill g i epn space pid = Except.ok (tlb_miss.TLB_MISS_HANDLED,
      tlb1_set_entry (alloc_tlb1 g i true).1 (alloc_tlb1 g i true).2.toNat
        (shl32 (epn &&& not32 (sub32 (tsize_to_pages
          (min (MAS1_GETTSIZE (g.gtlb1 i).mas1) (attr >>> PTE_SIZE_SHIFT))) 1)) PAGE_SHIFT)
        ((rpn &&& not32 (sub32 (tsize_to_pages
          (min (MAS1_GETTSIZE (g.gtlb1 i).mas1) (attr >>> PTE_SIZE_SHIFT))) 1)) <<< PAGE_SHIFT)
        (min (MAS1_GETTSIZE (g.gtlb1 i).mas1) (attr >>> PTE_SIZE_SHIFT))
        (g.gtlb1 i).mas2 ((g.gtlb1 i).mas3 &&& not32 MAS3_RPN) pid space MAS8_GTS) := by
  unfold entry_grpn at hx
  unfold guest_tlb1_fill
  simp only []
  rw [hx]
  simp only []
  rw [if_neg hv]
  have ht : min (MAS1_GETTSIZE (g.gtlb1 i).mas1) (attr >>> PTE_SIZE_SHIFT) ≤ 16 := by
    have := gettsize_le (g.gtlb1 i).mas1; omega
  rw [mapsize_eq rpn _ ht]

theorem div_mod_of_dvd_add (mp A t : Nat) (hd : mp ∣ A) (ht : t < mp) :
    (A + t) / mp = A / mp ∧ (A + t) % mp = t := by
  obtain ⟨k, rfl⟩ := hd
  have hpos : 0 < mp := by omega
  rw [Nat.mul_add_div hpos, Nat.div_eq_of_lt ht, Nat.mul_div_cancel_left _ hpos,
    Nat.mul_add_mod, Nat.mod_eq_of_lt ht]
  exact ⟨rfl, rfl⟩

/-- The guest-physical pages of two effective pages in one aligned window of an aligned
entry have the same index window and the offset of the effective page. -/
theorem window_grpn (G E epn e mp M : Nat) (hpos : 0 < mp) (hG : mp ∣ G) (hE : mp ∣ E)
    (hM : mp ∣ M) (hMW : M ∣ 2 ^ 32) (hEe : E ≤ epn) (hepn : epn < 2 ^ 32)
    (h1 : epn / mp * mp ≤ e) (h2 : e < epn / mp * mp + mp) :
    E ≤ e ∧ e < 2 ^ 32 ∧
    add32 G (sub32 e E) % M / mp = add32 G (sub32 epn E) % M / mp ∧
    add32 G (sub32 e E) % M % mp = e - epn / mp * mp := by
  have e2 := div_mul_shift mp E epn hpos hE hEe
  have hmW : mp ∣ 2 ^ 32 := Nat.dvd_trans hM hMW
  have hlt : epn / mp * mp + mp ≤ 2 ^ 32 := block_in mp (2 ^ 32) epn hpos hmW hepn
  have hEe' : E ≤ e := by omega
  have he : e < 2 ^ 32 := by omega
  refine ⟨hEe', he, ?_, ?_⟩
  · rw [sub32_eq e E hEe' he, sub32_eq epn E hEe hepn]
    unfold add32 WORD
    rw [Nat.mod_mod_of_dvd _ hMW, Nat.mod_mod_of_dvd _ hMW]
    apply mod_div_congr _ _ mp M hM
    have hA : mp ∣ G + (epn - E) / mp * mp := Dvd.dvd.add hG (Dvd.intro_left _ rfl)
    have a1 := (div_mod_of_dvd_add mp _ (e - epn / mp * mp) hA (by omega)).1
    have a2 := (div_mod_of_dvd_add mp _ ((epn - E) % mp) hA (Nat.mod_lt _ hpos)).1
    have s1 : G + (e - E) = G + (epn - E) / mp * mp + (e - epn / mp * mp) := by omega
    have s2 : G + (epn - E) = G + (epn - E) / mp * mp + (epn - E) % mp := by
      have := Nat.div_add_mod (epn - E) mp
      rw [Nat.mul_comm] at this
      omega
    rw [s1, a1, s2, a2]
  · rw [sub32_eq e E hEe' he]
    unfold add32 WORD
    rw [Nat.mod_mod_of_dvd _ hMW, Nat.mod_mod_of_dvd _ hM]
    have hA : mp ∣ G + (epn - E) / mp * mp := Dvd.dvd.add hG (Dvd.intro_left _ rfl)
    have s1 : G + (e - E) = G + (epn - E) / mp * mp + (e - epn / mp * mp) := by omega
    rw [s1]
    exact (div_mod_of_dvd_add mp _ (e - epn / mp * mp) hA (by omega)).2

theorem cap_phys_dvd : cap PTE_PHYS_LEVELS ∣ 2 ^ 32 := by
  unfold cap PTE_PHYS_LEVELS
  exact Nat.pow_dvd_pow 2 (by decide)

/-- C4. Correct two-level translation on a handled miss: for every table built by calls
of `vptbl_map` over disjoint guest ranges, every 32-bit `vaddr` and every logical TLB1
entry `i` that is the lowest-index entry covering `(vaddr, space, pid)`, whose effective
base page and guest-physical base page are multiples of its page count and whose
guest-physical page for `vaddr` has a valid translation `rpn`, `guest_tlb1_miss` returns
`TLB_MISS_HANDLED` and the slot it programs has a window that holds the faulting page,
lies in the range of the entry, and maps each effective page `e` of it to exactly
`vptbl_xlate(gphys, grpn_entry + (e - epn_entry))`, a valid translation; the faulting
page is mapped to `rpn`. -/
theorem guest_tlb1_miss_two_level (g : gcpu_t) (calls : List map_call)
    (vaddr space pid i rpn attr : Nat)
    (hB : Built PTE_PHYS_LEVELS g.gphys calls) (hva : vaddr < 2 ^ 32)
    (hi : i < TLB1_GSIZE)
    (hhit : tlb1_entry_hit (g.gtlb1 i) (vaddr >>> PAGE_SHIFT) space pid = true)
    (hlow : ∀ j, j < i → tlb1_entry_hit (g.gtlb1 j) (vaddr >>> PAGE_SHIFT) space pid = false)
    (hm2 : (g.gtlb1 i).mas2 < 2 ^ 32)
    (hE : tsize_to_pages (MAS1_GETTSIZE (g.gtlb1 i).mas1) ∣ (g.gtlb1 i).mas2 >>> PAGE_SHIFT)
    (hG : tsize_to_pages (MAS1_GETTSIZE (g.gtlb1 i).mas1) ∣
      ((g.gtlb1 i).mas3 >>> PAGE_SHIFT ||| shl32 (g.gtlb1 i).mas7 (32 - PAGE_SHIFT)))
    (hx : vptbl_xlate g.gphys (entry_grpn (g.gtlb1 i) (vaddr >>> PAGE_SHIFT)) PTE_PHYS_LEVELS
      = Except.ok (rpn, attr))
    (hv : attr &&& PTE_VALID ≠ 0) :
    ∃ g', guest_tlb1_miss g vaddr space pid = Except.ok (tlb_miss.TLB_MISS_HANDLED, g') ∧
      (g'.tlb1 (alloc_tlb1 g i true).2.toNat).va >>> PAGE_SHIFT ≤ vaddr >>> PAGE_SHIFT ∧
      vaddr >>> PAGE_SHIFT < (g'.tlb1 (alloc_tlb1 g i true).2.toNat).va >>> PAGE_SHIFT
        + tsize_to_pages (g'.tlb1 (alloc_tlb1 g i true).2.toNat).tsize ∧
      (g'.tlb1 (alloc_tlb1 g i true).2.toNat).pa >>> PAGE_SHIFT
        + (vaddr >>> PAGE_SHIFT - (g'.tlb1 (alloc_tlb1 g i true).2.toNat).va >>> PAGE_SHIFT)
        = rpn ∧
      ∀ e, (g'.tlb1 (alloc_tlb1 g i true).2.toNat).va >>> PAGE_SHIFT ≤ e →
        e < (g'.tlb1 (alloc_tlb1 g i true).2.toNat).va >>> PAGE_SHIFT
          + tsize_to_pages (g'.tlb1 (alloc_tlb1 g i true).2.toNat).tsize →
        (g.gtlb1 i).mas2 >>> PAGE_SHIFT ≤ e ∧
        e < (g.gtlb1 i).mas2 >>> PAGE_SHIFT
          + tsize_to_pages (MAS1_GETTSIZE (g.gtlb1 i).mas1) ∧
        ∃ a, vptbl_xlate g.gphys (entry_grpn (g.gtlb1 i) e) PTE_PHYS_LEVELS
            = Except.ok ((g'.tlb1 (alloc_tlb1 g i true).2.toNat).pa >>> PAGE_SHIFT
                + (e - (g'.tlb1 (alloc_tlb1 g i true).2.toNat).va >>> PAGE_SHIFT), a) ∧
          a &&& PTE_VALID ≠ 0 := by
  refine ⟨_, (miss_first_hit g vaddr space pid i hi hhit hlow).trans
    (fill_valid g i _ space pid rpn attr hx hv), ?_⟩
  obtain ⟨d, hd, hvd, hrpn, hm16, hmc, hr1, hr2, hg1, hg2, hcap, hall⟩ :=
    built_window PTE_PHYS_LEVELS (by decide) g.gphys calls hB _ rpn attr
      (min (MAS1_GETTSIZE (g.gtlb1 i).mas1) (attr >>> PTE_SIZE_SHIFT)) hx hv (Nat.min_le_right _ _)
  obtain ⟨s1, s2, s3, _⟩ := tlb1_set_entry_slot (alloc_tlb1 g i true).1
    (alloc_tlb1 g i true).2.toNat
    (shl32 (vaddr >>> PAGE_SHIFT &&& not32 (sub32 (tsize_to_pages
      (min (MAS1_GETTSIZE (g.gtlb1 i).mas1) (attr >>> PTE_SIZE_SHIFT))) 1)) PAGE_SHIFT)
    ((rpn &&& not32 (sub32 (tsize_to_pages
      (min (MAS1_GETTSIZE (g.gtlb1 i).mas1) (attr >>> PTE_SIZE_SHIFT))) 1)) <<< PAGE_SHIFT)
    (min (MAS1_GETTSIZE (g.gtlb1 i).mas1) (attr >>> PTE_SIZE_SHIFT))
    (g.gtlb1 i).mas2 ((g.gtlb1 i).mas3 &&& not32 MAS3_RPN) pid space MAS8_GTS
  have hepn : vaddr >>> PAGE_SHIFT < 2 ^ 20 := by
    rw [Nat.shiftRight_eq_div_pow]; unfold PAGE_SHIFT; omega
  have hEb : (g.gtlb1 i).mas2 >>> PAGE_SHIFT < 2 ^ 20 := by
    rw [Nat.shiftRight_eq_div_pow]; unfold PAGE_SHIFT; omega
  have hts := gettsize_le (g.gtlb1 i).mas1
  have hPts := tsize_pages_le _ hts
  obtain ⟨_, _, _, hge, hlt⟩ := (hit_true_iff _ _ _ _).1 hhit
  rw [add32_eq _ _ (by omega)] at hlt
  rw [s1, s2, s3, shl_shr_nat, shl_shr_page _ (lt_of_le_of_lt (mask_le _ _) hepn),
    mask_floor _ rpn hm16 hrpn, mask_floor _ _ hm16 (by omega), tsize_to_pages_eq _ hm16]
  have hmts : 2 ^ (min (MAS1_GETTSIZE (g.gtlb1 i).mas1) (attr >>> PTE_SIZE_SHIFT) * 2 - 2) ∣
      tsize_to_pages (MAS1_GETTSIZE (g.gtlb1 i).mas1) := by
    rw [tsize_to_pages_eq _ (by omega)]
    exact Nat.pow_dvd_pow 2 (by omega)
  generalize min (MAS1_GETTSIZE (g.gtlb1 i).mas1) (attr >>> PTE_SIZE_SHIFT) = m at *
  have hpos : 0 < 2 ^ (m * 2 - 2) := Nat.two_pow_pos _
  generalize 2 ^ (m * 2 - 2) = mp at *
  generalize hEd : (g.gtlb1 i).mas2 >>> PAGE_SHIFT = E at *
  generalize hepd : vaddr >>> PAGE_SHIFT = epn at *
  generalize hPd : tsize_to_pages (MAS1_GETTSIZE (g.gtlb1 i).mas1) = P at *
  have hEe : E ≤ epn := by omega
  have hfl : epn / mp * mp ≤ epn := Nat.div_mul_le_self _ _
  have hfu : epn < epn / mp * mp + mp := by
    have a1 := Nat.div_add_mod epn mp
    have a2 := Nat.mod_lt epn hpos
    have a3 := Nat.mul_comm mp (epn / mp)
    omega
  have e2 := div_mul_shift mp E epn hpos (Nat.dvd_trans hmts hE) hEe
  have e3 := block_in mp P (epn - E) hpos hmts (by omega)
  have key : ∀ e, epn / mp * mp ≤ e → e < epn / mp * mp + mp →
      vptbl_xlate g.gphys (entry_grpn (g.gtlb1 i) e) PTE_PHYS_LEVELS
        = Except.ok (rpn / mp * mp + (e - epn / mp * mp), attr) := by
    intro e h1 h2
    obtain ⟨_, _, w1, w2⟩ := window_grpn _ E epn e mp (cap PTE_PHYS_LEVELS) hpos
      (Nat.dvd_trans hmts hG) (Nat.dvd_trans hmts hE) hmc cap_phys_dvd hEe (by omega) h1 h2
    have := hall (entry_grpn (g.gtlb1 i) e) (by unfold entry_grpn; rw [hEd]; exact w1)
    rw [this]
    unfold entry_grpn
    rw [hEd, w2]
  refine ⟨hfl, hfu, ?_, ?_⟩
  · have := key epn hfl hfu
    rw [hx] at this
    simp only [Except.ok.injEq, Prod.mk.injEq] at this
    exact this.1.symm
  · intro e h1 h2
    exact ⟨by omega, by omega, attr, key e h1 h2, hv⟩

/-- Witness of C4: the 16 MiB entry of `gcpu_small_backing`, aligned at effective and
guest-physical page 0x1000, whose page 0x1000 is backed by the 4 KiB mapping to real
page 5. -/
theorem guest_tlb1_miss_two_level_witness :
    ∃ g', guest_tlb1_miss gcpu_small_backing 0x01000000 0 0
        = Except.ok (tlb_miss.TLB_MISS_HANDLED, g') ∧
      (g'.tlb1 (alloc_tlb1 gcpu_small_backing 0 true).2.toNat).va >>> PAGE_SHIFT
        ≤ 0x01000000 >>> PAGE_SHIFT ∧
      0x01000000 >>> PAGE_SHIFT
        < (g'.tlb1 (alloc_tlb1 gcpu_small_backing 0 true).2.toNat).va >>> PAGE_SHIFT
          + tsize_to_pages (g'.tlb1 (alloc_tlb1 gcpu_small_backing 0 true).2.toNat).tsize ∧
      (g'.tlb1 (alloc_tlb1 gcpu_small_backing 0 true).2.toNat).pa >>> PAGE_SHIFT
        + (0x01000000 >>> PAGE_SHIFT
          - (g'.tlb1 (alloc_tlb1 gcpu_small_backing 0 true).2.toNat).va >>> PAGE_SHIFT)
        = 5 ∧
      ∀ e, (g'.tlb1 (alloc_tlb1 gcpu_small_backing 0 true).2.toNat).va >>> PAGE_SHIFT ≤ e →
        e < (g'.tlb1 (alloc_tlb1 gcpu_small_backing 0 true).2.toNat).va >>> PAGE_SHIFT
          + tsize_to_pages (g'.tlb1 (alloc_tlb1 gcpu_small_backing 0 true).2.toNat).tsize →
        (gcpu_small_backing.gtlb1 0).mas2 >>> PAGE_SHIFT ≤ e ∧
        e < (gcpu_small_backing.gtlb1 0).mas2 >>> PAGE_SHIFT
          + tsize_to_pages (MAS1_GETTSIZE (gcpu_small_backing.gtlb1 0).mas1) ∧
        ∃ a, vptbl_xlate gcpu_small_backing.gphys
              (entry_grpn (gcpu_small_backing.gtlb1 0) e) PTE_PHYS_LEVELS
            = Except.ok
                ((g'.tlb1 (alloc_tlb1 gcpu_small_backing 0 true).2.toNat).pa >>> PAGE_SHIFT
                + (e - (g'.tlb1 (alloc_tlb1 gcpu_small_backing 0 true).2.toNat).va
                    >>> PAGE_SHIFT), a) ∧
          a &&& PTE_VALID ≠ 0 :=
  guest_tlb1_miss_two_level gcpu_small_backing
    [{ gpn := 0x1000, rpn := 0x5, npages := 1, attr := 0x7f }] 0x01000000 0 0 0 5 0x107f
    small_backing_built (by decide) (by decide) (by decide) (fun j hj => absurd hj (by omega))
    (by decide) (by decide) (by decide) (by decide) (by decide)

/-! ## Allocation and release of physical slots, installs and invalidations (`tlb.c`) -/

/-- Multiplication of `unsigned long` values (wraps). -/
def mul32 (a b : Nat) : Nat := (a * b) % WORD

/-- Modelled from the spec: `PAGE_SIZE` of the missing `libos` headers, `1 << PAGE_SHIFT`. -/
def PAGE_SIZE : Nat := 1 <<< PAGE_SHIFT

/-- Modelled from the spec: `MAS2_EPN` of the missing `libos/fsl-booke-tlb.h`, the
effective page number field of MAS2. -/
def MAS2_EPN : Nat := 0xfffff000

/-- Modelled from the spec: `INV_IPROT` of the missing `paging.h`, the flag of an
invalidation that also takes entries marked `MAS1_IPROT` ("include_permanent"). -/
def INV_IPROT : Nat := 1

/-- Modelled from the spec: `INV_TLB0` of the missing `paging.h`, the flag that selects
TLB0 for an invalidation. -/
def INV_TLB0 : Nat := 2

/-- Modelled from the spec: `INV_TLB1` of the missing `paging.h`, the flag that selects
TLB1 for an invalidation. -/
def INV_TLB1 : Nat := 4

/-- Modelled from the spec: `TLBIVAX_INV_ALL` of the missing `libos/fsl-booke-tlb.h`, the
bit of the `tlbivax` address that asks for all entries. -/
def TLBIVAX_INV_ALL : Nat := 4

/-- Modelled from the spec: `TLBIVAX_VA` of the missing `libos/fsl-booke-tlb.h`, the page
address bits of the `tlbivax` address. -/
def TLBIVAX_VA : Nat := 0xfffff000

/-- Modelled from the spec: `MAS6_SPID_MASK` of the missing `libos/fsl-booke-tlb.h`. -/
def MAS6_SPID_MASK : Nat := 0x00ff0000

/-- Modelled from the spec: `MAS6_SPID_SHIFT` of the missing `libos/fsl-booke-tlb.h`. -/
def MAS6_SPID_SHIFT : Nat := 16

/-- Modelled from the spec: `PTE_MAS8_SHIFT` of the missing `paging.h`, the shift that
moves the MAS8 bits kept in `attr` to their place in MAS8. -/
def PTE_MAS8_SHIFT : Nat := 23

/-- Modelled from the spec: `PTE_MAS8_MASK` of the missing `paging.h`, the bits of MAS8
taken from `attr`. -/
def PTE_MAS8_MASK : Nat := 0xc0000000

/-- The inner loop `while (gcpu->tlb1_map[entry][i])` of `free_tlb1` for word `i`, whose
first slot is `idx`: each pass clears the lowest slot of the word, in the physical array,
in `tlb1_map[entry]` and in `tlb1_inuse`. -/
def free_tlb1_word (entry i idx : Nat) : Nat → gcpu_t → Except Fault gcpu_t
  | 0, _ => Except.error Fault.fuel
  | f + 1, g =>
    if g.tlb1_map entry i ≠ 0 then
      let bit := count_lsb_zeroes (g.tlb1_map entry i)
      if idx + bit > GUEST_TLB_END then Except.error Fault.assert_fail
      else
        free_tlb1_word entry i idx f
          { g with
            tlb1 := arr_set g.tlb1 (idx + bit) { g.tlb1 (idx + bit) with mas1 := 0 },
            tlb1_map := arr_set g.tlb1_map entry
              (arr_set (g.tlb1_map entry) i (g.tlb1_map entry i &&& not32 (shl32 1 bit))),
            tlb1_inuse := arr_set g.tlb1_inuse i (g.tlb1_inuse i &&& not32 (shl32 1 bit)) }
    else Except.ok g

/-- The loop `do ... while (idx < TLB1_SIZE)` of `free_tlb1` over the words of the
bitmaps. -/
def free_tlb1_loop (entry : Nat) : Nat → gcpu_t → Nat → Nat → Except Fault gcpu_t
  | 0, _, _, _ => Except.error Fault.fuel
  | f + 1, g, i, idx =>
    match free_tlb1_word entry i idx (LONG_BITS + 1) g with
    | Except.error e => Except.error e
    | Except.ok g1 =>
      if idx + LONG_BITS < TLB1_SIZE then free_tlb1_loop entry f g1 (i + 1) (idx + LONG_BITS)
      else Except.ok g1

/-- Embedding of `free_tlb1(entry)`: the state it leaves, or the way it halts. -/
def free_tlb1 (g : gcpu_t) (entry : Nat) : Except Fault gcpu_t :=
  match free_tlb1_loop entry (TLB1_SIZE / LONG_BITS) g 0 0 with
  | Except.error e => Except.error e
  | Except.ok g1 =>
    Except.ok { g1 with
      gtlb1 := arr_set g1.gtlb1 entry
        { g1.gtlb1 entry with mas1 := (g1.gtlb1 entry).mas1 &&& not32 MAS1_VALID } }

/-- The loop `while (epn < end)` of `guest_set_tlb1` (built without `CONFIG_TLB_CACHE`):
holes of the guest-physical table are skipped by the hint of `vptbl_xlate`, every other
piece gets a slot from `alloc_tlb1(entry, 0)`. -/
def guest_set_tlb1_loop (entry mas1 mas2flags end_ : Nat) :
    Nat → gcpu_t → Nat → Nat → Nat → Except Fault gcpu_t
  | 0, _, _, _, _ => Except.error Fault.fuel
  | f + 1, g, epn, grpn, mas3flags =>
    if epn < end_ then
      let size := max_page_size epn (sub32 end_ epn)
      match vptbl_xlate g.gphys grpn PTE_PHYS_LEVELS with
      | Except.error e => Except.error e
      | Except.ok (rpn, attr) =>
        if attr &&& PTE_VALID = 0 then
          guest_set_tlb1_loop entry mas1 mas2flags end_ f g
            (add32 (epn ||| rpn) 1) (add32 (grpn ||| rpn) 1) mas3flags
        else
          let mas3flags1 := mas3flags &&& (attr &&& PTE_MAS3_MASK)
          let mas8 := g.lpid ||| (shl32 attr PTE_MAS8_SHIFT &&& PTE_MAS8_MASK)
          let size1 := min size (attr >>> PTE_SIZE_SHIFT)
          if (alloc_tlb1 g entry false).2 < 0 then Except.error Fault.bug
          else
            guest_set_tlb1_loop entry mas1 mas2flags end_ f
              (tlb1_set_entry (alloc_tlb1 g entry false).1 (alloc_tlb1 g entry false).2.toNat
                (shl32 epn PAGE_SHIFT) (rpn <<< PAGE_SHIFT) size1 mas2flags mas3flags1
                ((mas1 >>> MAS1_TID_SHIFT) &&& 0xff) ((mas1 >>> MAS1_TS_SHIFT) &&& 1) mas8)
              (add32 epn (tsize_to_pages size1)) (add32 grpn (tsize_to_pages size1)) mas3flags1
    else Except.ok g

/-- Embedding of `guest_set_tlb1(entry, mas1, epn, grpn, mas2flags, mas3flags)`, built
without `CONFIG_TLB_CACHE`. -/
def guest_set_tlb1 (g : gcpu_t) (entry mas1 epn grpn mas2flags mas3flags : Nat) :
    Except Fault gcpu_t :=
  let size := (mas1 >>> MAS1_TSIZE_SHIFT) &&& 15
  let size_pages := tsize_to_pages size
  let end_ := add32 epn size_pages
  match free_tlb1 g entry with
  | Except.error e => Except.error e
  | Except.ok g1 =>
    let g2 : gcpu_t := { g1 with
      gtlb1 := arr_set g1.gtlb1 entry
        { mas1 := mas1,
          mas2 := shl32 epn PAGE_SHIFT ||| mas2flags,
          mas3 := shl32 grpn PAGE_SHIFT ||| mas3flags,
          mas7 := grpn >>> (32 - PAGE_SHIFT) } }
    if mas1 &&& MAS1_VALID = 0 then Except.ok g2
    else guest_set_tlb1_loop entry mas1 mas2flags end_ (size_pages + 1) g2 epn grpn mas3flags

/-- The tests of the loop of `guest_inv_tlb1`: whether logical entry `e` is passed to
`free_tlb1` by the call with `va`, `pid`, `flags` and `global`. -/
def inv_tlb1_selects (e : tlb_entry_t) (va : Nat) (pid : Int) (flags global : Nat) : Bool :=
  if e.mas1 &&& MAS1_VALID = 0 then false
  else if flags &&& INV_IPROT ≠ 0 ∨ e.mas1 &&& MAS1_IPROT = 0 then
    let begin_ := e.mas2 &&& MAS2_EPN
    let end_ := add32 begin_ (mul32 (sub32 (tsize_to_pages (MAS1_GETTSIZE e.mas1)) 1) PAGE_SIZE)
    if global = 0 ∧ (va < begin_ ∨ va > end_) then false
    else if pid ≥ 0 ∧ pid ≠ (((e.mas1 &&& MAS1_TID_MASK) >>> MAS1_TID_SHIFT : Nat) : Int) then
      false
    else true
  else false

/-- The loop `for (i = 0; i < TLB1_GSIZE; i++)` of `guest_inv_tlb1`, from index `i` with
`n` entries left. -/
def guest_inv_tlb1_loop (va : Nat) (pid : Int) (flags global : Nat) :
    Nat → gcpu_t → Nat → Except Fault gcpu_t
  | 0, g, _ => Except.ok g
  | n + 1, g, i =>
    if inv_tlb1_selects (g.gtlb1 i) va pid flags global then
      match free_tlb1 g i with
      | Except.error e => Except.error e
      | Except.ok g1 => guest_inv_tlb1_loop va pid flags global n g1 (i + 1)
    else guest_inv_tlb1_loop va pid flags global n g (i + 1)

/-- Embedding of `guest_inv_tlb1(va, pid, flags, global)`. -/
def guest_inv_tlb1 (g : gcpu_t) (va : Nat) (pid : Int) (flags global : Nat) :
    Except Fault gcpu_t :=
  guest_inv_tlb1_loop va pid flags global TLB1_GSIZE g 0

/-- Embedding of `guest_inv_tlb(ivax, pid, flags)` on the state of the TLB1 shadow
manager. The TLB0 part acts on the hardware only; of it the model keeps the assertion on
`SPR_MAS6`, whose value is the argument `mas6`. -/
def guest_inv_tlb (g : gcpu_t) (mas6 ivax : Nat) (pid : Int) (flags : Nat) :
    Except Fault gcpu_t :=
  let global := ivax &&& TLBIVAX_INV_ALL
  let va := ivax &&& TLBIVAX_VA
  if flags &&& INV_TLB0 ≠ 0 ∧ global = 0 ∧ pid ≥ 0 ∧
      ((mas6 &&& MAS6_SPID_MASK : Nat) : Int) ≠ pid * 2 ^ MAS6_SPID_SHIFT then
    Except.error Fault.assert_fail
  else if flags &&& INV_TLB1 ≠ 0 then guest_inv_tlb1 g va pid flags global
  else Except.ok g

/-- Embedding of `guest_reset_tlb()`. -/
def guest_reset_tlb (g : gcpu_t) (mas6 : Nat) : Except Fault gcpu_t :=
  guest_inv_tlb g mas6 TLBIVAX_INV_ALL (-1) (INV_TLB0 ||| INV_TLB1 ||| INV_IPROT)

/-- The tests of the loop of `guest_find_tlb1` after `entry == i`: whether the logical
entry `other` conflicts with the mapping described by `mas1` and `epn`. -/
def find_tlb1_conflict (other : tlb_entry_t) (mas1 epn : Nat) : Bool :=
  let pid := MAS1_GETTID mas1
  let otherepn := other.mas2 >>> PAGE_SHIFT
  let otherpid := MAS1_GETTID other.mas1
  if other.mas1 &&& MAS1_VALID = 0 then false
  else if mas1 &&& MAS1_TS ≠ other.mas1 &&& MAS1_TS then false
  else if pid ≠ 0 ∧ otherpid ≠ 0 ∧ pid ≠ otherpid then false
  else if otherepn ≥ add32 epn (tsize_to_pages (MAS1_GETTSIZE mas1)) then false
  else if add32 otherepn (tsize_to_pages (MAS1_GETTSIZE other.mas1)) ≤ epn then false
  else true

/-- The loop `for (i = 0; i < TLB1_GSIZE; i++)` of `guest_find_tlb1`. -/
def guest_find_tlb1_loop (g : gcpu_t) (entry mas1 epn : Nat) : Nat → Nat → Int
  | 0, _ => -1
  | n + 1, i =>
    if entry = i then guest_find_tlb1_loop g entry mas1 epn n (i + 1)
    else if find_tlb1_conflict (g.gtlb1 i) mas1 epn then (i : Int)
    else guest_find_tlb1_loop g entry mas1 epn n (i + 1)

/-- Embedding of `guest_find_tlb1(entry, mas1, epn)`; `entry` is an `unsigned int`, so the
caller's `-1` is `0xffffffff`. -/
def guest_find_tlb1 (g : gcpu_t) (entry mas1 epn : Nat) : Int :=
  guest_find_tlb1_loop g entry mas1 epn TLB1_GSIZE 0

/-! ## Bits of a bitmap word -/

theorem testBit_of_dvd (b v j : Nat) (hd : 2 ^ b ∣ v) (hj : j < b) : v.testBit j = false := by
  obtain ⟨k, rfl⟩ := hd
  rw [Nat.testBit_mul_pow_two]
  simp; omega

theorem dvd_succ_of_testBit (b v : Nat) (hd : 2 ^ b ∣ v) (hb : v.testBit b = false) :
    2 ^ (b + 1) ∣ v := by
  obtain ⟨k, rfl⟩ := hd
  rw [Nat.testBit_mul_pow_two] at hb
  simp only [ge_iff_le, le_refl, decide_True, Nat.sub_self, Bool.true_and] at hb
  rw [Nat.testBit_zero] at hb
  have hk : k % 2 = 0 := by
    by_contra h
    have : k % 2 = 1 := by omega
    simp [this] at hb
  have : k = 2 * (k / 2) := by omega
  rw [this, pow_succ, ← Nat.mul_assoc]
  exact Dvd.intro _ rfl

/-- `count_lsb_zeroes` of a nonzero 32-bit word is the position of its lowest set bit. -/
theorem clz_spec (w : Nat) (h0 : w ≠ 0) (hw : w < 2 ^ 32) :
    count_lsb_zeroes w < 32 ∧ w.testBit (count_lsb_zeroes w) = true ∧
      ∀ j, j < count_lsb_zeroes w → w.testBit j = false := by
  have hd : 2 ^ count_lsb_zeroes w ∣ w := clz_aux_dvd 32 w
  have hle : 2 ^ count_lsb_zeroes w ≤ w := Nat.le_of_dvd (by omega) hd
  have hlt : count_lsb_zeroes w < 32 :=
    (Nat.pow_lt_pow_iff_right (by norm_num : 1 < 2)).1 (lt_of_le_of_lt hle hw)
  refine ⟨hlt, ?_, fun j hj => testBit_of_dvd _ _ _ hd hj⟩
  by_contra hb
  have hb' : w.testBit (count_lsb_zeroes w) = false := by simpa using hb
  have := clz_aux_ge 32 w (count_lsb_zeroes w + 1) (by omega) (dvd_succ_of_testBit _ _ hd hb')
  unfold count_lsb_zeroes LONG_BITS at *
  omega

theorem not32_testBit (w j : Nat) :
    (not32 w).testBit j = (decide (j < 32) && !w.testBit j) := by
  unfold not32 WORD
  have h : w % 2 ^ 32 < 2 ^ 32 := Nat.mod_lt _ (by norm_num)
  have e : 2 ^ 32 - 1 - w % 2 ^ 32 = 2 ^ 32 - (w % 2 ^ 32 + 1) := by omega
  rw [e, Nat.testBit_two_pow_sub_succ h, Nat.testBit_mod_two_pow]
  by_cases hj : j < 32 <;> simp [hj]

theorem not32_lt (w : Nat) : not32 w < 2 ^ 32 := by
  unfold not32 WORD; omega

theorem set_bit_testBit (w b j : Nat) (hb : b < 32) :
    (w ||| shl32 1 b).testBit j = (w.testBit j || decide (j = b)) := by
  rw [shl32_one b hb, Nat.testBit_or, Nat.testBit_two_pow]
  by_cases h : b = j
  · subst h; simp
  · have : ¬ j = b := fun e => h e.symm
    simp [h, this]

theorem clear_bit_testBit (w b j : Nat) (hb : b < 32) :
    (w &&& not32 (shl32 1 b)).testBit j
      = (w.testBit j && (decide (j < 32) && !decide (j = b))) := by
  rw [shl32_one b hb, Nat.testBit_and, not32_testBit, Nat.testBit_two_pow]
  by_cases h : b = j
  · subst h; simp
  · have : ¬ j = b := fun e => h e.symm
    simp [h, this]

theorem set_bit_lt (w b k : Nat) (hw : w < 2 ^ k) (hb : b < k) (hb32 : b < 32) :
    w ||| shl32 1 b < 2 ^ k := by
  rw [shl32_one b hb32]
  exact Nat.or_lt_two_pow hw (Nat.pow_lt_pow_right (by norm_num) hb)

theorem clear_bit_le (w m : Nat) : w &&& m ≤ w := Nat.and_le_left

/-- The lowest clear bit of a word that is not all ones. -/
theorem first_clear_spec (w : Nat) (h0 : not32 w ≠ 0) :
    count_lsb_zeroes (not32 w) < 32 ∧ w.testBit (count_lsb_zeroes (not32 w)) = false ∧
      ∀ j, j < count_lsb_zeroes (not32 w) → w.testBit j = true := by
  obtain ⟨h1, h2, h3⟩ := clz_spec (not32 w) h0 (not32_lt w)
  refine ⟨h1, ?_, fun j hj => ?_⟩
  · rw [not32_testBit] at h2
    simpa [h1] using h2
  · have := h3 j hj
    rw [not32_testBit] at this
    have hj32 : j < 32 := by omega
    simpa [hj32] using this

/-- A word whose complement is zero has all 32 bits set. -/
theorem all_set_of_not32 (w : Nat) (h0 : not32 w = 0) (j : Nat) (hj : j < 32) :
    w.testBit j = true := by
  have := not32_testBit w j
  rw [h0, Nat.zero_testBit] at this
  simpa [hj] using this.symm

/-- Whether physical slot `s` is named by the bitmap `w`, an array of `unsigned long`
words: bit `s % LONG_BITS` of word `s / LONG_BITS`. -/
def slot_in (w : Nat → Nat) (s : Nat) : Bool := (w (s / LONG_BITS)).testBit (s % LONG_BITS)

theorem not32_ne_zero_of_clear (w j : Nat) (hj : j < 32) (h : w.testBit j = false) :
    not32 w ≠ 0 := by
  intro h0
  have := all_set_of_not32 w h0 j hj
  rw [h] at this
  exact Bool.noConfusion this

theorem not32_eq_zero_of_set (w : Nat) (h : ∀ j, j < 32 → w.testBit j = true) :
    not32 w = 0 := by
  apply Nat.eq_of_testBit_eq
  intro j
  rw [not32_testBit, Nat.zero_testBit]
  by_cases hj : j < 32
  · simp [hj, h j hj]
  · simp [hj]

/-- The first clear bit found by `count_lsb_zeroes(~w)` is the least clear bit. -/
theorem first_clear_eq (w s : Nat) (hs : s < 32) (hc : w.testBit s = false)
    (hl : ∀ t, t < s → w.testBit t = true) : count_lsb_zeroes (not32 w) = s := by
  obtain ⟨h1, h2, h3⟩ := first_clear_spec w (not32_ne_zero_of_clear w s hs hc)
  by_contra hne
  rcases Nat.lt_or_gt_of_ne hne with h | h
  · have := hl _ h
    rw [h2] at this
    exact Bool.noConfusion this
  · have := h3 _ h
    rw [hc] at this
    exact Bool.noConfusion this

theorem slot_in_low (w : Nat → Nat) (s : Nat) (hs : s < 32) :
    slot_in w s = (w 0).testBit s := by
  unfold slot_in LONG_BITS
  rw [Nat.div_eq_of_lt hs, Nat.mod_eq_of_lt hs]

theorem slot_in_high (w : Nat → Nat) (s : Nat) (h1 : 32 ≤ s) (h2 : s < 64) :
    slot_in w s = (w 1).testBit (s - 32) := by
  unfold slot_in LONG_BITS
  have e1 : s / 32 = 1 := by omega
  have e2 : s % 32 = s - 32 := by omega
  rw [e1, e2]

/-- The two passes of the first-fit scan of `alloc_tlb1`, over the two words of
`tlb1_inuse`. -/
theorem alloc_scan_unfold (g : gcpu_t) (e : Nat) :
    alloc_tlb1_scan e (TLB1_SIZE / LONG_BITS) g 0 0 =
      if not32 (g.tlb1_inuse 0) ≠ 0 then
        if 0 + count_lsb_zeroes (not32 (g.tlb1_inuse 0)) > GUEST_TLB_END then none
        else some ({ g with
          tlb1_inuse := arr_set g.tlb1_inuse 0
            (g.tlb1_inuse 0 ||| shl32 1 (count_lsb_zeroes (not32 (g.tlb1_inuse 0)))),
          tlb1_map := arr_set g.tlb1_map e
            (arr_set (g.tlb1_map e) 0
              (g.tlb1_map e 0 ||| shl32 1 (count_lsb_zeroes (not32 (g.tlb1_inuse 0))))) },
          0 + count_lsb_zeroes (not32 (g.tlb1_inuse 0)))
      else if not32 (g.tlb1_inuse 1) ≠ 0 then
        if 32 + count_lsb_zeroes (not32 (g.tlb1_inuse 1)) > GUEST_TLB_END then none
        else some ({ g with
          tlb1_inuse := arr_set g.tlb1_inuse 1
            (g.tlb1_inuse 1 ||| shl32 1 (count_lsb_zeroes (not32 (g.tlb1_inuse 1)))),
          tlb1_map := arr_set g.tlb1_map e
            (arr_set (g.tlb1_map e) 1
              (g.tlb1_map e 1 ||| shl32 1 (count_lsb_zeroes (not32 (g.tlb1_inuse 1))))) },
          32 + count_lsb_zeroes (not32 (g.tlb1_inuse 1)))
      else none := by
  have e2 : TLB1_SIZE / LONG_BITS = 2 := by decide
  rw [e2]
  by_cases h0 : not32 (g.tlb1_inuse 0) = 0
  · by_cases h1 : not32 (g.tlb1_inuse 1) = 0
    · simp [alloc_tlb1_scan, h0, h1, LONG_BITS, TLB1_SIZE]
    · simp [alloc_tlb1_scan, h0, h1, LONG_BITS, TLB1_SIZE]
  · simp [alloc_tlb1_scan, h0]

/-- The first-fit scan of `alloc_tlb1` takes the lowest slot up to `GUEST_TLB_END` whose
bit is clear in `tlb1_inuse`. -/
theorem alloc_scan_some (g : gcpu_t) (e s : Nat) (hs : s ≤ GUEST_TLB_END)
    (hc : slot_in g.tlb1_inuse s = false) (hl : ∀ t, t < s → slot_in g.tlb1_inuse t = true) :
    alloc_tlb1_scan e (TLB1_SIZE / LONG_BITS) g 0 0
      = some ({ g with
          tlb1_inuse := arr_set g.tlb1_inuse (s / LONG_BITS)
            (g.tlb1_inuse (s / LONG_BITS) ||| shl32 1 (s % LONG_BITS)),
          tlb1_map := arr_set g.tlb1_map e
            (arr_set (g.tlb1_map e) (s / LONG_BITS)
              (g.tlb1_map e (s / LONG_BITS) ||| shl32 1 (s % LONG_BITS))) }, s) := by
  have h47 : s ≤ 47 := hs
  rw [alloc_scan_unfold]
  by_cases hlow : s < 32
  · rw [slot_in_low _ _ hlow] at hc
    have hl' : ∀ t, t < s → (g.tlb1_inuse 0).testBit t = true := fun t ht => by
      rw [← slot_in_low _ _ (by omega)]; exact hl t ht
    have hb := first_clear_eq _ s hlow hc hl'
    have hne := not32_ne_zero_of_clear _ s hlow hc
    have d : s / LONG_BITS = 0 := Nat.div_eq_of_lt hlow
    have m : s % LONG_BITS = s := Nat.mod_eq_of_lt hlow
    rw [if_pos hne, hb, if_neg (by unfold GUEST_TLB_END; omega), d, m, Nat.zero_add]
  · have hall0 : ∀ j, j < 32 → (g.tlb1_inuse 0).testBit j = true := fun j hj => by
      rw [← slot_in_low _ _ hj]; exact hl j (by omega)
    have h0 := not32_eq_zero_of_set _ hall0
    rw [slot_in_high _ _ (by omega) (by omega)] at hc
    have hl' : ∀ t, t < s - 32 → (g.tlb1_inuse 1).testBit t = true := fun t ht => by
      have := hl (t + 32) (by omega)
      rw [slot_in_high _ _ (by omega) (by omega)] at this
      simpa using this
    have hb := first_clear_eq _ (s - 32) (by omega) hc hl'
    have hne := not32_ne_zero_of_clear _ (s - 32) (by omega) hc
    have d : s / LONG_BITS = 1 := by unfold LONG_BITS; omega
    have m : s % LONG_BITS = s - 32 := by unfold LONG_BITS; omega
    have e5 : 32 + (s - 32) = s := by omega
    rw [if_neg (by rw [h0]; exact fun h => h rfl), if_pos hne, hb,
      if_neg (by unfold GUEST_TLB_END; omega), d, m, e5]

/-- The first-fit scan of `alloc_tlb1` finds nothing when every slot up to
`GUEST_TLB_END` is in use. -/
theorem alloc_scan_none (g : gcpu_t) (e : Nat)
    (hall : ∀ s, s ≤ GUEST_TLB_END → slot_in g.tlb1_inuse s = true) :
    alloc_tlb1_scan e (TLB1_SIZE / LONG_BITS) g 0 0 = none := by
  rw [alloc_scan_unfold]
  have hall0 : ∀ j, j < 32 → (g.tlb1_inuse 0).testBit j = true := fun j hj => by
    rw [← slot_in_low _ _ hj]; exact hall j (by unfold GUEST_TLB_END; omega)
  have h0 := not32_eq_zero_of_set _ hall0
  rw [if_neg (by rw [h0]; exact fun h => h rfl)]
  by_cases h1 : not32 (g.tlb1_inuse 1) = 0
  · rw [if_neg (by rw [h1]; exact fun h => h rfl)]
  · rw [if_pos h1]
    obtain ⟨hb, hc, _⟩ := first_clear_spec _ h1
    rw [if_pos]
    by_contra hgt
    have hle : count_lsb_zeroes (not32 (g.tlb1_inuse 1)) + 32 ≤ 47 := by
      unfold GUEST_TLB_END at hgt; omega
    have := hall (count_lsb_zeroes (not32 (g.tlb1_inuse 1)) + 32) hle
    rw [slot_in_high _ _ (by omega) (by omega)] at this
    simp only [Nat.add_sub_cancel] at this
    rw [hc] at this
    exact Bool.noConfusion this

/-- Either some slot up to `GUEST_TLB_END` is free, and then there is a lowest one, or
all of them are in use. -/
theorem lowest_free (w : Nat → Nat) :
    (∃ s, s ≤ GUEST_TLB_END ∧ slot_in w s = false ∧ ∀ t, t < s → slot_in w t = true) ∨
    (∀ s, s ≤ GUEST_TLB_END → slot_in w s = true) := by
  rcases exists_first (fun s => !slot_in w s) (GUEST_TLB_END + 1) with h | ⟨k, hk, hp, hl⟩
  · right
    intro s hs
    have := h s (by omega)
    simpa using this
  · left
    refine ⟨k, by omega, by simpa using hp, fun t ht => ?_⟩
    have := hl t ht
    simpa using this

/-- Setting bit `s % LONG_BITS` of word `s / LONG_BITS` adds exactly slot `s`. -/
theorem slot_in_mark (w : Nat → Nat) (s t : Nat) :
    slot_in (arr_set w (s / LONG_BITS) (w (s / LONG_BITS) ||| shl32 1 (s % LONG_BITS))) t
      = (slot_in w t || decide (t = s)) := by
  unfold slot_in arr_set LONG_BITS
  by_cases hd : t / 32 = s / 32
  · rw [if_pos hd, set_bit_testBit _ _ _ (Nat.mod_lt _ (by norm_num)), hd]
    by_cases hm : t % 32 = s % 32
    · have : t = s := by omega
      simp [hm, this]
    · have : ¬ t = s := fun e => hm (by rw [e])
      simp [hm, this]
  · rw [if_neg hd]
    have : ¬ t = s := fun e => hd (by rw [e])
    simp [this]

/-- C14. First-fit allocation without eviction: for every state and logical entry `e`,
`alloc_tlb1(e, 0)` returns the lowest index `s` in `0..GUEST_TLB_END` whose bit is clear
in `tlb1_inuse`, and the state it leaves differs from the one before only in that bit
`s` is set in `tlb1_inuse` and in `tlb1_map[e]`; it returns `-1` iff every slot in
`0..GUEST_TLB_END` is in use, and then the state is unchanged; there is no third
case. -/
theorem alloc_tlb1_first_fit (g : gcpu_t) (e : Nat) :
    (∀ s, s ≤ GUEST_TLB_END → slot_in g.tlb1_inuse s = false →
      (∀ t, t < s → slot_in g.tlb1_inuse t = true) →
      alloc_tlb1 g e false
        = ({ g with
            tlb1_inuse := arr_set g.tlb1_inuse (s / LONG_BITS)
              (g.tlb1_inuse (s / LONG_BITS) ||| shl32 1 (s % LONG_BITS)),
            tlb1_map := arr_set g.tlb1_map e
              (arr_set (g.tlb1_map e) (s / LONG_BITS)
                (g.tlb1_map e (s / LONG_BITS) ||| shl32 1 (s % LONG_BITS))) }, (s : Int)) ∧
        ∀ t, slot_in (alloc_tlb1 g e false).1.tlb1_inuse t
              = (slot_in g.tlb1_inuse t || decide (t = s)) ∧
            slot_in ((alloc_tlb1 g e false).1.tlb1_map e) t
              = (slot_in (g.tlb1_map e) t || decide (t = s))) ∧
    ((alloc_tlb1 g e false).2 = -1 ↔
      ∀ s, s ≤ GUEST_TLB_END → slot_in g.tlb1_inuse s = true) ∧
    ((alloc_tlb1 g e false).2 = -1 → (alloc_tlb1 g e false).1 = g) ∧
    ((alloc_tlb1 g e false).2 = -1 ∨
      ∃ s, s ≤ GUEST_TLB_END ∧ (alloc_tlb1 g e false).2 = (s : Int) ∧
        slot_in g.tlb1_inuse s = false ∧ ∀ t, t < s → slot_in g.tlb1_inuse t = true) := by
  have part1 : ∀ s, s ≤ GUEST_TLB_END → slot_in g.tlb1_inuse s = false →
      (∀ t, t < s → slot_in g.tlb1_inuse t = true) →
      alloc_tlb1 g e false
        = ({ g with
            tlb1_inuse := arr_set g.tlb1_inuse (s / LONG_BITS)
              (g.tlb1_inuse (s / LONG_BITS) ||| shl32 1 (s % LONG_BITS)),
            tlb1_map := arr_set g.tlb1_map e
              (arr_set (g.tlb1_map e) (s / LONG_BITS)
                (g.tlb1_map e (s / LONG_BITS) ||| shl32 1 (s % LONG_BITS))) }, (s : Int)) := by
    intro s hs hc hl
    unfold alloc_tlb1
    rw [alloc_scan_some g e s hs hc hl]
  have none_case : (∀ s, s ≤ GUEST_TLB_END → slot_in g.tlb1_inuse s = true) →
      alloc_tlb1 g e false = (g, -1) := by
    intro hall
    unfold alloc_tlb1
    rw [alloc_scan_none g e hall]
    rfl
  refine ⟨fun s hs hc hl => ⟨part1 s hs hc hl, fun t => ?_⟩, ⟨fun h => ?_, fun hall => ?_⟩,
    fun h => ?_, ?_⟩
  · rw [part1 s hs hc hl]
    refine ⟨slot_in_mark _ s t, ?_⟩
    show slot_in (arr_set g.tlb1_map e (arr_set (g.tlb1_map e) (s / LONG_BITS)
      (g.tlb1_map e (s / LONG_BITS) ||| shl32 1 (s % LONG_BITS))) e) t = _
    have : arr_set g.tlb1_map e (arr_set (g.tlb1_map e) (s / LONG_BITS)
      (g.tlb1_map e (s / LONG_BITS) ||| shl32 1 (s % LONG_BITS))) e
        = arr_set (g.tlb1_map e) (s / LONG_BITS)
          (g.tlb1_map e (s / LONG_BITS) ||| shl32 1 (s % LONG_BITS)) := by
      unfold arr_set; simp
    rw [this]
    exact slot_in_mark _ s t
  · rcases lowest_free g.tlb1_inuse with ⟨s, hs, hc, hl⟩ | hall
    · rw [part1 s hs hc hl] at h
      simp only at h
      omega
    · exact hall
  · rw [none_case hall]
  · rcases lowest_free g.tlb1_inuse with ⟨s, hs, hc, hl⟩ | hall
    · rw [part1 s hs hc hl] at h
      simp only at h
      omega
    · rw [none_case hall]
  · rcases lowest_free g.tlb1_inuse with ⟨s, hs, hc, hl⟩ | hall
    · right
      exact ⟨s, hs, by rw [part1 s hs hc hl], hc, hl⟩
    · left
      rw [none_case hall]

/-- What the inner loop of `free_tlb1` for word `i` of entry `e` has done when it is left
with state `g'`, having started in `g`. -/
structure FreeWordPost (e i idx : Nat) (g g' : gcpu_t) : Prop where
  gtlb1 : g'.gtlb1 = g.gtlb1
  gphys : g'.gphys = g.gphys
  lpid : g'.lpid = g.lpid
  evict : g'.evict_tlb1 = g.evict_tlb1
  map_other : ∀ e' i', (e' ≠ e ∨ i' ≠ i) → g'.tlb1_map e' i' = g.tlb1_map e' i'
  map_zero : g'.tlb1_map e i = 0
  inuse_other : ∀ i', i' ≠ i → g'.tlb1_inuse i' = g.tlb1_inuse i'
  inuse_bits : ∀ j, (g'.tlb1_inuse i).testBit j
    = ((g.tlb1_inuse i).testBit j && !(g.tlb1_map e i).testBit j)
  slots : ∀ s, g'.tlb1 s
    = if idx ≤ s ∧ (g.tlb1_map e i).testBit (s - idx) = true then { g.tlb1 s with mas1 := 0 }
      else g.tlb1 s

theorem eq_zero_of_low_bits (w k : Nat) (hw : w < 2 ^ 32) (hk : 32 ≤ k)
    (hz : ∀ j, j < k → w.testBit j = false) : w = 0 := by
  apply Nat.eq_of_testBit_eq
  intro j
  rw [Nat.zero_testBit]
  by_cases hj : j < k
  · exact hz j hj
  · exact Nat.testBit_lt_two_pow
      (lt_of_lt_of_le hw (Nat.pow_le_pow_right (by norm_num) (by omega)))

theorem testBit_lt_32 (w j : Nat) (hw : w < 2 ^ 32) (h : w.testBit j = true) : j < 32 := by
  by_contra hj
  have : w.testBit j = false := Nat.testBit_lt_two_pow
    (lt_of_lt_of_le hw (Nat.pow_le_pow_right (by norm_num) (by omega)))
  rw [this] at h
  exact Bool.noConfusion h

/-- The inner loop of `free_tlb1` returns, with fuel to spare, on a 32-bit word whose
slots lie in the range the assertion demands. -/
theorem free_word_spec (e i idx : Nat) : ∀ (f : Nat) (g : gcpu_t) (k : Nat),
    g.tlb1_map e i < 2 ^ 32 → g.tlb1_inuse i < 2 ^ 32 →
    (∀ j, (g.tlb1_map e i).testBit j = true → idx + j ≤ GUEST_TLB_END) →
    (∀ j, j < k → (g.tlb1_map e i).testBit j = false) → k ≤ 32 → 33 ≤ f + k →
    ∃ g', free_tlb1_word e i idx f g = Except.ok g' ∧ FreeWordPost e i idx g g' := by
  intro f
  induction f with
  | zero => intro g k _ _ _ _ hk hf; omega
  | succ f ih =>
    intro g k hw hu hr hz hk hf
    by_cases h0 : g.tlb1_map e i = 0
    · refine ⟨g, by simp [free_tlb1_word, h0], rfl, rfl, rfl, rfl, fun _ _ _ => rfl, h0,
        fun _ _ => rfl, fun j => ?_, fun s => ?_⟩
      · rw [h0, Nat.zero_testBit]; simp
      · rw [h0, Nat.zero_testBit]; simp
    · obtain ⟨hb32, hbt, hbl⟩ := clz_spec _ h0 hw
      have hbk : k ≤ count_lsb_zeroes (g.tlb1_map e i) := by
        by_contra hlt
        have := hz _ (Nat.lt_of_not_le hlt)
        rw [hbt] at this
        exact Bool.noConfusion this
      have hnot : ¬ idx + count_lsb_zeroes (g.tlb1_map e i) > GUEST_TLB_END := by
        have := hr _ hbt; omega
      simp only [free_tlb1_word, h0, ne_eq, not_false_eq_true, if_true, hnot, if_false]
      generalize hb : count_lsb_zeroes (g.tlb1_map e i) = b at *
      have hmap1 : (arr_set g.tlb1_map e (arr_set (g.tlb1_map e) i
          (g.tlb1_map e i &&& not32 (shl32 1 b)))) e i = g.tlb1_map e i &&& not32 (shl32 1 b) := by
        simp [arr_set]
      have hin1 : (arr_set g.tlb1_inuse i (g.tlb1_inuse i &&& not32 (shl32 1 b))) i
          = g.tlb1_inuse i &&& not32 (shl32 1 b) := by
        simp [arr_set]
      obtain ⟨g', hg', P⟩ := ih
        { g with
          tlb1 := arr_set g.tlb1 (idx + b) { g.tlb1 (idx + b) with mas1 := 0 },
          tlb1_map := arr_set g.tlb1_map e
            (arr_set (g.tlb1_map e) i (g.tlb1_map e i &&& not32 (shl32 1 b))),
          tlb1_inuse := arr_set g.tlb1_inuse i (g.tlb1_inuse i &&& not32 (shl32 1 b)) }
        (b + 1)
        (by show (arr_set g.tlb1_map e _) e i < _
            rw [hmap1]; exact lt_of_le_of_lt (clear_bit_le _ _) hw)
        (by show (arr_set g.tlb1_inuse i _) i < _
            rw [hin1]; exact lt_of_le_of_lt (clear_bit_le _ _) hu)
        (by intro j hj
            have hj' : Nat.testBit ((arr_set g.tlb1_map e (arr_set (g.tlb1_map e) i
              (g.tlb1_map e i &&& not32 (shl32 1 b)))) e i) j = true := hj
            rw [hmap1, clear_bit_testBit _ _ _ hb32] at hj'
            simp only [Bool.and_eq_true] at hj'
            exact hr j hj'.1)
        (by intro j hj
            show Nat.testBit ((arr_set g.tlb1_map e _) e i) j = false
            rw [hmap1, clear_bit_testBit _ _ _ hb32]
            by_cases hjb : j = b
            · simp [hjb]
            · rw [hbl j (by omega)]; simp)
        (by omega) (by omega)
      refine ⟨g', hg', P.gtlb1, P.gphys, P.lpid, P.evict, ?_, P.map_zero, ?_, ?_, ?_⟩
      · intro e' i' hne
        rw [P.map_other e' i' hne]
        show (arr_set g.tlb1_map e _) e' i' = _
        unfold arr_set
        by_cases he : e' = e
        · subst he
          have hi : i' ≠ i := by rcases hne with h | h; exact absurd rfl h; exact h
          simp [hi]
        · simp [he]
      · intro i' hne
        rw [P.inuse_other i' hne]
        show (arr_set g.tlb1_inuse i _) i' = _
        simp [arr_set, hne]
      · intro j
        rw [P.inuse_bits j]
        show (Nat.testBit ((arr_set g.tlb1_inuse i _) i) j &&
          !Nat.testBit ((arr_set g.tlb1_map e _) e i) j) = _
        rw [hin1, hmap1, clear_bit_testBit _ _ _ hb32, clear_bit_testBit _ _ _ hb32]
        by_cases hjb : j = b
        · subst hjb; simp [hbt]
        · by_cases h32 : j < 32
          · simp [hjb, h32]
          · have : (g.tlb1_inuse i).testBit j = false := Nat.testBit_lt_two_pow
              (lt_of_lt_of_le hu (Nat.pow_le_pow_right (by norm_num) (by omega)))
            simp [this]
      · intro s
        rw [P.slots s]
        show (if idx ≤ s ∧ Nat.testBit ((arr_set g.tlb1_map e _) e i) (s - idx) = true then
            { (arr_set g.tlb1 (idx + b) { g.tlb1 (idx + b) with mas1 := 0 }) s with mas1 := 0 }
          else (arr_set g.tlb1 (idx + b) { g.tlb1 (idx + b) with mas1 := 0 }) s) = _
        rw [hmap1, clear_bit_testBit _ _ _ hb32]
        by_cases hs : s = idx + b
        · subst hs
          have e1 : idx + b - idx = b := by omega
          simp [arr_set, e1, hbt]
        · by_cases hle : idx ≤ s
          · have hne : ¬ s - idx = b := by omega
            by_cases ht : (g.tlb1_map e i).testBit (s - idx) = true
            · have := testBit_lt_32 _ _ hw ht
              simp [arr_set, hs, hle, ht, hne, this]
            · simp [arr_set, hs, ht]
          · simp [arr_set, hs, hle]

/-- What `free_tlb1(e)` has done when it returns with state `g'`, having started in
`g`. -/
structure FreePost (e : Nat) (g g' : gcpu_t) : Prop where
  gphys : g'.gphys = g.gphys
  lpid : g'.lpid = g.lpid
  evict : g'.evict_tlb1 = g.evict_tlb1
  gtlb1_other : ∀ e', e' ≠ e → g'.gtlb1 e' = g.gtlb1 e'
  gtlb1_self : g'.gtlb1 e = { g.gtlb1 e with mas1 := (g.gtlb1 e).mas1 &&& not32 MAS1_VALID }
  map_other : ∀ e' i, e' ≠ e → g'.tlb1_map e' i = g.tlb1_map e' i
  map_zero : ∀ i, i < 2 → g'.tlb1_map e i = 0
  map_high : ∀ i, 2 ≤ i → g'.tlb1_map e i = g.tlb1_map e i
  inuse_bits : ∀ i j, i < 2 → (g'.tlb1_inuse i).testBit j
    = ((g.tlb1_inuse i).testBit j && !(g.tlb1_map e i).testBit j)
  inuse_high : ∀ i, 2 ≤ i → g'.tlb1_inuse i = g.tlb1_inuse i
  slots : ∀ s, g'.tlb1 s
    = if s < TLB1_SIZE ∧ slot_in (g.tlb1_map e) s = true then { g.tlb1 s with mas1 := 0 }
      else g.tlb1 s

/-- The bitmap words `free_tlb1` can work on: 32-bit words whose bits name slots up to
`GUEST_TLB_END`. -/
def FreeOk (g : gcpu_t) (e : Nat) : Prop :=
  g.tlb1_map e 0 < 2 ^ 32 ∧ g.tlb1_map e 1 < 2 ^ 16 ∧
    g.tlb1_inuse 0 < 2 ^ 32 ∧ g.tlb1_inuse 1 < 2 ^ 32

/-- `free_tlb1(e)` returns on well-formed bitmaps, and what it does. -/
theorem free_spec (g : gcpu_t) (e : Nat) (h : FreeOk g e) :
    ∃ g', free_tlb1 g e = Except.ok g' ∧ FreePost e g g' := by
  obtain ⟨h0, h1, hu0, hu1⟩ := h
  obtain ⟨g1, hg1, P1⟩ := free_word_spec e 0 0 (LONG_BITS + 1) g 0 h0 hu0
    (fun j hj => by have := testBit_lt_32 _ _ h0 hj; unfold GUEST_TLB_END; omega)
    (fun j hj => by omega) (by omega) (by decide)
  have h1' : g1.tlb1_map e 1 = g.tlb1_map e 1 := P1.map_other e 1 (Or.inr (by decide))
  have hu1' : g1.tlb1_inuse 1 = g.tlb1_inuse 1 := P1.inuse_other 1 (by decide)
  have hlt16 : ∀ j, (g.tlb1_map e 1).testBit j = true → j < 16 := fun j hj => by
    by_contra hge
    have : (g.tlb1_map e 1).testBit j = false := Nat.testBit_lt_two_pow
      (lt_of_lt_of_le h1 (Nat.pow_le_pow_right (by norm_num) (by omega)))
    rw [this] at hj
    exact Bool.noConfusion hj
  have h1lt : g.tlb1_map e 1 < 2 ^ 32 := lt_of_lt_of_le h1 (by norm_num)
  obtain ⟨g2, hg2, P2⟩ := free_word_spec e 1 32 (LONG_BITS + 1) g1 0
    (by rw [h1']; exact h1lt) (by rw [hu1']; exact hu1)
    (fun j hj => by
      rw [h1'] at hj
      have := hlt16 j hj
      unfold GUEST_TLB_END; omega)
    (fun j hj => by omega) (by omega) (by decide)
  have e2 : TLB1_SIZE / LONG_BITS = 2 := by decide
  have c1 : (0 : Nat) + LONG_BITS < TLB1_SIZE := by decide
  have c2 : ¬ ((0 : Nat) + LONG_BITS + LONG_BITS < TLB1_SIZE) := by decide
  have e32 : (0 : Nat) + LONG_BITS = 32 := by decide
  have run : free_tlb1_loop e (TLB1_SIZE / LONG_BITS) g 0 0 = Except.ok g2 := by
    have hg2' : free_tlb1_word e (0 + 1) (0 + LONG_BITS) (LONG_BITS + 1) g1 = Except.ok g2 := hg2
    rw [e2]
    simp only [free_tlb1_loop]
    rw [hg1]
    simp only []
    rw [if_pos c1, hg2']
    simp only []
    rw [if_neg c2]
  refine ⟨_, by unfold free_tlb1; rw [run], ?_⟩
  refine ⟨by show g2.gphys = _; rw [P2.gphys, P1.gphys],
    by show g2.lpid = _; rw [P2.lpid, P1.lpid],
    by show g2.evict_tlb1 = _; rw [P2.evict, P1.evict], ?_, ?_, ?_, ?_, ?_, ?_, ?_, ?_⟩
  · intro e' he
    show arr_set g2.gtlb1 e _ e' = _
    simp only [arr_set, he, if_false]
    rw [P2.gtlb1, P1.gtlb1]
  · show arr_set g2.gtlb1 e _ e = _
    simp only [arr_set, if_true]
    rw [P2.gtlb1, P1.gtlb1]
  · intro e' i he
    show g2.tlb1_map e' i = _
    rw [P2.map_other e' i (Or.inl he), P1.map_other e' i (Or.inl he)]
  · intro i hi
    show g2.tlb1_map e i = 0
    by_cases hi1 : i = 1
    · subst hi1; exact P2.map_zero
    · have : i = 0 := by omega
      subst this
      rw [P2.map_other e 0 (Or.inr (by decide))]
      exact P1.map_zero
  · intro i hi
    show g2.tlb1_map e i = _
    rw [P2.map_other e i (Or.inr (by omega)), P1.map_other e i (Or.inr (by omega))]
  · intro i j hi
    show (g2.tlb1_inuse i).testBit j = _
    by_cases hi1 : i = 1
    · subst hi1
      rw [P2.inuse_bits j, hu1', h1']
    · have : i = 0 := by omega
      subst this
      rw [P2.inuse_other 0 (by decide), P1.inuse_bits j]
  · intro i hi
    show g2.tlb1_inuse i = _
    rw [P2.inuse_other i (by omega), P1.inuse_other i (by omega)]
  · intro s
    show g2.tlb1 s = _
    rw [P2.slots s, P1.slots s, h1']
    by_cases hs : s < 32
    · rw [slot_in_low _ _ hs]
      have h64 : s < TLB1_SIZE := by unfold TLB1_SIZE; omega
      have hn : ¬ (32 ≤ s ∧ (g.tlb1_map e 1).testBit (s - 32) = true) := fun h => by omega
      rw [if_neg hn]
      simp [h64]
    · by_cases hs2 : s < 64
      · rw [slot_in_high _ _ (by omega) hs2]
        have h64 : s < TLB1_SIZE := hs2
        have hn : ¬ (0 ≤ s ∧ (g.tlb1_map e 0).testBit (s - 0) = true) := fun h => by
          have := testBit_lt_32 _ _ h0 h.2
          omega
        have h32 : 32 ≤ s := by omega
        rw [if_neg hn]
        simp [h64, h32]
      · have hn0 : ¬ (0 ≤ s ∧ (g.tlb1_map e 0).testBit (s - 0) = true) := fun h => by
          have := testBit_lt_32 _ _ h0 h.2
          omega
        have hn1 : ¬ (32 ≤ s ∧ (g.tlb1_map e 1).testBit (s - 32) = true) := fun h => by
          have := hlt16 _ h.2
          omega
        have h64 : ¬ s < TLB1_SIZE := hs2
        rw [if_neg hn1, if_neg hn0]
        simp [h64]

/-- States reached from one with empty bitmaps and the eviction cursor at 0 by calls of
`alloc_tlb1` (with or without eviction) and `free_tlb1` for logical entries, and by
anything that leaves the bitmaps and the cursor alone (programming a slot, writing a
logical entry, mapping guest memory). -/
inductive SlotReach : gcpu_t → Prop where
  | init (g : gcpu_t) : (∀ i, g.tlb1_inuse i = 0) → (∀ e i, g.tlb1_map e i = 0) →
      g.evict_tlb1 = 0 → SlotReach g
  | alloc (g : gcpu_t) (e : Nat) (evict : Bool) : SlotReach g → e < TLB1_GSIZE →
      SlotReach (alloc_tlb1 g e evict).1
  | free (g : gcpu_t) (e : Nat) (g' : gcpu_t) : SlotReach g →
      free_tlb1 g e = Except.ok g' → SlotReach g'
  | other (g g' : gcpu_t) : SlotReach g → g'.tlb1_inuse = g.tlb1_inuse →
      g'.tlb1_map = g.tlb1_map → g'.evict_tlb1 = g.evict_tlb1 → SlotReach g'

/-- The invariant of the bitmaps: `tlb1_inuse` names only slots up to `GUEST_TLB_END`, it
is the union of the `tlb1_map` of the logical entries, no slot is in two of them, and the
eviction cursor is at most `GUEST_TLB_END`. -/
structure BitmapInv (g : gcpu_t) : Prop where
  range : ∀ i j, (g.tlb1_inuse i).testBit j = true →
    i < 2 ∧ j < 32 ∧ 32 * i + j ≤ GUEST_TLB_END
  sub : ∀ e i j, (g.tlb1_map e i).testBit j = true → (g.tlb1_inuse i).testBit j = true
  cover : ∀ i j, (g.tlb1_inuse i).testBit j = true →
    ∃ e, e < TLB1_GSIZE ∧ (g.tlb1_map e i).testBit j = true
  excl : ∀ e1 e2 i j, e1 ≠ e2 → (g.tlb1_map e1 i).testBit j = true →
    (g.tlb1_map e2 i).testBit j = false
  cursor : g.evict_tlb1 ≤ GUEST_TLB_END

theorem lt_of_bits (w k : Nat) (h : ∀ j, w.testBit j = true → j < k) : w < 2 ^ k := by
  apply Nat.lt_pow_two_of_testBit
  intro j hj
  by_contra hb
  have : w.testBit j = true := by simpa using hb
  have := h j this
  omega

theorem eq_zero_of_bits (w : Nat) (h : ∀ j, w.testBit j = false) : w = 0 := by
  apply Nat.eq_of_testBit_eq
  intro j
  rw [h j, Nat.zero_testBit]

theorem BitmapInv.free_ok {g : gcpu_t} (h : BitmapInv g) (e : Nat) : FreeOk g e := by
  refine ⟨lt_of_bits _ _ fun j hj => (h.range 0 j (h.sub e 0 j hj)).2.1,
    lt_of_bits _ _ fun j hj => ?_,
    lt_of_bits _ _ fun j hj => (h.range 0 j hj).2.1,
    lt_of_bits _ _ fun j hj => (h.range 1 j hj).2.1⟩
  have := (h.range 1 j (h.sub e 1 j hj)).2.2
  unfold GUEST_TLB_END at this
  omega

theorem BitmapInv.map_high {g : gcpu_t} (h : BitmapInv g) (e i : Nat) (hi : 2 ≤ i) :
    g.tlb1_map e i = 0 := by
  apply eq_zero_of_bits
  intro j
  by_contra hb
  have hb' : (g.tlb1_map e i).testBit j = true := by simpa using hb
  have := (h.range i j (h.sub e i j hb')).1
  omega

theorem BitmapInv.inuse_high {g : gcpu_t} (h : BitmapInv g) (i : Nat) (hi : 2 ≤ i) :
    g.tlb1_inuse i = 0 := by
  apply eq_zero_of_bits
  intro j
  by_contra hb
  have hb' : (g.tlb1_inuse i).testBit j = true := by simpa using hb
  have := (h.range i j hb').1
  omega

/-- The words of a bitmap after bit `s % LONG_BITS` of word `s / LONG_BITS` is set. -/
theorem mark_testBit (w : Nat → Nat) (s i j : Nat) :
    (arr_set w (s / LONG_BITS) (w (s / LONG_BITS) ||| shl32 1 (s % LONG_BITS)) i).testBit j
      = ((w i).testBit j || (decide (i = s / LONG_BITS) && decide (j = s % LONG_BITS))) := by
  unfold arr_set
  by_cases hi : i = s / LONG_BITS
  · have hlt : s % LONG_BITS < 32 := Nat.mod_lt _ (by decide)
    rw [if_pos hi, set_bit_testBit _ _ _ hlt, hi]
    simp
  · rw [if_neg hi]
    simp [hi]

theorem slot_word (w : Nat → Nat) (s : Nat) :
    slot_in w s = (w (s / LONG_BITS)).testBit (s % LONG_BITS) := rfl

/-- `alloc_tlb1` keeps the invariant of the bitmaps. -/
theorem alloc_inv (g : gcpu_t) (e : Nat) (evict : Bool) (he : e < TLB1_GSIZE)
    (h : BitmapInv g) : BitmapInv (alloc_tlb1 g e evict).1 := by
  rcases lowest_free g.tlb1_inuse with ⟨s, hs, hc, hl⟩ | hall
  · have hr : alloc_tlb1 g e evict
        = ({ g with
            tlb1_inuse := arr_set g.tlb1_inuse (s / LONG_BITS)
              (g.tlb1_inuse (s / LONG_BITS) ||| shl32 1 (s % LONG_BITS)),
            tlb1_map := arr_set g.tlb1_map e
              (arr_set (g.tlb1_map e) (s / LONG_BITS)
                (g.tlb1_map e (s / LONG_BITS) ||| shl32 1 (s % LONG_BITS))) }, (s : Int)) := by
      unfold alloc_tlb1
      rw [alloc_scan_some g e s hs hc hl]
    rw [hr]
    have hclear : ∀ e2, (g.tlb1_map e2 (s / LONG_BITS)).testBit (s % LONG_BITS) = false := by
      intro e2
      by_contra hb
      have hb' : (g.tlb1_map e2 (s / LONG_BITS)).testBit (s % LONG_BITS) = true := by
        simpa using hb
      have := h.sub e2 _ _ hb'
      rw [slot_word] at hc
      rw [hc] at this
      exact Bool.noConfusion this
    have hmap : ∀ e2 i j, ((arr_set g.tlb1_map e
        (arr_set (g.tlb1_map e) (s / LONG_BITS)
          (g.tlb1_map e (s / LONG_BITS) ||| shl32 1 (s % LONG_BITS)))) e2 i).testBit j
        = ((g.tlb1_map e2 i).testBit j ||
            (decide (e2 = e) && (decide (i = s / LONG_BITS) && decide (j = s % LONG_BITS)))) := by
      intro e2 i j
      by_cases h2 : e2 = e
      · subst h2
        have : (arr_set g.tlb1_map e2 (arr_set (g.tlb1_map e2) (s / LONG_BITS)
          (g.tlb1_map e2 (s / LONG_BITS) ||| shl32 1 (s % LONG_BITS)))) e2
            = arr_set (g.tlb1_map e2) (s / LONG_BITS)
              (g.tlb1_map e2 (s / LONG_BITS) ||| shl32 1 (s % LONG_BITS)) := by
          simp [arr_set]
        rw [this, mark_testBit]
        simp
      · simp [arr_set, h2]
    have hdm : s / LONG_BITS < 2 ∧ s % LONG_BITS < 32 ∧
        32 * (s / LONG_BITS) + s % LONG_BITS = s := by
      unfold LONG_BITS; unfold GUEST_TLB_END at hs; omega
    refine ⟨?_, ?_, ?_, ?_, h.cursor⟩
    · intro i j hb
      have hb' : ((arr_set g.tlb1_inuse (s / LONG_BITS)
        (g.tlb1_inuse (s / LONG_BITS) ||| shl32 1 (s % LONG_BITS))) i).testBit j = true := hb
      rw [mark_testBit] at hb'
      simp only [Bool.or_eq_true, Bool.and_eq_true, decide_eq_true_eq] at hb'
      rcases hb' with hb' | ⟨rfl, rfl⟩
      · exact h.range i j hb'
      · exact ⟨hdm.1, hdm.2.1, by rw [hdm.2.2]; exact hs⟩
    · intro e2 i j hb
      have hb' := hb
      change ((arr_set g.tlb1_map e _) e2 i).testBit j = true at hb'
      rw [hmap] at hb'
      show ((arr_set g.tlb1_inuse (s / LONG_BITS) _) i).testBit j = true
      rw [mark_testBit]
      simp only [Bool.or_eq_true, Bool.and_eq_true, decide_eq_true_eq] at hb' ⊢
      rcases hb' with hb' | ⟨_, hi, hj⟩
      · exact Or.inl (h.sub e2 i j hb')
      · exact Or.inr ⟨hi, hj⟩
    · intro i j hb
      have hb' := hb
      change ((arr_set g.tlb1_inuse (s / LONG_BITS) _) i).testBit j = true at hb'
      rw [mark_testBit] at hb'
      simp only [Bool.or_eq_true, Bool.and_eq_true, decide_eq_true_eq] at hb'
      rcases hb' with hb' | ⟨hi, hj⟩
      · obtain ⟨e0, he0, hb0⟩ := h.cover i j hb'
        refine ⟨e0, he0, ?_⟩
        show ((arr_set g.tlb1_map e _) e0 i).testBit j = true
        rw [hmap, hb0]; rfl
      · refine ⟨e, he, ?_⟩
        show ((arr_set g.tlb1_map e _) e i).testBit j = true
        rw [hmap]
        simp [hi, hj]
    · intro e1 e2 i j hne hb
      have hb' := hb
      change ((arr_set g.tlb1_map e _) e1 i).testBit j = true at hb'
      rw [hmap] at hb'
      show ((arr_set g.tlb1_map e _) e2 i).testBit j = false
      rw [hmap]
      simp only [Bool.or_eq_true, Bool.and_eq_true, decide_eq_true_eq] at hb'
      rcases hb' with hb' | ⟨h1, hi, hj⟩
      · rw [h.excl e1 e2 i j hne hb']
        by_cases h2 : e2 = e
        · by_cases hij : i = s / LONG_BITS ∧ j = s % LONG_BITS
          · obtain ⟨rfl, rfl⟩ := hij
            rw [hclear e1] at hb'
            exact Bool.noConfusion hb'
          · have : ¬ (i = s / LONG_BITS ∧ j = s % LONG_BITS) := hij
            simp only [Bool.false_or, Bool.and_eq_false_imp, decide_eq_true_eq,
              decide_eq_false_iff_not]
            intro _ hi hj
            exact this ⟨hi, hj⟩
        · simp [h2]
      · subst h1 hi hj
        rw [hclear e2]
        have : ¬ e2 = e1 := fun h => hne h.symm
        simp [this]
  · have hn := alloc_scan_none g e hall
    unfold alloc_tlb1
    rw [hn]
    cases evict with
    | false => exact h
    | true =>
      simp only [if_true]
      refine ⟨h.range, h.sub, h.cover, h.excl, ?_⟩
      show (if add32 g.evict_tlb1 1 > GUEST_TLB_END then 0 else add32 g.evict_tlb1 1)
        ≤ GUEST_TLB_END
      split
      · exact Nat.zero_le _
      · omega

/-- On bitmaps that satisfy the invariant `free_tlb1` returns, and does what `FreePost`
says. -/
theorem free_post (g : gcpu_t) (e : Nat) (g' : gcpu_t) (h : BitmapInv g)
    (hf : free_tlb1 g e = Except.ok g') : FreePost e g g' := by
  obtain ⟨g2, h2, P⟩ := free_spec g e (h.free_ok e)
  rw [h2] at hf
  simp only [Except.ok.injEq] at hf
  rw [← hf]
  exact P

/-- `free_tlb1` keeps the invariant of the bitmaps. -/
theorem free_inv (g : gcpu_t) (e : Nat) (g' : gcpu_t) (h : BitmapInv g)
    (hf : free_tlb1 g e = Except.ok g') : BitmapInv g' := by
  have P := free_post g e g' h hf
  have hin : ∀ i j, (g'.tlb1_inuse i).testBit j
      = ((g.tlb1_inuse i).testBit j && !(g.tlb1_map e i).testBit j) := by
    intro i j
    by_cases hi : i < 2
    · exact P.inuse_bits i j hi
    · rw [P.inuse_high i (by omega), h.map_high e i (by omega), Nat.zero_testBit]
      simp
  have hself : ∀ i, g'.tlb1_map e i = 0 := by
    intro i
    by_cases hi : i < 2
    · exact P.map_zero i hi
    · rw [P.map_high i (by omega)]
      exact h.map_high e i (by omega)
  refine ⟨?_, ?_, ?_, ?_, by rw [P.evict]; exact h.cursor⟩
  · intro i j hb
    rw [hin] at hb
    simp only [Bool.and_eq_true] at hb
    exact h.range i j hb.1
  · intro e2 i j hb
    by_cases h2 : e2 = e
    · subst h2
      rw [hself, Nat.zero_testBit] at hb
      exact Bool.noConfusion hb
    · rw [P.map_other e2 i h2] at hb
      rw [hin, h.sub e2 i j hb, h.excl e2 e i j h2 hb]
      rfl
  · intro i j hb
    rw [hin] at hb
    simp only [Bool.and_eq_true, Bool.not_eq_true'] at hb
    obtain ⟨e0, he0, hb0⟩ := h.cover i j hb.1
    have hne : e0 ≠ e := by
      intro he
      subst he
      rw [hb.2] at hb0
      exact Bool.noConfusion hb0
    exact ⟨e0, he0, by rw [P.map_other e0 i hne]; exact hb0⟩
  · intro e1 e2 i j hne hb
    by_cases h1 : e1 = e
    · subst h1
      rw [hself, Nat.zero_testBit] at hb
      exact Bool.noConfusion hb
    · rw [P.map_other e1 i h1] at hb
      by_cases h2 : e2 = e
      · subst h2
        rw [hself, Nat.zero_testBit]
      · rw [P.map_other e2 i h2]
        exact h.excl e1 e2 i j hne hb

/-- Every state reached by `alloc_tlb1` and `free_tlb1` satisfies the invariant of the
bitmaps. -/
theorem slot_reach_inv (g : gcpu_t) (h : SlotReach g) : BitmapInv g := by
  induction h with
  | init g hi hm hc =>
    refine ⟨fun i j hb => ?_, fun e i j hb => ?_, fun i j hb => ?_, fun e1 e2 i j _ hb => ?_,
      by rw [hc]; exact Nat.zero_le _⟩
    · rw [hi, Nat.zero_testBit] at hb; exact Bool.noConfusion hb
    · rw [hm, Nat.zero_testBit] at hb; exact Bool.noConfusion hb
    · rw [hi, Nat.zero_testBit] at hb; exact Bool.noConfusion hb
    · rw [hm, Nat.zero_testBit] at hb; exact Bool.noConfusion hb
  | alloc g e evict _ he ih => exact alloc_inv g e evict he ih
  | free g e g' _ hf ih => exact free_inv g e g' ih hf
  | other g g' _ h1 h2 h3 ih =>
    exact ⟨by rw [h1]; exact ih.range, by rw [h1, h2]; exact ih.sub,
      by rw [h1, h2]; exact ih.cover, by rw [h2]; exact ih.excl, by rw [h3]; exact ih.cursor⟩

theorem and_zero_of_excl (a b : Nat) (h : ∀ j, a.testBit j = true → b.testBit j = false) :
    a &&& b = 0 := by
  apply eq_zero_of_bits
  intro j
  rw [Nat.testBit_and]
  cases ha : a.testBit j with
  | false => rfl
  | true => rw [h j ha]; rfl

theorem slot_in_lt (g : gcpu_t) (h : BitmapInv g) (e s : Nat)
    (hs : slot_in (g.tlb1_map e) s = true) : s ≤ GUEST_TLB_END := by
  rw [slot_word] at hs
  have := h.range _ _ (h.sub e _ _ hs)
  have e1 : 32 * (s / LONG_BITS) + s % LONG_BITS = s := by unfold LONG_BITS; omega
  omega

/-- C12. Slot exclusivity: in every state reached from the all-zero bitmaps by calls of
`alloc_tlb1` (with or without eviction) and `free_tlb1`, the bitmaps `tlb1_map[e1]` and
`tlb1_map[e2]` of distinct logical entries have no bit in common; and `free_tlb1(e)`
returns, leaves `tlb1_map[e]` empty, clears `MAS1_VALID` of logical entry `e` and nothing
else of it, sets `mas1 = 0` in every physical slot that was in `tlb1_map[e]` and leaves
the other slots as they were, takes exactly the bits of `tlb1_map[e]` out of
`tlb1_inuse`, and changes no other logical entry and no other entry's bitmap. -/
theorem tlb1_map_exclusive (g : gcpu_t) (h : SlotReach g) :
    (∀ e1 e2 i, e1 ≠ e2 → g.tlb1_map e1 i &&& g.tlb1_map e2 i = 0) ∧
    ∀ e, ∃ g', free_tlb1 g e = Except.ok g' ∧
      (∀ i, g'.tlb1_map e i = 0) ∧
      g'.gtlb1 e = { g.gtlb1 e with mas1 := (g.gtlb1 e).mas1 &&& not32 MAS1_VALID } ∧
      (g'.gtlb1 e).mas1 &&& MAS1_VALID = 0 ∧
      (∀ s, slot_in (g.tlb1_map e) s = true → (g'.tlb1 s).mas1 = 0) ∧
      (∀ s, slot_in (g.tlb1_map e) s = false → g'.tlb1 s = g.tlb1 s) ∧
      (∀ e', e' ≠ e → g'.gtlb1 e' = g.gtlb1 e' ∧ ∀ i, g'.tlb1_map e' i = g.tlb1_map e' i) ∧
      (∀ s, slot_in g'.tlb1_inuse s = (slot_in g.tlb1_inuse s && !slot_in (g.tlb1_map e) s)) ∧
      g'.evict_tlb1 = g.evict_tlb1 ∧ g'.gphys = g.gphys := by
  have hI := slot_reach_inv g h
  refine ⟨fun e1 e2 i hne => and_zero_of_excl _ _ (fun j hj => hI.excl e1 e2 i j hne hj),
    fun e => ?_⟩
  obtain ⟨g', hf, P⟩ := free_spec g e (hI.free_ok e)
  have hI' := free_inv g e g' hI hf
  refine ⟨g', hf, ?_, P.gtlb1_self, ?_, ?_, ?_, fun e' he => ⟨P.gtlb1_other e' he,
    fun i => P.map_other e' i he⟩, ?_, P.evict, P.gphys⟩
  · intro i
    by_cases hi : i < 2
    · exact P.map_zero i hi
    · exact hI'.map_high e i (by omega)
  · rw [P.gtlb1_self]
    show ((g.gtlb1 e).mas1 &&& not32 MAS1_VALID) &&& MAS1_VALID = 0
    apply eq_zero_of_bits
    intro j
    rw [Nat.testBit_and, Nat.testBit_and, not32_testBit]
    cases hv : MAS1_VALID.testBit j <;> simp
  · intro s hs
    have h64 : s < TLB1_SIZE := by
      have := slot_in_lt g hI e s hs
      unfold GUEST_TLB_END at this; unfold TLB1_SIZE; omega
    rw [P.slots s, if_pos ⟨h64, hs⟩]
  · intro s hs
    rw [P.slots s, if_neg (fun hc => by rw [hs] at hc; exact Bool.noConfusion hc.2)]
  · intro s
    rw [slot_word, slot_word, slot_word]
    by_cases hi : s / LONG_BITS < 2
    · exact P.inuse_bits _ _ hi
    · rw [P.inuse_high _ (by omega), hI.map_high e _ (by omega), Nat.zero_testBit]
      simp

/-- A state with bound slots: from the all-zero bitmaps, with logical entry 3 valid,
`alloc_tlb1` is called for entry 3, for entry 5 and again for entry 3, and slot 0 is
programmed. Slots 0 and 2 are bound to entry 3, slot 1 to entry 5. -/
def gcpu_bound : gcpu_t :=
  tlb1_set_entry
    (alloc_tlb1 (alloc_tlb1 (alloc_tlb1
      { gcpu_zero with
        gtlb1 := arr_set gcpu_zero.gtlb1 3
          { mas1 := 0x80000700, mas2 := 0x01000000, mas3 := 0x0100003f, mas7 := 0 } }
      3 true).1 5 true).1 3 false).1
    0 0x01000000 0x5000 1 0 0x3f 0 0 MAS8_GTS

/-- Witness of C12: in `gcpu_bound` the maps of the entries 3 and 5 are `0b101` and
`0b010`, with no bit in common; `free_tlb1(3)` returns, empties the map of entry 3, clears
`MAS1_VALID` of entry 3, sets `mas1 = 0` in the slots 0 and 2, leaves slot 1 and the map of
entry 5 as they were, and takes the slots 0 and 2, not slot 1, out of `tlb1_inuse`. -/
theorem tlb1_map_exclusive_witness :
    gcpu_bound.tlb1_map 3 0 = 5 ∧ gcpu_bound.tlb1_map 5 0 = 2 ∧
    gcpu_bound.tlb1_inuse 0 = 7 ∧
    (gcpu_bound.tlb1 0).mas1 ≠ 0 ∧ (gcpu_bound.gtlb1 3).mas1 &&& MAS1_VALID ≠ 0 ∧
    gcpu_bound.tlb1_map 3 0 &&& gcpu_bound.tlb1_map 5 0 = 0 ∧
    ∃ g', free_tlb1 gcpu_bound 3 = Except.ok g' ∧
      (∀ i, g'.tlb1_map 3 i = 0) ∧ (g'.gtlb1 3).mas1 &&& MAS1_VALID = 0 ∧
      (g'.tlb1 0).mas1 = 0 ∧ (g'.tlb1 2).mas1 = 0 ∧ g'.tlb1 1 = gcpu_bound.tlb1 1 ∧
      g'.tlb1_map 5 0 = 2 ∧ g'.gtlb1 5 = gcpu_bound.gtlb1 5 ∧
      slot_in g'.tlb1_inuse 0 = false ∧ slot_in g'.tlb1_inuse 1 = true ∧
      slot_in g'.tlb1_inuse 2 = false := by
  have h := tlb1_map_exclusive gcpu_bound
    (SlotReach.other _ gcpu_bound
      (SlotReach.alloc _ 3 false
        (SlotReach.alloc _ 5 true
          (SlotReach.alloc _ 3 true
            (SlotReach.init _ (fun _ => rfl) (fun _ _ => rfl) rfl) (by decide))
          (by decide))
        (by decide))
      rfl rfl rfl)
  refine ⟨by decide, by decide, by decide, by decide, by decide, h.1 3 5 0 (by decide), ?_⟩
  obtain ⟨g', hf, hz, _, hv, hs, hk, ho, hin, _⟩ := h.2 3
  refine ⟨g', hf, hz, hv, hs 0 (by decide), hs 2 (by decide), hk 1 (by decide), ?_,
    (ho 5 (by decide)).1, ?_, ?_, ?_⟩
  · rw [(ho 5 (by decide)).2 0]; decide
  · rw [hin 0]; decide
  · rw [hin 1]; decide
  · rw [hin 2]; decide

theorem free_word_evict (e i idx : Nat) : ∀ (f : Nat) (g g' : gcpu_t),
    free_tlb1_word e i idx f g = Except.ok g' → g'.evict_tlb1 = g.evict_tlb1 := by
  intro f
  induction f with
  | zero => intro g g' h; simp [free_tlb1_word] at h
  | succ f ih =>
    intro g g' h
    simp only [free_tlb1_word] at h
    by_cases h0 : g.tlb1_map e i = 0
    · simp only [h0, ne_eq, not_true_eq_false, if_false, Except.ok.injEq] at h
      rw [← h]
    · simp only [h0, ne_eq, not_false_eq_true, if_true] at h
      by_cases ha : idx + count_lsb_zeroes (g.tlb1_map e i) > GUEST_TLB_END
      · rw [if_pos ha] at h; exact Except.noConfusion h
      · rw [if_neg ha] at h
        have := ih _ g' h
        exact this

/-- `free_tlb1` does not write the eviction cursor. -/
theorem free_evict (g : gcpu_t) (e : Nat) (g' : gcpu_t) (h : free_tlb1 g e = Except.ok g') :
    g'.evict_tlb1 = g.evict_tlb1 := by
  unfold free_tlb1 at h
  have e2 : TLB1_SIZE / LONG_BITS = 2 := by decide
  rw [e2] at h
  simp only [free_tlb1_loop] at h
  cases h1 : free_tlb1_word e 0 0 (LONG_BITS + 1) g with
  | error x => rw [h1] at h; exact Except.noConfusion h
  | ok g1 =>
    rw [h1] at h
    simp only [] at h
    rw [if_pos (by decide)] at h
    cases h2 : free_tlb1_word e (0 + 1) (0 + LONG_BITS) (LONG_BITS + 1) g1 with
    | error x => rw [h2] at h; exact Except.noConfusion h
    | ok g2 =>
      rw [h2] at h
      simp only [] at h
      rw [if_neg (by decide)] at h
      simp only [Except.ok.injEq] at h
      rw [← h]
      show g2.evict_tlb1 = _
      rw [free_word_evict _ _ _ _ _ _ h2, free_word_evict _ _ _ _ _ _ h1]

/-- States reached from one whose eviction cursor is 0 by calls of `alloc_tlb1`, of
`free_tlb1`, and by anything that does not write the cursor. -/
inductive CursorReach : gcpu_t → Prop where
  | init (g : gcpu_t) : g.evict_tlb1 = 0 → CursorReach g
  | alloc (g : gcpu_t) (e : Nat) (evict : Bool) : CursorReach g →
      CursorReach (alloc_tlb1 g e evict).1
  | free (g : gcpu_t) (e : Nat) (g' : gcpu_t) : CursorReach g →
      free_tlb1 g e = Except.ok g' → CursorReach g'
  | other (g g' : gcpu_t) : CursorReach g → g'.evict_tlb1 = g.evict_tlb1 → CursorReach g'

/-- The results of successive calls `alloc_tlb1(e, 1)` for the logical entries of a
list, and the state after the last one. -/
def alloc_seq : gcpu_t → List Nat → gcpu_t × List Int
  | g, [] => (g, [])
  | g, e :: es =>
    ((alloc_seq (alloc_tlb1 g e true).1 es).1,
      (alloc_tlb1 g e true).2 :: (alloc_seq (alloc_tlb1 g e true).1 es).2)

theorem alloc_some (g : gcpu_t) (e s : Nat) (evict : Bool) (hs : s ≤ GUEST_TLB_END)
    (hc : slot_in g.tlb1_inuse s = false) (hl : ∀ t, t < s → slot_in g.tlb1_inuse t = true) :
    alloc_tlb1 g e evict
      = ({ g with
          tlb1_inuse := arr_set g.tlb1_inuse (s / LONG_BITS)
            (g.tlb1_inuse (s / LONG_BITS) ||| shl32 1 (s % LONG_BITS)),
          tlb1_map := arr_set g.tlb1_map e
            (arr_set (g.tlb1_map e) (s / LONG_BITS)
              (g.tlb1_map e (s / LONG_BITS) ||| shl32 1 (s % LONG_BITS))) }, (s : Int)) := by
  unfold alloc_tlb1
  rw [alloc_scan_some g e s hs hc hl]

/-- The eviction branch of `alloc_tlb1`: with no free slot and the cursor in range, the
call returns the cursor and moves it on, cyclically. -/
theorem alloc_evict (g : gcpu_t) (e : Nat)
    (hall : ∀ s, s ≤ GUEST_TLB_END → slot_in g.tlb1_inuse s = true)
    (hc : g.evict_tlb1 ≤ GUEST_TLB_END) :
    alloc_tlb1 g e true
      = ({ g with evict_tlb1 := if g.evict_tlb1 = GUEST_TLB_END then 0 else g.evict_tlb1 + 1 },
          (g.evict_tlb1 : Int)) := by
  unfold alloc_tlb1
  rw [alloc_scan_none g e hall]
  have h47 : g.evict_tlb1 ≤ 47 := hc
  have ha : add32 g.evict_tlb1 1 = g.evict_tlb1 + 1 := add32_eq _ _ (by omega)
  simp only [if_true, ha]
  by_cases h : g.evict_tlb1 = GUEST_TLB_END
  · rw [if_pos h, if_pos (by omega)]
  · rw [if_neg h, if_neg (by omega)]

theorem alloc_cursor (g : gcpu_t) (e : Nat) (evict : Bool) (h : g.evict_tlb1 ≤ GUEST_TLB_END) :
    (alloc_tlb1 g e evict).1.evict_tlb1 ≤ GUEST_TLB_END ∧
      (alloc_tlb1 g e evict).2 ≤ (GUEST_TLB_END : Int) := by
  rcases lowest_free g.tlb1_inuse with ⟨s, hs, hc, hl⟩ | hall
  · rw [alloc_some g e s evict hs hc hl]
    exact ⟨h, by simp only; omega⟩
  · cases evict with
    | true =>
      rw [alloc_evict g e hall h]
      refine ⟨?_, by simp only; omega⟩
      show (if g.evict_tlb1 = GUEST_TLB_END then 0 else g.evict_tlb1 + 1) ≤ GUEST_TLB_END
      split
      · exact Nat.zero_le _
      · omega
    | false =>
      unfold alloc_tlb1
      rw [alloc_scan_none g e hall]
      exact ⟨h, by simp only [Bool.false_eq_true, if_false]; omega⟩

theorem cursor_reach_le (g : gcpu_t) (h : CursorReach g) : g.evict_tlb1 ≤ GUEST_TLB_END := by
  induction h with
  | init g h0 => rw [h0]; exact Nat.zero_le _
  | alloc g e evict _ ih => exact (alloc_cursor g e evict ih).1
  | free g e g' _ hf ih => rw [free_evict g e g' hf]; exact ih
  | other g g' _ h1 ih => rw [h1]; exact ih

theorem range_succ_map (n : Nat) (f : Nat → Int) :
    (List.range (n + 1)).map f = f 0 :: (List.range n).map (fun k => f (k + 1)) := by
  rw [List.range_succ_eq_map, List.map_cons, List.map_map]
  rfl

/-- Successive evictions return the cursor values in cyclic order. -/
theorem alloc_seq_evict : ∀ (es : List Nat) (g : gcpu_t),
    (∀ s, s ≤ GUEST_TLB_END → slot_in g.tlb1_inuse s = true) →
    g.evict_tlb1 ≤ GUEST_TLB_END →
    (alloc_seq g es).2 = (List.range es.length).map
      (fun k => (((g.evict_tlb1 + k) % (GUEST_TLB_END + 1) : Nat) : Int)) := by
  intro es
  induction es with
  | nil => intro g _ _; rfl
  | cons e es ih =>
    intro g hall hc
    have h47 : g.evict_tlb1 ≤ 47 := hc
    have hc' : (if g.evict_tlb1 = GUEST_TLB_END then 0 else g.evict_tlb1 + 1)
        ≤ GUEST_TLB_END := by
      split
      · exact Nat.zero_le _
      · omega
    have hstep := ih
      { g with evict_tlb1 := if g.evict_tlb1 = GUEST_TLB_END then 0 else g.evict_tlb1 + 1 }
      hall hc'
    simp only [alloc_seq, List.length_cons]
    rw [range_succ_map, alloc_evict g e hall hc]
    simp only
    rw [hstep]
    congr 1
    · simp only [Nat.add_zero]
      rw [Nat.mod_eq_of_lt (by unfold GUEST_TLB_END; omega)]
    · apply List.map_congr_left
      intro k _
      have hk : ((if g.evict_tlb1 = GUEST_TLB_END then 0 else g.evict_tlb1 + 1) + k)
          % (GUEST_TLB_END + 1) = (g.evict_tlb1 + (k + 1)) % (GUEST_TLB_END + 1) := by
        unfold GUEST_TLB_END
        unfold GUEST_TLB_END at hc
        split <;> omega
      show (((((if g.evict_tlb1 = GUEST_TLB_END then 0 else g.evict_tlb1 + 1) + k)
          % (GUEST_TLB_END + 1) : Nat)) : Int)
        = ((((g.evict_tlb1 + (k + 1)) % (GUEST_TLB_END + 1) : Nat)) : Int)
      rw [hk]

/-- C15. Round-robin eviction stays in the dynamic range of the guest: in every state
reached from an eviction cursor of 0, the cursor is at most `GUEST_TLB_END`, no call of
`alloc_tlb1` returns an index above `GUEST_TLB_END`, and when no slot in
`0..GUEST_TLB_END` is free `alloc_tlb1(e, 1)` returns the cursor `c`, leaves the bitmaps
as they are whichever entry owns slot `c`, and sets the cursor to `c + 1`, or to 0 when
`c = GUEST_TLB_END`; `k` successive evictions return `c, c + 1, ...` cyclically. -/
theorem alloc_tlb1_round_robin (g : gcpu_t) (h : CursorReach g) (e : Nat) :
    g.evict_tlb1 ≤ GUEST_TLB_END ∧
    (∀ evict, (alloc_tlb1 g e evict).2 ≤ (GUEST_TLB_END : Int)) ∧
    ((∀ s, s ≤ GUEST_TLB_END → slot_in g.tlb1_inuse s = true) →
      alloc_tlb1 g e true
        = ({ g with
            evict_tlb1 := if g.evict_tlb1 = GUEST_TLB_END then 0 else g.evict_tlb1 + 1 },
            (g.evict_tlb1 : Int)) ∧
      ∀ es, (alloc_seq g es).2 = (List.range es.length).map
        (fun k => (((g.evict_tlb1 + k) % (GUEST_TLB_END + 1) : Nat) : Int))) := by
  have hc := cursor_reach_le g h
  exact ⟨hc, fun evict => (alloc_cursor g e evict hc).2,
    fun hall => ⟨alloc_evict g e hall hc, fun es => alloc_seq_evict es g hall hc⟩⟩

/-- A state in which every slot of the dynamic range is in use and bound to logical
entry 1, the cursor is 0, logical entry 0 is a valid 4 KiB entry at effective address
`0x01000000` for guest-physical page `0x1000`, and that page is mapped to real page 5. -/
def gcpu_full : gcpu_t :=
  { gcpu_zero with
    gtlb1 := arr_set (arr_set gcpu_zero.gtlb1 0
        { mas1 := 0x80000100, mas2 := 0x01000000, mas3 := 0x0100003f, mas7 := 0 }) 1
      { mas1 := 0x80000700, mas2 := 0x02000000, mas3 := 0x0200003f, mas7 := 0 },
    tlb1_inuse := fun i => if i = 0 then 0xffffffff else if i = 1 then 0xffff else 0,
    tlb1_map := fun e i =>
      if e = 1 then (if i = 0 then 0xffffffff else if i = 1 then 0xffff else 0) else 0,
    gphys := (vptbl_map empty_tbl 0x1000 0x5 1 0x7f 2).2 }

/-- Witness of C15: the state after an eviction from `gcpu_full`, whose cursor starts
at 0. -/
theorem alloc_tlb1_round_robin_witness :
    (alloc_tlb1 gcpu_full 1 true).1.evict_tlb1 ≤ GUEST_TLB_END ∧
    (∀ evict, (alloc_tlb1 (alloc_tlb1 gcpu_full 1 true).1 0 evict).2 ≤ (GUEST_TLB_END : Int)) ∧
    ((∀ s, s ≤ GUEST_TLB_END →
        slot_in (alloc_tlb1 gcpu_full 1 true).1.tlb1_inuse s = true) →
      alloc_tlb1 (alloc_tlb1 gcpu_full 1 true).1 0 true
        = ({ (alloc_tlb1 gcpu_full 1 true).1 with
            evict_tlb1 := if (alloc_tlb1 gcpu_full 1 true).1.evict_tlb1 = GUEST_TLB_END then 0
              else (alloc_tlb1 gcpu_full 1 true).1.evict_tlb1 + 1 },
            ((alloc_tlb1 gcpu_full 1 true).1.evict_tlb1 : Int)) ∧
      ∀ es, (alloc_seq (alloc_tlb1 gcpu_full 1 true).1 es).2 = (List.range es.length).map
        (fun k => ((((alloc_tlb1 gcpu_full 1 true).1.evict_tlb1 + k)
          % (GUEST_TLB_END + 1) : Nat) : Int))) :=
  alloc_tlb1_round_robin (alloc_tlb1 gcpu_full 1 true).1
    (CursorReach.alloc gcpu_full 1 true (CursorReach.init gcpu_full rfl)) 0

set_option maxRecDepth 100000 in
/-- C13 (failing input). In `gcpu_full` no slot is free, so `alloc_tlb1(0, 1)` evicts: it
returns slot 0, which stays in `tlb1_map[1]` and is not put in `tlb1_map[0]`. The miss
`guest_tlb1_miss(0x01000000, 0, 0)` programs slot 0 for logical entry 0 that way, and a
later `free_tlb1(0)` clears `MAS1_VALID` of the logical entry but leaves physical slot 0
valid, still mapping `0x01000000`. -/
theorem alloc_tlb1_evict_unbound :
    (alloc_tlb1 gcpu_full 0 true).2 = 0 ∧
    slot_in ((alloc_tlb1 gcpu_full 0 true).1.tlb1_map 0) 0 = false ∧
    slot_in ((alloc_tlb1 gcpu_full 0 true).1.tlb1_map 1) 0 = true ∧
    ∃ g1 g2, guest_tlb1_miss gcpu_full 0x01000000 0 0
        = Except.ok (tlb_miss.TLB_MISS_HANDLED, g1) ∧
      (g1.tlb1 0).mas1 &&& MAS1_VALID ≠ 0 ∧ (g1.tlb1 0).va = 0x01000000 ∧
      (g1.tlb1 0).pa = 0x5000 ∧ slot_in (g1.tlb1_map 0) 0 = false ∧
      free_tlb1 g1 0 = Except.ok g2 ∧ (g2.gtlb1 0).mas1 &&& MAS1_VALID = 0 ∧
      (g2.tlb1 0).mas1 &&& MAS1_VALID ≠ 0 ∧ (g2.tlb1 0).va = 0x01000000 := by
  refine ⟨by decide, by decide, by decide,
    tlb1_set_entry (alloc_tlb1 gcpu_full 0 true).1 0 0x01000000 0x5000 1 0x01000000 0x3f 0 0
      MAS8_GTS,
    { tlb1_set_entry (alloc_tlb1 gcpu_full 0 true).1 0 0x01000000 0x5000 1 0x01000000 0x3f 0 0
        MAS8_GTS with
      gtlb1 := arr_set gcpu_full.gtlb1 0
        { gcpu_full.gtlb1 0 with mas1 := (gcpu_full.gtlb1 0).mas1 &&& not32 MAS1_VALID } },
    rfl, ?_⟩
  refine ⟨by decide, by decide, by decide, by decide, rfl, by decide, by decide, by decide⟩

/-- What `guest_inv_tlb1` has done when it returns with state `g'`, having started in
`g`, if `sel k` tells whether logical entry `k` was passed to `free_tlb1`. -/
structure InvPost (sel : Nat → Bool) (g g' : gcpu_t) : Prop where
  inv : BitmapInv g'
  gphys : g'.gphys = g.gphys
  lpid : g'.lpid = g.lpid
  evict : g'.evict_tlb1 = g.evict_tlb1
  gtlb1_sel : ∀ k, sel k = true →
    g'.gtlb1 k = { g.gtlb1 k with mas1 := (g.gtlb1 k).mas1 &&& not32 MAS1_VALID }
  gtlb1_keep : ∀ k, sel k = false → g'.gtlb1 k = g.gtlb1 k
  map_sel : ∀ k i, sel k = true → g'.tlb1_map k i = 0
  map_keep : ∀ k i, sel k = false → g'.tlb1_map k i = g.tlb1_map k i
  inuse : ∀ i j, (g'.tlb1_inuse i).testBit j = true ↔
    ((g.tlb1_inuse i).testBit j = true ∧ ∀ k, sel k = true → (g.tlb1_map k i).testBit j = false)
  slot_sel : ∀ k s, sel k = true → slot_in (g.tlb1_map k) s = true → (g'.tlb1 s).mas1 = 0
  slot_keep : ∀ s, (∀ k, sel k = true → slot_in (g.tlb1_map k) s = false) →
    g'.tlb1 s = g.tlb1 s

/-- The loop of `guest_inv_tlb1` returns on bitmaps that satisfy the invariant, having
freed exactly the entries its tests select. -/
theorem inv_loop_spec (g0 : gcpu_t) (va : Nat) (pid : Int) (flags global : Nat) :
    ∀ (n : Nat) (g : gcpu_t) (i : Nat),
    InvPost (fun k => decide (k < i) && inv_tlb1_selects (g0.gtlb1 k) va pid flags global) g0 g →
    ∃ g', guest_inv_tlb1_loop va pid flags global n g i = Except.ok g' ∧
      InvPost (fun k => decide (k < i + n) && inv_tlb1_selects (g0.gtlb1 k) va pid flags global)
        g0 g' := by
  intro n
  induction n with
  | zero => intro g i h; exact ⟨g, rfl, h⟩
  | succ n ih =>
    intro g i h
    have hi : g.gtlb1 i = g0.gtlb1 i := h.gtlb1_keep i (by simp)
    have hm : ∀ w, g.tlb1_map i w = g0.tlb1_map i w := fun w => h.map_keep i w (by simp)
    simp only [guest_inv_tlb1_loop, hi]
    have hn : i + (n + 1) = (i + 1) + n := by omega
    rw [hn]
    by_cases hs : inv_tlb1_selects (g0.gtlb1 i) va pid flags global = true
    · rw [if_pos hs]
      obtain ⟨g1, hf, P⟩ := free_spec g i (h.inv.free_ok i)
      rw [hf]
      simp only []
      apply ih g1 (i + 1)
      have hI1 := free_inv g i g1 h.inv hf
      have hself : ∀ w, g1.tlb1_map i w = 0 := fun w => by
        by_cases hw : w < 2
        · exact P.map_zero w hw
        · exact hI1.map_high i w (by omega)
      have hsl : ∀ s, slot_in (g.tlb1_map i) s = slot_in (g0.tlb1_map i) s := fun s => by
        rw [slot_word, slot_word, hm]
      refine ⟨hI1, by rw [P.gphys, h.gphys], by rw [P.lpid, h.lpid],
        by rw [P.evict, h.evict], ?_, ?_, ?_, ?_, ?_, ?_, ?_⟩
      · intro k hk
        simp only [Bool.and_eq_true, decide_eq_true_eq] at hk
        by_cases hki : k = i
        · subst hki
          rw [P.gtlb1_self, hi]
        · rw [P.gtlb1_other k hki]
          exact h.gtlb1_sel k (by simp [hk.2]; omega)
      · intro k hk
        have hki : k ≠ i := by
          intro he; subst he; simp [hs] at hk
        rw [P.gtlb1_other k hki]
        apply h.gtlb1_keep k
        simp only [Bool.and_eq_false_imp, decide_eq_true_eq] at hk ⊢
        intro hlt; exact hk (by omega)
      · intro k w hk
        simp only [Bool.and_eq_true, decide_eq_true_eq] at hk
        by_cases hki : k = i
        · subst hki; exact hself w
        · rw [P.map_other k w hki]
          exact h.map_sel k w (by simp [hk.2]; omega)
      · intro k w hk
        have hki : k ≠ i := by
          intro he; subst he; simp [hs] at hk
        rw [P.map_other k w hki]
        apply h.map_keep k w
        simp only [Bool.and_eq_false_imp, decide_eq_true_eq] at hk ⊢
        intro hlt; exact hk (by omega)
      · intro w j
        have hb : (g1.tlb1_inuse w).testBit j
            = ((g.tlb1_inuse w).testBit j && !(g.tlb1_map i w).testBit j) := by
          by_cases hw : w < 2
          · exact P.inuse_bits w j hw
          · rw [P.inuse_high w (by omega), h.inv.map_high i w (by omega), Nat.zero_testBit]
            simp
        rw [hb, hm]
        simp only [Bool.and_eq_true, Bool.not_eq_true', decide_eq_true_eq]
        rw [h.inuse w j]
        constructor
        · rintro ⟨⟨h1, h2⟩, h3⟩
          refine ⟨h1, fun k hk => ?_⟩
          by_cases hki : k = i
          · subst hki; exact h3
          · exact h2 k (by simp only [Bool.and_eq_true, decide_eq_true_eq]
                           exact ⟨by omega, hk.2⟩)
        · rintro ⟨h1, h2⟩
          refine ⟨⟨h1, fun k hk => ?_⟩, h2 i (by simp [hs])⟩
          simp only [Bool.and_eq_true, decide_eq_true_eq] at hk
          exact h2 k ⟨by omega, hk.2⟩
      · intro k s hk hsk
        simp only [Bool.and_eq_true, decide_eq_true_eq] at hk
        rw [P.slots s]
        by_cases hki : k = i
        · subst hki
          rw [← hsl] at hsk
          have h64 : s < TLB1_SIZE := by
            have := slot_in_lt g h.inv k s hsk
            unfold GUEST_TLB_END at this; unfold TLB1_SIZE; omega
          rw [if_pos ⟨h64, hsk⟩]
        · have := h.slot_sel k s (by simp [hk.2]; omega) hsk
          split
          · rfl
          · exact this
      · intro s hno
        rw [P.slots s]
        have hni : slot_in (g.tlb1_map i) s = false := by
          rw [hsl]; exact hno i (by simp [hs])
        rw [if_neg (fun hc => by rw [hni] at hc; exact Bool.noConfusion hc.2)]
        apply h.slot_keep s
        intro k hk
        simp only [Bool.and_eq_true, decide_eq_true_eq] at hk
        exact hno k (by simp [hk.2]; omega)
    · have hs' : inv_tlb1_selects (g0.gtlb1 i) va pid flags global = false := by
        simpa using hs
      rw [if_neg hs]
      apply ih g (i + 1)
      have hsel : (fun k => decide (k < i + 1) && inv_tlb1_selects (g0.gtlb1 k) va pid flags global)
          = (fun k => decide (k < i) && inv_tlb1_selects (g0.gtlb1 k) va pid flags global) := by
        funext k
        by_cases hki : k = i
        · subst hki; simp [hs']
        · have : (k < i + 1) = (k < i) := by
            apply propext; constructor <;> intro <;> omega
          simp only [this]
      rw [hsel]
      exact h

theorem inv_post_refl (g : gcpu_t) (h : BitmapInv g) : InvPost (fun _ => false) g g :=
  ⟨h, rfl, rfl, rfl, fun _ hk => Bool.noConfusion hk, fun _ _ => rfl,
    fun _ _ hk => Bool.noConfusion hk, fun _ _ _ => rfl,
    fun _ _ => ⟨fun hb => ⟨hb, fun _ hk => Bool.noConfusion hk⟩, fun hb => hb.1⟩,
    fun _ _ hk => Bool.noConfusion hk, fun _ _ => rfl⟩

/-- `guest_inv_tlb1` on bitmaps that satisfy the invariant. -/
theorem inv_spec (g : gcpu_t) (va : Nat) (pid : Int) (flags global : Nat) (h : BitmapInv g) :
    ∃ g', guest_inv_tlb1 g va pid flags global = Except.ok g' ∧
      InvPost (fun k => decide (k < TLB1_GSIZE) &&
        inv_tlb1_selects (g.gtlb1 k) va pid flags global) g g' := by
  have h0 : InvPost (fun k => decide (k < 0) &&
      inv_tlb1_selects (g.gtlb1 k) va pid flags global) g g := by
    have : (fun k => decide (k < 0) && inv_tlb1_selects (g.gtlb1 k) va pid flags global)
        = (fun _ => false) := by
      funext k; simp
    rw [this]
    exact inv_post_refl g h
  obtain ⟨g', hg, P⟩ := inv_loop_spec g va pid flags global TLB1_GSIZE g 0 h0
  rw [Nat.zero_add] at P
  exact ⟨g', hg, P⟩

/-- Following the words of the claim: logical entry `e` is in the scope of the
invalidation `(va, pid, flags, global)` iff it is valid, `flags` has `INV_IPROT` or the
entry lacks `MAS1_IPROT`, `global` is set or `base ≤ va ≤ base + (pages - 1) * PAGE_SIZE`,
and `pid < 0` or `pid` is the TID of the entry. The bound `base + (pages - 1) * PAGE_SIZE`
is a `register_t`, computed in 32-bit arithmetic. -/
def inv_scope (e : tlb_entry_t) (va : Nat) (pid : Int) (flags global : Nat) : Prop :=
  e.mas1 &&& MAS1_VALID ≠ 0 ∧
  (flags &&& INV_IPROT ≠ 0 ∨ e.mas1 &&& MAS1_IPROT = 0) ∧
  (global ≠ 0 ∨
    ((e.mas2 &&& MAS2_EPN) ≤ va ∧
      va ≤ add32 (e.mas2 &&& MAS2_EPN)
        (mul32 (sub32 (tsize_to_pages (MAS1_GETTSIZE e.mas1)) 1) PAGE_SIZE))) ∧
  (pid < 0 ∨ pid = ((MAS1_GETTID e.mas1 : Nat) : Int))

/-- The tests of the loop of `guest_inv_tlb1` select exactly the entries in the scope. -/
theorem selects_iff_scope (e : tlb_entry_t) (va : Nat) (pid : Int) (flags global : Nat) :
    inv_tlb1_selects e va pid flags global = true ↔ inv_scope e va pid flags global := by
  unfold inv_tlb1_selects inv_scope MAS1_GETTID
  simp only []
  generalize add32 (e.mas2 &&& MAS2_EPN)
    (mul32 (sub32 (tsize_to_pages (MAS1_GETTSIZE e.mas1)) 1) PAGE_SIZE) = E
  generalize e.mas2 &&& MAS2_EPN = B
  generalize (((e.mas1 &&& MAS1_TID_MASK) >>> MAS1_TID_SHIFT : Nat) : Int) = tid
  by_cases h1 : e.mas1 &&& MAS1_VALID = 0
  · rw [if_pos h1]
    simp only [Bool.false_eq_true, false_iff]
    exact fun h => h.1 h1
  · rw [if_neg h1]
    by_cases h2 : flags &&& INV_IPROT ≠ 0 ∨ e.mas1 &&& MAS1_IPROT = 0
    · rw [if_pos h2]
      by_cases h3 : global = 0 ∧ (va < B ∨ va > E)
      · rw [if_pos h3]
        simp only [Bool.false_eq_true, false_iff]
        rintro ⟨_, _, h, _⟩
        rcases h with h | ⟨ha, hb⟩
        · exact h h3.1
        · rcases h3.2 with h | h <;> omega
      · rw [if_neg h3]
        by_cases h4 : pid ≥ 0 ∧ pid ≠ tid
        · rw [if_pos h4]
          simp only [Bool.false_eq_true, false_iff]
          rintro ⟨_, _, _, h⟩
          rcases h with h | h
          · omega
          · exact h4.2 h
        · rw [if_neg h4]
          simp only [true_iff]
          refine ⟨h1, h2, ?_, ?_⟩
          · by_cases hg : global = 0
            · right
              constructor
              · by_contra hc; exact h3 ⟨hg, Or.inl (by omega)⟩
              · by_contra hc; exact h3 ⟨hg, Or.inr (by omega)⟩
            · exact Or.inl hg
          · by_cases hp : pid < 0
            · exact Or.inl hp
            · right
              by_contra hc
              exact h4 ⟨by omega, hc⟩
    · rw [if_neg h2]
      simp only [Bool.false_eq_true, false_iff]
      exact fun h => h2 h.2.1

/-- With no wrap of the bound, the scope is the one of plain arithmetic. -/
theorem inv_scope_nowrap (e : tlb_entry_t) (va : Nat) (pid : Int) (flags global : Nat)
    (h1 : 1 ≤ MAS1_GETTSIZE e.mas1)
    (hw : (e.mas2 &&& MAS2_EPN) + (tsize_to_pages (MAS1_GETTSIZE e.mas1) - 1) * PAGE_SIZE
      < 2 ^ 32) :
    inv_scope e va pid flags global ↔
      (e.mas1 &&& MAS1_VALID ≠ 0 ∧
        (flags &&& INV_IPROT ≠ 0 ∨ e.mas1 &&& MAS1_IPROT = 0) ∧
        (global ≠ 0 ∨
          ((e.mas2 &&& MAS2_EPN) ≤ va ∧
            va ≤ (e.mas2 &&& MAS2_EPN)
              + (tsize_to_pages (MAS1_GETTSIZE e.mas1) - 1) * PAGE_SIZE)) ∧
        (pid < 0 ∨ pid = ((MAS1_GETTID e.mas1 : Nat) : Int))) := by
  unfold inv_scope
  have ht := gettsize_le e.mas1
  have hP := tsize_to_pages_eq _ (by omega : MAS1_GETTSIZE e.mas1 ≤ 16)
  have hpos : 0 < tsize_to_pages (MAS1_GETTSIZE e.mas1) := by rw [hP]; exact Nat.two_pow_pos _
  have hlt := tsize_pages_le _ ht
  have e1 : sub32 (tsize_to_pages (MAS1_GETTSIZE e.mas1)) 1
      = tsize_to_pages (MAS1_GETTSIZE e.mas1) - 1 := sub32_one _ hpos (by omega)
  have e2 : mul32 (tsize_to_pages (MAS1_GETTSIZE e.mas1) - 1) PAGE_SIZE
      = (tsize_to_pages (MAS1_GETTSIZE e.mas1) - 1) * PAGE_SIZE := by
    unfold mul32 WORD
    exact Nat.mod_eq_of_lt (by omega)
  rw [e1, e2, add32_eq _ _ hw]

/-- Only valid logical entries have slots bound. -/
def ValidBound (g : gcpu_t) : Prop :=
  ∀ e i, g.tlb1_map e i ≠ 0 → (g.gtlb1 e).mas1 &&& MAS1_VALID ≠ 0

/-- The invariant of the TLB1 shadow manager: the invariant of the bitmaps, and slots are
bound to valid logical entries only. -/
def TlbInv (g : gcpu_t) : Prop := BitmapInv g ∧ ValidBound g

theorem alloc_gtlb1 (g : gcpu_t) (e : Nat) (evict : Bool) :
    (alloc_tlb1 g e evict).1.gtlb1 = g.gtlb1 ∧ (alloc_tlb1 g e evict).1.gphys = g.gphys ∧
    (alloc_tlb1 g e evict).1.lpid = g.lpid ∧ (alloc_tlb1 g e evict).1.tlb1 = g.tlb1 ∧
    ∀ e' i, e' ≠ e → (alloc_tlb1 g e evict).1.tlb1_map e' i = g.tlb1_map e' i := by
  rcases lowest_free g.tlb1_inuse with ⟨s, hs, hc, hl⟩ | hall
  · rw [alloc_some g e s evict hs hc hl]
    refine ⟨rfl, rfl, rfl, rfl, fun e' i he => ?_⟩
    show (arr_set g.tlb1_map e _) e' i = _
    simp [arr_set, he]
  · unfold alloc_tlb1
    rw [alloc_scan_none g e hall]
    cases evict <;> exact ⟨rfl, rfl, rfl, rfl, fun _ _ _ => rfl⟩

/-- `alloc_tlb1` for a valid logical entry keeps the invariant. -/
theorem alloc_tlb_inv (g : gcpu_t) (e : Nat) (evict : Bool) (he : e < TLB1_GSIZE)
    (hv : (g.gtlb1 e).mas1 &&& MAS1_VALID ≠ 0) (h : TlbInv g) :
    TlbInv (alloc_tlb1 g e evict).1 := by
  refine ⟨alloc_inv g e evict he h.1, fun e' i hne => ?_⟩
  obtain ⟨hg, _, _, _, hm⟩ := alloc_gtlb1 g e evict
  rw [hg]
  by_cases hee : e' = e
  · subst hee; exact hv
  · rw [hm e' i hee] at hne
    exact h.2 e' i hne

theorem set_entry_inv (g : gcpu_t) (idx va pa ts a b c d m : Nat) (h : TlbInv g) :
    TlbInv (tlb1_set_entry g idx va pa ts a b c d m) :=
  ⟨⟨h.1.range, h.1.sub, h.1.cover, h.1.excl, h.1.cursor⟩, h.2⟩

/-- Rule for the loop of `guest_set_tlb1`: a property kept by each allocation and
programming of a slot holds when the loop returns. -/
theorem set_loop_rule (I : gcpu_t → Prop) (entry mas1 mas2flags end_ : Nat)
    (hstep : ∀ g idx va pa ts a b c d, I g → ¬ (alloc_tlb1 g entry false).2 < 0 →
      I (tlb1_set_entry (alloc_tlb1 g entry false).1 idx va pa ts mas2flags a b c d)) :
    ∀ (f : Nat) (g : gcpu_t) (epn grpn mas3flags : Nat) (g' : gcpu_t), I g →
      guest_set_tlb1_loop entry mas1 mas2flags end_ f g epn grpn mas3flags = Except.ok g' →
      I g' := by
  intro f
  induction f with
  | zero => intro g epn grpn m3 g' _ h; simp [guest_set_tlb1_loop] at h
  | succ f ih =>
    intro g epn grpn m3 g' hI h
    simp only [guest_set_tlb1_loop] at h
    by_cases he : epn < end_
    · rw [if_pos he] at h
      cases hx : vptbl_xlate g.gphys grpn PTE_PHYS_LEVELS with
      | error x => rw [hx] at h; exact Except.noConfusion h
      | ok ra =>
        obtain ⟨rpn, attr⟩ := ra
        rw [hx] at h
        simp only [] at h
        by_cases hv : attr &&& PTE_VALID = 0
        · rw [if_pos hv] at h
          exact ih _ _ _ _ _ hI h
        · rw [if_neg hv] at h
          by_cases ha : (alloc_tlb1 g entry false).2 < 0
          · rw [if_pos ha] at h; exact Except.noConfusion h
          · rw [if_neg ha] at h
            exact ih _ _ _ _ _ (hstep g _ _ _ _ _ _ _ _ hI ha) h
    · rw [if_neg he] at h
      simp only [Except.ok.injEq] at h
      rw [← h]; exact hI

/-- `guest_set_tlb1` keeps the invariant. -/
theorem set_tlb1_inv (g : gcpu_t) (entry mas1 epn grpn mas2flags mas3flags : Nat)
    (g' : gcpu_t) (he : entry < TLB1_GSIZE) (h : TlbInv g)
    (hs : guest_set_tlb1 g entry mas1 epn grpn mas2flags mas3flags = Except.ok g') :
    TlbInv g' := by
  unfold guest_set_tlb1 at hs
  simp only [] at hs
  obtain ⟨g1, hf, P⟩ := free_spec g entry (h.1.free_ok entry)
  have hI1 := free_inv g entry g1 h.1 hf
  rw [hf] at hs
  simp only [] at hs
  have hself : ∀ w, g1.tlb1_map entry w = 0 := fun w => by
    by_cases hw : w < 2
    · exact P.map_zero w hw
    · exact hI1.map_high entry w (by omega)
  have h2 : TlbInv { g1 with
      gtlb1 := arr_set g1.gtlb1 entry
        { mas1 := mas1, mas2 := shl32 epn PAGE_SHIFT ||| mas2flags,
          mas3 := shl32 grpn PAGE_SHIFT ||| mas3flags, mas7 := grpn >>> (32 - PAGE_SHIFT) } } := by
    refine ⟨⟨hI1.range, hI1.sub, hI1.cover, hI1.excl, hI1.cursor⟩, fun e' i hne => ?_⟩
    have hne' : g1.tlb1_map e' i ≠ 0 := hne
    by_cases hee : e' = entry
    · subst hee; exact absurd (hself i) hne'
    · show ((arr_set g1.gtlb1 entry _) e').mas1 &&& MAS1_VALID ≠ 0
      simp only [arr_set, hee, if_false]
      rw [P.gtlb1_other e' hee]
      rw [P.map_other e' i hee] at hne'
      exact h.2 e' i hne'
  by_cases hv : mas1 &&& MAS1_VALID = 0
  · rw [if_pos hv] at hs
    simp only [Except.ok.injEq] at hs
    rw [← hs]; exact h2
  · rw [if_neg hv] at hs
    have R := set_loop_rule
      (fun x => TlbInv x ∧ (x.gtlb1 entry).mas1 &&& MAS1_VALID ≠ 0) entry mas1 mas2flags
      (add32 epn (tsize_to_pages ((mas1 >>> MAS1_TSIZE_SHIFT) &&& 15)))
      (fun x idx va pa ts a b c d hI _ =>
        ⟨set_entry_inv _ _ _ _ _ _ _ _ _ _ (alloc_tlb_inv x entry false he hI.2 hI.1),
          by show (((alloc_tlb1 x entry false).1.gtlb1) entry).mas1 &&& MAS1_VALID ≠ 0
             rw [(alloc_gtlb1 x entry false).1]; exact hI.2⟩)
      _ _ _ _ _ g' ⟨h2, by
        show ((arr_set g1.gtlb1 entry _) entry).mas1 &&& MAS1_VALID ≠ 0
        simp only [arr_set, if_true]; exact hv⟩ hs
    exact R.1

/-- The state `guest_tlb1_miss` leaves: the one it found, or the one after
`alloc_tlb1(i, 1)` for a valid logical entry `i` and the programming of a slot. -/
theorem miss_state (g : gcpu_t) (vaddr space pid : Nat) (r : tlb_miss) (g' : gcpu_t)
    (h : guest_tlb1_miss g vaddr space pid = Except.ok (r, g')) :
    g' = g ∨ ∃ i idx va pa ts a b c d m, i < TLB1_GSIZE ∧
      (g.gtlb1 i).mas1 &&& MAS1_VALID ≠ 0 ∧
      g' = tlb1_set_entry (alloc_tlb1 g i true).1 idx va pa ts a b c d m := by
  rcases exists_first (fun j => tlb1_entry_hit (g.gtlb1 j) (vaddr >>> PAGE_SHIFT) space pid)
    TLB1_GSIZE with hno | ⟨k, hk, hp, hl⟩
  · rw [miss_no_hit g vaddr space pid hno] at h
    simp only [Except.ok.injEq, Prod.mk.injEq] at h
    exact Or.inl h.2.symm
  · rw [miss_first_hit g vaddr space pid k hk hp hl] at h
    have hvalid : (g.gtlb1 k).mas1 &&& MAS1_VALID ≠ 0 := ((hit_true_iff _ _ _ _).1 hp).1
    unfold guest_tlb1_fill at h
    simp only [] at h
    cases hx : vptbl_xlate g.gphys
        (add32 ((g.gtlb1 k).mas3 >>> PAGE_SHIFT ||| shl32 (g.gtlb1 k).mas7 (32 - PAGE_SHIFT))
          (sub32 (vaddr >>> PAGE_SHIFT) ((g.gtlb1 k).mas2 >>> PAGE_SHIFT))) PTE_PHYS_LEVELS with
    | error x => rw [hx] at h; exact Except.noConfusion h
    | ok ra =>
      obtain ⟨rpn, attr⟩ := ra
      rw [hx] at h
      simp only [] at h
      by_cases hv : attr &&& PTE_VALID = 0
      · rw [if_pos hv] at h
        simp only [Except.ok.injEq, Prod.mk.injEq] at h
        exact Or.inl h.2.symm
      · rw [if_neg hv] at h
        simp only [Except.ok.injEq, Prod.mk.injEq] at h
        exact Or.inr ⟨k, _, _, _, _, _, _, _, _, _, hk, hvalid, h.2.symm⟩

/-- `guest_tlb1_miss` keeps the invariant. -/
theorem miss_inv (g : gcpu_t) (vaddr space pid : Nat) (r : tlb_miss) (g' : gcpu_t)
    (h : TlbInv g) (hm : guest_tlb1_miss g vaddr space pid = Except.ok (r, g')) :
    TlbInv g' := by
  rcases miss_state g vaddr space pid r g' hm with rfl | ⟨i, _, _, _, _, _, _, _, _, _, hi, hv, rfl⟩
  · exact h
  · exact set_entry_inv _ _ _ _ _ _ _ _ _ _ (alloc_tlb_inv g i true hi hv h)

/-- `guest_inv_tlb1` keeps the invariant. -/
theorem inv_tlb_inv (g : gcpu_t) (va : Nat) (pid : Int) (flags global : Nat) (g' : gcpu_t)
    (h : TlbInv g) (hi : guest_inv_tlb1 g va pid flags global = Except.ok g') : TlbInv g' := by
  obtain ⟨g2, hg, P⟩ := inv_spec g va pid flags global h.1
  rw [hg] at hi
  simp only [Except.ok.injEq] at hi
  subst hi
  refine ⟨P.inv, fun e i hne => ?_⟩
  cases hs : (decide (e < TLB1_GSIZE) && inv_tlb1_selects (g.gtlb1 e) va pid flags global) with
  | true => exact absurd (P.map_sel e i hs) hne
  | false =>
    rw [P.gtlb1_keep e hs]
    rw [P.map_keep e i hs] at hne
    exact h.2 e i hne

/-- States reached from one with empty bitmaps and the eviction cursor at 0 by calls of
`guest_set_tlb1` (for a logical entry below `TLB1_GSIZE`), `guest_tlb1_miss`,
`guest_inv_tlb1` and `guest_reset_tlb` that return, and by changes of the guest-physical
table. -/
inductive TlbReach : gcpu_t → Prop where
  | init (g : gcpu_t) : (∀ i, g.tlb1_inuse i = 0) → (∀ e i, g.tlb1_map e i = 0) →
      g.evict_tlb1 = 0 → TlbReach g
  | set_tlb1 (g : gcpu_t) (entry mas1 epn grpn mas2flags mas3flags : Nat) (g' : gcpu_t) :
      TlbReach g → entry < TLB1_GSIZE →
      guest_set_tlb1 g entry mas1 epn grpn mas2flags mas3flags = Except.ok g' → TlbReach g'
  | miss (g : gcpu_t) (vaddr space pid : Nat) (r : tlb_miss) (g' : gcpu_t) :
      TlbReach g → guest_tlb1_miss g vaddr space pid = Except.ok (r, g') → TlbReach g'
  | inv (g : gcpu_t) (va : Nat) (pid : Int) (flags global : Nat) (g' : gcpu_t) :
      TlbReach g → guest_inv_tlb1 g va pid flags global = Except.ok g' → TlbReach g'
  | reset (g : gcpu_t) (mas6 : Nat) (g' : gcpu_t) :
      TlbReach g → guest_reset_tlb g mas6 = Except.ok g' → TlbReach g'
  | table (g : gcpu_t) (T : Table) : TlbReach g → TlbReach { g with gphys := T }

/-- `guest_reset_tlb` is `guest_inv_tlb1` for all entries, any pid, permanent ones
included. -/
theorem reset_eq (g : gcpu_t) (mas6 : Nat) :
    guest_reset_tlb g mas6
      = guest_inv_tlb1 g (TLBIVAX_INV_ALL &&& TLBIVAX_VA) (-1)
          (INV_TLB0 ||| INV_TLB1 ||| INV_IPROT) (TLBIVAX_INV_ALL &&& TLBIVAX_INV_ALL) := by
  unfold guest_reset_tlb guest_inv_tlb
  simp only []
  rw [if_neg (fun hc => absurd hc.2.1 (by decide)), if_pos (by decide)]

/-- Every reached state satisfies the invariant of the TLB1 shadow manager. -/
theorem tlb_reach_inv (g : gcpu_t) (h : TlbReach g) : TlbInv g := by
  induction h with
  | init g hi hm hc =>
    refine ⟨slot_reach_inv g (SlotReach.init g hi hm hc), fun e i hne => ?_⟩
    exact absurd (hm e i) hne
  | set_tlb1 g entry mas1 epn grpn m2 m3 g' _ he hs ih =>
    exact set_tlb1_inv g entry mas1 epn grpn m2 m3 g' he ih hs
  | miss g vaddr space pid r g' _ hm ih => exact miss_inv g vaddr space pid r g' ih hm
  | inv g va pid flags global g' _ hi ih => exact inv_tlb_inv g va pid flags global g' ih hi
  | reset g mas6 g' _ hr ih =>
    rw [reset_eq] at hr
    exact inv_tlb_inv g _ _ _ _ g' ih hr
  | table g T _ ih =>
    exact ⟨⟨ih.1.range, ih.1.sub, ih.1.cover, ih.1.excl, ih.1.cursor⟩, ih.2⟩

/-- Word `i` of the bitwise OR of `tlb1_map[e]` over all logical entries `e`. -/
def map_union (g : gcpu_t) (i : Nat) : Nat :=
  (List.range TLB1_GSIZE).foldl (fun acc e => acc ||| g.tlb1_map e i) 0

theorem foldl_or_testBit (f : Nat → Nat) (j : Nat) : ∀ (l : List Nat) (acc : Nat),
    (l.foldl (fun a e => a ||| f e) acc).testBit j = true ↔
      (acc.testBit j = true ∨ ∃ e, e ∈ l ∧ (f e).testBit j = true) := by
  intro l
  induction l with
  | nil => intro acc; simp
  | cons x xs ih =>
    intro acc
    rw [List.foldl_cons, ih, Nat.testBit_or]
    simp only [Bool.or_eq_true, List.mem_cons]
    constructor
    · rintro (⟨h | h⟩ | ⟨e, he, hb⟩)
      · exact Or.inl h
      · exact Or.inr ⟨x, Or.inl rfl, h⟩
      · exact Or.inr ⟨e, Or.inr he, hb⟩
    · rintro (h | ⟨e, he | he, hb⟩)
      · exact Or.inl (Or.inl h)
      · subst he; exact Or.inl (Or.inr hb)
      · exact Or.inr ⟨e, he, hb⟩

theorem map_union_testBit (g : gcpu_t) (i j : Nat) :
    (map_union g i).testBit j = true ↔
      ∃ e, e < TLB1_GSIZE ∧ (g.tlb1_map e i).testBit j = true := by
  unfold map_union
  rw [foldl_or_testBit]
  simp only [Nat.zero_testBit, Bool.false_eq_true, false_or, List.mem_range]

theorem eq_of_bits_iff (a b : Nat) (h : ∀ j, a.testBit j = true ↔ b.testBit j = true) :
    a = b := by
  apply Nat.eq_of_testBit_eq
  intro j
  cases ha : a.testBit j with
  | true => exact ((h j).1 ha).symm
  | false =>
    cases hb : b.testBit j with
    | true => rw [(h j).2 hb] at ha; exact Bool.noConfusion ha
    | false => rfl

/-- C11. Slot conservation: in every state reached from the all-zero bitmaps by
`guest_set_tlb1`, `guest_tlb1_miss`, `guest_inv_tlb1` and `guest_reset_tlb`, the bitwise
OR of `tlb1_map[e]` over the logical entries is a subset of `tlb1_inuse` (it is equal to
it); and freeing every logical entry, by `guest_inv_tlb1` with `global` set, `pid < 0`
and `INV_IPROT` or by `guest_reset_tlb`, returns and leaves `tlb1_inuse` and every
`tlb1_map[e]` all zero. -/
theorem tlb1_slot_conservation (g : gcpu_t) (h : TlbReach g) :
    (∀ i, map_union g i ||| g.tlb1_inuse i = g.tlb1_inuse i) ∧
    (∀ i, map_union g i = g.tlb1_inuse i) ∧
    (∀ (va : Nat) (pid : Int) (flags global : Nat), global ≠ 0 → pid < 0 →
      flags &&& INV_IPROT ≠ 0 →
      ∃ g', guest_inv_tlb1 g va pid flags global = Except.ok g' ∧
        (∀ i, g'.tlb1_inuse i = 0) ∧ (∀ e i, g'.tlb1_map e i = 0) ∧
        ∀ e, e < TLB1_GSIZE → (g'.gtlb1 e).mas1 &&& MAS1_VALID = 0) ∧
    (∀ mas6, ∃ g', guest_reset_tlb g mas6 = Except.ok g' ∧ ∀ i, g'.tlb1_inuse i = 0) := by
  have hI := tlb_reach_inv g h
  have heq : ∀ i, map_union g i = g.tlb1_inuse i := by
    intro i
    apply eq_of_bits_iff
    intro j
    rw [map_union_testBit]
    constructor
    · rintro ⟨e, _, hb⟩; exact hI.1.sub e i j hb
    · exact hI.1.cover i j
  have hall : ∀ (va : Nat) (pid : Int) (flags global : Nat), global ≠ 0 → pid < 0 →
      flags &&& INV_IPROT ≠ 0 →
      ∃ g', guest_inv_tlb1 g va pid flags global = Except.ok g' ∧
        (∀ i, g'.tlb1_inuse i = 0) ∧ (∀ e i, g'.tlb1_map e i = 0) ∧
        ∀ e, e < TLB1_GSIZE → (g'.gtlb1 e).mas1 &&& MAS1_VALID = 0 := by
    intro va pid flags global hg hp hf
    obtain ⟨g', hg', P⟩ := inv_spec g va pid flags global hI.1
    have hI' := inv_tlb_inv g va pid flags global g' hI hg'
    have hsel : ∀ e, e < TLB1_GSIZE → (g.gtlb1 e).mas1 &&& MAS1_VALID ≠ 0 →
        (decide (e < TLB1_GSIZE) && inv_tlb1_selects (g.gtlb1 e) va pid flags global) = true := by
      intro e he hv
      simp only [Bool.and_eq_true, decide_eq_true_eq]
      exact ⟨he, (selects_iff_scope _ _ _ _ _).2 ⟨hv, Or.inl hf, Or.inl hg, Or.inl hp⟩⟩
    have hinvalid : ∀ e, e < TLB1_GSIZE → (g'.gtlb1 e).mas1 &&& MAS1_VALID = 0 := by
      intro e he
      by_cases hv : (g.gtlb1 e).mas1 &&& MAS1_VALID = 0
      · cases hs : (decide (e < TLB1_GSIZE) &&
            inv_tlb1_selects (g.gtlb1 e) va pid flags global) with
        | true =>
          have := (selects_iff_scope _ _ _ _ _).1
            (by simp only [Bool.and_eq_true, decide_eq_true_eq] at hs; exact hs.2)
          exact absurd hv this.1
        | false => rw [P.gtlb1_keep e hs]; exact hv
      · rw [P.gtlb1_sel e (hsel e he hv)]
        show ((g.gtlb1 e).mas1 &&& not32 MAS1_VALID) &&& MAS1_VALID = 0
        apply eq_zero_of_bits
        intro j
        rw [Nat.testBit_and, Nat.testBit_and, not32_testBit]
        cases hb : MAS1_VALID.testBit j <;> simp
    have hmaps : ∀ e i, g'.tlb1_map e i = 0 := by
      intro e i
      by_contra hne
      have hv := hI'.2 e i hne
      by_cases he : e < TLB1_GSIZE
      · exact hv (hinvalid e he)
      · have hz : (decide (e < TLB1_GSIZE) &&
            inv_tlb1_selects (g.gtlb1 e) va pid flags global) = false := by
          simp [he]
        have hbit : ∃ j, (g'.tlb1_map e i).testBit j = true := by
          by_contra hno
          apply hne
          apply eq_zero_of_bits
          intro j
          by_contra hb
          exact hno ⟨j, by simpa using hb⟩
        obtain ⟨j, hj⟩ := hbit
        obtain ⟨e0, he0, hb0⟩ := hI'.1.cover i j (hI'.1.sub e i j hj)
        have hne0 : e ≠ e0 := by intro hh; subst hh; exact he he0
        have := hI'.1.excl e e0 i j hne0 hj
        rw [this] at hb0
        exact Bool.noConfusion hb0
    refine ⟨g', hg', fun i => ?_, hmaps, hinvalid⟩
    apply eq_zero_of_bits
    intro j
    by_contra hb
    obtain ⟨e0, _, hb0⟩ := hI'.1.cover i j (by simpa using hb)
    rw [hmaps e0 i, Nat.zero_testBit] at hb0
    exact Bool.noConfusion hb0
  refine ⟨fun i => ?_, heq, hall, fun mas6 => ?_⟩
  · rw [heq i, Nat.or_self]
  · rw [reset_eq]
    obtain ⟨g', hg', hz, _, _⟩ := hall (TLBIVAX_INV_ALL &&& TLBIVAX_VA) (-1)
      (INV_TLB0 ||| INV_TLB1 ||| INV_IPROT) (TLBIVAX_INV_ALL &&& TLBIVAX_INV_ALL)
      (by decide) (by decide) (by decide)
    exact ⟨g', hg', hz⟩

/-- Witness of C11: `gcpu_small_filled` is reached from empty bitmaps by a handled miss,
which binds slot 0 to logical entry 0. There the OR of the maps is `tlb1_inuse`, and the
global invalidation of every entry returns with `tlb1_inuse` and all maps zero. -/
theorem tlb1_slot_conservation_witness :
    guest_tlb1_miss gcpu_small_backing 0x01000000 0 0
      = Except.ok (tlb_miss.TLB_MISS_HANDLED, gcpu_small_filled) ∧
    gcpu_small_filled.tlb1_map 0 0 = 1 ∧ gcpu_small_filled.tlb1_inuse 0 = 1 ∧
    (gcpu_small_filled.gtlb1 0).mas1 &&& MAS1_VALID ≠ 0 ∧
    (∀ i, map_union gcpu_small_filled i ||| gcpu_small_filled.tlb1_inuse i
      = gcpu_small_filled.tlb1_inuse i) ∧
    (∀ i, map_union gcpu_small_filled i = gcpu_small_filled.tlb1_inuse i) ∧
    (∀ (va : Nat) (pid : Int) (flags global : Nat), global ≠ 0 → pid < 0 →
      flags &&& INV_IPROT ≠ 0 →
      ∃ g', guest_inv_tlb1 gcpu_small_filled va pid flags global = Except.ok g' ∧
        (∀ i, g'.tlb1_inuse i = 0) ∧ (∀ e i, g'.tlb1_map e i = 0) ∧
        ∀ e, e < TLB1_GSIZE → (g'.gtlb1 e).mas1 &&& MAS1_VALID = 0) ∧
    (∀ mas6, ∃ g', guest_reset_tlb gcpu_small_filled mas6 = Except.ok g' ∧
      ∀ i, g'.tlb1_inuse i = 0) :=
  ⟨by rfl, by decide, by decide, by decide,
    tlb1_slot_conservation gcpu_small_filled
      (TlbReach.miss gcpu_small_backing 0x01000000 0 0 tlb_miss.TLB_MISS_HANDLED
        gcpu_small_filled
        (TlbReach.init gcpu_small_backing (fun _ => rfl) (fun _ _ => rfl) rfl) (by rfl))⟩

/-- Following the words of the claim: logical entry `other` conflicts with the mapping
described by `mas1` and `epn` iff it is valid, has the TS bit of `mas1`, the TID of one of
the two is 0 or the TIDs are equal, and its effective range
`[epn_o, epn_o + pages_o)` intersects `[epn, epn + tsize_to_pages(tsize(mas1)))`. -/
def find_conflict_spec (other : tlb_entry_t) (mas1 epn : Nat) : Prop :=
  other.mas1 &&& MAS1_VALID ≠ 0 ∧
  mas1 &&& MAS1_TS = other.mas1 &&& MAS1_TS ∧
  (MAS1_GETTID mas1 = 0 ∨ MAS1_GETTID other.mas1 = 0 ∨
    MAS1_GETTID mas1 = MAS1_GETTID other.mas1) ∧
  ∃ p, other.mas2 >>> PAGE_SHIFT ≤ p ∧
    p < other.mas2 >>> PAGE_SHIFT + tsize_to_pages (MAS1_GETTSIZE other.mas1) ∧
    epn ≤ p ∧ p < epn + tsize_to_pages (MAS1_GETTSIZE mas1)

theorem tsize_pages_pos (t : Nat) (ht : t ≤ 15) : 0 < tsize_to_pages t := by
  rw [tsize_to_pages_eq t (by omega)]
  exact Nat.two_pow_pos _

/-- The tests of the loop of `guest_find_tlb1` are the conflict of the claim, for page
numbers of 32-bit addresses. -/
theorem conflict_iff_spec (other : tlb_entry_t) (mas1 epn : Nat) (hepn : epn < 2 ^ 20)
    (hm2 : other.mas2 < 2 ^ 32) :
    find_tlb1_conflict other mas1 epn = true ↔ find_conflict_spec other mas1 epn := by
  have hoe : other.mas2 >>> PAGE_SHIFT < 2 ^ 20 := by
    rw [Nat.shiftRight_eq_div_pow]; unfold PAGE_SHIFT; omega
  have hp1 := tsize_pages_le _ (gettsize_le mas1)
  have hp2 := tsize_pages_le _ (gettsize_le other.mas1)
  have hq1 := tsize_pages_pos _ (gettsize_le mas1)
  have hq2 := tsize_pages_pos _ (gettsize_le other.mas1)
  unfold find_tlb1_conflict find_conflict_spec
  simp only []
  rw [add32_eq _ _ (by omega), add32_eq _ _ (by omega)]
  generalize other.mas2 >>> PAGE_SHIFT = oe at *
  generalize tsize_to_pages (MAS1_GETTSIZE mas1) = P at *
  generalize tsize_to_pages (MAS1_GETTSIZE other.mas1) = Q at *
  by_cases h1 : other.mas1 &&& MAS1_VALID = 0
  · rw [if_pos h1]
    simp only [Bool.false_eq_true, false_iff]
    exact fun h => h.1 h1
  · rw [if_neg h1]
    by_cases h2 : mas1 &&& MAS1_TS ≠ other.mas1 &&& MAS1_TS
    · rw [if_pos h2]
      simp only [Bool.false_eq_true, false_iff]
      exact fun h => h2 h.2.1
    · rw [if_neg h2]
      by_cases h3 : MAS1_GETTID mas1 ≠ 0 ∧ MAS1_GETTID other.mas1 ≠ 0 ∧
          MAS1_GETTID mas1 ≠ MAS1_GETTID other.mas1
      · rw [if_pos h3]
        simp only [Bool.false_eq_true, false_iff]
        rintro ⟨_, _, h, _⟩
        rcases h with h | h | h
        · exact h3.1 h
        · exact h3.2.1 h
        · exact h3.2.2 h
      · rw [if_neg h3]
        have hpid : MAS1_GETTID mas1 = 0 ∨ MAS1_GETTID other.mas1 = 0 ∨
            MAS1_GETTID mas1 = MAS1_GETTID other.mas1 := by
          by_cases a : MAS1_GETTID mas1 = 0
          · exact Or.inl a
          · by_cases b : MAS1_GETTID other.mas1 = 0
            · exact Or.inr (Or.inl b)
            · by_cases c : MAS1_GETTID mas1 = MAS1_GETTID other.mas1
              · exact Or.inr (Or.inr c)
              · exact absurd ⟨a, b, c⟩ h3
        by_cases h4 : oe ≥ epn + P
        · rw [if_pos h4]
          simp only [Bool.false_eq_true, false_iff]
          rintro ⟨_, _, _, p, a, b, c, d⟩
          omega
        · rw [if_neg h4]
          by_cases h5 : oe + Q ≤ epn
          · rw [if_pos h5]
            simp only [Bool.false_eq_true, false_iff]
            rintro ⟨_, _, _, p, a, b, c, d⟩
            omega
          · rw [if_neg h5]
            simp only [true_iff]
            refine ⟨h1, by simpa using h2, hpid, max oe epn, ?_, ?_, ?_, ?_⟩ <;> omega

/-- The loop of `guest_find_tlb1` returns the first index from `i` on, other than
`entry`, that passes the tests, or `-1`. -/
theorem find_loop_spec (g : gcpu_t) (entry mas1 epn : Nat) : ∀ (n i : Nat),
    ((∀ k, i ≤ k → k < i + n →
        (decide (k ≠ entry) && find_tlb1_conflict (g.gtlb1 k) mas1 epn) = false) →
      guest_find_tlb1_loop g entry mas1 epn n i = -1) ∧
    (∀ k, i ≤ k → k < i + n →
      (decide (k ≠ entry) && find_tlb1_conflict (g.gtlb1 k) mas1 epn) = true →
      (∀ j, i ≤ j → j < k →
        (decide (j ≠ entry) && find_tlb1_conflict (g.gtlb1 j) mas1 epn) = false) →
      guest_find_tlb1_loop g entry mas1 epn n i = (k : Int)) := by
  intro n
  induction n with
  | zero =>
    intro i
    exact ⟨fun _ => rfl, fun k h1 h2 => by omega⟩
  | succ n ih =>
    intro i
    obtain ⟨ih1, ih2⟩ := ih (i + 1)
    constructor
    · intro hno
      have hi := hno i (le_refl _) (by omega)
      simp only [guest_find_tlb1_loop]
      by_cases he : entry = i
      · rw [if_pos he]
        exact ih1 (fun k a b => hno k (by omega) (by omega))
      · rw [if_neg he]
        have hne : i ≠ entry := fun h => he h.symm
        simp only [hne, ne_eq, not_false_eq_true, decide_True, Bool.true_and] at hi
        rw [hi]
        simp only [Bool.false_eq_true, if_false]
        exact ih1 (fun k a b => hno k (by omega) (by omega))
    · intro k h1 h2 hk hl
      simp only [guest_find_tlb1_loop]
      by_cases hki : k = i
      · subst hki
        simp only [Bool.and_eq_true, decide_eq_true_eq] at hk
        rw [if_neg (fun h => hk.1 h.symm), hk.2]
        simp
      · have hi := hl i (le_refl _) (by omega)
        by_cases he : entry = i
        · rw [if_pos he]
          exact ih2 k (by omega) (by omega) hk (fun j a b => hl j (by omega) b)
        · rw [if_neg he]
          have hne : i ≠ entry := fun h => he h.symm
          simp only [hne, ne_eq, not_false_eq_true, decide_True, Bool.true_and] at hi
          rw [hi]
          simp only [Bool.false_eq_true, if_false]
          exact ih2 k (by omega) (by omega) hk (fun j a b => hl j (by omega) b)

/-- C18. `guest_find_tlb1(entry, mas1, epn)` returns the lowest index `i ≠ entry` of a
logical entry that conflicts: valid, same TS bit as `mas1`, a compatible pid (a TID of 0
or equal TIDs), and an effective range that intersects
`[epn, epn + tsize_to_pages(tsize(mas1)))`; it returns `-1` iff there is no such entry,
and it never returns `entry`. Here `epn` is the page number of a 32-bit address and the
MAS2 of the logical entries are 32-bit words. -/
theorem guest_find_tlb1_lowest (g : gcpu_t) (entry mas1 epn : Nat) (hepn : epn < 2 ^ 20)
    (hw : ∀ i, i < TLB1_GSIZE → (g.gtlb1 i).mas2 < 2 ^ 32) :
    (∀ i, i < TLB1_GSIZE → i ≠ entry → find_conflict_spec (g.gtlb1 i) mas1 epn →
      (∀ j, j < i → j ≠ entry → ¬ find_conflict_spec (g.gtlb1 j) mas1 epn) →
      guest_find_tlb1 g entry mas1 epn = (i : Int)) ∧
    (guest_find_tlb1 g entry mas1 epn = -1 ↔
      ∀ i, i < TLB1_GSIZE → i ≠ entry → ¬ find_conflict_spec (g.gtlb1 i) mas1 epn) ∧
    guest_find_tlb1 g entry mas1 epn ≠ (entry : Int) ∧
    (guest_find_tlb1 g entry mas1 epn = -1 ∨
      (0 ≤ guest_find_tlb1 g entry mas1 epn ∧
        guest_find_tlb1 g entry mas1 epn < (TLB1_GSIZE : Int))) := by
  have hc : ∀ k, k < TLB1_GSIZE →
      ((decide (k ≠ entry) && find_tlb1_conflict (g.gtlb1 k) mas1 epn) = true ↔
        (k ≠ entry ∧ find_conflict_spec (g.gtlb1 k) mas1 epn)) := by
    intro k hk
    simp only [Bool.and_eq_true, decide_eq_true_eq, conflict_iff_spec _ _ _ hepn (hw k hk)]
  have hcf : ∀ k, k < TLB1_GSIZE →
      ¬ (k ≠ entry ∧ find_conflict_spec (g.gtlb1 k) mas1 epn) →
      (decide (k ≠ entry) && find_tlb1_conflict (g.gtlb1 k) mas1 epn) = false := by
    intro k hk hn
    by_contra h
    exact hn ((hc k hk).1 (by simpa using h))
  obtain ⟨S1, S2⟩ := find_loop_spec g entry mas1 epn TLB1_GSIZE 0
  have first : ∀ i, i < TLB1_GSIZE → i ≠ entry → find_conflict_spec (g.gtlb1 i) mas1 epn →
      (∀ j, j < i → j ≠ entry → ¬ find_conflict_spec (g.gtlb1 j) mas1 epn) →
      guest_find_tlb1 g entry mas1 epn = (i : Int) := by
    intro i hi hne hsp hl
    apply S2 i (Nat.zero_le _) (by omega) ((hc i hi).2 ⟨hne, hsp⟩)
    intro j _ hj
    exact hcf j (by omega) (fun h => hl j hj h.1 h.2)
  have none_ : (∀ i, i < TLB1_GSIZE → i ≠ entry → ¬ find_conflict_spec (g.gtlb1 i) mas1 epn) →
      guest_find_tlb1 g entry mas1 epn = -1 := by
    intro hno
    apply S1
    intro k _ hk
    exact hcf k (by omega) (fun h => hno k (by omega) h.1 h.2)
  have cases_ : (∀ i, i < TLB1_GSIZE → i ≠ entry → ¬ find_conflict_spec (g.gtlb1 i) mas1 epn) ∨
      ∃ i, i < TLB1_GSIZE ∧ i ≠ entry ∧ find_conflict_spec (g.gtlb1 i) mas1 epn ∧
        ∀ j, j < i → j ≠ entry → ¬ find_conflict_spec (g.gtlb1 j) mas1 epn := by
    rcases exists_first
      (fun k => decide (k ≠ entry) && find_tlb1_conflict (g.gtlb1 k) mas1 epn)
      TLB1_GSIZE with h | ⟨k, hk, hp, hl⟩
    · left
      intro i hi hne hsp
      have := h i hi
      simp only [] at this
      rw [(hc i hi).2 ⟨hne, hsp⟩] at this
      exact Bool.noConfusion this
    · right
      have := (hc k hk).1 hp
      refine ⟨k, hk, this.1, this.2, fun j hj hne hsp => ?_⟩
      have hf := hl j hj
      simp only [] at hf
      rw [(hc j (by omega)).2 ⟨hne, hsp⟩] at hf
      exact Bool.noConfusion hf
  refine ⟨first, ⟨fun h => ?_, none_⟩, ?_, ?_⟩
  · rcases cases_ with hno | ⟨i, hi, hne, hsp, hl⟩
    · exact hno
    · rw [first i hi hne hsp hl] at h
      omega
  · rcases cases_ with hno | ⟨i, hi, hne, hsp, hl⟩
    · rw [none_ hno]; omega
    · rw [first i hi hne hsp hl]
      intro h
      exact hne (by omega)
  · rcases cases_ with hno | ⟨i, hi, hne, hsp, hl⟩
    · exact Or.inl (none_ hno)
    · right
      rw [first i hi hne hsp hl]
      constructor <;> omega

/-- Witness of C18: the state with the single 16 MiB entry 0 at page `0x1000`, searched
for a 4 KiB mapping of page `0x1005`, ignoring entry 5. -/
theorem guest_find_tlb1_lowest_witness :
    (∀ i, i < TLB1_GSIZE → i ≠ 5 →
      find_conflict_spec ((gcpu_one empty_tbl).gtlb1 i) 0x80000100 0x1005 →
      (∀ j, j < i → j ≠ 5 →
        ¬ find_conflict_spec ((gcpu_one empty_tbl).gtlb1 j) 0x80000100 0x1005) →
      guest_find_tlb1 (gcpu_one empty_tbl) 5 0x80000100 0x1005 = (i : Int)) ∧
    (guest_find_tlb1 (gcpu_one empty_tbl) 5 0x80000100 0x1005 = -1 ↔
      ∀ i, i < TLB1_GSIZE → i ≠ 5 →
        ¬ find_conflict_spec ((gcpu_one empty_tbl).gtlb1 i) 0x80000100 0x1005) ∧
    guest_find_tlb1 (gcpu_one empty_tbl) 5 0x80000100 0x1005 ≠ ((5 : Nat) : Int) ∧
    (guest_find_tlb1 (gcpu_one empty_tbl) 5 0x80000100 0x1005 = -1 ∨
      (0 ≤ guest_find_tlb1 (gcpu_one empty_tbl) 5 0x80000100 0x1005 ∧
        guest_find_tlb1 (gcpu_one empty_tbl) 5 0x80000100 0x1005 < (TLB1_GSIZE : Int))) :=
  guest_find_tlb1_lowest (gcpu_one empty_tbl) 5 0x80000100 0x1005 (by decide)
    (fun i _ => by
      show (arr_set gcpu_zero.gtlb1 0 _ i).mas2 < 2 ^ 32
      unfold arr_set
      split
      · decide
      · show (0 : Nat) < 2 ^ 32; decide)

/-! ## Emulation of `tlbre` and `tlbwe`, and the reverse table (`emulate.c`, `guest.c`) -/

/-- Modelled from the spec: `MAS0_TLBSEL1` of the missing `libos/fsl-booke-tlb.h`, the bit
of MAS0 that selects TLB1. -/
def MAS0_TLBSEL1 : Nat := 0x10000000

/-- Modelled from the spec: `MAS0_TLBSEL_MASK` of the missing `libos/fsl-booke-tlb.h`. -/
def MAS0_TLBSEL_MASK : Nat := 0x30000000

/-- Modelled from the spec: `MAS0_ESEL_MASK` of the missing `libos/fsl-booke-tlb.h`. -/
def MAS0_ESEL_MASK : Nat := 0x0fff0000

/-- Modelled from the spec: `MAS0_ESEL_SHIFT` of the missing `libos/fsl-booke-tlb.h`. -/
def MAS0_ESEL_SHIFT : Nat := 16

/-- Modelled from the spec: `MAS0_RESERVED` of the missing `libos/fsl-booke-tlb.h`, the
bits of MAS0 outside TLBSEL, ESEL and NV. -/
def MAS0_RESERVED : Nat := 0xc000f000

/-- Modelled from the spec: `MAS0_GET_TLBSEL` of the missing `libos/fsl-booke-tlb.h`. -/
def MAS0_GET_TLBSEL (mas0 : Nat) : Nat := (mas0 >>> 28) &&& 3

/-- Modelled from the spec: `MAS0_GET_TLB1ESEL` of the missing `libos/fsl-booke-tlb.h`. -/
def MAS0_GET_TLB1ESEL (mas0 : Nat) : Nat := (mas0 >>> MAS0_ESEL_SHIFT) &&& 0xfff

/-- Modelled from the spec: `MAS0_ESEL` of the missing `libos/fsl-booke-tlb.h`. -/
def MAS0_ESEL (x : Nat) : Nat := shl32 x MAS0_ESEL_SHIFT &&& MAS0_ESEL_MASK

/-- Modelled from the spec: `MAS1_RESERVED` of the missing `libos/fsl-booke-tlb.h`, the
bits of MAS1 outside V, IPROT, TID, TS and TSIZE. -/
def MAS1_RESERVED : Nat := 0x3f00e0ff

/-- Modelled from the spec: `MAS2_FLAGS` of the missing `libos/fsl-booke-tlb.h`, the
attribute bits of MAS2 below the page number. -/
def MAS2_FLAGS : Nat := 0x0000007f

/-- Modelled from the spec: `MAS2_RESERVED` of the missing `libos/fsl-booke-tlb.h`, the
bits of MAS2 outside EPN and the attribute bits. -/
def MAS2_RESERVED : Nat := 0x00000f80

/-- Modelled from the spec: `MAS3_RPN_SHIFT` of the missing `libos/fsl-booke-tlb.h`. -/
def MAS3_RPN_SHIFT : Nat := 12

/-- Modelled from the spec: `MAS3_USER` of the missing `libos/fsl-booke-tlb.h`, the user
bits U0..U3 of MAS3. -/
def MAS3_USER : Nat := 0x000003c0

/-- Modelled from the spec: `MAS3_FLAGS` of the missing `libos/fsl-booke-tlb.h`, the
permission bits of MAS3. -/
def MAS3_FLAGS : Nat := 0x0000003f

/-- Modelled from the spec: `MAS3_RESERVED` of the missing `libos/fsl-booke-tlb.h`, the
bits of MAS3 outside RPN, the user bits and the permission bits. -/
def MAS3_RESERVED : Nat := 0x00000c00

/-- Modelled from the spec: `MAS7_RESERVED` of the missing `libos/fsl-booke-tlb.h`, the
bits of MAS7 above the four upper bits of a 36-bit real address. -/
def MAS7_RESERVED : Nat := 0xfffffff0

/-- Modelled from the spec: `MAS5_SGS` of the missing `libos/fsl-booke-tlb.h`. -/
def MAS5_SGS : Nat := 0x80000000

/-- Modelled from the spec: `MAS8_VF` of the missing `libos/fsl-booke-tlb.h`. -/
def MAS8_VF : Nat := 0x40000000

/-- Modelled from the spec: `PTE_ALL` of the missing `paging.h`, the `attr` of ordinary
guest memory: valid, with every permission. -/
def PTE_ALL : Nat := PTE_VALID ||| PTE_MAS3_MASK

/-- What a hardware `tlbsx` or `tlbre` leaves in the MAS registers. -/
structure mas_regs where
  mas0 : Nat
  mas1 : Nat
  mas2 : Nat
  mas3 : Nat
  mas7 : Nat

/-- The state the emulation works on: the virtual core, the reverse table
`guest->gphys_rev` and the MAS registers. -/
structure hcpu_t where
  gcpu : gcpu_t
  gphys_rev : Table
  mas0 : Nat
  mas1 : Nat
  mas2 : Nat
  mas3 : Nat
  mas5 : Nat
  mas6 : Nat
  mas7 : Nat
  mas8 : Nat

/-- Embedding of `fixup_tlb_sx_re()`: the real page that a hardware `tlbsx` or `tlbre`
left in MAS3 and MAS7 is replaced by the guest-physical page of the reverse table. The
missing function `guest_tlb1_to_gtlb1` is the argument `to_gtlb1`. -/
def fixup_tlb_sx_re (s : hcpu_t) (to_gtlb1 : Nat → Nat) : Except Fault hcpu_t :=
  if s.mas1 &&& MAS1_VALID = 0 then Except.ok s
  else
    let mas3 := s.mas3
    let mas7 := s.mas7
    let grpn := shl32 mas7 (32 - PAGE_SHIFT) ||| (mas3 >>> MAS3_RPN_SHIFT)
    match vptbl_xlate s.gphys_rev grpn PTE_PHYS_LEVELS with
    | Except.error e => Except.error e
    | Except.ok (rpn, attr) =>
      if attr &&& PTE_VALID = 0 then Except.error Fault.assert_fail
      else
        let s1 : hcpu_t := { s with
          mas3 := shl32 rpn PAGE_SHIFT ||| (mas3 &&& (MAS3_FLAGS ||| MAS3_USER)),
          mas7 := rpn >>> (32 - PAGE_SHIFT) }
        let mas0 := s1.mas0
        if MAS0_GET_TLBSEL mas0 = 1 then
          let entry := MAS0_GET_TLB1ESEL mas0
          Except.ok { s1 with
            mas0 := (mas0 &&& not32 MAS0_ESEL_MASK) ||| MAS0_ESEL (to_gtlb1 entry),
            mas1 := (s1.gcpu.gtlb1 entry).mas1,
            mas2 := (s1.gcpu.gtlb1 entry).mas2,
            mas3 := (s1.gcpu.gtlb1 entry).mas3,
            mas7 := (s1.gcpu.gtlb1 entry).mas7 }
        else Except.ok s1

/-- Embedding of `emu_tlbre`: the value returned (1 for a fault) and the state left; `hw`
is what the hardware `tlbre` of the TLB0 branch leaves in the MAS registers. -/
def emu_tlbre (s : hcpu_t) (hw : mas_regs) (to_gtlb1 : Nat → Nat) :
    Except Fault (Nat × hcpu_t) :=
  let mas0 := s.mas0
  if mas0 &&& (MAS0_RESERVED ||| 0x20000000) ≠ 0 then Except.ok (1, s)
  else if MAS0_GET_TLBSEL mas0 = 0 then
    let s0 : hcpu_t := { s with
      mas0 := hw.mas0, mas1 := hw.mas1, mas2 := hw.mas2, mas3 := hw.mas3, mas7 := hw.mas7 }
    match fixup_tlb_sx_re s0 to_gtlb1 with
    | Except.error e => Except.error e
    | Except.ok s1 => Except.ok (0, s1)
  else
    let entry := MAS0_GET_TLB1ESEL mas0
    if entry ≥ TLB1_GSIZE then Except.ok (1, s)
    else
      Except.ok (0, { s with
        mas1 := (s.gcpu.gtlb1 entry).mas1,
        mas2 := (s.gcpu.gtlb1 entry).mas2,
        mas3 := (s.gcpu.gtlb1 entry).mas3,
        mas7 := (s.gcpu.gtlb1 entry).mas7 })

/-- The duplicate test of `emu_tlbwe` after its `tlbsx`: whether the entry the search
found (left in `sx`) lets the write go on to `no_dup`. -/
def tlbwe_no_dup (mas0 : Nat) (sx : mas_regs) (to_gtlb1 : Nat → Nat) : Bool :=
  if sx.mas1 &&& MAS1_VALID = 0 then true
  else if MAS0_GET_TLBSEL mas0 = 0 ∧
      mas0 &&& (MAS0_TLBSEL_MASK ||| MAS0_ESEL_MASK)
        = sx.mas0 &&& (MAS0_TLBSEL_MASK ||| MAS0_ESEL_MASK) then true
  else if MAS0_GET_TLBSEL mas0 = 1 ∧ MAS0_GET_TLBSEL sx.mas0 = 1 ∧
      MAS0_GET_TLB1ESEL sx.mas0 = to_gtlb1 (MAS0_GET_TLB1ESEL mas0) then true
  else false

/-- The part of `emu_tlbwe` from the label `no_dup` on, with the values `mas0`..`mas7`
read at the start of the function. -/
def emu_tlbwe_install (s : hcpu_t) (mas0 mas1 mas2 mas3 mas7 grpn : Nat) :
    Except Fault (Nat × hcpu_t) :=
  if mas0 &&& MAS0_TLBSEL1 ≠ 0 then
    let epn := mas2 >>> PAGE_SHIFT
    let entry := MAS0_GET_TLB1ESEL mas0
    if entry ≥ TLB1_GSIZE then Except.ok (1, s)
    else
      match guest_set_tlb1 s.gcpu entry mas1 epn grpn (mas2 &&& MAS2_FLAGS)
          (mas3 &&& (MAS3_FLAGS ||| MAS3_USER)) with
      | Except.error e => Except.error e
      | Except.ok g1 => Except.ok (0, { s with gcpu := g1 })
  else
    let mas8 := s.gcpu.lpid ||| MAS8_GTS
    let s1 : hcpu_t := { s with mas0 := mas0, mas1 := mas1, mas2 := mas2, mas3 := mas3,
                                mas7 := mas7 }
    if mas1 &&& MAS1_VALID ≠ 0 then
      match vptbl_xlate s.gcpu.gphys grpn PTE_PHYS_LEVELS with
      | Except.error e => Except.error e
      | Except.ok (rpn, attr) =>
        if attr &&& PTE_VALID = 0 then
          Except.ok (0, { s1 with
            mas7 := rpn >>> (32 - PAGE_SHIFT),
            mas3 := shl32 rpn PAGE_SHIFT ||| mas3,
            mas8 := mas8 ||| MAS8_VF })
        else
          Except.ok (0, { s1 with
            mas7 := rpn >>> (32 - PAGE_SHIFT),
            mas3 := shl32 rpn PAGE_SHIFT |||
              (mas3 &&& ((attr &&& PTE_MAS3_MASK) ||| MAS3_USER)),
            mas8 := mas8 ||| (shl32 attr PTE_MAS8_SHIFT &&& PTE_MAS8_MASK) })
    else Except.ok (0, { s1 with mas8 := mas8 })

/-- Embedding of `emu_tlbwe`: the value returned (1 for a fault) and the state left; `sx`
is what the hardware `tlbsx` of the duplicate test leaves in the MAS registers. -/
def emu_tlbwe (s : hcpu_t) (sx : mas_regs) (to_gtlb1 : Nat → Nat) :
    Except Fault (Nat × hcpu_t) :=
  let mas0 := s.mas0
  let mas1 := s.mas1
  let mas2 := s.mas2
  let mas3 := s.mas3
  let mas7 := s.mas7
  let grpn := shl32 mas7 (32 - PAGE_SHIFT) ||| (mas3 >>> MAS3_RPN_SHIFT)
  if mas0 &&& (MAS0_RESERVED ||| 0x20000000) ≠ 0 then Except.ok (1, s)
  else if mas1 &&& MAS1_RESERVED ≠ 0 then Except.ok (1, s)
  else if mas2 &&& MAS2_RESERVED ≠ 0 then Except.ok (1, s)
  else if mas3 &&& MAS3_RESERVED ≠ 0 then Except.ok (1, s)
  else if mas7 &&& MAS7_RESERVED ≠ 0 then Except.ok (1, s)
  else if mas1 &&& MAS1_VALID ≠ 0 then
    let s1 : hcpu_t := { s with
      mas5 := MAS5_SGS ||| s.gcpu.lpid,
      mas6 := (mas1 &&& MAS1_TID_MASK) ||| ((mas1 >>> MAS1_TS_SHIFT) &&& 1),
      mas0 := sx.mas0, mas1 := sx.mas1, mas2 := sx.mas2, mas3 := sx.mas3, mas7 := sx.mas7 }
    if tlbwe_no_dup mas0 sx to_gtlb1 then emu_tlbwe_install s1 mas0 mas1 mas2 mas3 mas7 grpn
    else Except.ok (1, s1)
  else emu_tlbwe_install s mas0 mas1 mas2 mas3 mas7 grpn

/-- The tables of a guest that `map_guest_addr_range` writes. -/
structure guest_t where
  gphys : Table
  gphys_rev : Table

/-- Embedding of `map_guest_addr_range(guest, gaddr, addr, size)`; the addresses are
`phys_addr_t` (64 bits), the page numbers `unsigned long`. The statuses of the two calls
of `vptbl_map` are returned with the tables. -/
def map_guest_addr_range (guest : guest_t) (gaddr addr size : Nat) :
    (map_status × map_status) × guest_t :=
  let grpn := u32 (gaddr >>> PAGE_SHIFT)
  let rpn := u32 (addr >>> PAGE_SHIFT)
  let pages := u32 (((gaddr + size + 2 ^ 64 - shl32 grpn PAGE_SHIFT + (PAGE_SIZE - 1)) % 2 ^ 64)
    >>> PAGE_SHIFT)
  let r1 := vptbl_map guest.gphys grpn rpn pages PTE_ALL PTE_PHYS_LEVELS
  let r2 := vptbl_map guest.gphys_rev rpn grpn pages PTE_ALL PTE_PHYS_LEVELS
  ((r1.1, r2.1), { gphys := r1.2, gphys_rev := r2.2 })

theorem shl32_testBit (x s j : Nat) :
    (shl32 x s).testBit j = (decide (j < 32) && (decide (s ≤ j) && x.testBit (j - s))) := by
  unfold shl32 WORD
  rw [Nat.testBit_mod_two_pow, Nat.testBit_shiftLeft]

theorem ones_testBit (j : Nat) : (2 ^ 32 - 1).testBit j = decide (j < 32) :=
  Nat.testBit_two_pow_sub_one 32 j

/-- A 32-bit word with no bit in `R` is the union of its parts in `A` and in `B`, when
`A`, `B` and `R` cover the word. -/
theorem mask_split (x A B R : Nat) (hx : x < 2 ^ 32) (hcov : A ||| B ||| R = 2 ^ 32 - 1)
    (hr : x &&& R = 0) : (x &&& A) ||| (x &&& B) = x := by
  apply Nat.eq_of_testBit_eq
  intro j
  rw [Nat.testBit_or, Nat.testBit_and, Nat.testBit_and]
  cases hxj : x.testBit j with
  | false => rfl
  | true =>
    have hj : j < 32 := testBit_lt_32 x j hx hxj
    have hc : (A ||| B ||| R).testBit j = true := by rw [hcov, ones_testBit]; simp [hj]
    have hrj : (x &&& R).testBit j = false := by rw [hr, Nat.zero_testBit]
    rw [Nat.testBit_and, hxj] at hrj
    rw [Nat.testBit_or, Nat.testBit_or] at hc
    simp only [Bool.true_and] at hrj ⊢
    rw [hrj] at hc
    simpa using hc

theorem shl_shr_mask (x : Nat) :
    shl32 (x >>> PAGE_SHIFT) PAGE_SHIFT = x &&& 0xfffff000 := by
  apply Nat.eq_of_testBit_eq
  intro j
  rw [shl32_testBit, Nat.testBit_shiftRight, Nat.testBit_and]
  have hm : (0xfffff000 : Nat) = 2 ^ 32 - 2 ^ 12 := by norm_num
  have hmask : (0xfffff000 : Nat).testBit j = (decide (j < 32) && decide (12 ≤ j)) := by
    have e : (0xfffff000 : Nat) = 2 ^ 12 * (2 ^ 20 - 1) := by norm_num
    rw [e, Nat.testBit_mul_pow_two, Nat.testBit_two_pow_sub_one]
    by_cases h1 : 12 ≤ j
    · by_cases h2 : j < 32
      · simp [h1, h2]; omega
      · simp [h1, h2]; omega
    · simp [h1]
  rw [hmask]
  unfold PAGE_SHIFT
  by_cases h1 : 12 ≤ j
  · have : 12 + (j - 12) = j := by omega
    by_cases h2 : j < 32
    · simp [h1, h2, this]
    · simp [h2]
  · simp [h1]

/-- The guest-physical page number `emu_tlbwe` forms from MAS7 and MAS3. -/
theorem grpn_bits (mas3 mas7 j : Nat) :
    (shl32 mas7 (32 - PAGE_SHIFT) ||| (mas3 >>> MAS3_RPN_SHIFT)).testBit j
      = ((decide (j < 32) && (decide (20 ≤ j) && mas7.testBit (j - 20))) ||
          mas3.testBit (12 + j)) := by
  rw [Nat.testBit_or, shl32_testBit, Nat.testBit_shiftRight]
  rfl

theorem mas3_round (mas3 mas7 : Nat) (h3 : mas3 < 2 ^ 32)
    (hr : mas3 &&& MAS3_RESERVED = 0) :
    shl32 (shl32 mas7 (32 - PAGE_SHIFT) ||| (mas3 >>> MAS3_RPN_SHIFT)) PAGE_SHIFT |||
      (mas3 &&& (MAS3_FLAGS ||| MAS3_USER)) = mas3 := by
  have e1 : shl32 (shl32 mas7 (32 - PAGE_SHIFT) ||| (mas3 >>> MAS3_RPN_SHIFT)) PAGE_SHIFT
      = mas3 &&& 0xfffff000 := by
    rw [← shl_shr_mask mas3]
    apply Nat.eq_of_testBit_eq
    intro j
    rw [shl32_testBit, shl32_testBit, grpn_bits, Nat.testBit_shiftRight]
    unfold PAGE_SHIFT
    by_cases h1 : j < 32
    · by_cases h2 : 12 ≤ j
      · have h20 : ¬ 20 ≤ j - 12 := by omega
        simp [h1, h2, h20]
      · simp [h2]
    · simp [h1]
  rw [e1]
  exact mask_split mas3 0xfffff000 (MAS3_FLAGS ||| MAS3_USER) MAS3_RESERVED h3 (by decide) hr

theorem mas7_round (mas3 mas7 : Nat) (h3 : mas3 < 2 ^ 32) (h7 : mas7 < 2 ^ 32)
    (hr : mas7 &&& MAS7_RESERVED = 0) :
    (shl32 mas7 (32 - PAGE_SHIFT) ||| (mas3 >>> MAS3_RPN_SHIFT)) >>> (32 - PAGE_SHIFT)
      = mas7 := by
  have hlow : ∀ j, mas7.testBit j = true → j < 4 := by
    intro j hj
    by_contra hge
    have h32 := testBit_lt_32 mas7 j h7 hj
    have hb : (mas7 &&& MAS7_RESERVED).testBit j = false := by rw [hr, Nat.zero_testBit]
    rw [Nat.testBit_and, hj] at hb
    have hm : MAS7_RESERVED.testBit j = true := by
      have e : MAS7_RESERVED = 2 ^ 4 * (2 ^ 28 - 1) := by decide
      rw [e, Nat.testBit_mul_pow_two, Nat.testBit_two_pow_sub_one]
      simp; omega
    rw [hm] at hb
    exact Bool.noConfusion hb
  apply Nat.eq_of_testBit_eq
  intro j
  rw [Nat.testBit_shiftRight, grpn_bits]
  unfold PAGE_SHIFT
  have hhi : mas3.testBit (12 + (32 - 12 + j)) = false := Nat.testBit_lt_two_pow
    (lt_of_lt_of_le h3 (Nat.pow_le_pow_right (by norm_num) (by omega)))
  rw [hhi]
  have e : 32 - 12 + j - 20 = j := by omega
  rw [e]
  cases hj : mas7.testBit j with
  | false => simp
  | true =>
    have := hlow j hj
    simp; omega

theorem mas2_round (mas2 : Nat) (h2 : mas2 < 2 ^ 32) (hr : mas2 &&& MAS2_RESERVED = 0) :
    shl32 (mas2 >>> PAGE_SHIFT) PAGE_SHIFT ||| (mas2 &&& MAS2_FLAGS) = mas2 := by
  rw [shl_shr_mask mas2]
  exact mask_split mas2 0xfffff000 MAS2_FLAGS MAS2_RESERVED h2 (by decide) hr

/-- `guest_set_tlb1` leaves in logical entry `entry` the values it was given, whatever
slots it allocates. -/
theorem set_tlb1_entry (g : gcpu_t) (entry mas1 epn grpn mas2flags mas3flags : Nat)
    (g' : gcpu_t)
    (hs : guest_set_tlb1 g entry mas1 epn grpn mas2flags mas3flags = Except.ok g') :
    g'.gtlb1 entry =
      { mas1 := mas1, mas2 := shl32 epn PAGE_SHIFT ||| mas2flags,
        mas3 := shl32 grpn PAGE_SHIFT ||| mas3flags, mas7 := grpn >>> (32 - PAGE_SHIFT) } := by
  unfold guest_set_tlb1 at hs
  simp only [] at hs
  cases hf : free_tlb1 g entry with
  | error x => rw [hf] at hs; exact Except.noConfusion hs
  | ok g1 =>
    rw [hf] at hs
    simp only [] at hs
    by_cases hv : mas1 &&& MAS1_VALID = 0
    · rw [if_pos hv] at hs
      simp only [Except.ok.injEq] at hs
      rw [← hs]
      simp [arr_set]
    · rw [if_neg hv] at hs
      have R := set_loop_rule
        (fun x => x.gtlb1 entry =
          { mas1 := mas1, mas2 := shl32 epn PAGE_SHIFT ||| mas2flags,
            mas3 := shl32 grpn PAGE_SHIFT ||| mas3flags, mas7 := grpn >>> (32 - PAGE_SHIFT) })
        entry mas1 mas2flags
        (add32 epn (tsize_to_pages ((mas1 >>> MAS1_TSIZE_SHIFT) &&& 15)))
        (fun x idx va pa ts a b c d hI _ => by
          show (alloc_tlb1 x entry false).1.gtlb1 entry = _
          rw [(alloc_gtlb1 x entry false).1]; exact hI)
        _ _ _ _ _ g' (by simp [arr_set]) hs
      exact R

/-- C19. `tlbre` returns what `tlbwe` wrote for TLB1: for MAS0 selecting TLB1 entry
`e < TLB1_GSIZE` and 32-bit MAS1, MAS2, MAS3, MAS7 with no reserved bits set, when the
duplicate test lets the write pass and `guest_set_tlb1` returns, `emu_tlbwe` returns 0
and has installed exactly these values in logical entry `e`; then `emu_tlbre` with any
MAS0 that selects TLB1 entry `e`, in any state with that logical entry (whatever the
physical slots and bitmaps hold), returns 0 with MAS1, MAS2, MAS3 and MAS7 set to the
values written (the guest-physical page, not a real one); and `emu_tlbre` returns 1, with
no register changed, when MAS0 selects a TLB1 entry of index `TLB1_GSIZE` or more. -/
theorem emu_tlbwe_tlbre_round_trip (s : hcpu_t) (sx : mas_regs) (to_gtlb1 : Nat → Nat)
    (g1 : gcpu_t)
    (h2 : s.mas2 < 2 ^ 32) (h3 : s.mas3 < 2 ^ 32) (h7 : s.mas7 < 2 ^ 32)
    (hr0 : s.mas0 &&& (MAS0_RESERVED ||| 0x20000000) = 0)
    (hr1 : s.mas1 &&& MAS1_RESERVED = 0) (hr2 : s.mas2 &&& MAS2_RESERVED = 0)
    (hr3 : s.mas3 &&& MAS3_RESERVED = 0) (hr7 : s.mas7 &&& MAS7_RESERVED = 0)
    (hsel : s.mas0 &&& MAS0_TLBSEL1 ≠ 0)
    (he : MAS0_GET_TLB1ESEL s.mas0 < TLB1_GSIZE)
    (hdup : s.mas1 &&& MAS1_VALID ≠ 0 → tlbwe_no_dup s.mas0 sx to_gtlb1 = true)
    (hset : guest_set_tlb1 s.gcpu (MAS0_GET_TLB1ESEL s.mas0) s.mas1 (s.mas2 >>> PAGE_SHIFT)
      (shl32 s.mas7 (32 - PAGE_SHIFT) ||| (s.mas3 >>> MAS3_RPN_SHIFT))
      (s.mas2 &&& MAS2_FLAGS) (s.mas3 &&& (MAS3_FLAGS ||| MAS3_USER)) = Except.ok g1) :
    (∃ s', emu_tlbwe s sx to_gtlb1 = Except.ok (0, s') ∧ s'.gcpu = g1) ∧
    g1.gtlb1 (MAS0_GET_TLB1ESEL s.mas0)
      = { mas1 := s.mas1, mas2 := s.mas2, mas3 := s.mas3, mas7 := s.mas7 } ∧
    (∀ (t : hcpu_t) (hw : mas_regs) (to2 : Nat → Nat),
      t.gcpu.gtlb1 (MAS0_GET_TLB1ESEL s.mas0) = g1.gtlb1 (MAS0_GET_TLB1ESEL s.mas0) →
      t.mas0 &&& (MAS0_RESERVED ||| 0x20000000) = 0 → MAS0_GET_TLBSEL t.mas0 ≠ 0 →
      MAS0_GET_TLB1ESEL t.mas0 = MAS0_GET_TLB1ESEL s.mas0 →
      ∃ t', emu_tlbre t hw to2 = Except.ok (0, t') ∧ t'.mas1 = s.mas1 ∧ t'.mas2 = s.mas2 ∧
        t'.mas3 = s.mas3 ∧ t'.mas7 = s.mas7 ∧ t'.gcpu = t.gcpu) ∧
    (∀ (t : hcpu_t) (hw : mas_regs) (to2 : Nat → Nat), MAS0_GET_TLBSEL t.mas0 ≠ 0 →
      MAS0_GET_TLB1ESEL t.mas0 ≥ TLB1_GSIZE → emu_tlbre t hw to2 = Except.ok (1, t)) := by
  have hentry := set_tlb1_entry _ _ _ _ _ _ _ _ hset
  rw [mas2_round s.mas2 h2 hr2, mas3_round s.mas3 s.mas7 h3 hr3,
    mas7_round s.mas3 s.mas7 h3 h7 hr7] at hentry
  have hinst : ∀ s1 : hcpu_t, s1.gcpu = s.gcpu →
      emu_tlbwe_install s1 s.mas0 s.mas1 s.mas2 s.mas3 s.mas7
        (shl32 s.mas7 (32 - PAGE_SHIFT) ||| (s.mas3 >>> MAS3_RPN_SHIFT))
        = Except.ok (0, { s1 with gcpu := g1 }) := by
    intro s1 hs1
    unfold emu_tlbwe_install
    simp only []
    rw [if_pos hsel, if_neg (by omega), hs1, hset]
  refine ⟨?_, hentry, ?_, ?_⟩
  · unfold emu_tlbwe
    simp only []
    rw [if_neg (by rw [hr0]; exact fun h => h rfl), if_neg (by rw [hr1]; exact fun h => h rfl),
      if_neg (by rw [hr2]; exact fun h => h rfl), if_neg (by rw [hr3]; exact fun h => h rfl),
      if_neg (by rw [hr7]; exact fun h => h rfl)]
    by_cases hv : s.mas1 &&& MAS1_VALID ≠ 0
    · rw [if_pos hv, hdup hv]
      simp only [if_true]
      exact ⟨_, hinst _ (by rfl), rfl⟩
    · rw [if_neg hv]
      exact ⟨_, hinst s (by rfl), rfl⟩
  · intro t hw to2 ht hr hs he2
    unfold emu_tlbre
    simp only []
    rw [if_neg (by rw [hr]; exact fun h => h rfl), if_neg hs, he2, if_neg (by omega), ht, hentry]
    exact ⟨_, rfl, rfl, rfl, rfl, rfl, rfl⟩
  · intro t hw to2 hs hge
    unfold emu_tlbre
    simp only []
    by_cases hr : t.mas0 &&& (MAS0_RESERVED ||| 0x20000000) ≠ 0
    · rw [if_pos hr]
    · rw [if_neg hr, if_neg hs, if_pos hge]

/-- A state of the emulation with all-zero virtual core whose MAS registers hold a valid
4 KiB entry for TLB1 entry 0: effective `0x01000000`, guest-physical `0x01000000`. -/
def hcpu_write_one : hcpu_t :=
  { gcpu := gcpu_zero, gphys_rev := empty_tbl,
    mas0 := 0x10000000, mas1 := 0x80000100, mas2 := 0x01000000, mas3 := 0x0100003f,
    mas5 := 0, mas6 := 0, mas7 := 0, mas8 := 0 }

/-- Witness of C19: the write of `hcpu_write_one`, with a search that found nothing. -/
theorem emu_tlbwe_tlbre_round_trip_witness :
    (∃ s', emu_tlbwe hcpu_write_one
        { mas0 := 0, mas1 := 0, mas2 := 0, mas3 := 0, mas7 := 0 } (fun x => x)
          = Except.ok (0, s') ∧
        s'.gcpu = { gcpu_zero with
          gtlb1 := arr_set (arr_set gcpu_zero.gtlb1 0
              { gcpu_zero.gtlb1 0 with mas1 := (gcpu_zero.gtlb1 0).mas1 &&& not32 MAS1_VALID }) 0
            { mas1 := 0x80000100, mas2 := shl32 0x1000 PAGE_SHIFT ||| 0,
              mas3 := shl32 0x1000 PAGE_SHIFT ||| 0x3f, mas7 := 0 } }) ∧
    ({ gcpu_zero with
        gtlb1 := arr_set (arr_set gcpu_zero.gtlb1 0
            { gcpu_zero.gtlb1 0 with mas1 := (gcpu_zero.gtlb1 0).mas1 &&& not32 MAS1_VALID }) 0
          { mas1 := 0x80000100, mas2 := shl32 0x1000 PAGE_SHIFT ||| 0,
            mas3 := shl32 0x1000 PAGE_SHIFT ||| 0x3f, mas7 := 0 } } : gcpu_t).gtlb1
        (MAS0_GET_TLB1ESEL hcpu_write_one.mas0)
      = { mas1 := hcpu_write_one.mas1, mas2 := hcpu_write_one.mas2,
          mas3 := hcpu_write_one.mas3, mas7 := hcpu_write_one.mas7 } ∧
    (∀ (t : hcpu_t) (hw : mas_regs) (to2 : Nat → Nat),
      t.gcpu.gtlb1 (MAS0_GET_TLB1ESEL hcpu_write_one.mas0)
        = ({ gcpu_zero with
            gtlb1 := arr_set (arr_set gcpu_zero.gtlb1 0
                { gcpu_zero.gtlb1 0 with
                  mas1 := (gcpu_zero.gtlb1 0).mas1 &&& not32 MAS1_VALID }) 0
              { mas1 := 0x80000100, mas2 := shl32 0x1000 PAGE_SHIFT ||| 0,
                mas3 := shl32 0x1000 PAGE_SHIFT ||| 0x3f, mas7 := 0 } } : gcpu_t).gtlb1
          (MAS0_GET_TLB1ESEL hcpu_write_one.mas0) →
      t.mas0 &&& (MAS0_RESERVED ||| 0x20000000) = 0 → MAS0_GET_TLBSEL t.mas0 ≠ 0 →
      MAS0_GET_TLB1ESEL t.mas0 = MAS0_GET_TLB1ESEL hcpu_write_one.mas0 →
      ∃ t', emu_tlbre t hw to2 = Except.ok (0, t') ∧ t'.mas1 = hcpu_write_one.mas1 ∧
        t'.mas2 = hcpu_write_one.mas2 ∧ t'.mas3 = hcpu_write_one.mas3 ∧
        t'.mas7 = hcpu_write_one.mas7 ∧ t'.gcpu = t.gcpu) ∧
    (∀ (t : hcpu_t) (hw : mas_regs) (to2 : Nat → Nat), MAS0_GET_TLBSEL t.mas0 ≠ 0 →
      MAS0_GET_TLB1ESEL t.mas0 ≥ TLB1_GSIZE → emu_tlbre t hw to2 = Except.ok (1, t)) :=
  emu_tlbwe_tlbre_round_trip hcpu_write_one
    { mas0 := 0, mas1 := 0, mas2 := 0, mas3 := 0, mas7 := 0 } (fun x => x) _
    (by decide) (by decide) (by decide) (by decide) (by decide) (by decide)
    (by decide) (by decide) (by decide) (by decide) (fun _ => by decide) (by rfl)

/-- Modelled from the spec: the fields of one way of a set of the TLB0 cache (the tag and
the entry of `tlbcset_t`, whose header is missing) that `gtlb0_to_mas` reads. -/
structure tlbc_way where
  valid : Bool
  pid : Nat
  space : Nat
  vaddr : Nat
  mas2 : Nat
  mas3 : Nat
  mas7 : Nat
  mas8 : Nat

/-- Embedding of `gtlb0_to_mas(index, way)` on the set `set` of the cache, with `bits`
the `tlbcache_bits` of the core. -/
def gtlb0_to_mas (s : hcpu_t) (set : Nat → tlbc_way) (bits index way : Nat) :
    Except Fault hcpu_t :=
  if (set way).valid = false then Except.ok { s with mas1 := s.mas1 &&& not32 MAS1_VALID }
  else
    let s1 : hcpu_t := { s with
      mas0 := MAS0_ESEL way,
      mas1 := MAS1_VALID ||| shl32 (set way).pid MAS1_TID_SHIFT |||
        shl32 (set way).space MAS1_TS_SHIFT ||| shl32 TLB_TSIZE_4K MAS1_TSIZE_SHIFT,
      mas2 := shl32 (set way).vaddr (PAGE_SHIFT + bits) ||| shl32 index PAGE_SHIFT |||
        (set way).mas2 }
    if (set way).mas8 &&& 1 = 0 then
      let grpn := shl32 (set way).mas7 (32 - PAGE_SHIFT) ||| ((set way).mas3 >>> MAS3_RPN_SHIFT)
      match vptbl_xlate s.gphys_rev grpn PTE_PHYS_LEVELS with
      | Except.error e => Except.error e
      | Except.ok (rpn, attr) =>
        if attr &&& PTE_VALID = 0 then Except.error Fault.assert_fail
        else
          Except.ok { s1 with
            mas3 := shl32 rpn PAGE_SHIFT ||| ((set way).mas3 &&& (MAS3_FLAGS ||| MAS3_USER)),
            mas7 := rpn >>> (32 - PAGE_SHIFT) }
    else Except.ok { s1 with mas3 := (set way).mas3, mas7 := (set way).mas7 }

/-- On the empty table of at least two levels a call of `vptbl_map` with a valid `attr`,
over a range that the table can hold, completes and every page of the range translates
to its real page. -/
theorem map_empty_xlate (levels gpn rpn n attr : Nat) (hL : 2 ≤ levels)
    (hg : gpn + n < 2 ^ 32) (hcap : gpn + n ≤ 2 ^ (10 * levels))
    (hr : rpn + n ≤ 2 ^ 32) (hr0 : rpn < 2 ^ 32) (hv : attr &&& PTE_VALID ≠ 0) :
    (vptbl_map empty_tbl gpn rpn n attr levels).1 = map_status.done ∧
      ∀ i, i < n → ∃ a,
        vptbl_xlate (vptbl_map empty_tbl gpn rpn n attr levels).2 (gpn + i) levels
          = Except.ok (rpn + i, a) ∧ a &&& PTE_VALID ≠ 0 := by
  have P := map_post levels empty_tbl gpn rpn n attr (inv_empty levels (by omega)) hg hcap hr
    hr0
  rcases P with ⟨hd, r, a, hM⟩ | ⟨_, _, _, _, hnf⟩
  · refine ⟨hd, fun i hi => ?_⟩
    obtain ⟨s, _, _, hx⟩ := xlate_written levels _ gpn rpn attr (gpn + n) (gpn + i) hv
      (by omega) (hM.wr (gpn + i) (by omega) (by omega))
    refine ⟨set_size attr s, ?_, by rw [set_size_valid]; exact hv⟩
    rw [hx]; congr 2; omega
  · exfalso
    apply hnf
    refine ⟨fresh_empty levels hL gpn, fun q _ _ => ?_⟩
    unfold PageCls
    rw [walkL_empty _ (idxs_ne_nil levels q (by omega))]
    rfl

/-- The page numbers and the page count that `map_guest_addr_range` computes, for a guest
range below 4 GiB. -/
theorem range_pages (gaddr size : Nat) (hs : 0 < size) (hg : gaddr + size ≤ 2 ^ 32) :
    u32 (gaddr >>> PAGE_SHIFT) = gaddr / 4096 ∧
    u32 (((gaddr + size + 2 ^ 64 - shl32 (u32 (gaddr >>> PAGE_SHIFT)) PAGE_SHIFT
        + (PAGE_SIZE - 1)) % 2 ^ 64) >>> PAGE_SHIFT)
      = (gaddr % 4096 + size + 4095) / 4096 := by
  have h1 : u32 (gaddr >>> PAGE_SHIFT) = gaddr / 4096 := by
    unfold u32 WORD PAGE_SHIFT
    rw [Nat.shiftRight_eq_div_pow]
    apply Nat.mod_eq_of_lt
    have : gaddr / 2 ^ 12 ≤ gaddr := Nat.div_le_self _ _
    omega
  refine ⟨h1, ?_⟩
  rw [h1]
  have h2 : shl32 (gaddr / 4096) PAGE_SHIFT = gaddr / 4096 * 4096 := by
    unfold shl32 WORD PAGE_SHIFT
    rw [Nat.shiftLeft_eq]
    apply Nat.mod_eq_of_lt
    omega
  rw [h2]
  have h3 : PAGE_SIZE - 1 = 4095 := by decide
  rw [h3]
  have h4 : gaddr + size + 2 ^ 64 - gaddr / 4096 * 4096 + 4095
      = (gaddr % 4096 + size + 4095) + 2 ^ 64 := by omega
  rw [h4, Nat.add_mod_right, Nat.mod_eq_of_lt (by omega)]
  unfold u32 WORD PAGE_SHIFT
  rw [Nat.shiftRight_eq_div_pow]
  apply Nat.mod_eq_of_lt
  omega

/-- The page held in MAS3 and MAS7 after a rewrite to the page `g` below `2 ^ 20`. -/
theorem rpn_of_rewrite (g m : Nat) (hg : g < 2 ^ 20) :
    shl32 (g >>> (32 - PAGE_SHIFT)) (32 - PAGE_SHIFT) |||
      ((shl32 g PAGE_SHIFT ||| (m &&& (MAS3_FLAGS ||| MAS3_USER))) >>> MAS3_RPN_SHIFT) = g := by
  apply Nat.eq_of_testBit_eq
  intro j
  have hm : (MAS3_FLAGS ||| MAS3_USER) = 2 ^ 10 - 1 := by decide
  rw [hm]
  simp only [Nat.testBit_or, Nat.testBit_shiftRight, shl32_testBit, Nat.testBit_and,
    Nat.testBit_two_pow_sub_one, PAGE_SHIFT, MAS3_RPN_SHIFT]
  by_cases hj : j < 20
  · have e1 : 12 + j - 12 = j := by omega
    have a1 : ¬ 20 ≤ j := by omega
    have a2 : 12 + j < 32 := by omega
    have a3 : ¬ 12 + j < 10 := by omega
    simp [a1, a2, a3]
  · have hz : g.testBit j = false := Nat.testBit_lt_two_pow (lt_of_lt_of_le hg
      (Nat.pow_le_pow_right (by decide) (by omega)))
    have hz2 : g.testBit (20 + (j - 20)) = false := by
      have : 20 + (j - 20) = j := by omega
      rw [this]; exact hz
    have a3 : ¬ 12 + j < 10 := by omega
    have a2 : ¬ 12 + j < 32 := by omega
    simp [hz, hz2, a2, a3]

/-- C20. The reverse table inverts the forward table: for `gphys` and `gphys_rev` built
from empty tables by `map_guest_addr_range(guest, gaddr, addr, size)`, with a non-empty
guest range below 4 GiB whose real pages lie below 4 GiB, both calls of `vptbl_map`
complete, and for every guest page `g` of the range `vptbl_xlate(gphys, g)` is the real
page `rp = (addr >> 12) + (g - (gaddr >> 12))` with `PTE_VALID`, and
`vptbl_xlate(gphys_rev, rp)` is `g` with `PTE_VALID`; so `fixup_tlb_sx_re` on a valid
TLB0 result holding `rp` in MAS3 and MAS7, and `gtlb0_to_mas` on a valid cache line
holding `rp` with no virtualization fault flagged, leave the guest-physical page `g` in
MAS3 and MAS7, with the flag bits of MAS3 kept. -/
theorem gphys_rev_inverts (gaddr addr size : Nat) (st : map_status × map_status)
    (guest : guest_t) (hs : 0 < size) (hg : gaddr + size ≤ 2 ^ 32)
    (hr : addr / PAGE_SIZE * PAGE_SIZE + gaddr % PAGE_SIZE + size ≤ 2 ^ 32)
    (hmap : map_guest_addr_range { gphys := empty_tbl, gphys_rev := empty_tbl } gaddr addr size
      = (st, guest)) :
    st = (map_status.done, map_status.done) ∧
    ∀ g, gaddr / PAGE_SIZE ≤ g → g * PAGE_SIZE < gaddr + size →
      ∃ rp a1 a2, rp = addr / PAGE_SIZE + (g - gaddr / PAGE_SIZE) ∧
        vptbl_xlate guest.gphys g PTE_PHYS_LEVELS = Except.ok (rp, a1) ∧
        a1 &&& PTE_VALID ≠ 0 ∧
        vptbl_xlate guest.gphys_rev rp PTE_PHYS_LEVELS = Except.ok (g, a2) ∧
        a2 &&& PTE_VALID ≠ 0 ∧
        (∀ (s : hcpu_t) (to_gtlb1 : Nat → Nat), s.gphys_rev = guest.gphys_rev →
          s.mas1 &&& MAS1_VALID ≠ 0 → MAS0_GET_TLBSEL s.mas0 ≠ 1 →
          shl32 s.mas7 (32 - PAGE_SHIFT) ||| (s.mas3 >>> MAS3_RPN_SHIFT) = rp →
          ∃ s', fixup_tlb_sx_re s to_gtlb1 = Except.ok s' ∧
            s'.mas3 = shl32 g PAGE_SHIFT ||| (s.mas3 &&& (MAS3_FLAGS ||| MAS3_USER)) ∧
            s'.mas7 = g >>> (32 - PAGE_SHIFT) ∧
            shl32 s'.mas7 (32 - PAGE_SHIFT) ||| (s'.mas3 >>> MAS3_RPN_SHIFT) = g) ∧
        (∀ (s : hcpu_t) (set : Nat → tlbc_way) (bits index way : Nat),
          s.gphys_rev = guest.gphys_rev → (set way).valid = true →
          (set way).mas8 &&& 1 = 0 →
          shl32 (set way).mas7 (32 - PAGE_SHIFT) ||| ((set way).mas3 >>> MAS3_RPN_SHIFT) = rp →
          ∃ s', gtlb0_to_mas s set bits index way = Except.ok s' ∧
            s'.mas3 = shl32 g PAGE_SHIFT ||| ((set way).mas3 &&& (MAS3_FLAGS ||| MAS3_USER)) ∧
            s'.mas7 = g >>> (32 - PAGE_SHIFT) ∧
            shl32 s'.mas7 (32 - PAGE_SHIFT) ||| (s'.mas3 >>> MAS3_RPN_SHIFT) = g) := by
  have hP : PAGE_SIZE = 4096 := by decide
  rw [hP] at hr
  simp only [hP]
  have ha : addr / 4096 ≤ 2 ^ 20 := by omega
  have hrp : u32 (addr >>> PAGE_SHIFT) = addr / 4096 := by
    unfold u32 WORD PAGE_SHIFT
    rw [Nat.shiftRight_eq_div_pow]
    apply Nat.mod_eq_of_lt
    omega
  obtain ⟨hgr, hpg⟩ := range_pages gaddr size hs hg
  unfold map_guest_addr_range at hmap
  simp only [] at hmap
  rw [hgr] at hpg
  rw [hgr, hrp, hpg] at hmap
  generalize hn : (gaddr % 4096 + size + 4095) / 4096 = n at hmap
  have hv : PTE_ALL &&& PTE_VALID ≠ 0 := by decide
  have hL : (2 : Nat) ≤ PTE_PHYS_LEVELS := by decide
  have hcapL : 2 ^ (10 * PTE_PHYS_LEVELS) = 1048576 := by decide
  have hn1 : gaddr / 4096 + n ≤ 1048576 := by omega
  have hn2 : addr / 4096 + n ≤ 1048576 := by omega
  have F := map_empty_xlate PTE_PHYS_LEVELS (gaddr / 4096) (addr / 4096) n PTE_ALL hL
    (by omega) (by omega) (by omega) (by omega) hv
  have R := map_empty_xlate PTE_PHYS_LEVELS (addr / 4096) (gaddr / 4096) n PTE_ALL hL
    (by omega) (by omega) (by omega) (by omega) hv
  rw [Prod.mk.injEq] at hmap
  obtain ⟨hst, hgu⟩ := hmap
  refine ⟨by rw [← hst, F.1, R.1], ?_⟩
  intro g hg1 hg2
  have hi : g - gaddr / 4096 < n := by omega
  obtain ⟨a1, hx1, hv1⟩ := F.2 _ hi
  obtain ⟨a2, hx2, hv2⟩ := R.2 _ hi
  have e1 : gaddr / 4096 + (g - gaddr / 4096) = g := by omega
  rw [e1] at hx1 hx2
  have hg20 : g < 2 ^ 20 := by omega
  have hf : guest.gphys = (vptbl_map empty_tbl (gaddr / 4096) (addr / 4096) n PTE_ALL
      PTE_PHYS_LEVELS).2 := by rw [← hgu]
  have hb : guest.gphys_rev = (vptbl_map empty_tbl (addr / 4096) (gaddr / 4096) n PTE_ALL
      PTE_PHYS_LEVELS).2 := by rw [← hgu]
  refine ⟨_, a1, a2, rfl, by rw [hf]; exact hx1, hv1, by rw [hb]; exact hx2, hv2, ?_, ?_⟩
  · intro s to_g hsr hval hsel hpage
    unfold fixup_tlb_sx_re
    simp only []
    rw [if_neg hval, hpage, hsr, hb, hx2]
    simp only []
    rw [if_neg hv2, if_neg hsel]
    exact ⟨_, rfl, rfl, rfl, rpn_of_rewrite g s.mas3 hg20⟩
  · intro s set bits index way hsr hval h8 hpage
    unfold gtlb0_to_mas
    simp only []
    rw [if_neg (by rw [hval]; exact fun h => Bool.noConfusion h), if_pos h8, hpage, hsr, hb, hx2]
    simp only []
    rw [if_neg hv2]
    exact ⟨_, rfl, rfl, rfl, rpn_of_rewrite g (set way).mas3 hg20⟩

/-- Witness of C20: one page, guest-physical `0x1000` backed by real `0x5000`. -/
theorem gphys_rev_inverts_witness :
    (map_guest_addr_range { gphys := empty_tbl, gphys_rev := empty_tbl } 0x1000 0x5000 0x1000).1
      = (map_status.done, map_status.done) ∧
    ∀ g, 0x1000 / PAGE_SIZE ≤ g → g * PAGE_SIZE < 0x1000 + 0x1000 →
      ∃ rp a1 a2, rp = 0x5000 / PAGE_SIZE + (g - 0x1000 / PAGE_SIZE) ∧
        vptbl_xlate (map_guest_addr_range { gphys := empty_tbl, gphys_rev := empty_tbl }
          0x1000 0x5000 0x1000).2.gphys g PTE_PHYS_LEVELS = Except.ok (rp, a1) ∧
        a1 &&& PTE_VALID ≠ 0 ∧
        vptbl_xlate (map_guest_addr_range { gphys := empty_tbl, gphys_rev := empty_tbl }
          0x1000 0x5000 0x1000).2.gphys_rev rp PTE_PHYS_LEVELS = Except.ok (g, a2) ∧
        a2 &&& PTE_VALID ≠ 0 ∧
        (∀ (s : hcpu_t) (to_gtlb1 : Nat → Nat),
          s.gphys_rev = (map_guest_addr_range { gphys := empty_tbl, gphys_rev := empty_tbl }
            0x1000 0x5000 0x1000).2.gphys_rev →
          s.mas1 &&& MAS1_VALID ≠ 0 → MAS0_GET_TLBSEL s.mas0 ≠ 1 →
          shl32 s.mas7 (32 - PAGE_SHIFT) ||| (s.mas3 >>> MAS3_RPN_SHIFT) = rp →
          ∃ s', fixup_tlb_sx_re s to_gtlb1 = Except.ok s' ∧
            s'.mas3 = shl32 g PAGE_SHIFT ||| (s.mas3 &&& (MAS3_FLAGS ||| MAS3_USER)) ∧
            s'.mas7 = g >>> (32 - PAGE_SHIFT) ∧
            shl32 s'.mas7 (32 - PAGE_SHIFT) ||| (s'.mas3 >>> MAS3_RPN_SHIFT) = g) ∧
        (∀ (s : hcpu_t) (set : Nat → tlbc_way) (bits index way : Nat),
          s.gphys_rev = (map_guest_addr_range { gphys := empty_tbl, gphys_rev := empty_tbl }
            0x1000 0x5000 0x1000).2.gphys_rev → (set way).valid = true →
          (set way).mas8 &&& 1 = 0 →
          shl32 (set way).mas7 (32 - PAGE_SHIFT) ||| ((set way).mas3 >>> MAS3_RPN_SHIFT) = rp →
          ∃ s', gtlb0_to_mas s set bits index way = Except.ok s' ∧
            s'.mas3 = shl32 g PAGE_SHIFT ||| ((set way).mas3 &&& (MAS3_FLAGS ||| MAS3_USER)) ∧
            s'.mas7 = g >>> (32 - PAGE_SHIFT) ∧
            shl32 s'.mas7 (32 - PAGE_SHIFT) ||| (s'.mas3 >>> MAS3_RPN_SHIFT) = g) :=
  gphys_rev_inverts 0x1000 0x5000 0x1000 _ _ (by decide) (by decide) (by decide) rfl

/-- A hole reported by `vptbl_xlate` on a table of `L` levels: the hint is that of a level
below `L`, and every page with the same index above that level is reported as a hole. -/
theorem hole_window (T : Table) (L p h attr : Nat)
    (hx : vptbl_xlate T p L = Except.ok (h, attr)) (hv : attr &&& PTE_VALID = 0) :
    ∃ lv, lv < L ∧ h = hole_hint lv ∧
      ∀ q, q >>> (PGDIR_SHIFT * lv) = p >>> (PGDIR_SHIFT * lv) →
        vptbl_xlate T q L = Except.ok (hole_hint lv, 0) := by
  rw [xlate_eq] at hx
  cases hw : walkL T (idxs L p) with
  | tbl S => rw [hw] at hx; simp at hx
  | nosize lv pg a => rw [hw] at hx; simp at hx
  | hit lv pg a =>
    rw [hw] at hx
    have hva := (walkL_hit_sized _ _ _ _ _ hw).1
    simp only [] at hx
    rw [xl_hit_attr _ _ _ _ _ _ hva hx] at hv
    exact absurd hv hva
  | miss lv pg a =>
    rw [hw] at hx
    simp only [Except.ok.injEq, Prod.mk.injEq] at hx
    have hlt := walkL_miss_lt _ _ _ _ _ hw
    rw [idxs_length] at hlt
    refine ⟨lv, hlt, hx.1.symm, fun q hq => ?_⟩
    rw [xlate_eq, miss_same_entry L T p q lv pg a hw hq]

/-- Pages of an aligned block of `P` pages have the same quotient by a multiple of `P`. -/
theorem same_block (x t P M : Nat) (hP : 0 < P) (hPM : P ∣ M) (hx : P ∣ x) (ht : t < P) :
    (x + t) / M = x / M := by
  obtain ⟨b, rfl⟩ := hPM
  obtain ⟨a, rfl⟩ := hx
  rw [← Nat.div_div_eq_div_mul, ← Nat.div_div_eq_div_mul, Nat.mul_add_div hP,
    Nat.div_eq_of_lt ht, Nat.add_zero, Nat.mul_div_cancel_left _ hP]

/-- In a built table, a valid translation of a page aligned to the size class `m`, `m` at
most the size class of its entry, extends over the `m`-sized block: page `q + t` is
translated to `rpn + t`. -/
theorem valid_window (T : Table) (calls : List map_call)
    (hB : Built PTE_PHYS_LEVELS T calls) (q rpn attr m : Nat)
    (hx : vptbl_xlate T q PTE_PHYS_LEVELS = Except.ok (rpn, attr))
    (hv : attr &&& PTE_VALID ≠ 0) (hm : m ≤ attr >>> PTE_SIZE_SHIFT)
    (hd : 2 ^ (m * 2 - 2) ∣ q) :
    ∀ t, t < 2 ^ (m * 2 - 2) →
      vptbl_xlate T (q + t) PTE_PHYS_LEVELS = Except.ok (rpn + t, attr) := by
  obtain ⟨d, _, _, _, _, hcapd, _, _, _, _, _, hall⟩ :=
    built_window PTE_PHYS_LEVELS (by decide) T calls hB q rpn attr m hx hv hm
  generalize hP : 2 ^ (m * 2 - 2) = P at *
  have hPpos : 0 < P := by rw [← hP]; exact Nat.two_pow_pos _
  generalize cap PTE_PHYS_LEVELS = C at *
  have hq0 : q % C % P = 0 := by
    rw [Nat.mod_mod_of_dvd _ hcapd]
    exact Nat.mod_eq_zero_of_dvd hd
  have h0 := hall q rfl
  rw [hx, hq0, Nat.add_zero] at h0
  simp only [Except.ok.injEq, Prod.mk.injEq, and_true] at h0
  intro t ht
  have hmod : (q + t) % C % P = t := by
    rw [Nat.mod_mod_of_dvd _ hcapd]
    obtain ⟨a, rfl⟩ := hd
    rw [Nat.mul_add_mod, Nat.mod_eq_of_lt ht]
  have hdiv : (q + t) % C / P = q % C / P := by
    obtain ⟨c, rfl⟩ := hcapd
    rw [Nat.mod_mul_right_div_self, Nat.mod_mul_right_div_self]
    obtain ⟨a, rfl⟩ := hd
    rw [Nat.mul_add_div hPpos, Nat.div_eq_of_lt ht, Nat.add_zero,
      Nat.mul_div_cancel_left _ hPpos]
  rw [hall (q + t) hdiv, hmod, ← h0]

/-- With the leaf-level invariant `vptbl_xlate` returns. -/
theorem xlate_total (L : Nat) (T : Table) (q : Nat) (hI : Inv L T) :
    ∃ r a, vptbl_xlate T q L = Except.ok (r, a) := by
  have hq := hI q
  have hx := xlate_eq T q L
  cases hw : walkL T (idxs L q) with
  | tbl S => rw [hw] at hq; exact absurd hq (by simp [walk_res.cls, GoodCls])
  | nosize lv p a => rw [hw] at hq; exact absurd hq (by simp [walk_res.cls, GoodCls])
  | miss lv p a =>
    rw [hw] at hx; simp only [] at hx
    exact ⟨_, _, hx⟩
  | hit lv p a =>
    rw [hw] at hx hq; simp only [walk_res.cls, GoodCls] at hx hq
    have hva := (walkL_hit_sized _ _ _ _ _ hw).1
    refine ⟨(p &&& not32 (sub32 (tsize_to_pages (a >>> PTE_SIZE_SHIFT)) 1)) |||
      (q &&& sub32 (tsize_to_pages (a >>> PTE_SIZE_SHIFT)) 1), a, ?_⟩
    rw [hx]
    unfold xl_hit
    rw [if_neg hva]
    rcases hq with ⟨h0, hs⟩ | ⟨h1, hs⟩
    · simp [h0, hs]
    · simp [h1, hs]

theorem valid_or (x y z : Nat) : (MAS1_VALID ||| x ||| y ||| z) &&& MAS1_VALID ≠ 0 := by
  intro h
  have h31 := congrArg (fun n => Nat.testBit n 31) h
  have hv : MAS1_VALID = 2 ^ 31 := by decide
  simp only [Nat.testBit_and, Nat.testBit_or, hv, Nat.testBit_two_pow_self, Bool.true_or,
    Bool.and_true, Nat.zero_testBit] at h31
  exact Bool.noConfusion h31

/-- The effective pages that the translation programmed in a physical slot covers: the
slot is valid and the page lies in the block of `tsize_to_pages(tsize)` pages that starts
at the page of `va`. -/
def slot_covers (sl : tlb1_slot) (e : Nat) : Prop :=
  sl.mas1 &&& MAS1_VALID ≠ 0 ∧ sl.va >>> PAGE_SHIFT ≤ e ∧
    e < (sl.va >>> PAGE_SHIFT) + tsize_to_pages sl.tsize

instance (sl : tlb1_slot) (e : Nat) : Decidable (slot_covers sl e) := by
  unfold slot_covers; infer_instance

/-- The real page to which a physical slot translates the effective page `e` that it
covers: the page at the same offset from the page of `pa`. -/
def slot_real (sl : tlb1_slot) (e : Nat) : Nat :=
  (sl.pa >>> PAGE_SHIFT) + (e - (sl.va >>> PAGE_SHIFT))

/-- The invariant of the loop of `guest_set_tlb1` for logical entry `entry`, which covers
the effective pages from `epn0` to `end_` backed by the guest pages from `grpn0`; `epn` and
`grpn` are the loop variables. Slots bound to `entry` cover valid pages handled so far and
translate them as the table `T` does, and every valid page handled so far is covered. -/
structure SetInv (T : Table) (entry epn0 grpn0 end_ : Nat) (g : gcpu_t) (epn grpn : Nat) :
    Prop where
  inv : BitmapInv g
  tbl : g.gphys = T
  lo : epn0 ≤ epn
  hi : epn ≤ 2 ^ 20
  step : epn < end_ → grpn = grpn0 + (epn - epn0)
  good : ∀ s, slot_in (g.tlb1_map entry) s = true →
    (g.tlb1 s).mas1 &&& MAS1_VALID ≠ 0 ∧ epn0 ≤ (g.tlb1 s).va >>> PAGE_SHIFT ∧
    ((g.tlb1 s).va >>> PAGE_SHIFT) + tsize_to_pages (g.tlb1 s).tsize ≤ epn ∧
    ((g.tlb1 s).va >>> PAGE_SHIFT) + tsize_to_pages (g.tlb1 s).tsize ≤ end_ ∧
    ∀ e, (g.tlb1 s).va >>> PAGE_SHIFT ≤ e →
      e < ((g.tlb1 s).va >>> PAGE_SHIFT) + tsize_to_pages (g.tlb1 s).tsize →
      ∃ attr, vptbl_xlate T (grpn0 + (e - epn0)) PTE_PHYS_LEVELS
          = Except.ok (slot_real (g.tlb1 s) e, attr) ∧ attr &&& PTE_VALID ≠ 0
  done : ∀ e, epn0 ≤ e → e < epn → e < end_ →
    (∃ r a, vptbl_xlate T (grpn0 + (e - epn0)) PTE_PHYS_LEVELS = Except.ok (r, a) ∧
      a &&& PTE_VALID ≠ 0) →
    ∃ s, slot_in (g.tlb1_map entry) s = true ∧ slot_covers (g.tlb1 s) e

/-- The pass of the loop of `guest_set_tlb1` over a hole keeps the invariant and moves
`epn` on. -/
theorem set_step_hole (T : Table) (entry epn0 grpn0 k : Nat) (g : gcpu_t)
    (epn grpn h attr : Nat) (hk : k ≤ 20) (hde : 2 ^ k ∣ epn0) (hdg : 2 ^ k ∣ grpn0)
    (hee : epn0 + 2 ^ k ≤ 2 ^ 20) (hge : grpn0 + 2 ^ k ≤ 2 ^ 32)
    (hI : SetInv T entry epn0 grpn0 (epn0 + 2 ^ k) g epn grpn) (hlt : epn < epn0 + 2 ^ k)
    (hx : vptbl_xlate T grpn PTE_PHYS_LEVELS = Except.ok (h, attr))
    (hv : attr &&& PTE_VALID = 0) :
    SetInv T entry epn0 grpn0 (epn0 + 2 ^ k) g (add32 (epn ||| h) 1) (add32 (grpn ||| h) 1) ∧
      epn < add32 (epn ||| h) 1 := by
  obtain ⟨lv, hlv, hh, hwin⟩ := hole_window T PTE_PHYS_LEVELS grpn h attr hx hv
  have hg := hI.step hlt
  have hlo := hI.lo
  have hL : PTE_PHYS_LEVELS = 2 := rfl
  have hPpos : 0 < 2 ^ k := Nat.two_pow_pos _
  -- the three facts about the skip
  have key : ∃ n, epn ||| h = n ∧ grpn ||| h < 2 ^ 32 ∧ epn ≤ n ∧ n < 2 ^ 20 ∧
      (∀ e, epn ≤ e → e ≤ n → e < epn0 + 2 ^ k →
        (grpn0 + (e - epn0)) >>> (PGDIR_SHIFT * lv) = grpn >>> (PGDIR_SHIFT * lv)) ∧
      (n + 1 < epn0 + 2 ^ k → (grpn ||| h) + 1 = grpn0 + (n + 1 - epn0)) := by
    have hlv2 : lv = 0 ∨ lv = 1 := by omega
    rcases hlv2 with rfl | rfl
    · have h0 : h = 0 := by rw [hh]; decide
      subst h0
      refine ⟨epn, Nat.or_zero _, by rw [Nat.or_zero]; omega, le_refl _, by omega, ?_, ?_⟩
      · intro e h1 h2 _
        have : e = epn := by omega
        subst this
        rw [hg]
      · intro _
        rw [Nat.or_zero]; omega
    · have h1 : h = 1023 := by rw [hh]; decide
      subst h1
      have he : epn ||| 1023 = epn / 1024 * 1024 + 1023 := by
        have := or_low_mask epn 10
        norm_num at this
        exact this
      have hgr : grpn ||| 1023 = grpn / 1024 * 1024 + 1023 := by
        have := or_low_mask grpn 10
        norm_num at this
        exact this
      have hsh : ∀ x : Nat, x >>> (PGDIR_SHIFT * 1) = x / 1024 := fun x => by
        rw [Nat.shiftRight_eq_div_pow]; rfl
      refine ⟨epn / 1024 * 1024 + 1023, he, by rw [hgr]; omega, by omega, by omega, ?_, ?_⟩
      · intro e h1 h2 h3
        rw [hsh, hsh]
        by_cases hk10 : 10 ≤ k
        · have hd : (1024 : Nat) ∣ 2 ^ k := by
            have := Nat.pow_dvd_pow 2 hk10
            norm_num at this
            exact this
          have d1 := Dvd.dvd.trans hd hde
          have d2 := Dvd.dvd.trans hd hdg
          omega
        · have hd : 2 ^ k ∣ 1024 := by
            have := Nat.pow_dvd_pow 2 (by omega : k ≤ 10)
            norm_num at this
            exact this
          have b1 := same_block grpn0 (e - epn0) (2 ^ k) 1024 hPpos hd hdg (by omega)
          have b2 := same_block grpn0 (epn - epn0) (2 ^ k) 1024 hPpos hd hdg (by omega)
          rw [b1, hg, b2]
      · intro hn
        rw [hgr]
        by_cases hk10 : 10 ≤ k
        · have hd : (1024 : Nat) ∣ 2 ^ k := by
            have := Nat.pow_dvd_pow 2 hk10
            norm_num at this
            exact this
          have d1 := Dvd.dvd.trans hd hde
          have d2 := Dvd.dvd.trans hd hdg
          omega
        · exfalso
          have hd : 2 ^ k ∣ 1024 := by
            have := Nat.pow_dvd_pow 2 (by omega : k ≤ 10)
            norm_num at this
            exact this
          have b1 := same_block epn0 (2 ^ k - 1) (2 ^ k) 1024 hPpos hd hde (by omega)
          have b2 := same_block epn0 (epn - epn0) (2 ^ k) 1024 hPpos hd hde (by omega)
          have e1 : epn0 + (epn - epn0) = epn := by omega
          rw [e1] at b2
          generalize 2 ^ k = P at *
          omega
  obtain ⟨n, hn, hgn, hle, hn20, hblk, hstep⟩ := key
  rw [hn]
  have ha : add32 n 1 = n + 1 := add32_eq _ _ (by omega)
  rw [ha]
  refine ⟨⟨hI.inv, hI.tbl, by omega, by omega, ?_, ?_, ?_⟩, by omega⟩
  · intro hlt2
    rw [add32_eq _ _ (by omega)]
    exact hstep hlt2
  · intro s hs
    obtain ⟨g1, g2, g3, g4, g5⟩ := hI.good s hs
    exact ⟨g1, g2, by omega, g4, g5⟩
  · intro e h1 h2 h3 hval
    by_cases hold : e < epn
    · exact hI.done e h1 hold h3 hval
    · exfalso
      obtain ⟨r, a, hxa, hva⟩ := hval
      have := hwin _ (hblk e (by omega) (by omega) h3)
      rw [this] at hxa
      simp only [Except.ok.injEq, Prod.mk.injEq] at hxa
      rw [← hxa.2] at hva
      exact hva zero_and_valid

/-- The pass of the loop of `guest_set_tlb1` over a valid page, with `s` the lowest free
slot: the slot programmed covers a block of valid pages and translates it as the table
does, the invariant is kept and `epn` moves on. -/
theorem set_step_valid (T : Table) (calls : List map_call) (entry epn0 grpn0 k : Nat)
    (g : gcpu_t) (epn grpn rpn attr s : Nat) (hB : Built PTE_PHYS_LEVELS T calls)
    (hent : entry < TLB1_GSIZE) (hde : 2 ^ k ∣ epn0) (hdg : 2 ^ k ∣ grpn0)
    (hee : epn0 + 2 ^ k ≤ 2 ^ 20) (hge : grpn0 + 2 ^ k ≤ 2 ^ 32)
    (hI : SetInv T entry epn0 grpn0 (epn0 + 2 ^ k) g epn grpn) (hlt : epn < epn0 + 2 ^ k)
    (hx : vptbl_xlate T grpn PTE_PHYS_LEVELS = Except.ok (rpn, attr))
    (hv : attr &&& PTE_VALID ≠ 0)
    (hs : s ≤ GUEST_TLB_END) (hc : slot_in g.tlb1_inuse s = false)
    (hl : ∀ t, t < s → slot_in g.tlb1_inuse t = true) (m2 m3 tid ts mas8 : Nat) :
    SetInv T entry epn0 grpn0 (epn0 + 2 ^ k)
      (tlb1_set_entry (alloc_tlb1 g entry false).1 s (shl32 epn PAGE_SHIFT)
        (rpn <<< PAGE_SHIFT)
        (min (max_page_size epn (sub32 (epn0 + 2 ^ k) epn)) (attr >>> PTE_SIZE_SHIFT))
        m2 m3 tid ts mas8)
      (add32 epn (tsize_to_pages
        (min (max_page_size epn (sub32 (epn0 + 2 ^ k) epn)) (attr >>> PTE_SIZE_SHIFT))))
      (add32 grpn (tsize_to_pages
        (min (max_page_size epn (sub32 (epn0 + 2 ^ k) epn)) (attr >>> PTE_SIZE_SHIFT)))) ∧
    epn < add32 epn (tsize_to_pages
        (min (max_page_size epn (sub32 (epn0 + 2 ^ k) epn)) (attr >>> PTE_SIZE_SHIFT))) := by
  have hg := hI.step hlt
  have hlo := hI.lo
  rw [sub32_eq _ _ (by omega) (by omega)]
  obtain ⟨_, _, _, sz, hsz1, hsz16, hsz, _⟩ :=
    built_block PTE_PHYS_LEVELS (by decide) T calls hB grpn rpn attr hx hv
  have hp := pages_to_tsize_le (epn0 + 2 ^ k - epn) (by omega) (by omega)
  have hp1 := pages_to_tsize_pos (epn0 + 2 ^ k - epn)
  have hn1 := natural_alignment_pos epn
  generalize hsize : min (max_page_size epn (epn0 + 2 ^ k - epn)) (attr >>> PTE_SIZE_SHIFT)
    = size1
  have hs_na : size1 ≤ natural_alignment epn := by
    rw [← hsize]; unfold max_page_size; omega
  have hs_pt : size1 ≤ pages_to_tsize (epn0 + 2 ^ k - epn) := by
    rw [← hsize]; unfold max_page_size; omega
  have hs_at : size1 ≤ attr >>> PTE_SIZE_SHIFT := by
    rw [← hsize]; omega
  have hs_1 : 1 ≤ size1 := by
    rw [← hsize]; unfold max_page_size; omega
  have hs_16 : size1 ≤ 16 := by omega
  rw [tsize_to_pages_eq size1 hs_16]
  have hP1len : 2 ^ (size1 * 2 - 2) ≤ epn0 + 2 ^ k - epn :=
    le_trans (Nat.pow_le_pow_right (by norm_num) (by omega)) hp.2
  have hexp : size1 * 2 - 2 ≤ k := by
    have : 2 ^ (size1 * 2 - 2) ≤ 2 ^ k := by omega
    exact (Nat.pow_le_pow_iff_right (by norm_num)).1 this
  have hPk : 2 ^ (size1 * 2 - 2) ∣ 2 ^ k := Nat.pow_dvd_pow 2 hexp
  have hd_epn : 2 ^ (size1 * 2 - 2) ∣ epn := natural_alignment_dvd epn size1 hs_na
  have hd_epn0 := Dvd.dvd.trans hPk hde
  have hd_grpn0 := Dvd.dvd.trans hPk hdg
  have hd_grpn : 2 ^ (size1 * 2 - 2) ∣ grpn := by
    rw [hg]
    exact Nat.dvd_add hd_grpn0 (Nat.dvd_sub' hd_epn hd_epn0)
  have hwin := valid_window T calls hB grpn rpn attr size1 hx hv hs_at hd_grpn
  have hPpos : 0 < 2 ^ (size1 * 2 - 2) := Nat.two_pow_pos _
  generalize hP1 : 2 ^ (size1 * 2 - 2) = P1 at *
  rw [add32_eq _ _ (by omega)]
  have hal := alloc_some g entry s false hs hc hl
  have hinv1 : BitmapInv (alloc_tlb1 g entry false).1 := alloc_inv g entry false hent hI.inv
  rw [hal] at hinv1 ⊢
  simp only [] at hinv1 ⊢
  -- the slots bound to `entry` after the allocation
  have hbound : ∀ t, slot_in (arr_set g.tlb1_map entry (arr_set (g.tlb1_map entry)
      (s / LONG_BITS) (g.tlb1_map entry (s / LONG_BITS) ||| shl32 1 (s % LONG_BITS))) entry) t
      = (slot_in (g.tlb1_map entry) t || decide (t = s)) := by
    intro t
    have : arr_set g.tlb1_map entry (arr_set (g.tlb1_map entry)
        (s / LONG_BITS) (g.tlb1_map entry (s / LONG_BITS) ||| shl32 1 (s % LONG_BITS))) entry
        = arr_set (g.tlb1_map entry)
        (s / LONG_BITS) (g.tlb1_map entry (s / LONG_BITS) ||| shl32 1 (s % LONG_BITS)) := by
      simp [arr_set]
    rw [this, slot_in_mark]
  have hfree : ∀ t, slot_in (g.tlb1_map entry) t = true → t ≠ s := by
    intro t ht hts
    subst hts
    rw [slot_word] at ht hc
    rw [hI.inv.sub entry _ _ ht] at hc
    exact Bool.noConfusion hc
  have hepn20 : epn < 2 ^ 20 := by omega
  have hva : shl32 epn PAGE_SHIFT >>> PAGE_SHIFT = epn := shl_shr_page epn hepn20
  have hpa : rpn <<< PAGE_SHIFT >>> PAGE_SHIFT = rpn := shl_shr_nat rpn PAGE_SHIFT
  have hnew : ∀ G : gcpu_t, (tlb1_set_entry G s (shl32 epn PAGE_SHIFT) (rpn <<< PAGE_SHIFT)
      size1 m2 m3 tid ts mas8).tlb1 s
      = { mas1 := MAS1_VALID ||| shl32 tid MAS1_TID_SHIFT ||| shl32 ts MAS1_TS_SHIFT
            ||| shl32 size1 MAS1_TSIZE_SHIFT,
          va := shl32 epn PAGE_SHIFT, pa := rpn <<< PAGE_SHIFT, tsize := size1,
          mas2flags := m2, mas3flags := m3, tid := tid, ts := ts, mas8 := mas8 } := by
    intro G; simp [tlb1_set_entry, arr_set]
  refine ⟨⟨⟨hinv1.range, hinv1.sub, hinv1.cover, hinv1.excl, hinv1.cursor⟩, hI.tbl, by omega,
    by omega, ?_, ?_, ?_⟩, by omega⟩
  · intro hlt2
    rw [add32_eq _ _ (by omega)]
    omega
  · intro t ht
    have ht' : (slot_in (g.tlb1_map entry) t || decide (t = s)) = true := by
      rw [← hbound t]; exact ht
    by_cases hts : t = s
    · subst hts
      rw [hnew]
      simp only [slot_real, hva, hpa, tsize_to_pages_eq size1 hs_16, hP1]
      refine ⟨valid_or _ _ _, hlo, le_refl _, by omega, fun e h1 h2 => ⟨attr, ?_, hv⟩⟩
      have := hwin (e - epn) (by omega)
      rw [← this]
      congr 1
      omega
    · have hold : slot_in (g.tlb1_map entry) t = true := by
        simpa [hts] using ht'
      obtain ⟨g1, g2, g3, g4, g5⟩ := hI.good t hold
      simp only [tlb1_set_entry, arr_set, hts, if_false]
      exact ⟨g1, g2, by omega, g4, g5⟩
  · intro e h1 h2 h3 hval
    by_cases hold : e < epn
    · obtain ⟨t, ht, hcov⟩ := hI.done e h1 hold h3 hval
      have hts := hfree t ht
      refine ⟨t, (hbound t).trans (by rw [ht]; rfl), ?_⟩
      simp only [tlb1_set_entry, arr_set, hts, if_false]
      exact hcov
    · refine ⟨s, (hbound s).trans (by simp), ?_⟩
      rw [hnew]
      simp only [slot_covers, hva, tsize_to_pages_eq size1 hs_16, hP1]
      exact ⟨valid_or _ _ _, by omega, by omega⟩

/-- The loop of `guest_set_tlb1`, started with the invariant and with fuel for the pages
left, stops in the `BUG()` of the full TLB1 or returns with the invariant at the end of
the range. -/
theorem set_loop_spec (T : Table) (calls : List map_call) (entry epn0 grpn0 k mas1 m2 : Nat)
    (hB : Built PTE_PHYS_LEVELS T calls) (hent : entry < TLB1_GSIZE) (hk : k ≤ 20)
    (hde : 2 ^ k ∣ epn0) (hdg : 2 ^ k ∣ grpn0)
    (hee : epn0 + 2 ^ k ≤ 2 ^ 20) (hge : grpn0 + 2 ^ k ≤ 2 ^ 32) :
    ∀ (f : Nat) (g : gcpu_t) (epn grpn m3 : Nat),
      SetInv T entry epn0 grpn0 (epn0 + 2 ^ k) g epn grpn → 0 < f → epn0 + 2 ^ k < f + epn →
      guest_set_tlb1_loop entry mas1 m2 (epn0 + 2 ^ k) f g epn grpn m3
          = Except.error Fault.bug ∨
      ∃ g' epn' grpn',
        guest_set_tlb1_loop entry mas1 m2 (epn0 + 2 ^ k) f g epn grpn m3 = Except.ok g' ∧
        epn0 + 2 ^ k ≤ epn' ∧ SetInv T entry epn0 grpn0 (epn0 + 2 ^ k) g' epn' grpn' := by
  intro f
  induction f with
  | zero => intro g epn grpn m3 _ h0; omega
  | succ f ih =>
    intro g epn grpn m3 hI _ hf
    simp only [guest_set_tlb1_loop]
    by_cases he : epn < epn0 + 2 ^ k
    · rw [if_pos he]
      obtain ⟨r, a, hx⟩ := xlate_total PTE_PHYS_LEVELS T grpn
        (built_inv PTE_PHYS_LEVELS (by decide) T calls hB).1
      rw [hI.tbl, hx]
      simp only []
      by_cases hv : a &&& PTE_VALID = 0
      · rw [if_pos hv]
        obtain ⟨hI2, hlt2⟩ := set_step_hole T entry epn0 grpn0 k g epn grpn r a hk hde hdg hee
          hge hI he hx hv
        exact ih g _ _ m3 hI2 (by omega) (by omega)
      · rw [if_neg hv]
        rcases lowest_free g.tlb1_inuse with ⟨s, hs, hc, hl⟩ | hall
        · have hal := alloc_some g entry s false hs hc hl
          obtain ⟨hI2, hlt2⟩ := set_step_valid T calls entry epn0 grpn0 k g epn grpn r a s hB
            hent hde hdg hee hge hI he hx hv hs hc hl m2 (m3 &&& (a &&& PTE_MAS3_MASK))
            ((mas1 >>> MAS1_TID_SHIFT) &&& 0xff) ((mas1 >>> MAS1_TS_SHIFT) &&& 1)
            (g.lpid ||| (shl32 a PTE_MAS8_SHIFT &&& PTE_MAS8_MASK))
          have h2 : (alloc_tlb1 g entry false).2 = (s : Int) := by rw [hal]
          rw [if_neg (by rw [h2]; omega), h2, Int.toNat_ofNat]
          exact ih _ _ _ _ hI2 (by omega) (by omega)
        · left
          have : alloc_tlb1 g entry false = (g, -1) := by
            unfold alloc_tlb1
            rw [alloc_scan_none g entry hall]
            rfl
          rw [this]
          simp
    · rw [if_neg he]
      exact Or.inr ⟨g, epn, grpn, rfl, by omega, hI⟩

theorem aligned_add_le (x P M : Nat) (hP : P ∣ M) (hx : P ∣ x) (h : x < M) : x + P ≤ M := by
  obtain ⟨b, rfl⟩ := hP
  obtain ⟨a, rfl⟩ := hx
  have hab : a < b := Nat.lt_of_mul_lt_mul_left h
  calc P * a + P = P * (a + 1) := by ring
    _ ≤ P * b := Nat.mul_le_mul_left P hab

/-- C16. Eager resolution in `guest_set_tlb1` (built without `CONFIG_TLB_CACHE`): for a
valid logical entry of size class 1 to 11 whose `epn` (a page of a 32-bit effective
address) and `grpn` are multiples of its page count, a guest-physical table built by
`vptbl_map` over disjoint guest ranges, and enough free slots (the call does not stop in
the `BUG()` of the full TLB1), `guest_set_tlb1(entry, mas1, epn, grpn, mas2flags,
mas3flags)` returns, and afterwards an effective page `e` in `[epn, epn + pages)` is
covered by a physical slot bound to `entry` iff `vptbl_xlate(gphys, grpn + (e - epn))` is
valid; every slot bound to `entry` that covers `e` maps it to exactly that real page; and
a page whose guest-physical backing is a hole is covered by no slot bound to `entry`. -/
theorem guest_set_tlb1_eager (g : gcpu_t) (calls : List map_call)
    (entry mas1 epn grpn mas2flags mas3flags : Nat)
    (hinv : BitmapInv g) (hB : Built PTE_PHYS_LEVELS g.gphys calls)
    (hent : entry < TLB1_GSIZE) (hv : mas1 &&& MAS1_VALID ≠ 0)
    (hs1 : 1 ≤ (mas1 >>> MAS1_TSIZE_SHIFT) &&& 15)
    (hs11 : (mas1 >>> MAS1_TSIZE_SHIFT) &&& 15 ≤ 11)
    (hepn : epn < 2 ^ 20) (hgrpn : grpn < 2 ^ 32)
    (hae : tsize_to_pages ((mas1 >>> MAS1_TSIZE_SHIFT) &&& 15) ∣ epn)
    (hag : tsize_to_pages ((mas1 >>> MAS1_TSIZE_SHIFT) &&& 15) ∣ grpn)
    (hfree : guest_set_tlb1 g entry mas1 epn grpn mas2flags mas3flags
      ≠ Except.error Fault.bug) :
    ∃ g', guest_set_tlb1 g entry mas1 epn grpn mas2flags mas3flags = Except.ok g' ∧
      ∀ e, epn ≤ e → e < epn + tsize_to_pages ((mas1 >>> MAS1_TSIZE_SHIFT) &&& 15) →
        ((∃ s, slot_in (g'.tlb1_map entry) s = true ∧ slot_covers (g'.tlb1 s) e) ↔
          ∃ r a, vptbl_xlate g.gphys (grpn + (e - epn)) PTE_PHYS_LEVELS = Except.ok (r, a) ∧
            a &&& PTE_VALID ≠ 0) ∧
        (∀ s, slot_in (g'.tlb1_map entry) s = true → slot_covers (g'.tlb1 s) e →
          ∃ a, vptbl_xlate g.gphys (grpn + (e - epn)) PTE_PHYS_LEVELS
              = Except.ok (slot_real (g'.tlb1 s) e, a) ∧ a &&& PTE_VALID ≠ 0) ∧
        (∀ r a, vptbl_xlate g.gphys (grpn + (e - epn)) PTE_PHYS_LEVELS = Except.ok (r, a) →
          a &&& PTE_VALID = 0 →
          ¬ ∃ s, slot_in (g'.tlb1_map entry) s = true ∧ slot_covers (g'.tlb1 s) e) := by
  generalize hsz : (mas1 >>> MAS1_TSIZE_SHIFT) &&& 15 = size at *
  have htp : tsize_to_pages size = 2 ^ (size * 2 - 2) := tsize_to_pages_eq size (by omega)
  rw [htp] at hae hag ⊢
  have hk : size * 2 - 2 ≤ 20 := by omega
  generalize size * 2 - 2 = k at *
  have hd20 : 2 ^ k ∣ 2 ^ 20 := Nat.pow_dvd_pow 2 hk
  have hd32 : 2 ^ k ∣ 2 ^ 32 := Nat.pow_dvd_pow 2 (by omega)
  have hee := aligned_add_le epn (2 ^ k) (2 ^ 20) hd20 hae hepn
  have hge := aligned_add_le grpn (2 ^ k) (2 ^ 32) hd32 hag hgrpn
  obtain ⟨g1, hf, Pf⟩ := free_spec g entry (hinv.free_ok entry)
  have hI1 := free_inv g entry g1 hinv hf
  have hself : ∀ w, g1.tlb1_map entry w = 0 := fun w => by
    by_cases hw : w < 2
    · exact Pf.map_zero w hw
    · exact hI1.map_high entry w (by omega)
  have hrun : guest_set_tlb1 g entry mas1 epn grpn mas2flags mas3flags
      = guest_set_tlb1_loop entry mas1 mas2flags (epn + 2 ^ k) (2 ^ k + 1)
          { g1 with
            gtlb1 := arr_set g1.gtlb1 entry
              { mas1 := mas1, mas2 := shl32 epn PAGE_SHIFT ||| mas2flags,
                mas3 := shl32 grpn PAGE_SHIFT ||| mas3flags,
                mas7 := grpn >>> (32 - PAGE_SHIFT) } }
          epn grpn mas3flags := by
    unfold guest_set_tlb1
    simp only []
    rw [hsz, htp, hf]
    simp only []
    rw [if_neg hv, add32_eq _ _ (by omega)]
  rw [hrun] at hfree ⊢
  have hI0 : SetInv g.gphys entry epn grpn (epn + 2 ^ k)
      { g1 with
        gtlb1 := arr_set g1.gtlb1 entry
          { mas1 := mas1, mas2 := shl32 epn PAGE_SHIFT ||| mas2flags,
            mas3 := shl32 grpn PAGE_SHIFT ||| mas3flags,
            mas7 := grpn >>> (32 - PAGE_SHIFT) } } epn grpn := by
    refine ⟨⟨hI1.range, hI1.sub, hI1.cover, hI1.excl, hI1.cursor⟩, Pf.gphys, le_refl _,
      by omega, fun _ => by omega, ?_, ?_⟩
    · intro s hs
      exfalso
      rw [slot_word] at hs
      have : g1.tlb1_map entry (s / LONG_BITS) = 0 := hself _
      have hs' : (g1.tlb1_map entry (s / LONG_BITS)).testBit (s % LONG_BITS) = true := hs
      rw [this, Nat.zero_testBit] at hs'
      exact Bool.noConfusion hs'
    · intro e h1 h2
      omega
  have hPpos : 0 < 2 ^ k := Nat.two_pow_pos _
  rcases set_loop_spec g.gphys calls entry epn grpn k mas1 mas2flags hB hent hk hae hag hee hge
    (2 ^ k + 1) _ epn grpn mas3flags hI0 (by omega) (by omega) with hbug | ⟨g', epn', grpn', hok, hend, hI'⟩
  · exact absurd hbug hfree
  · refine ⟨g', hok, fun e h1 h2 => ?_⟩
    have hfwd : ∀ s, slot_in (g'.tlb1_map entry) s = true → slot_covers (g'.tlb1 s) e →
        ∃ a, vptbl_xlate g.gphys (grpn + (e - epn)) PTE_PHYS_LEVELS
            = Except.ok (slot_real (g'.tlb1 s) e, a) ∧ a &&& PTE_VALID ≠ 0 := by
      intro s hs hcov
      obtain ⟨_, _, _, _, hall⟩ := hI'.good s hs
      exact hall e hcov.2.1 hcov.2.2
    refine ⟨⟨?_, ?_⟩, hfwd, ?_⟩
    · rintro ⟨s, hs, hcov⟩
      obtain ⟨a, hx, hva⟩ := hfwd s hs hcov
      exact ⟨_, a, hx, hva⟩
    · intro hval
      exact hI'.done e h1 (by omega) h2 hval
    · rintro r a hx hva ⟨s, hs, hcov⟩
      obtain ⟨a', hx', hva'⟩ := hfwd s hs hcov
      rw [hx] at hx'
      simp only [Except.ok.injEq, Prod.mk.injEq] at hx'
      rw [hx'.2] at hva
      exact hva' hva

/-- Witness of C16: a valid 4 KiB entry for effective page 0x1000, backed by guest page
0x1000, in the state with empty bitmaps whose table maps guest page 0x1000 to real
page 5. -/
theorem guest_set_tlb1_eager_witness :
    ∃ g', guest_set_tlb1 gcpu_small_backing 0 0x80000100 0x1000 0x1000 0 0x3f = Except.ok g' ∧
      ∀ e, 0x1000 ≤ e → e < 0x1000 + tsize_to_pages ((0x80000100 >>> MAS1_TSIZE_SHIFT) &&& 15) →
        ((∃ s, slot_in (g'.tlb1_map 0) s = true ∧ slot_covers (g'.tlb1 s) e) ↔
          ∃ r a, vptbl_xlate gcpu_small_backing.gphys (0x1000 + (e - 0x1000)) PTE_PHYS_LEVELS
              = Except.ok (r, a) ∧ a &&& PTE_VALID ≠ 0) ∧
        (∀ s, slot_in (g'.tlb1_map 0) s = true → slot_covers (g'.tlb1 s) e →
          ∃ a, vptbl_xlate gcpu_small_backing.gphys (0x1000 + (e - 0x1000)) PTE_PHYS_LEVELS
              = Except.ok (slot_real (g'.tlb1 s) e, a) ∧ a &&& PTE_VALID ≠ 0) ∧
        (∀ r a, vptbl_xlate gcpu_small_backing.gphys (0x1000 + (e - 0x1000)) PTE_PHYS_LEVELS
            = Except.ok (r, a) →
          a &&& PTE_VALID = 0 →
          ¬ ∃ s, slot_in (g'.tlb1_map 0) s = true ∧ slot_covers (g'.tlb1 s) e) :=
  guest_set_tlb1_eager gcpu_small_backing
    [{ gpn := 0x1000, rpn := 0x5, npages := 1, attr := 0x7f }] 0 0x80000100 0x1000 0x1000 0 0x3f
    (slot_reach_inv _ (SlotReach.init _ (fun _ => rfl) (fun _ _ => rfl) rfl))
    small_backing_built (by decide) (by decide) (by decide) (by decide) (by decide) (by decide)
    (by decide) (by decide)
    (fun h => absurd
      (congrArg (fun r => match r with
        | Except.error Fault.bug => true
        | _ => false) h) (by decide))

/-! ## The TLB0 cache (`tlb.c`, built with `CONFIG_TLB_CACHE`) -/

/-- Modelled from the spec: `TLBC_WAYS` of the missing `tlbcache.h`, the number of ways of
a set of the TLB0 cache ("organized as N-way associative sets"); 4 is taken here. -/
def TLBC_WAYS : Nat := 4

/-- Modelled from the spec: the tag of a line of the TLB0 cache, `tlbctag_t` of the
missing `tlbcache.h` ("tag: virtual-page tag, pid, address-space, valid"). In C it is a
union of these bit fields with the word `tag`. -/
structure tlbctag_t where
  vaddr : Nat
  pid : Nat
  space : Nat
  valid : Bool
  deriving DecidableEq, Repr

/-- Modelled from the spec: the entry of a line of the TLB0 cache, `tlbcentry_t` of the
missing `tlbcache.h` ("entry: guest-physical base, permission flags, stash attributes"),
with the fields that `guest_set_tlbcache` writes. -/
structure tlbcentry_t where
  mas2 : Nat
  mas3 : Nat
  mas7 : Nat
  tsize : Nat
  mas8 : Nat
  gmas3 : Nat
  deriving DecidableEq, Repr

/-- A set of the cache, `tlbcset_t`: the tags and the entries of its ways. -/
structure tlbcset_t where
  tag : Nat → tlbctag_t
  entry : Nat → tlbcentry_t

/-- The fields of `cpu->client` that the TLB0 cache uses: the array of sets and the
number of index bits. -/
structure tlbc_t where
  tlbcache : Nat → tlbcset_t
  tlbcache_bits : Nat

/-- Modelled from the spec: a mask word for tags, by the fields it keeps: `mask.tag = ~0UL`
keeps every field, `mask.pid = 0` then drops the pid. -/
structure tlbcmask where
  vaddr : Bool
  pid : Bool
  space : Bool
  valid : Bool

/-- Modelled from the spec: the test `((a.tag ^ b.tag) & mask.tag) == 0` on the words of two
tags, read field by field: the fields that the mask keeps are equal. -/
def tag_masked_eq (m : tlbcmask) (a b : tlbctag_t) : Bool :=
  (!m.vaddr || decide (a.vaddr = b.vaddr)) && (!m.pid || decide (a.pid = b.pid)) &&
    (!m.space || decide (a.space = b.space)) && (!m.valid || decide (a.valid = b.valid))

/-- Modelled from the spec: `make_tag(vaddr, pid, space)` of the missing `tlbcache.h`: the
valid tag of the page of `vaddr`, whose virtual-page tag is the page number above the
index bits. -/
def make_tag (c : tlbc_t) (vaddr pid space : Nat) : tlbctag_t :=
  { vaddr := vaddr >>> (PAGE_SHIFT + c.tlbcache_bits), pid := pid, space := space,
    valid := true }

/-- The index of the set of `vaddr`: `(vaddr >> PAGE_SHIFT) & ((1 << tlbcache_bits) - 1)`. -/
def tlbc_index (c : tlbc_t) (vaddr : Nat) : Nat :=
  (vaddr >>> PAGE_SHIFT) &&& sub32 (shl32 1 c.tlbcache_bits) 1

/-- The body of the loop of `find_gtlb_entry` for one way: the pid test, then the
comparison of the tags under the mask without pid. -/
def gtlb_way_hit (tag line : tlbctag_t) : Bool :=
  if line.pid ≠ tag.pid ∧ tag.pid ≠ 0 ∧ line.pid ≠ 0 then false
  else tag_masked_eq { vaddr := true, pid := false, space := true, valid := true } tag line

/-- The loop `for (i = 0; i < TLBC_WAYS; i++)` of `find_gtlb_entry`, with `n` ways left
from way `i`: the way at which it returns 1, if any. -/
def find_gtlb_loop (set : tlbcset_t) (tag : tlbctag_t) : Nat → Nat → Option Nat
  | 0, _ => none
  | n + 1, i => if gtlb_way_hit tag (set.tag i) then some i else find_gtlb_loop set tag n (i + 1)

/-- Embedding of `find_gtlb_entry(vaddr, tag, &setp, &way)`: the value returned, the index
of the set stored in `*setp`, and the value of `*way` on return, `way0` being the value
that the variable of the caller held before the call. -/
def find_gtlb_entry (c : tlbc_t) (vaddr : Nat) (tag : tlbctag_t) (way0 : Nat) :
    Nat × Nat × Nat :=
  match find_gtlb_loop (c.tlbcache (tlbc_index c vaddr)) tag TLBC_WAYS 0 with
  | some i => (1, tlbc_index c vaddr, i)
  | none => (0, tlbc_index c vaddr, way0)

/-- The tests of `check_tlb1_conflict` on one way: whether the loop returns 1 there. -/
def conflict_way_hit (line : tlbctag_t) (tag_start tag_end pid space : Nat) : Bool :=
  if line.valid = false then false
  else if line.vaddr < tag_start ∨ line.vaddr > tag_end then false
  else if pid ≠ 0 ∧ pid ≠ line.pid then false
  else if space ≠ line.space then false
  else true

/-- The loop over the ways of one set in `check_tlb1_conflict`. -/
def conflict_ways (set : tlbcset_t) (tag_start tag_end pid space : Nat) : Nat → Nat → Bool
  | 0, _ => false
  | n + 1, way =>
    if conflict_way_hit (set.tag way) tag_start tag_end pid space then true
    else conflict_ways set tag_start tag_end pid space n (way + 1)

/-- The loop `for (; index < end; set++, index++)` of `check_tlb1_conflict`, with `n` sets
left from `index`. -/
def conflict_sets (c : tlbc_t) (tag_start tag_end pid space : Nat) : Nat → Nat → Bool
  | 0, _ => false
  | n + 1, index =>
    if conflict_ways (c.tlbcache index) tag_start tag_end pid space TLBC_WAYS 0 then true
    else conflict_sets c tag_start tag_end pid space n (index + 1)

/-- Embedding of `check_tlb1_conflict(epn, tsize, pid, space)`. -/
def check_tlb1_conflict (c : tlbc_t) (epn tsize pid space : Nat) : Nat :=
  let pages := tsize_to_pages tsize
  let mask := sub32 (shl32 1 c.tlbcache_bits) 1
  let cache_entries := min pages c.tlbcache_bits
  let index := epn &&& mask
  let tag_start := epn >>> c.tlbcache_bits
  let tag_end := sub32 (add32 epn pages) 1 >>> c.tlbcache_bits
  if conflict_sets c tag_start tag_end pid space cache_entries index then 1 else 0

/-- Modelled from the spec: `ERR_BUSY` of the missing `errors.h`, the `Busy` result of an
install; only that it is not 0 matters. -/
def ERR_BUSY : Int := -16

/-- Modelled from the spec: `MAS0_GET_TLB0ESEL` of the missing `libos/fsl-booke-tlb.h`, the
way of TLB0 that MAS0 selects. -/
def MAS0_GET_TLB0ESEL (mas0 : Nat) : Nat := (mas0 >>> MAS0_ESEL_SHIFT) &&& (TLBC_WAYS - 1)

/-- The tag that `guest_set_tlbcache` makes from MAS1 and MAS2, before it looks at
`MAS1_VALID`. -/
def set_tlbcache_tag (c : tlbc_t) (mas1 mas2 : Nat) : tlbctag_t :=
  make_tag c (mas2 &&& MAS2_EPN) (MAS1_GETTID mas1) ((mas1 &&& MAS1_TS) >>> MAS1_TS_SHIFT)

/-- The writes of `guest_set_tlbcache` to way `way` of a set: the line that was there is
invalidated if it was valid, then the entry and the tag are stored. -/
def tlbcset_install (set : tlbcset_t) (way : Nat) (tag1 : tlbctag_t) (e : tlbcentry_t) :
    tlbcset_t :=
  let set1 : tlbcset_t :=
    if (set.tag way).valid = true then
      { set with tag := arr_set set.tag way { set.tag way with valid := false } }
    else set
  { tag := arr_set set1.tag way tag1, entry := arr_set set1.entry way e }

/-- Embedding of `guest_set_tlbcache(mas0, mas1, mas2, mas3flags, rpn, mas8,
guest_mas3flags)`: the value returned and the cache it leaves; `way0` is the value of the
uninitialised local `way`. The invalidation of the old address in the hardware TLB is not
part of the cache and is left out. -/
def guest_set_tlbcache (c : tlbc_t)
    (mas0 mas1 mas2 mas3flags rpn mas8 guest_mas3flags way0 : Nat) :
    Except Fault (Int × tlbc_t) :=
  let vaddr := mas2 &&& MAS2_EPN
  let tag := set_tlbcache_tag c mas1 mas2
  if mas0 &&& MAS0_TLBSEL1 ≠ 0 then Except.error Fault.assert_fail
  else
    let r := find_gtlb_entry c vaddr tag way0
    let tag1 : tlbctag_t := if mas1 &&& MAS1_VALID = 0 then { tag with valid := false } else tag
    if r.1 ≠ 0 ∧ tag1.valid = true ∧ r.2.2 ≠ MAS0_GET_TLB0ESEL mas0 then
      Except.ok (ERR_BUSY, c)
    else
      Except.ok (0, { c with tlbcache := (arr_set c.tlbcache r.2.1
        (tlbcset_install (c.tlbcache r.2.1) (MAS0_GET_TLB0ESEL mas0) tag1
          { mas2 := mas2, mas3 := shl32 rpn PAGE_SHIFT ||| mas3flags,
            mas7 := rpn >>> (32 - PAGE_SHIFT), tsize := 1, mas8 := mas8 >>> 30,
            gmas3 := guest_mas3flags })) })

/-- The cache with `bits` index bits in which every line is zero, hence invalid. -/
def tlbc_empty (bits : Nat) : tlbc_t :=
  { tlbcache := fun _ =>
      { tag := fun _ => { vaddr := 0, pid := 0, space := 0, valid := false },
        entry := fun _ => { mas2 := 0, mas3 := 0, mas7 := 0, tsize := 0, mas8 := 0, gmas3 := 0 } },
    tlbcache_bits := bits }

/-- The cache that a call leaves, or `c` if the call did not return. -/
def tlbc_after (r : Except Fault (Int × tlbc_t)) (c : tlbc_t) : tlbc_t :=
  match r with
  | Except.ok (_, c1) => c1
  | Except.error _ => c

/-- The value that a call returns, or 1 if the call did not return. -/
def tlbc_ret (r : Except Fault (Int × tlbc_t)) : Int :=
  match r with
  | Except.ok (v, _) => v
  | Except.error _ => 1

/-- Following the words of the claim: a line matches a lookup tag iff they agree on the
virtual-page tag, the address space and the valid bit, and the pids are equal or one of
them is 0. -/
def tlbc_match (tag line : tlbctag_t) : Prop :=
  tag.vaddr = line.vaddr ∧ tag.space = line.space ∧ tag.valid = line.valid ∧
    (tag.pid = line.pid ∨ tag.pid = 0 ∨ line.pid = 0)

instance (tag line : tlbctag_t) : Decidable (tlbc_match tag line) := by
  unfold tlbc_match; infer_instance

theorem way_hit_iff (tag line : tlbctag_t) :
    gtlb_way_hit tag line = true ↔ tlbc_match tag line := by
  unfold gtlb_way_hit tlbc_match tag_masked_eq
  by_cases hp : line.pid ≠ tag.pid ∧ tag.pid ≠ 0 ∧ line.pid ≠ 0
  · rw [if_pos hp]
    constructor
    · intro h; exact Bool.noConfusion h
    · rintro ⟨_, _, _, h | h | h⟩
      · exact absurd h.symm hp.1
      · exact absurd h hp.2.1
      · exact absurd h hp.2.2
  · rw [if_neg hp]
    have hc : tag.pid = line.pid ∨ tag.pid = 0 ∨ line.pid = 0 := by
      by_contra hn
      push_neg at hn
      exact hp ⟨fun h => hn.1 h.symm, hn.2.1, hn.2.2⟩
    simp [hc]
    tauto

/-- What the loop of `find_gtlb_entry` returns: the lowest way from `i` that hits. -/
theorem find_loop_some (set : tlbcset_t) (tag : tlbctag_t) : ∀ n i w,
    find_gtlb_loop set tag n i = some w ↔
      (i ≤ w ∧ w < i + n ∧ gtlb_way_hit tag (set.tag w) = true ∧
        ∀ j, i ≤ j → j < w → gtlb_way_hit tag (set.tag j) = false) := by
  intro n
  induction n with
  | zero =>
    intro i w
    simp only [find_gtlb_loop]
    constructor
    · intro h; exact Option.noConfusion h
    · rintro ⟨h1, h2, _⟩; omega
  | succ n ih =>
    intro i w
    simp only [find_gtlb_loop]
    by_cases hh : gtlb_way_hit tag (set.tag i) = true
    · rw [if_pos hh]
      constructor
      · intro h
        simp only [Option.some.injEq] at h
        subst h
        exact ⟨le_refl _, by omega, hh, fun j h1 h2 => by omega⟩
      · rintro ⟨h1, h2, h3, h4⟩
        by_cases hiw : i = w
        · rw [hiw]
        · have := h4 i (le_refl _) (by omega)
          rw [hh] at this
          exact Bool.noConfusion this
    · rw [if_neg hh, ih (i + 1) w]
      have hf : gtlb_way_hit tag (set.tag i) = false := by simpa using hh
      constructor
      · rintro ⟨h1, h2, h3, h4⟩
        refine ⟨by omega, by omega, h3, fun j hj1 hj2 => ?_⟩
        by_cases hji : j = i
        · rw [hji]; exact hf
        · exact h4 j (by omega) hj2
      · rintro ⟨h1, h2, h3, h4⟩
        have hne : i ≠ w := fun e => by rw [e] at hf; rw [hf] at h3; exact Bool.noConfusion h3
        exact ⟨by omega, by omega, h3, fun j hj1 hj2 => h4 j (by omega) hj2⟩

theorem find_loop_none (set : tlbcset_t) (tag : tlbctag_t) (n i : Nat) :
    find_gtlb_loop set tag n i = none ↔
      ∀ j, i ≤ j → j < i + n → gtlb_way_hit tag (set.tag j) = false := by
  constructor
  · intro h j h1 h2
    by_contra hj
    have hj' : gtlb_way_hit tag (set.tag j) = true := by simpa using hj
    rcases exists_first (fun k => gtlb_way_hit tag (set.tag (i + k))) n with hno | ⟨k, hk, hp, hl⟩
    · have := hno (j - i) (by omega)
      have e : i + (j - i) = j := by omega
      simp only [e] at this
      rw [hj'] at this
      exact Bool.noConfusion this
    · have hs := (find_loop_some set tag n i (i + k)).2
        ⟨by omega, by omega, hp, fun j' a b => by
          have := hl (j' - i) (by omega)
          have e : i + (j' - i) = j' := by omega
          simp only [e] at this
          exact this⟩
      rw [h] at hs
      exact Option.noConfusion hs
  · intro h
    cases hs : find_gtlb_loop set tag n i with
    | none => rfl
    | some w =>
      obtain ⟨h1, h2, h3, _⟩ := (find_loop_some set tag n i w).1 hs
      rw [h w h1 h2] at h3
      exact Bool.noConfusion h3

/-- C23. TLB0 pid wildcard in `find_gtlb_entry`: the test of the loop on one way holds iff
the lookup tag and the line agree on the virtual-page tag, the address space and the valid
bit and the two pids are equal or one of them is 0; so for a tag and a line that agree on
these three fields the line matches iff the pids are equal or at least one is 0: a line
with pid 0 matches any lookup pid, a lookup with pid 0 matches any line pid, and two
distinct non-zero pids never match. `find_gtlb_entry` returns non-zero iff some way of the
indexed set matches, and then it returns 1 with `way` the lowest matching way. -/
theorem find_gtlb_entry_pid_wildcard (c : tlbc_t) (vaddr : Nat) (tag : tlbctag_t)
    (way0 : Nat) :
    (∀ line : tlbctag_t, gtlb_way_hit tag line = true ↔ tlbc_match tag line) ∧
    (∀ line : tlbctag_t, tag.vaddr = line.vaddr → tag.space = line.space →
      tag.valid = line.valid →
      (gtlb_way_hit tag line = true ↔ (tag.pid = line.pid ∨ tag.pid = 0 ∨ line.pid = 0)) ∧
      (line.pid = 0 → gtlb_way_hit tag line = true) ∧
      (tag.pid = 0 → gtlb_way_hit tag line = true) ∧
      (tag.pid ≠ 0 → line.pid ≠ 0 → tag.pid ≠ line.pid → gtlb_way_hit tag line = false)) ∧
    ((find_gtlb_entry c vaddr tag way0).1 ≠ 0 ↔
      ∃ w, w < TLBC_WAYS ∧ tlbc_match tag ((c.tlbcache (tlbc_index c vaddr)).tag w)) ∧
    (∀ w, w < TLBC_WAYS → tlbc_match tag ((c.tlbcache (tlbc_index c vaddr)).tag w) →
      (∀ j, j < w → ¬ tlbc_match tag ((c.tlbcache (tlbc_index c vaddr)).tag j)) →
      find_gtlb_entry c vaddr tag way0 = (1, tlbc_index c vaddr, w)) ∧
    ((find_gtlb_entry c vaddr tag way0).1 = 0 →
      ∀ w, w < TLBC_WAYS → ¬ tlbc_match tag ((c.tlbcache (tlbc_index c vaddr)).tag w)) := by
  have hiff : ∀ line : tlbctag_t, tag.vaddr = line.vaddr → tag.space = line.space →
      tag.valid = line.valid →
      (gtlb_way_hit tag line = true ↔ (tag.pid = line.pid ∨ tag.pid = 0 ∨ line.pid = 0)) := by
    intro line h1 h2 h3
    rw [way_hit_iff]
    unfold tlbc_match
    constructor
    · exact fun h => h.2.2.2
    · exact fun h => ⟨h1, h2, h3, h⟩
  have hlow : ∀ w, w < TLBC_WAYS → tlbc_match tag ((c.tlbcache (tlbc_index c vaddr)).tag w) →
      (∀ j, j < w → ¬ tlbc_match tag ((c.tlbcache (tlbc_index c vaddr)).tag j)) →
      find_gtlb_entry c vaddr tag way0 = (1, tlbc_index c vaddr, w) := by
    intro w hw hm hl
    have hs := (find_loop_some (c.tlbcache (tlbc_index c vaddr)) tag TLBC_WAYS 0 w).2
      ⟨Nat.zero_le _, by omega, (way_hit_iff _ _).2 hm, fun j _ hj => by
        have := hl j hj
        rw [← way_hit_iff] at this
        simpa using this⟩
    unfold find_gtlb_entry
    rw [hs]
  have hnone : (find_gtlb_entry c vaddr tag way0).1 = 0 →
      ∀ w, w < TLBC_WAYS → ¬ tlbc_match tag ((c.tlbcache (tlbc_index c vaddr)).tag w) := by
    intro h w hw hm
    unfold find_gtlb_entry at h
    cases hs : find_gtlb_loop (c.tlbcache (tlbc_index c vaddr)) tag TLBC_WAYS 0 with
    | some i => rw [hs] at h; simp at h
    | none =>
      have := (find_loop_none _ _ _ _).1 hs w (Nat.zero_le _) (by omega)
      rw [(way_hit_iff _ _).2 hm] at this
      exact Bool.noConfusion this
  refine ⟨way_hit_iff tag, fun line h1 h2 h3 => ⟨hiff line h1 h2 h3, ?_, ?_, ?_⟩, ⟨?_, ?_⟩,
    hlow, hnone⟩
  · exact fun h => (hiff line h1 h2 h3).2 (Or.inr (Or.inr h))
  · exact fun h => (hiff line h1 h2 h3).2 (Or.inr (Or.inl h))
  · intro ha hb hc
    have := (hiff line h1 h2 h3).not.2 (by
      rintro (h | h | h)
      · exact hc h
      · exact ha h
      · exact hb h)
    simpa using this
  · intro h
    by_contra hne
    push_neg at hne
    have hn : find_gtlb_loop (c.tlbcache (tlbc_index c vaddr)) tag TLBC_WAYS 0 = none :=
      (find_loop_none _ _ _ _).2 (fun j _ hj => by
        have := hne j (by omega)
        rw [← way_hit_iff] at this
        simpa using this)
    unfold find_gtlb_entry at h
    rw [hn] at h
    exact h rfl
  · rintro ⟨w, hw, hm⟩ h0
    exact hnone h0 w hw hm

/-- C24 (failing input). On a miss `find_gtlb_entry` stores the set in `*setp` but never
writes `*way`: whenever it returns 0 the variable of the caller holds what it held before
the call. In the empty cache with 16 sets the lookup of page 5 with a caller's value of 7
returns 0 and leaves 7, which is no way of a set. -/
theorem find_gtlb_entry_miss_way :
    (∀ (c : tlbc_t) (vaddr : Nat) (tag : tlbctag_t) (way0 : Nat),
      (find_gtlb_entry c vaddr tag way0).1 = 0 →
      find_gtlb_entry c vaddr tag way0 = (0, tlbc_index c vaddr, way0)) ∧
    find_gtlb_entry (tlbc_empty 4) 0x5000 (make_tag (tlbc_empty 4) 0x5000 1 0) 7 = (0, 5, 7) ∧
    ¬ (7 < TLBC_WAYS) := by
  refine ⟨fun c vaddr tag way0 h => ?_, by decide, by decide⟩
  unfold find_gtlb_entry at h ⊢
  cases hs : find_gtlb_loop (c.tlbcache (tlbc_index c vaddr)) tag TLBC_WAYS 0 with
  | some i => rw [hs] at h; simp at h
  | none => rfl

/-- The cache with 16 sets after the install, in the empty cache, of a valid line with
pid 0 and address space 0 for the page at `0x5000`, in way 0. -/
def tlbc_one_line : tlbc_t :=
  tlbc_after (guest_set_tlbcache (tlbc_empty 4) 0 0x80000100 0x5000 0x3f 0x5 0 0x3f 0)
    (tlbc_empty 4)

/-- C21 (failing input). In `tlbc_one_line` set 5 holds a valid line of address space 0 for
effective page 5. The candidate `(epn, tsize, pid, space) = (0, 3, 0, 0)` is naturally
aligned and covers the pages 0 to 15, yet `check_tlb1_conflict` returns 0: it examines
`min(pages, tlbcache_bits) = 4` sets, 0 to 3, and not set 5. -/
theorem check_tlb1_conflict_skips_sets :
    tlbc_ret (guest_set_tlbcache (tlbc_empty 4) 0 0x80000100 0x5000 0x3f 0x5 0 0x3f 0) = 0 ∧
    (tlbc_one_line.tlbcache 5).tag 0 = { vaddr := 0, pid := 0, space := 0, valid := true } ∧
    (shl32 ((tlbc_one_line.tlbcache 5).tag 0).vaddr tlbc_one_line.tlbcache_bits ||| 5) = 5 ∧
    tsize_to_pages 3 ∣ 0 ∧ 0 ≤ 5 ∧ 5 < 0 + tsize_to_pages 3 ∧
    min (tsize_to_pages 3) tlbc_one_line.tlbcache_bits = 4 ∧
    check_tlb1_conflict tlbc_one_line 0 3 0 0 = 0 := by
  refine ⟨by decide, by decide, by decide, by decide, by decide, by decide, by decide,
    by decide⟩

theorem tlb0esel_lt (mas0 : Nat) : MAS0_GET_TLB0ESEL mas0 < TLBC_WAYS := by
  unfold MAS0_GET_TLB0ESEL TLBC_WAYS
  have : (mas0 >>> MAS0_ESEL_SHIFT) &&& (4 - 1) ≤ 3 := Nat.and_le_right
  omega

theorem match_self (t : tlbctag_t) : tlbc_match t t := ⟨rfl, rfl, rfl, Or.inl rfl⟩

/-- The two results of the lookup in `guest_set_tlbcache`: the lowest matching way, or a
miss. -/
theorem find_cases (c : tlbc_t) (vaddr : Nat) (tag : tlbctag_t) (way0 : Nat) :
    (∃ w, w < TLBC_WAYS ∧ tlbc_match tag ((c.tlbcache (tlbc_index c vaddr)).tag w) ∧
      (∀ j, j < w → ¬ tlbc_match tag ((c.tlbcache (tlbc_index c vaddr)).tag j)) ∧
      find_gtlb_entry c vaddr tag way0 = (1, tlbc_index c vaddr, w)) ∨
    ((∀ w, w < TLBC_WAYS → ¬ tlbc_match tag ((c.tlbcache (tlbc_index c vaddr)).tag w)) ∧
      find_gtlb_entry c vaddr tag way0 = (0, tlbc_index c vaddr, way0)) := by
  unfold find_gtlb_entry
  cases hs : find_gtlb_loop (c.tlbcache (tlbc_index c vaddr)) tag TLBC_WAYS 0 with
  | some w =>
    left
    obtain ⟨_, h2, h3, h4⟩ := (find_loop_some _ _ _ _ _).1 hs
    refine ⟨w, by omega, (way_hit_iff _ _).1 h3, fun j hj hm => ?_, rfl⟩
    have := h4 j (Nat.zero_le _) hj
    rw [(way_hit_iff _ _).2 hm] at this
    exact Bool.noConfusion this
  | none =>
    right
    refine ⟨fun w hw hm => ?_, rfl⟩
    have := (find_loop_none _ _ _ _).1 hs w (Nat.zero_le _) (by omega)
    rw [(way_hit_iff _ _).2 hm] at this
    exact Bool.noConfusion this

/-- C22 (amended). Duplicate TLB0 install is rejected without mutation: for MAS0 selecting
TLB0, `guest_set_tlbcache` returns `ERR_BUSY` iff `MAS1_VALID` is set in `mas1` and the
lowest way of the indexed set that matches the new tag is not the way selected by MAS0,
and then the cache is unchanged. Otherwise it returns 0, the selected way of the set
indexed by `vaddr` holds the new tag (invalid if `MAS1_VALID` is clear) and the new entry,
every other way and set is unchanged, and, if `MAS1_VALID` is set, a following
`find_gtlb_entry` for the same `vaddr` and tag returns 1 with that way. -/
theorem guest_set_tlbcache_duplicate (c : tlbc_t)
    (mas0 mas1 mas2 mas3flags rpn mas8 gmas3 way0 : Nat)
    (hsel : mas0 &&& MAS0_TLBSEL1 = 0) :
    (tlbc_ret (guest_set_tlbcache c mas0 mas1 mas2 mas3flags rpn mas8 gmas3 way0) = ERR_BUSY ↔
      (mas1 &&& MAS1_VALID ≠ 0 ∧ ∃ w, w < TLBC_WAYS ∧
        tlbc_match (set_tlbcache_tag c mas1 mas2)
          ((c.tlbcache (tlbc_index c (mas2 &&& MAS2_EPN))).tag w) ∧
        (∀ j, j < w → ¬ tlbc_match (set_tlbcache_tag c mas1 mas2)
          ((c.tlbcache (tlbc_index c (mas2 &&& MAS2_EPN))).tag j)) ∧
        w ≠ MAS0_GET_TLB0ESEL mas0)) ∧
    (tlbc_ret (guest_set_tlbcache c mas0 mas1 mas2 mas3flags rpn mas8 gmas3 way0) = ERR_BUSY →
      guest_set_tlbcache c mas0 mas1 mas2 mas3flags rpn mas8 gmas3 way0
        = Except.ok (ERR_BUSY, c)) ∧
    (tlbc_ret (guest_set_tlbcache c mas0 mas1 mas2 mas3flags rpn mas8 gmas3 way0) ≠ ERR_BUSY →
      ∃ c1, guest_set_tlbcache c mas0 mas1 mas2 mas3flags rpn mas8 gmas3 way0
          = Except.ok (0, c1) ∧
        c1.tlbcache_bits = c.tlbcache_bits ∧
        (c1.tlbcache (tlbc_index c (mas2 &&& MAS2_EPN))).tag (MAS0_GET_TLB0ESEL mas0)
          = (if mas1 &&& MAS1_VALID = 0 then
              { set_tlbcache_tag c mas1 mas2 with valid := false }
            else set_tlbcache_tag c mas1 mas2) ∧
        (c1.tlbcache (tlbc_index c (mas2 &&& MAS2_EPN))).entry (MAS0_GET_TLB0ESEL mas0)
          = { mas2 := mas2, mas3 := shl32 rpn PAGE_SHIFT ||| mas3flags,
              mas7 := rpn >>> (32 - PAGE_SHIFT), tsize := 1, mas8 := mas8 >>> 30,
              gmas3 := gmas3 } ∧
        (∀ i j, ¬ (i = tlbc_index c (mas2 &&& MAS2_EPN) ∧ j = MAS0_GET_TLB0ESEL mas0) →
          (c1.tlbcache i).tag j = (c.tlbcache i).tag j ∧
          (c1.tlbcache i).entry j = (c.tlbcache i).entry j) ∧
        (mas1 &&& MAS1_VALID ≠ 0 → ∀ w0,
          find_gtlb_entry c1 (mas2 &&& MAS2_EPN) (set_tlbcache_tag c mas1 mas2) w0
            = (1, tlbc_index c (mas2 &&& MAS2_EPN), MAS0_GET_TLB0ESEL mas0))) := by
  have hbusy0 : ERR_BUSY ≠ 0 := by decide
  generalize hT : set_tlbcache_tag c mas1 mas2 = T
  generalize hidx : tlbc_index c (mas2 &&& MAS2_EPN) = idx
  generalize hes : MAS0_GET_TLB0ESEL mas0 = esel
  have hesel : esel < TLBC_WAYS := by rw [← hes]; exact tlb0esel_lt mas0
  -- the call, by the result of the lookup
  have hrun : ∀ r : Nat × Nat × Nat, find_gtlb_entry c (mas2 &&& MAS2_EPN) T way0 = r →
      r.2.1 = idx →
      guest_set_tlbcache c mas0 mas1 mas2 mas3flags rpn mas8 gmas3 way0
        = if r.1 ≠ 0 ∧ (if mas1 &&& MAS1_VALID = 0 then { T with valid := false } else T).valid
              = true ∧ r.2.2 ≠ esel then
            Except.ok (ERR_BUSY, c)
          else
            Except.ok (0, { c with tlbcache := (arr_set c.tlbcache idx
              (tlbcset_install (c.tlbcache idx) esel
                (if mas1 &&& MAS1_VALID = 0 then { T with valid := false } else T)
                { mas2 := mas2, mas3 := shl32 rpn PAGE_SHIFT ||| mas3flags,
                  mas7 := rpn >>> (32 - PAGE_SHIFT), tsize := 1, mas8 := mas8 >>> 30,
                  gmas3 := gmas3 })) }) := by
    intro r hr hri
    unfold guest_set_tlbcache
    simp only []
    rw [if_neg (by rw [hsel]; exact fun h => h rfl), hT, hr, hes, hri]
  have hTv : T.valid = true := by rw [← hT]; rfl
  have hvalid_iff : (if mas1 &&& MAS1_VALID = 0 then { T with valid := false } else T).valid = true
      ↔ mas1 &&& MAS1_VALID ≠ 0 := by
    by_cases hv : mas1 &&& MAS1_VALID = 0
    · rw [if_pos hv]; simp [hv]
    · rw [if_neg hv]; simp [hv, hTv]
  -- the state after an install, read way by way
  have hinstall : ∀ c1 : tlbc_t,
      c1 = { c with tlbcache := (arr_set c.tlbcache idx
              (tlbcset_install (c.tlbcache idx) esel
                (if mas1 &&& MAS1_VALID = 0 then { T with valid := false } else T)
                { mas2 := mas2, mas3 := shl32 rpn PAGE_SHIFT ||| mas3flags,
                  mas7 := rpn >>> (32 - PAGE_SHIFT), tsize := 1, mas8 := mas8 >>> 30,
                  gmas3 := gmas3 })) } →
      c1.tlbcache_bits = c.tlbcache_bits ∧
      (c1.tlbcache idx).tag esel
        = (if mas1 &&& MAS1_VALID = 0 then { T with valid := false } else T) ∧
      (c1.tlbcache idx).entry esel
        = { mas2 := mas2, mas3 := shl32 rpn PAGE_SHIFT ||| mas3flags,
            mas7 := rpn >>> (32 - PAGE_SHIFT), tsize := 1, mas8 := mas8 >>> 30,
            gmas3 := gmas3 } ∧
      (∀ i j, ¬ (i = idx ∧ j = esel) →
        (c1.tlbcache i).tag j = (c.tlbcache i).tag j ∧
        (c1.tlbcache i).entry j = (c.tlbcache i).entry j) := by
    intro c1 hc1
    subst hc1
    refine ⟨rfl, by simp [arr_set, tlbcset_install], by simp [arr_set, tlbcset_install],
      fun i j hij => ?_⟩
    by_cases hi : i = idx
    · subst hi
      have hj : j ≠ esel := fun e => hij ⟨rfl, e⟩
      by_cases hov : ((c.tlbcache i).tag esel).valid = true
      · simp [arr_set, tlbcset_install, hj, hov]
      · simp [arr_set, tlbcset_install, hj, hov]
    · simp [arr_set, hi]
  -- the lookup after a valid install
  have hfind : ∀ c1 : tlbc_t, c1.tlbcache_bits = c.tlbcache_bits →
      (c1.tlbcache idx).tag esel = T →
      (∀ j, j < esel → (c1.tlbcache idx).tag j = (c.tlbcache idx).tag j) →
      (∀ j, j < esel → ¬ tlbc_match T ((c.tlbcache idx).tag j)) →
      ∀ w0, find_gtlb_entry c1 (mas2 &&& MAS2_EPN) T w0 = (1, idx, esel) := by
    intro c1 hb ht hlow hno w0
    have hi1 : tlbc_index c1 (mas2 &&& MAS2_EPN) = idx := by
      rw [← hidx]; unfold tlbc_index; rw [hb]
    have hs := (find_loop_some (c1.tlbcache idx) T TLBC_WAYS 0 esel).2
      ⟨Nat.zero_le _, by omega, by rw [ht]; exact (way_hit_iff _ _).2 (match_self T),
        fun j _ hj => by
          have := hno j hj
          rw [← hlow j hj, ← way_hit_iff] at this
          simpa using this⟩
    unfold find_gtlb_entry
    rw [hi1, hs]
  rcases find_cases c (mas2 &&& MAS2_EPN) T way0 with ⟨w, hw, hm, hl, hf⟩ | ⟨hno, hf⟩
  · rw [hidx] at hm hl hf
    have hr := hrun _ hf rfl
    simp only [] at hr
    by_cases hb : (if mas1 &&& MAS1_VALID = 0 then { T with valid := false } else T).valid = true
        ∧ w ≠ esel
    · rw [if_pos ⟨by decide, hb.1, hb.2⟩] at hr
      rw [hr]
      refine ⟨⟨fun _ => ⟨hvalid_iff.1 hb.1, w, hw, hm, hl, hb.2⟩, fun _ => rfl⟩, fun _ => rfl,
        fun h => absurd rfl h⟩
    · rw [if_neg (fun h => hb ⟨h.2.1, h.2.2⟩)] at hr
      rw [hr]
      refine ⟨⟨fun h => absurd h.symm hbusy0, ?_⟩, fun h => absurd h.symm hbusy0, fun _ => ?_⟩
      · rintro ⟨hv, w2, hw2, hm2, hl2, hne2⟩
        exfalso
        have hww : w2 = w := by
          by_contra hne
          rcases Nat.lt_or_gt_of_ne hne with h | h
          · exact hl w2 h hm2
          · exact hl2 w h hm
        exact hb ⟨hvalid_iff.2 hv, by rw [← hww]; exact hne2⟩
      · obtain ⟨i1, i2, i3, i4⟩ := hinstall _ rfl
        refine ⟨_, rfl, i1, i2, i3, i4, fun hv w0 => ?_⟩
        have hwe : w = esel := by
          by_contra hne
          exact hb ⟨hvalid_iff.2 hv, hne⟩
        subst hwe
        refine hfind _ i1 (by rw [i2, if_neg hv]) (fun j hj => (i4 idx j (fun h => ?_)).1) hl w0
        omega
  · rw [hidx] at hno hf
    have hr := hrun _ hf rfl
    simp only [] at hr
    rw [if_neg (fun h => h.1 rfl)] at hr
    rw [hr]
    refine ⟨⟨fun h => absurd h.symm hbusy0, ?_⟩, fun h => absurd h.symm hbusy0, fun _ => ?_⟩
    · rintro ⟨_, w2, hw2, hm2, _, _⟩
      exact absurd hm2 (hno w2 hw2)
    · obtain ⟨i1, i2, i3, i4⟩ := hinstall _ rfl
      refine ⟨_, rfl, i1, i2, i3, i4, fun hv w0 => ?_⟩
      refine hfind _ i1 (by rw [i2, if_neg hv]) (fun j hj => (i4 idx j (fun h => ?_)).1)
        (fun j hj => hno j (by omega)) w0
      omega

/-- Witness of C22: the install of a valid line for the page at `0x5000` in way 1 of the
empty cache with 16 sets. -/
theorem guest_set_tlbcache_duplicate_witness :
    ∃ c1, guest_set_tlbcache (tlbc_empty 4) 0x10000 0x80000100 0x5000 0x3f 0x5 0 0x3f 0
        = Except.ok (0, c1) ∧
      c1.tlbcache_bits = (tlbc_empty 4).tlbcache_bits ∧
      (c1.tlbcache (tlbc_index (tlbc_empty 4) (0x5000 &&& MAS2_EPN))).tag
          (MAS0_GET_TLB0ESEL 0x10000)
        = (if 0x80000100 &&& MAS1_VALID = 0 then
            { set_tlbcache_tag (tlbc_empty 4) 0x80000100 0x5000 with valid := false }
          else set_tlbcache_tag (tlbc_empty 4) 0x80000100 0x5000) ∧
      (c1.tlbcache (tlbc_index (tlbc_empty 4) (0x5000 &&& MAS2_EPN))).entry
          (MAS0_GET_TLB0ESEL 0x10000)
        = { mas2 := 0x5000, mas3 := shl32 0x5 PAGE_SHIFT ||| 0x3f,
            mas7 := 0x5 >>> (32 - PAGE_SHIFT), tsize := 1, mas8 := 0 >>> 30,
            gmas3 := 0x3f } ∧
      (∀ i j, ¬ (i = tlbc_index (tlbc_empty 4) (0x5000 &&& MAS2_EPN) ∧
            j = MAS0_GET_TLB0ESEL 0x10000) →
        (c1.tlbcache i).tag j = ((tlbc_empty 4).tlbcache i).tag j ∧
        (c1.tlbcache i).entry j = ((tlbc_empty 4).tlbcache i).entry j) ∧
      (0x80000100 &&& MAS1_VALID ≠ 0 → ∀ w0,
        find_gtlb_entry c1 (0x5000 &&& MAS2_EPN)
            (set_tlbcache_tag (tlbc_empty 4) 0x80000100 0x5000) w0
          = (1, tlbc_index (tlbc_empty 4) (0x5000 &&& MAS2_EPN),
              MAS0_GET_TLB0ESEL 0x10000)) :=
  (guest_set_tlbcache_duplicate (tlbc_empty 4) 0x10000 0x80000100 0x5000 0x3f 0x5 0 0x3f 0
    (by decide)).2.2 (by decide)

/-- C22 (counterexample). An install with `MAS1_VALID` clear in way 1 of the empty cache
returns 0 and stores the new tag, which is invalid, in way 1; a following
`find_gtlb_entry` for the same `vaddr` and that tag returns way 0, whose zero line has the
same fields, and for the valid tag of the same page it returns 0: neither returns the
selected way. -/
theorem guest_set_tlbcache_duplicate_counterexample :
    tlbc_ret (guest_set_tlbcache (tlbc_empty 4) 0x10000 0x00000100 0x5000 0 0 0 0 0) = 0 ∧
    MAS0_GET_TLB0ESEL 0x10000 = 1 ∧
    ((tlbc_after (guest_set_tlbcache (tlbc_empty 4) 0x10000 0x00000100 0x5000 0 0 0 0 0)
        (tlbc_empty 4)).tlbcache 5).tag 1
      = { vaddr := 0, pid := 0, space := 0, valid := false } ∧
    find_gtlb_entry
        (tlbc_after (guest_set_tlbcache (tlbc_empty 4) 0x10000 0x00000100 0x5000 0 0 0 0 0)
          (tlbc_empty 4))
        0x5000 { vaddr := 0, pid := 0, space := 0, valid := false } 9 = (1, 5, 0) ∧
    find_gtlb_entry
        (tlbc_after (guest_set_tlbcache (tlbc_empty 4) 0x10000 0x00000100 0x5000 0 0 0 0 0)
          (tlbc_empty 4))
        0x5000 (set_tlbcache_tag (tlbc_empty 4) 0x00000100 0x5000) 9 = (0, 5, 9) := by
  refine ⟨by decide, by decide, by decide, by decide, by decide⟩

/-- The cache with 16 sets after three installs for the page at `0x5000` in the empty
cache: a valid line with pid 1 in way 0, a valid line with pid 2 in way 1, then a valid
line with pid 0 in way 0. -/
def tlbc_three : tlbc_t :=
  tlbc_after
    (guest_set_tlbcache
      (tlbc_after
        (guest_set_tlbcache
          (tlbc_after (guest_set_tlbcache (tlbc_empty 4) 0 0x80010100 0x5000 0x3f 0x5 0 0x3f 0)
            (tlbc_empty 4))
          0x10000 0x80020100 0x5000 0x3f 0x5 0 0x3f 0)
        (tlbc_empty 4))
      0 0x80000100 0x5000 0x3f 0x5 0 0x3f 0)
    (tlbc_empty 4)

/-- C30 (failing input). Each of the three installs of `tlbc_three` returns 0: the second
finds no match (pids 1 and 2 differ and are not 0), the third matches way 0 first, which is
the way it selects. Afterwards set 5 holds two valid lines with the same virtual-page tag
and address space, in way 0 with pid 0 and in way 1 with pid 2, and both ways match the
lookup with pid 2. -/
theorem tlbcache_duplicate_lines :
    tlbc_ret (guest_set_tlbcache (tlbc_empty 4) 0 0x80010100 0x5000 0x3f 0x5 0 0x3f 0) = 0 ∧
    tlbc_ret (guest_set_tlbcache
      (tlbc_after (guest_set_tlbcache (tlbc_empty 4) 0 0x80010100 0x5000 0x3f 0x5 0 0x3f 0)
        (tlbc_empty 4))
      0x10000 0x80020100 0x5000 0x3f 0x5 0 0x3f 0) = 0 ∧
    tlbc_ret (guest_set_tlbcache
      (tlbc_after
        (guest_set_tlbcache
          (tlbc_after (guest_set_tlbcache (tlbc_empty 4) 0 0x80010100 0x5000 0x3f 0x5 0 0x3f 0)
            (tlbc_empty 4))
          0x10000 0x80020100 0x5000 0x3f 0x5 0 0x3f 0)
        (tlbc_empty 4))
      0 0x80000100 0x5000 0x3f 0x5 0 0x3f 0) = 0 ∧
    (tlbc_three.tlbcache 5).tag 0 = { vaddr := 0, pid := 0, space := 0, valid := true } ∧
    (tlbc_three.tlbcache 5).tag 1 = { vaddr := 0, pid := 2, space := 0, valid := true } ∧
    tlbc_match (make_tag tlbc_three 0x5000 2 0) ((tlbc_three.tlbcache 5).tag 0) ∧
    tlbc_match (make_tag tlbc_three 0x5000 2 0) ((tlbc_three.tlbcache 5).tag 1) ∧
    gtlb_way_hit (make_tag tlbc_three 0x5000 2 0) ((tlbc_three.tlbcache 5).tag 0) = true ∧
    gtlb_way_hit (make_tag tlbc_three 0x5000 2 0) ((tlbc_three.tlbcache 5).tag 1) = true := by
  refine ⟨by decide, by decide, by decide, by decide, by decide, by decide, by decide,
    by decide, by decide⟩

/-- State of a virtual core whose entry 0 covers 16 MiB at 0x01000000 with all permission
bits of MAS3 set, while the guest-physical table maps guest page 0x1000 to real page 5
with `attr = PTE_VALID`, that is with no permission bit. -/
def gcpu_noperm : gcpu_t := gcpu_one (vptbl_map empty_tbl 0x1000 0x5 1 0x40 2).2

/-- The state `guest_tlb1_miss(0x01000000, 0, 0)` leaves from `gcpu_noperm`. -/
def gcpu_noperm_filled : gcpu_t :=
  tlb1_set_entry (alloc_tlb1 gcpu_noperm 0 true).1 (alloc_tlb1 gcpu_noperm 0 true).2.toNat
    0x01000000 0x5000 1 0x01000000 0x3f 0 0 MAS8_GTS

/-- C28 (failing input). In `gcpu_noperm` the table entry that backs guest page 0x1000 has
no permission bit (`attr & PTE_MAS3_MASK = 0`), the logical entry asks for all of them.
`guest_tlb1_miss(0x01000000, 0, 0)` returns `TLB_MISS_HANDLED` and programs slot 0 with
`entry->mas3 & ~MAS3_RPN = 0x3f`: the permission bits of the guest, not masked by those of
the table. -/
theorem guest_tlb1_miss_permissions :
    vptbl_xlate gcpu_noperm.gphys 0x1000 PTE_PHYS_LEVELS = Except.ok (0x5, 0x1040) ∧
    0x1040 &&& PTE_VALID ≠ 0 ∧ 0x1040 &&& PTE_MAS3_MASK = 0 ∧
    (gcpu_noperm.gtlb1 0).mas3 &&& PTE_MAS3_MASK = 0x3f ∧
    guest_tlb1_miss gcpu_noperm 0x01000000 0 0
      = Except.ok (tlb_miss.TLB_MISS_HANDLED, gcpu_noperm_filled) ∧
    (alloc_tlb1 gcpu_noperm 0 true).2 = 0 ∧
    (gcpu_noperm_filled.tlb1 0).mas1 &&& MAS1_VALID ≠ 0 ∧
    (gcpu_noperm_filled.tlb1 0).pa = 0x5000 ∧
    (gcpu_noperm_filled.tlb1 0).mas3flags = 0x3f ∧
    (gcpu_noperm_filled.tlb1 0).mas3flags &&& PTE_MAS3_MASK
      ≠ (gcpu_noperm_filled.tlb1 0).mas3flags &&& PTE_MAS3_MASK &&& (0x1040 &&& PTE_MAS3_MASK) := by
  refine ⟨by decide, by decide, by decide, by decide, by rfl, by decide, by decide, by decide,
    by decide, by decide⟩

/-- State of a virtual core whose entry 0 is a valid 16 KiB entry with the effective page
number 1, which is not a multiple of its 4 pages, backed from guest page 1, while the
guest-physical table maps the guest pages 0 to 0x3ff by one 4 MiB entry. -/
def gcpu_unaligned : gcpu_t :=
  { gcpu_zero with
    gtlb1 := arr_set gcpu_zero.gtlb1 0
      { mas1 := 0x80000200, mas2 := 0x00001000, mas3 := 0x0000103f, mas7 := 0 },
    gphys := (vptbl_map empty_tbl 0 0x400 0x400 0x7f 2).2 }

/-- The state `guest_tlb1_miss(0x2000, 0, 0)` leaves from `gcpu_unaligned`. -/
def gcpu_unaligned_filled : gcpu_t :=
  tlb1_set_entry (alloc_tlb1 gcpu_unaligned 0 true).1
    (alloc_tlb1 gcpu_unaligned 0 true).2.toNat
    0 0x400000 2 0x00001000 0x3f 0 0 MAS8_GTS

set_option maxRecDepth 100000 in
/-- C29 (failing input). The MAS values of entry 0 of `gcpu_unaligned` have no reserved
bit, so `emu_tlbwe` stores them as they are. The entry covers the effective pages 1 to 4;
`guest_tlb1_miss(0x2000, 0, 0)` returns `TLB_MISS_HANDLED` for it and programs slot 0 with
a 16 KiB window at effective page 0: the window contains the faulting page 2 but starts
below the entry, at page 0, which the entry does not cover. -/
theorem guest_tlb1_miss_window_below :
    (gcpu_unaligned.gtlb1 0).mas1 &&& MAS1_RESERVED = 0 ∧
    (gcpu_unaligned.gtlb1 0).mas2 &&& MAS2_RESERVED = 0 ∧
    (gcpu_unaligned.gtlb1 0).mas3 &&& MAS3_RESERVED = 0 ∧
    (gcpu_unaligned.gtlb1 0).mas7 &&& MAS7_RESERVED = 0 ∧
    (gcpu_unaligned.gtlb1 0).mas2 >>> PAGE_SHIFT = 1 ∧
    tsize_to_pages (MAS1_GETTSIZE (gcpu_unaligned.gtlb1 0).mas1) = 4 ∧
    tlb1_entry_hit (gcpu_unaligned.gtlb1 0) (0x2000 >>> PAGE_SHIFT) 0 0 = true ∧
    tlb1_entry_hit (gcpu_unaligned.gtlb1 0) 0 0 0 = false ∧
    guest_tlb1_miss gcpu_unaligned 0x2000 0 0
      = Except.ok (tlb_miss.TLB_MISS_HANDLED, gcpu_unaligned_filled) ∧
    (alloc_tlb1 gcpu_unaligned 0 true).2 = 0 ∧
    (gcpu_unaligned_filled.tlb1 0).mas1 &&& MAS1_VALID ≠ 0 ∧
    (gcpu_unaligned_filled.tlb1 0).va >>> PAGE_SHIFT = 0 ∧
    tsize_to_pages (gcpu_unaligned_filled.tlb1 0).tsize = 4 ∧
    (gcpu_unaligned_filled.tlb1 0).va >>> PAGE_SHIFT
      < (gcpu_unaligned.gtlb1 0).mas2 >>> PAGE_SHIFT := by
  refine ⟨by decide, by decide, by decide, by decide, by decide, by decide, by decide,
    by decide, by rfl, by decide, by decide, by decide, by decide, by decide⟩

/-! ## Privileged instruction emulation (`emulate.c`, `trap.c`) -/

/-- Modelled from the spec: numbers of the special registers, of the missing
`libos/core-regs.h` (the "fixed allow-list of MMU/timer special registers" and the
registers the emulation writes for the guest). -/
def SPR_DEC : Nat := 22

/-- Modelled from the spec: `SPR_IVPR` of the missing `libos/core-regs.h`. -/
def SPR_IVPR : Nat := 63

/-- Modelled from the spec: `SPR_TSR` of the missing `libos/core-regs.h`. -/
def SPR_TSR : Nat := 336

/-- Modelled from the spec: `SPR_LPID` of the missing `libos/core-regs.h`. -/
def SPR_LPID : Nat := 338

/-- Modelled from the spec: `SPR_TCR` of the missing `libos/core-regs.h`. -/
def SPR_TCR : Nat := 340

/-- Modelled from the spec: `SPR_GSRR0` of the missing `libos/core-regs.h`. -/
def SPR_GSRR0 : Nat := 378

/-- Modelled from the spec: `SPR_GSRR1` of the missing `libos/core-regs.h`. -/
def SPR_GSRR1 : Nat := 379

/-- Modelled from the spec: `SPR_IVOR0` of the missing `libos/core-regs.h`; `SPR_IVOR1` to
`SPR_IVOR15` follow it. -/
def SPR_IVOR0 : Nat := 400

/-- Modelled from the spec: `SPR_IVOR15` of the missing `libos/core-regs.h`. -/
def SPR_IVOR15 : Nat := 415

/-- Modelled from the spec: `SPR_GIVOR2` of the missing `libos/core-regs.h`. -/
def SPR_GIVOR2 : Nat := 440

/-- Modelled from the spec: `SPR_GIVOR3` of the missing `libos/core-regs.h`. -/
def SPR_GIVOR3 : Nat := 441

/-- Modelled from the spec: `SPR_GIVOR4` of the missing `libos/core-regs.h`. -/
def SPR_GIVOR4 : Nat := 442

/-- Modelled from the spec: `SPR_GIVOR8` of the missing `libos/core-regs.h`. -/
def SPR_GIVOR8 : Nat := 443

/-- Modelled from the spec: `SPR_GIVOR13` of the missing `libos/core-regs.h`. -/
def SPR_GIVOR13 : Nat := 444

/-- Modelled from the spec: `SPR_GIVOR14` of the missing `libos/core-regs.h`. -/
def SPR_GIVOR14 : Nat := 445

/-- Modelled from the spec: `SPR_GIVPR` of the missing `libos/core-regs.h`. -/
def SPR_GIVPR : Nat := 447

/-- Modelled from the spec: `SPR_IVOR32` of the missing `libos/core-regs.h`; `SPR_IVOR33`
to `SPR_IVOR37` follow it. -/
def SPR_IVOR32 : Nat := 528

/-- Modelled from the spec: `SPR_IVOR37` of the missing `libos/core-regs.h`. -/
def SPR_IVOR37 : Nat := 533

/-- Modelled from the spec: `SPR_TLB1CFG` of the missing `libos/core-regs.h`. -/
def SPR_TLB1CFG : Nat := 689

/-- Modelled from the spec: `TLBCFG_NENTRY_MASK` of the missing `libos/fsl-booke-tlb.h`. -/
def TLBCFG_NENTRY_MASK : Nat := 0x00000fff

/-- Modelled from the spec: `IVPR_MASK` of the missing `libos/core-regs.h`. -/
def IVPR_MASK : Nat := 0xffff0000

/-- Modelled from the spec: `IVOR_MASK` of the missing `libos/core-regs.h`. -/
def IVOR_MASK : Nat := 0x0000fff0

/-- Modelled from the spec: `TLBIVAX_RESERVED` of the missing `libos/fsl-booke-tlb.h`, the
bits of the operand of `tlbivax` that are neither the address nor a selector. -/
def TLBIVAX_RESERVED : Nat := 0x00000ff3

/-- Modelled from the spec: `EXC_PGM` of the missing `trap_booke.h`, the number of the
program exception ("reflected as a guest program exception"). -/
def EXC_PGM : Nat := 6

/-- Modelled from the spec: the number of entries of `gcpu->ivor`, of the missing
`percpu.h`; the emulation uses the indices 0 to 15 and 32 to 37. -/
def GCPU_IVORS : Nat := 38

/-- Modelled from the spec: `MSR_GS` of the missing `libos/core-regs.h`. -/
def MSR_GS : Nat := 0x10000000

/-- Modelled from the spec: `MSR_UCLE` of the missing `libos/core-regs.h`. -/
def MSR_UCLE : Nat := 0x04000000

/-- Modelled from the spec: `MSR_CE` of the missing `libos/core-regs.h`. -/
def MSR_CE : Nat := 0x00020000

/-- Modelled from the spec: `MSR_ME` of the missing `libos/core-regs.h`. -/
def MSR_ME : Nat := 0x00001000

/-- Modelled from the spec: `MSR_DE` of the missing `libos/core-regs.h`. -/
def MSR_DE : Nat := 0x00000200

/-- The fields of `trapframe_t` that the emulation uses. -/
structure trapframe_t where
  gpregs : Nat → Nat
  srr0 : Nat
  srr1 : Nat
  exc : Nat

/-- The state `hvpriv` works on: the trap frame, the MAS registers with the virtual core
(`hcpu_t`), the `ivpr` and the `ivor` array of the virtual core, and the other special
registers of the hardware, by number. -/
structure priv_t where
  regs : trapframe_t
  cpu : hcpu_t
  ivpr : Nat
  ivor : Nat → Nat
  spr : Nat → Nat

/-- What the hardware does for the instructions that the emulation executes: the MAS
registers that `tlbsx` and `tlbre` leave, and the missing function
`guest_tlb1_to_gtlb1`. -/
structure hw_env where
  sx : mas_regs
  re : mas_regs
  to_gtlb1 : Nat → Nat

/-- Embedding of `get_spr(insn)`. -/
def get_spr (insn : Nat) : Nat := ((insn >>> 6) &&& 0x3e0) ||| ((insn >>> 16) &&& 0x1f)

/-- Embedding of `get_ea_indexed(regs, insn)`. -/
def get_ea_indexed (regs : trapframe_t) (insn : Nat) : Nat :=
  let ra := (insn >>> 16) &&& 31
  let rb := (insn >>> 11) &&& 31
  add32 (regs.gpregs rb) (if ra ≠ 0 then regs.gpregs ra else 0)

/-- Embedding of `emu_tlbivax`: the value returned (1 for a fault) and the state left. The
`tlbivax` it executes acts on the hardware TLB, which is not part of the state. -/
def emu_tlbivax (s : priv_t) (insn : Nat) : Except Fault (Nat × priv_t) :=
  let va := get_ea_indexed s.regs insn
  if va &&& TLBIVAX_RESERVED ≠ 0 then Except.ok (1, s) else Except.ok (0, s)

/-- Embedding of `emu_tlbsync`. -/
def emu_tlbsync (s : priv_t) : Except Fault (Nat × priv_t) := Except.ok (0, s)

/-- Embedding of `emu_tlbsx`: MAS5 is set, the hardware search leaves `env.sx` in the MAS
registers, and `fixup_tlb_sx_re` rewrites them. -/
def emu_tlbsx (s : priv_t) (env : hw_env) : Except Fault (Nat × priv_t) :=
  let c0 : hcpu_t := { s.cpu with
    mas5 := MAS5_SGS ||| s.spr SPR_LPID,
    mas0 := env.sx.mas0, mas1 := env.sx.mas1, mas2 := env.sx.mas2, mas3 := env.sx.mas3,
    mas7 := env.sx.mas7 }
  match fixup_tlb_sx_re c0 env.to_gtlb1 with
  | Except.error e => Except.error e
  | Except.ok c1 => Except.ok (0, { s with cpu := c1 })

/-- Embedding of `emu_mfspr`: the value returned and the state left. -/
def emu_mfspr (s : priv_t) (insn : Nat) : Except Fault (Nat × priv_t) :=
  let spr := get_spr insn
  let reg := (insn >>> 21) &&& 31
  let ret :=
    if spr = SPR_TLB1CFG then (s.spr SPR_TLB1CFG &&& not32 TLBCFG_NENTRY_MASK) ||| TLB1_GSIZE
    else if spr = SPR_IVPR then s.ivpr
    else if SPR_IVOR0 ≤ spr ∧ spr ≤ SPR_IVOR15 then s.ivor (spr - SPR_IVOR0)
    else if SPR_IVOR32 ≤ spr ∧ spr ≤ SPR_IVOR37 then s.ivor (spr - SPR_IVOR32 + 32)
    else if spr = SPR_TSR then s.spr SPR_TSR
    else if spr = SPR_TCR then s.spr SPR_TCR
    else if spr = SPR_DEC then s.spr SPR_DEC
    else 0
  Except.ok (0, { s with regs := { s.regs with gpregs := arr_set s.regs.gpregs reg ret } })

/-- Embedding of `emu_mtspr`: the value returned and the state left. -/
def emu_mtspr (s : priv_t) (insn : Nat) : Except Fault (Nat × priv_t) :=
  let spr := get_spr insn
  let reg := (insn >>> 21) &&& 31
  let val := s.regs.gpregs reg
  if spr = SPR_IVPR then
    Except.ok (0, { s with
      spr := arr_set s.spr SPR_GIVPR (val &&& IVPR_MASK), ivpr := val &&& IVPR_MASK })
  else if SPR_IVOR0 ≤ spr ∧ spr ≤ SPR_IVOR15 then
    let hw : Nat → Nat :=
      if spr = SPR_IVOR0 + 2 then arr_set s.spr SPR_GIVOR2 val
      else if spr = SPR_IVOR0 + 3 then arr_set s.spr SPR_GIVOR3 val
      else if spr = SPR_IVOR0 + 4 then arr_set s.spr SPR_GIVOR4 val
      else if spr = SPR_IVOR0 + 8 then arr_set s.spr SPR_GIVOR8 val
      else if spr = SPR_IVOR0 + 13 then arr_set s.spr SPR_GIVOR13 val
      else if spr = SPR_IVOR0 + 14 then arr_set s.spr SPR_GIVOR14 val
      else s.spr
    Except.ok (0, { s with
      spr := hw, ivor := arr_set s.ivor (spr - SPR_IVOR0) (val &&& IVOR_MASK) })
  else if SPR_IVOR32 ≤ spr ∧ spr ≤ SPR_IVOR37 then
    Except.ok (0, { s with ivor := arr_set s.ivor (spr - SPR_IVOR32 + 32) (val &&& IVOR_MASK) })
  else if spr = SPR_TSR then Except.ok (0, { s with spr := arr_set s.spr SPR_TSR val })
  else if spr = SPR_TCR then Except.ok (0, { s with spr := arr_set s.spr SPR_TCR val })
  else if spr = SPR_DEC then Except.ok (0, { s with spr := arr_set s.spr SPR_DEC val })
  else Except.ok (0, s)

/-- The instructions that the `switch` of `hvpriv` has a case for. -/
inductive priv_insn where
  | tlbivax
  | tlbre
  | tlbsx
  | tlbsync
  | tlbwe
  | mfspr
  | mtspr
  deriving DecidableEq, Repr

/-- The decoding in `hvpriv`: the test of the primary opcode and the `switch` on the
extended opcode; `none` when the word goes to `bad` without a call. -/
def hvpriv_decode (insn : Nat) : Option priv_insn :=
  if (insn >>> 26) &&& 0x3f ≠ 0x1f then none
  else
    let op := (insn >>> 1) &&& 0x3ff
    if op = 0x312 then some priv_insn.tlbivax
    else if op = 0x3b2 then some priv_insn.tlbre
    else if op = 0x392 then some priv_insn.tlbsx
    else if op = 0x236 then some priv_insn.tlbsync
    else if op = 0x3d2 then some priv_insn.tlbwe
    else if op = 0x153 then some priv_insn.mfspr
    else if op = 0x1d3 then some priv_insn.mtspr
    else none

/-- The call that the `switch` of `hvpriv` makes for a decoded instruction: the value of
`fault` and the state left. -/
def hvpriv_emulate (k : priv_insn) (s : priv_t) (insn : Nat) (env : hw_env) :
    Except Fault (Nat × priv_t) :=
  match k with
  | priv_insn.tlbivax => emu_tlbivax s insn
  | priv_insn.tlbre =>
    match emu_tlbre s.cpu env.re env.to_gtlb1 with
    | Except.error e => Except.error e
    | Except.ok (f, c1) => Except.ok (f, { s with cpu := c1 })
  | priv_insn.tlbsx => emu_tlbsx s env
  | priv_insn.tlbsync => emu_tlbsync s
  | priv_insn.tlbwe =>
    match emu_tlbwe s.cpu env.sx env.to_gtlb1 with
    | Except.error e => Except.error e
    | Except.ok (f, c1) => Except.ok (f, { s with cpu := c1 })
  | priv_insn.mfspr => emu_mfspr s insn
  | priv_insn.mtspr => emu_mtspr s insn

/-- Embedding of `reflect_trap(regs)` of `trap.c`; `stopsim()` is rendered as the halt
`Fault.bug`. -/
def reflect_trap (s : priv_t) : Except Fault priv_t :=
  if s.regs.srr1 &&& MSR_GS = 0 then Except.error Fault.bug
  else if ¬ (s.regs.exc < GCPU_IVORS) then Except.error Fault.assert_fail
  else
    Except.ok { s with
      spr := arr_set (arr_set s.spr SPR_GSRR0 s.regs.srr0) SPR_GSRR1 s.regs.srr1,
      regs := { s.regs with
        srr0 := s.ivpr ||| s.ivor s.regs.exc,
        srr1 := s.regs.srr1 &&& (MSR_CE ||| MSR_ME ||| MSR_DE ||| MSR_GS ||| MSR_UCLE) } }

/-- Embedding of `hvpriv(regs)`; `insn` is the word that `guestmem_in32` reads at
`regs->srr0`. -/
def hvpriv (s : priv_t) (insn : Nat) (env : hw_env) : Except Fault priv_t :=
  match hvpriv_decode insn with
  | none => reflect_trap { s with regs := { s.regs with exc := EXC_PGM } }
  | some k =>
    match hvpriv_emulate k s insn env with
    | Except.error e => Except.error e
    | Except.ok (fault, s1) =>
      if fault = 0 then
        Except.ok { s1 with regs := { s1.regs with srr0 := add32 s1.regs.srr0 4 } }
      else reflect_trap { s1 with regs := { s1.regs with exc := EXC_PGM } }

/-- The calls that `hvpriv` makes leave `srr0`, `srr1` and `exc` of the trap frame as they
were. -/
theorem emulate_regs (k : priv_insn) (s : priv_t) (insn : Nat) (env : hw_env) (f : Nat)
    (s1 : priv_t) (h : hvpriv_emulate k s insn env = Except.ok (f, s1)) :
    s1.regs.srr0 = s.regs.srr0 ∧ s1.regs.srr1 = s.regs.srr1 ∧ s1.regs.exc = s.regs.exc := by
  cases k with
  | tlbivax =>
    simp only [hvpriv_emulate, emu_tlbivax] at h
    split at h <;>
    · simp only [Except.ok.injEq, Prod.mk.injEq] at h
      obtain ⟨_, rfl⟩ := h
      exact ⟨rfl, rfl, rfl⟩
  | tlbre =>
    simp only [hvpriv_emulate] at h
    cases hr : emu_tlbre s.cpu env.re env.to_gtlb1 with
    | error e => rw [hr] at h; exact Except.noConfusion h
    | ok p =>
      obtain ⟨f1, c1⟩ := p
      rw [hr] at h
      simp only [Except.ok.injEq, Prod.mk.injEq] at h
      obtain ⟨_, rfl⟩ := h
      exact ⟨rfl, rfl, rfl⟩
  | tlbsx =>
    simp only [hvpriv_emulate, emu_tlbsx] at h
    split at h
    · exact Except.noConfusion h
    · simp only [Except.ok.injEq, Prod.mk.injEq] at h
      obtain ⟨_, rfl⟩ := h
      exact ⟨rfl, rfl, rfl⟩
  | tlbsync =>
    simp only [hvpriv_emulate, emu_tlbsync, Except.ok.injEq, Prod.mk.injEq] at h
    obtain ⟨_, rfl⟩ := h
    exact ⟨rfl, rfl, rfl⟩
  | tlbwe =>
    simp only [hvpriv_emulate] at h
    cases hr : emu_tlbwe s.cpu env.sx env.to_gtlb1 with
    | error e => rw [hr] at h; exact Except.noConfusion h
    | ok p =>
      obtain ⟨f1, c1⟩ := p
      rw [hr] at h
      simp only [Except.ok.injEq, Prod.mk.injEq] at h
      obtain ⟨_, rfl⟩ := h
      exact ⟨rfl, rfl, rfl⟩
  | mfspr =>
    simp only [hvpriv_emulate, emu_mfspr, Except.ok.injEq, Prod.mk.injEq] at h
    obtain ⟨_, rfl⟩ := h
    exact ⟨rfl, rfl, rfl⟩
  | mtspr =>
    simp only [hvpriv_emulate, emu_mtspr] at h
    split_ifs at h <;>
    · simp only [Except.ok.injEq, Prod.mk.injEq] at h
      obtain ⟨_, rfl⟩ := h
      exact ⟨rfl, rfl, rfl⟩

/-- C25. Instruction decode in `hvpriv`: a call of an emulation function is made iff the
primary opcode of the word is 31 and its extended opcode `(insn >> 1) & 0x3ff` is one of
`0x312`, `0x3b2`, `0x392`, `0x236`, `0x3d2`, `0x153`, `0x1d3`, and the call is the one of
that instruction. For every other word, and when the call returns a fault, `regs->exc` is
set to `EXC_PGM` and `reflect_trap` is called on a frame whose `srr0` is the one at entry;
for a trap taken in the guest `reflect_trap` then stores that `srr0` in GSRR0 and sets
`srr0` to the vector of the program exception. When the call returns no fault, `srr0` is
advanced by exactly 4 and nothing else is done: no exception is raised. -/
theorem hvpriv_decode_exact (s : priv_t) (insn : Nat) (env : hw_env) :
    (∀ k, hvpriv_decode insn = some k ↔
      ((insn >>> 26) &&& 0x3f = 31 ∧
        ((insn >>> 1) &&& 0x3ff = 0x312 ∧ k = priv_insn.tlbivax ∨
         (insn >>> 1) &&& 0x3ff = 0x3b2 ∧ k = priv_insn.tlbre ∨
         (insn >>> 1) &&& 0x3ff = 0x392 ∧ k = priv_insn.tlbsx ∨
         (insn >>> 1) &&& 0x3ff = 0x236 ∧ k = priv_insn.tlbsync ∨
         (insn >>> 1) &&& 0x3ff = 0x3d2 ∧ k = priv_insn.tlbwe ∨
         (insn >>> 1) &&& 0x3ff = 0x153 ∧ k = priv_insn.mfspr ∨
         (insn >>> 1) &&& 0x3ff = 0x1d3 ∧ k = priv_insn.mtspr))) ∧
    (hvpriv_decode insn = none →
      hvpriv s insn env = reflect_trap { s with regs := { s.regs with exc := EXC_PGM } }) ∧
    (∀ k f s1, hvpriv_decode insn = some k →
      hvpriv_emulate k s insn env = Except.ok (f, s1) →
      s1.regs.srr0 = s.regs.srr0 ∧ s1.regs.srr1 = s.regs.srr1 ∧ s1.regs.exc = s.regs.exc ∧
      (f ≠ 0 → hvpriv s insn env
        = reflect_trap { s1 with regs := { s1.regs with exc := EXC_PGM } }) ∧
      (f = 0 → hvpriv s insn env
        = Except.ok { s1 with regs := { s1.regs with srr0 := add32 s.regs.srr0 4 } })) ∧
    (∀ s2 : priv_t, s2.regs.srr1 &&& MSR_GS ≠ 0 → s2.regs.exc = EXC_PGM →
      ∃ s3, reflect_trap s2 = Except.ok s3 ∧ s3.spr SPR_GSRR0 = s2.regs.srr0 ∧
        s3.regs.exc = EXC_PGM ∧ s3.regs.srr0 = s2.ivpr ||| s2.ivor EXC_PGM ∧
        s3.regs.gpregs = s2.regs.gpregs ∧ s3.cpu = s2.cpu ∧ s3.ivpr = s2.ivpr ∧
        s3.ivor = s2.ivor) := by
  refine ⟨fun k => ?_, fun hd => ?_, fun k f s1 hd he => ?_, fun s2 hgs hexc => ?_⟩
  · unfold hvpriv_decode
    simp only []
    by_cases hp : (insn >>> 26) &&& 0x3f = 31
    · rw [if_neg (by rw [hp]; decide)]
      generalize (insn >>> 1) &&& 0x3ff = op
      simp only [hp, true_and]
      constructor
      · intro h
        split_ifs at h with h1 h2 h3 h4 h5 h6 h7
        all_goals first
          | exact Option.noConfusion h
          | (simp only [Option.some.injEq] at h; subst h; simp [*])
      · rintro (⟨h, rfl⟩ | ⟨h, rfl⟩ | ⟨h, rfl⟩ | ⟨h, rfl⟩ | ⟨h, rfl⟩ | ⟨h, rfl⟩ | ⟨h, rfl⟩) <;>
          simp [h]
    · rw [if_pos (by simpa using hp)]
      constructor
      · intro h; exact Option.noConfusion h
      · rintro ⟨h, _⟩; exact absurd h hp
  · unfold hvpriv
    rw [hd]
  · obtain ⟨h1, h2, h3⟩ := emulate_regs k s insn env f s1 he
    refine ⟨h1, h2, h3, fun hf => ?_, fun hf => ?_⟩
    · unfold hvpriv
      rw [hd]
      simp only [he, if_neg hf]
    · unfold hvpriv
      rw [hd]
      simp only [he, if_pos hf, h1]
  · unfold reflect_trap
    rw [if_neg hgs, if_neg (by rw [hexc]; decide)]
    refine ⟨_, rfl, ?_, hexc, by rw [hexc], rfl, rfl, rfl, rfl⟩
    show arr_set (arr_set s2.spr SPR_GSRR0 s2.regs.srr0) SPR_GSRR1 s2.regs.srr1 SPR_GSRR0 = _
    simp [arr_set, SPR_GSRR0, SPR_GSRR1]

/-- Following the words of the claim: the special registers that the emulation of `mfspr`
(`read`) or `mtspr` allows: TLB1CFG for reads, IVPR, IVOR0 to IVOR15, IVOR32 to IVOR37,
TSR, TCR and DEC. -/
def spr_allowed (read : Bool) (spr : Nat) : Bool :=
  (read && decide (spr = SPR_TLB1CFG)) || decide (spr = SPR_IVPR) ||
    (decide (SPR_IVOR0 ≤ spr) && decide (spr ≤ SPR_IVOR15)) ||
    (decide (SPR_IVOR32 ≤ spr) && decide (spr ≤ SPR_IVOR37)) ||
    decide (spr = SPR_TSR) || decide (spr = SPR_TCR) || decide (spr = SPR_DEC)

/-- C26 (failing input). For every `mfspr` whose special register is not in the allow-list
`emu_mfspr` reports no fault: `hvpriv` stores 0 in the target register and advances `srr0`
by 4, and no program exception is reflected. For every `mtspr` whose special register is
not in the allow-list `emu_mtspr` reports no fault either: `hvpriv` advances `srr0` by 4
and changes nothing else. The words `0x7c7042a6` (`mfspr r3, 272`) and `0x7c7043a6`
(`mtspr 272, r3`) are such instructions. -/
theorem emu_spr_unlisted_no_fault (s : priv_t) (env : hw_env) :
    (∀ insn, hvpriv_decode insn = some priv_insn.mfspr →
      spr_allowed true (get_spr insn) = false →
      hvpriv s insn env = Except.ok { s with regs := { s.regs with
        gpregs := arr_set s.regs.gpregs ((insn >>> 21) &&& 31) 0,
        srr0 := add32 s.regs.srr0 4 } }) ∧
    (∀ insn, hvpriv_decode insn = some priv_insn.mtspr →
      spr_allowed false (get_spr insn) = false →
      hvpriv s insn env
        = Except.ok { s with regs := { s.regs with srr0 := add32 s.regs.srr0 4 } }) ∧
    hvpriv_decode 0x7c7042a6 = some priv_insn.mfspr ∧ get_spr 0x7c7042a6 = 272 ∧
    spr_allowed true 272 = false ∧ (0x7c7042a6 >>> 21) &&& 31 = 3 ∧
    hvpriv_decode 0x7c7043a6 = some priv_insn.mtspr ∧ get_spr 0x7c7043a6 = 272 ∧
    spr_allowed false 272 = false := by
  refine ⟨fun insn hd ha => ?_, fun insn hd ha => ?_, by decide, by decide, by decide,
    by decide, by decide, by decide, by decide⟩
  · unfold spr_allowed at ha
    simp only [Bool.or_eq_false_iff, Bool.and_eq_false_iff, decide_eq_false_iff_not,
      Bool.true_and] at ha
    obtain ⟨⟨⟨⟨⟨⟨a1, a2⟩, a3⟩, a4⟩, a5⟩, a6⟩, a7⟩ := ha
    have a3' : ¬ (SPR_IVOR0 ≤ get_spr insn ∧ get_spr insn ≤ SPR_IVOR15) := by
      rintro ⟨x, y⟩; rcases a3 with h | h <;> simp_all
    have a4' : ¬ (SPR_IVOR32 ≤ get_spr insn ∧ get_spr insn ≤ SPR_IVOR37) := by
      rintro ⟨x, y⟩; rcases a4 with h | h <;> simp_all
    unfold hvpriv
    rw [hd]
    simp only [hvpriv_emulate, emu_mfspr, if_neg a1, if_neg a2, if_neg a3', if_neg a4',
      if_neg a5, if_neg a6, if_neg a7, if_true]
  · unfold spr_allowed at ha
    simp only [Bool.or_eq_false_iff, Bool.and_eq_false_iff, decide_eq_false_iff_not,
      Bool.false_and] at ha
    obtain ⟨⟨⟨⟨⟨⟨_, a2⟩, a3⟩, a4⟩, a5⟩, a6⟩, a7⟩ := ha
    have a3' : ¬ (SPR_IVOR0 ≤ get_spr insn ∧ get_spr insn ≤ SPR_IVOR15) := by
      rintro ⟨x, y⟩; rcases a3 with h | h <;> simp_all
    have a4' : ¬ (SPR_IVOR32 ≤ get_spr insn ∧ get_spr insn ≤ SPR_IVOR37) := by
      rintro ⟨x, y⟩; rcases a4 with h | h <;> simp_all
    unfold hvpriv
    rw [hd]
    simp only [hvpriv_emulate, emu_mtspr, if_neg a2, if_neg a3', if_neg a4',
      if_neg a5, if_neg a6, if_neg a7, if_true]

/-- Invariant of the outer loop of `vptbl_map` for the pages outside the range of the call:
the leaf-level invariant holds, and the pages below `gpn` or from `e` on are walked as in
the table `T0` at entry. -/
structure FrInv (L gpn end_ : Nat) (T0 T : Table) (e : Nat) : Prop where
  lo : gpn ≤ e
  hi : e ≤ end_
  inv : Inv L T
  frame : ∀ q, q < cap L → (q < gpn ∨ e ≤ q) → PageCls L T q = PageCls L T0 q

/-- The same within the chunk of `P` pages at `c`. -/
structure FrMid (L gpn : Nat) (T0 : Table) (c P lp : Nat) (T : Table) (x : Nat) : Prop where
  lo : c ≤ x
  hi : x ≤ c + P
  al : lp = 1 → 1024 ∣ x
  inv : Inv L T
  frame : ∀ q, q < cap L → (q < gpn ∨ x ≤ q) → PageCls L T q = PageCls L T0 q

/-- What holds of the table when the call leaves the function from inside a loop. -/
def FrStop (L gpn end_ : Nat) (T0 T1 : Table) : Prop :=
  Inv L T1 ∧ ∀ q, q < cap L → (q < gpn ∨ end_ ≤ q) → PageCls L T1 q = PageCls L T0 q

/-- One pass of the inner loop of `vptbl_map` leaves the pages outside the range as they
were. -/
theorem fr_step (L gpn end_ : Nat) (T0 : Table) (c s lp a : Nat)
    (hend : end_ < 2 ^ 32) (hcap : end_ ≤ cap L)
    (hgc : gpn ≤ c) (hce : c + 2 ^ (s * 2 - 2) ≤ end_) (hs1 : 1 ≤ s) (hs16 : s ≤ 16)
    (hdc : 2 ^ (s * 2 - 2) ∣ c)
    (hlp : lp = if s ≥ TLB_TSIZE_4M then 1 else 0)
    (T : Table) (x rx : Nat) (hM : FrMid L gpn T0 c (2 ^ (s * 2 - 2)) lp T x)
    (hx : x < c + 2 ^ (s * 2 - 2)) :
    match vptbl_map_step L lp (if lp = 1 then PGDIR_SIZE - 1 else 0) (set_size a s) T x rx with
    | loop_result.next T2 e2 _ _ => FrMid L gpn T0 c (2 ^ (s * 2 - 2)) lp T2 e2 ∧ x < e2
    | loop_result.stop st T1 => st ≠ map_status.done ∧ FrStop L gpn end_ T0 T1 := by
  have hlp01 : lp = 0 ∨ lp = 1 := by
    rw [hlp]; by_cases h : s ≥ TLB_TSIZE_4M <;> simp [h]
  have S := step_under_inv L lp (if lp = 1 then PGDIR_SIZE - 1 else 0) (set_size a s) T x rx
    hM.inv hlp01
  have hxcap : x < cap L := by omega
  have hlo := hM.lo
  generalize hP : 2 ^ (s * 2 - 2) = P at *
  cases hst : vptbl_map_step L lp (if lp = 1 then PGDIR_SIZE - 1 else 0) (set_size a s) T x rx with
  | next T2 e2 r2 a2 =>
    rw [hst] at S
    simp only [] at S ⊢
    obtain ⟨hT2, hle, hne, hae, he2, _, _⟩ := S
    have hI2 : Inv L T2 := by
      rw [hT2]
      refine inv_set L lp T x rx _ hM.inv hle hne hlp01 hae ?_
      have := good_attr_set_size a s (by omega) (by omega)
      rw [← hlp] at this
      exact this
    have PC : ∀ q, q < cap L → q / 2 ^ (10 * lp) ≠ x / 2 ^ (10 * lp) →
        PageCls L T2 q = PageCls L T q := by
      intro q hq hne2
      rw [hT2, page_cls_set L lp T x rx _ q hle hne hae hxcap hq, if_neg hne2]
    rcases hlp01 with h0 | h1
    · subst h0
      simp only [Nat.mul_zero, pow_zero, Nat.div_one] at PC
      rw [if_neg (by omega)] at he2
      rw [advance_small x (by omega)] at he2
      refine ⟨⟨by omega, by omega, fun h => by omega, hI2, ?_⟩, by omega⟩
      intro q hq hq2
      rw [PC q hq (by omega)]
      exact hM.frame q hq (by omega)
    · have hs6 : ¬ s < TLB_TSIZE_4M := by
        intro hc; rw [if_neg (by omega)] at hlp; omega
      have d1 : 1024 ∣ P := by rw [← hP]; exact large_pages_dvd s (by omega)
      have d2 : 1024 ∣ c := Dvd.dvd.trans d1 hdc
      have dx : 1024 ∣ x := hM.al h1
      subst h1
      have e1024 : (2 : Nat) ^ (10 * 1) = 1024 := by norm_num
      simp only [e1024] at PC
      rw [if_pos rfl] at he2
      rw [advance_large x dx (by omega)] at he2
      refine ⟨⟨by omega, by omega, fun _ => by omega, hI2, ?_⟩, by omega⟩
      intro q hq hq2
      rw [PC q hq (by omega)]
      exact hM.frame q hq (by omega)
  | stop st T1 =>
    rw [hst] at S
    simp only [] at S ⊢
    obtain ⟨hd, _, hsame, _, _⟩ := S
    refine ⟨hd, hsame.inv hM.inv, ?_⟩
    intro q hq hq2
    have := hsame q
    unfold PageCls
    rw [this]
    exact hM.frame q hq (by omega)

/-- One chunk of `vptbl_map` leaves the pages outside the range as they were. -/
theorem fr_chunk (L gpn end_ : Nat) (T0 : Table) (hend : end_ < 2 ^ 32) (hcap : end_ ≤ cap L)
    (T : Table) (e r a : Nat) (hI : FrInv L gpn end_ T0 T e) (he : e < end_) :
    match vptbl_map_chunk L end_ T e r a with
    | loop_result.next T2 e2 _ _ => FrInv L gpn end_ T0 T2 e2 ∧ e < e2
    | loop_result.stop st T1 => st ≠ map_status.done ∧ FrStop L gpn end_ T0 T1 := by
  have hlen : sub32 end_ e = end_ - e := sub32_eq _ _ (by omega) hend
  obtain ⟨hs1, hs16, hsp, hsple, hde, _⟩ := chunk_size_facts e (end_ - e) r (by omega) (by omega)
  have hlo := hI.lo
  unfold vptbl_map_chunk
  simp only [hlen]
  generalize hsz : min (max_page_size e (end_ - e)) (natural_alignment r) = size at *
  have hpos : 0 < 2 ^ (size * 2 - 2) := Nat.two_pow_pos _
  rw [if_neg (by simpa using hsple), if_neg (by simp; omega)]
  have hsub : add32 e (tsize_to_pages size) = e + tsize_to_pages size := add32_eq _ _ (by omega)
  rw [hsub]
  have hat : ((a &&& not32 PTE_SIZE) ||| shl32 size PTE_SIZE_SHIFT) = set_size a size := rfl
  rw [hat, hsp]
  rw [hsp] at hsple hde
  generalize hlp : (if size ≥ TLB_TSIZE_4M then 1 else 0) = lp
  have h1024 : lp = 1 → 1024 ∣ e := by
    intro h1
    have h6 : TLB_TSIZE_4M ≤ size := by
      by_contra hc; rw [if_neg hc] at hlp; omega
    exact Dvd.dvd.trans (large_pages_dvd size h6) hde
  have R := inner_rule L lp (if lp = 1 then PGDIR_SIZE - 1 else 0) (set_size a size)
    (e + 2 ^ (size * 2 - 2))
    (fun T x _ => FrMid L gpn T0 e (2 ^ (size * 2 - 2)) lp T x)
    (fun st T1 => st ≠ map_status.done ∧ FrStop L gpn end_ T0 T1)
    (fun T x rx hM hx => fr_step L gpn end_ T0 e size lp a hend hcap hlo
      (by omega) hs1 hs16 hde hlp.symm T x rx hM hx)
    (2 ^ (size * 2 - 2) + 1) T e r
    ⟨le_refl _, by omega, h1024, hI.inv, hI.frame⟩ (by omega)
  cases hin : vptbl_map_inner L lp (if lp = 1 then PGDIR_SIZE - 1 else 0) (set_size a size)
      (e + 2 ^ (size * 2 - 2)) (2 ^ (size * 2 - 2) + 1) T e r with
  | next T2 e2 r2 a2 =>
    rw [hin] at R
    simp only [] at R ⊢
    obtain ⟨hM, hge, _⟩ := R
    have he2 : e2 = e + 2 ^ (size * 2 - 2) := by have := hM.hi; omega
    exact ⟨⟨by omega, by omega, hM.inv, hM.frame⟩, by omega⟩
  | stop st T1 =>
    rw [hin] at R
    exact R

/-- A call of `vptbl_map` on a table with the leaf-level invariant, for a range that the
table can hold and that does not wrap, keeps the invariant and walks every page of the
table outside the range as before, however the call ends. -/
theorem map_frame (L : Nat) (T0 : Table) (gpn rpn0 n a0 : Nat) (hInv : Inv L T0)
    (h32 : gpn + n < 2 ^ 32) (hcap : gpn + n ≤ cap L) :
    Inv L (vptbl_map T0 gpn rpn0 n a0 L).2 ∧
    ∀ q, q < cap L → (q < gpn ∨ gpn + n ≤ q) →
      PageCls L (vptbl_map T0 gpn rpn0 n a0 L).2 q = PageCls L T0 q := by
  unfold vptbl_map
  rw [add32_eq _ _ h32]
  have R := outer_rule L (gpn + n) (fun T e _ _ => FrInv L gpn (gpn + n) T0 T e)
    (fun _ T1 => FrStop L gpn (gpn + n) T0 T1)
    (fun T e r a hI he => fr_chunk L gpn (gpn + n) T0 h32 hcap T e r a hI he)
    (n + 1) T0 gpn rpn0 a0
    ⟨le_refl _, by omega, hInv, fun _ _ _ => rfl⟩ (by omega)
  rcases R with ⟨_, e2, _, _, hM, hge⟩ | ⟨_, h⟩
  · have : e2 = gpn + n := by have := hM.hi; omega
    subst this
    exact ⟨hM.inv, hM.frame⟩
  · exact h

/-- Tables in which a page is walked to the same kind of result translate it alike: to the
same valid result, or to no valid result in both. -/
theorem xlate_of_same_cls (L : Nat) (T1 T : Table) (q : Nat)
    (h : PageCls L T1 q = PageCls L T q) :
    ∀ r a, a &&& PTE_VALID ≠ 0 →
      (vptbl_xlate T1 q L = Except.ok (r, a) ↔ vptbl_xlate T q L = Except.ok (r, a)) := by
  intro r a hva
  have h1 := xlate_of_cls T1 q L
  have h2 := xlate_of_cls T q L
  unfold PageCls at h
  rw [h] at h1
  cases hc : (walkL T (idxs L q)).cls with
  | tbl => rw [hc] at h1 h2; simp only [] at h1 h2; rw [h1, h2]
  | nosize lv p a' => rw [hc] at h1 h2; simp only [] at h1 h2; rw [h1, h2]
  | hit lv p a' => rw [hc] at h1 h2; simp only [] at h1 h2; rw [h1, h2]
  | miss =>
    rw [hc] at h1 h2
    simp only [] at h1 h2
    obtain ⟨l1, e1⟩ := h1
    obtain ⟨l2, e2⟩ := h2
    rw [e1, e2]
    constructor <;>
    · intro hx
      simp only [Except.ok.injEq, Prod.mk.injEq] at hx
      rw [← hx.2] at hva
      exact absurd zero_and_valid hva

/-- C27 (amended). Frame of `vptbl_map`: for every table reachable from the empty table by
calls of `vptbl_map` with at least one level, every call `vptbl_map(tbl, gpn, rpn, n, attr,
levels)` whose range does not wrap and lies within the `2 ^ (10 * levels)` pages that the
table indexes, however the call ends, and every guest page `q` that the table indexes and
that is outside `[gpn, gpn + n)`, the translation of `q` is unchanged: `vptbl_xlate(q)`
is valid after the call iff it was valid before, and it returns a valid result `(r, a)`
after the call iff it did before. -/
theorem vptbl_map_frame (levels : Nat) (tbl : Table) (gpn rpn n attr q : Nat)
    (hL : 1 ≤ levels) (hT : Reachable levels tbl)
    (h32 : gpn + n < 2 ^ 32) (hcap : gpn + n ≤ 2 ^ (10 * levels))
    (hq : q < 2 ^ (10 * levels)) (hout : q < gpn ∨ gpn + n ≤ q) :
    ((∃ r a, vptbl_xlate (vptbl_map tbl gpn rpn n attr levels).2 q levels = Except.ok (r, a) ∧
        a &&& PTE_VALID ≠ 0) ↔
      ∃ r a, vptbl_xlate tbl q levels = Except.ok (r, a) ∧ a &&& PTE_VALID ≠ 0) ∧
    ∀ r a, a &&& PTE_VALID ≠ 0 →
      (vptbl_xlate (vptbl_map tbl gpn rpn n attr levels).2 q levels = Except.ok (r, a) ↔
        vptbl_xlate tbl q levels = Except.ok (r, a)) := by
  have hInv := reachable_inv levels hL tbl hT
  have F := (map_frame levels tbl gpn rpn n attr hInv h32 hcap).2 q hq hout
  have X := xlate_of_same_cls levels _ tbl q F
  refine ⟨⟨?_, ?_⟩, X⟩
  · rintro ⟨r, a, hx, hv⟩
    exact ⟨r, a, (X r a hv).1 hx, hv⟩
  · rintro ⟨r, a, hx, hv⟩
    exact ⟨r, a, (X r a hv).2 hx, hv⟩

/-- Witness of C27: page 0 of the empty two-level table, and the call that maps page 1. -/
theorem vptbl_map_frame_witness :
    ((∃ r a, vptbl_xlate (vptbl_map empty_tbl 1 5 1 0x4f 2).2 0 2 = Except.ok (r, a) ∧
        a &&& PTE_VALID ≠ 0) ↔
      ∃ r a, vptbl_xlate empty_tbl 0 2 = Except.ok (r, a) ∧ a &&& PTE_VALID ≠ 0) ∧
    ∀ r a, a &&& PTE_VALID ≠ 0 →
      (vptbl_xlate (vptbl_map empty_tbl 1 5 1 0x4f 2).2 0 2 = Except.ok (r, a) ↔
        vptbl_xlate empty_tbl 0 2 = Except.ok (r, a)) :=
  vptbl_map_frame 2 empty_tbl 1 5 1 0x4f 0 (by decide) Reachable.empty (by decide) (by decide)
    (by decide) (by decide)

/-- C27 (counterexample). A two-level table indexes the pages below `0x100000`. The call
`vptbl_map(tbl, 0x100000, 0x5, 1, 0x7f, 2)` on the empty table completes and writes the
entry that page 0 is walked to: page 0, outside the range `[0x100000, 0x100001)`, was a
hole before the call and is translated to real page 5 after it. -/
theorem vptbl_map_frame_counterexample :
    (vptbl_map empty_tbl 0x100000 0x5 1 0x7f 2).1 = map_status.done ∧
    ¬ (0x100000 ≤ 0 ∧ 0 < 0x100000 + 1) ∧
    vptbl_xlate empty_tbl 0 2 = Except.ok (1023, 0) ∧
    vptbl_xlate (vptbl_map empty_tbl 0x100000 0x5 1 0x7f 2).2 0 2 = Except.ok (0x5, 0x107f) ∧
    0x107f &&& PTE_VALID ≠ 0 := by
  refine ⟨by decide, by decide, by decide, by decide, by decide⟩

/-- In a table with the leaf-level invariant, a leaf found above level 0 on the walk of
page `p` is found at level 1, and on the walk of every page of the 4 MiB block of `p`. -/
theorem hit_same_block (L : Nat) (hL : 1 ≤ L) (T : Table) (hInv : Inv L T) (p q lv pg a : Nat)
    (h : walkL T (idxs L p) = walk_res.hit lv pg a) (hlv : lv ≠ 0)
    (hq : q / 1024 = p / 1024) :
    walkL T (idxs L q) = walk_res.hit lv pg a := by
  have hg := hInv p
  rw [h] at hg
  simp only [walk_res.cls, GoodCls] at hg
  have hlv1 : lv = 1 := by omega
  subst hlv1
  have e1 : p >>> (PGDIR_SHIFT * 1) = p / 1024 := by rw [Nat.shiftRight_eq_div_pow]; rfl
  have e2 : q >>> (PGDIR_SHIFT * 1) = q / 1024 := by rw [Nat.shiftRight_eq_div_pow]; rfl
  rw [walk_page_via_block L hL T p, e1] at h
  rw [walk_page_via_block L hL T q, e2, hq]
  cases hw : walkL T (idxs (L - 1) (p / 1024)) with
  | tbl S =>
    rw [hw] at h
    simp only [idxs, walkL] at h
    cases hS : S (pgidx 0 p) with
    | dir sub => rw [hS] at h; simp at h
    | leaf p' a' =>
      rw [hS] at h
      simp only [List.length_nil] at h
      split_ifs at h
      simp at h
  | miss l p' a' => rw [hw] at h; simp at h
  | hit l p' a' => rw [hw] at h; exact h
  | nosize l p' a' => rw [hw] at h; simp at h

/-- Invariant of the outer loop of `vptbl_map` below the bound `B`, the first page of the
range in the 4 MiB block of a page that a large page covers: the pages below `gpn` or from
`e` on are walked as in the table `T0` at entry, `rpn` has advanced with `epn` (modulo
1024), and nothing is written before the first chunk. -/
structure SoInv (L gpn rpn0 B : Nat) (T0 T : Table) (e r : Nat) : Prop where
  lo : gpn ≤ e
  hi : e ≤ B
  inv : Inv L T
  frame : ∀ q, q < cap L → (q < gpn ∨ e ≤ q) → PageCls L T q = PageCls L T0 q
  rp : r % 1024 = (rpn0 + (e - gpn)) % 1024
  first : e = gpn → T = T0

/-- What holds of the table when the call leaves the function at or below `B`. -/
def SoStop (L gpn B : Nat) (T0 : Table) (st : map_status) (T1 : Table) : Prop :=
  Inv L T1 ∧ (∀ q, q < cap L → (q < gpn ∨ B ≤ q) → PageCls L T1 q = PageCls L T0 q) ∧
    (B = gpn → st = map_status.small_over_large ∧ T1 = T0)

/-- One pass of the inner loop in a chunk that ends at or below `B`. -/
theorem so_step (L gpn rpn0 B : Nat) (T0 : Table) (c s lp a : Nat)
    (hB : B < 2 ^ 32) (hcap : B ≤ cap L)
    (hgc : gpn ≤ c) (hce : c + 2 ^ (s * 2 - 2) ≤ B) (hs1 : 1 ≤ s) (hs16 : s ≤ 16)
    (hdc : 2 ^ (s * 2 - 2) ∣ c)
    (hlp : lp = if s ≥ TLB_TSIZE_4M then 1 else 0)
    (T : Table) (x rx : Nat)
    (hM : FrMid L gpn T0 c (2 ^ (s * 2 - 2)) lp T x ∧
      rx % 1024 = (rpn0 + (x - gpn)) % 1024 ∧ (lp = 1 → 1024 ∣ rx))
    (hx : x < c + 2 ^ (s * 2 - 2)) :
    match vptbl_map_step L lp (if lp = 1 then PGDIR_SIZE - 1 else 0) (set_size a s) T x rx with
    | loop_result.next T2 e2 r2 _ =>
        (FrMid L gpn T0 c (2 ^ (s * 2 - 2)) lp T2 e2 ∧
          r2 % 1024 = (rpn0 + (e2 - gpn)) % 1024 ∧ (lp = 1 → 1024 ∣ r2)) ∧ x < e2
    | loop_result.stop st T1 => st ≠ map_status.done ∧ FrStop L gpn B T0 T1 := by
  have F := fr_step L gpn B T0 c s lp a hB hcap hgc hce hs1 hs16 hdc hlp T x rx hM.1 hx
  have hlp01 : lp = 0 ∨ lp = 1 := by
    rw [hlp]; by_cases h : s ≥ TLB_TSIZE_4M <;> simp [h]
  have S := step_under_inv L lp (if lp = 1 then PGDIR_SIZE - 1 else 0) (set_size a s) T x rx
    hM.1.inv hlp01
  have hlo := hM.1.lo
  have hW : WORD = 2 ^ 32 := rfl
  generalize hP : 2 ^ (s * 2 - 2) = P at *
  cases hst : vptbl_map_step L lp (if lp = 1 then PGDIR_SIZE - 1 else 0) (set_size a s) T x rx with
  | next T2 e2 r2 a2 =>
    rw [hst] at F S
    simp only [] at F S ⊢
    obtain ⟨_, _, _, _, he2, hr2, _⟩ := S
    refine ⟨⟨F.1, ?_, ?_⟩, F.2⟩
    · rcases hlp01 with h0 | h1
      · subst h0
        rw [if_neg (by omega)] at he2 hr2
        rw [advance_small x (by omega)] at he2
        have hr2' : r2 = (rx + 1) % 2 ^ 32 := by rw [hr2]; unfold add32; rw [Nat.or_zero, hW]
        have := hM.2.1
        omega
      · have hs6 : ¬ s < TLB_TSIZE_4M := by
          intro hc; rw [if_neg (by omega)] at hlp; omega
        have d1 : 1024 ∣ P := by rw [← hP]; exact large_pages_dvd s (by omega)
        have d2 : 1024 ∣ c := Dvd.dvd.trans d1 hdc
        have dx : 1024 ∣ x := hM.1.al h1
        have drx : 1024 ∣ rx := hM.2.2 h1
        subst h1
        rw [if_pos rfl] at he2 hr2
        rw [advance_large x dx (by omega)] at he2
        rw [advance_large_mod rx drx, hW] at hr2
        have := hM.2.1
        omega
    · intro h1
      have drx : 1024 ∣ rx := hM.2.2 h1
      subst h1
      rw [if_pos rfl] at hr2
      rw [advance_large_mod rx drx, hW] at hr2
      omega
  | stop st T1 =>
    rw [hst] at F
    exact F

set_option maxHeartbeats 1000000 in
/-- One chunk of a call whose range holds a page `p` that a large page covers and that the
call would map with small pages: below the block of `p` the chunk is written and the loop
goes on, at the first page of the range in the block the call leaves the function. -/
theorem so_chunk (L gpn rpn0 n p lv pg a1 B : Nat) (T0 : Table) (hL : 1 ≤ L)
    (hInv0 : Inv L T0)
    (h32 : gpn + n < 2 ^ 32) (hcap : gpn + n ≤ cap L) (hp1 : gpn ≤ p) (hp2 : p < gpn + n)
    (hw : walkL T0 (idxs L p) = walk_res.hit lv pg a1) (hlv : lv ≠ 0)
    (hsmall : ¬ (gpn ≤ p / 1024 * 1024 ∧ p / 1024 * 1024 + 1024 ≤ gpn + n ∧
      rpn0 % 1024 = gpn % 1024))
    (hBdef : B = max gpn (p / 1024 * 1024))
    (T : Table) (e r a : Nat) (hI : SoInv L gpn rpn0 B T0 T e r) (he : e < gpn + n) :
    match vptbl_map_chunk L (gpn + n) T e r a with
    | loop_result.next T2 e2 r2 _ => SoInv L gpn rpn0 B T0 T2 e2 r2 ∧ e < e2
    | loop_result.stop st T1 => st ≠ map_status.done ∧ SoStop L gpn B T0 st T1 := by
  have hlen : sub32 (gpn + n) e = gpn + n - e := sub32_eq _ _ (by omega) h32
  obtain ⟨hs1, hs16, hsp, hsple, hde, hdr⟩ :=
    chunk_size_facts e (gpn + n - e) r (by omega) (by omega)
  have hlo := hI.lo
  have hhi := hI.hi
  have hrp := hI.rp
  unfold vptbl_map_chunk
  simp only [hlen]
  generalize hsz : min (max_page_size e (gpn + n - e)) (natural_alignment r) = size at *
  have hpos : 0 < 2 ^ (size * 2 - 2) := Nat.two_pow_pos _
  rw [if_neg (by simpa using hsple), if_neg (by simp; omega)]
  have hsub : add32 e (tsize_to_pages size) = e + tsize_to_pages size := add32_eq _ _ (by omega)
  rw [hsub]
  have hat : ((a &&& not32 PTE_SIZE) ||| shl32 size PTE_SIZE_SHIFT) = set_size a size := rfl
  rw [hat, hsp]
  rw [hsp] at hsple hde hdr
  -- a chunk of large pages lies on 4 MiB blocks, of the guest and of the real pages
  have hlarge : TLB_TSIZE_4M ≤ size → 1024 ∣ 2 ^ (size * 2 - 2) ∧ 1024 ∣ e ∧ 1024 ∣ r := by
    intro h6
    have d1 := large_pages_dvd size h6
    exact ⟨d1, Dvd.dvd.trans d1 hde, Dvd.dvd.trans d1 hdr⟩
  have hsmalldvd : size < TLB_TSIZE_4M → 2 ^ (size * 2 - 2) ∣ 1024 := by
    intro h6
    have : (1024 : Nat) = 2 ^ 10 := by norm_num
    rw [this]
    exact pow_dvd_pow 2 (by unfold TLB_TSIZE_4M at h6; omega)
  by_cases heB : e < B
  · -- the chunk ends at or below the block of `p`
    have hBb : B = p / 1024 * 1024 := by omega
    have hce : e + 2 ^ (size * 2 - 2) ≤ B := by
      by_cases h6 : size < TLB_TSIZE_4M
      · have d1 : 2 ^ (size * 2 - 2) ∣ B := by
          rw [hBb]
          exact Dvd.dvd.trans (hsmalldvd h6) (Dvd.intro_left _ rfl)
        have d2 : 2 ^ (size * 2 - 2) ∣ B - e := Nat.dvd_sub' d1 hde
        have := Nat.le_of_dvd (by omega) d2
        omega
      · obtain ⟨d1, d2, d3⟩ := hlarge (by omega)
        generalize 2 ^ (size * 2 - 2) = P at *
        by_contra hc
        apply hsmall
        refine ⟨by omega, by omega, by omega⟩
    generalize hlp : (if size ≥ TLB_TSIZE_4M then 1 else 0) = lp
    have h1024 : lp = 1 → 1024 ∣ e ∧ 1024 ∣ r := by
      intro h1
      have h6 : TLB_TSIZE_4M ≤ size := by
        by_contra hc; rw [if_neg hc] at hlp; omega
      exact (hlarge h6).2
    have R := inner_rule L lp (if lp = 1 then PGDIR_SIZE - 1 else 0) (set_size a size)
      (e + 2 ^ (size * 2 - 2))
      (fun T x rx => FrMid L gpn T0 e (2 ^ (size * 2 - 2)) lp T x ∧
        rx % 1024 = (rpn0 + (x - gpn)) % 1024 ∧ (lp = 1 → 1024 ∣ rx))
      (fun st T1 => st ≠ map_status.done ∧ FrStop L gpn B T0 T1)
      (fun T x rx hM hx => so_step L gpn rpn0 B T0 e size lp a (by omega) (by omega) hlo
        hce hs1 hs16 hde hlp.symm T x rx hM hx)
      (2 ^ (size * 2 - 2) + 1) T e r
      ⟨⟨le_refl _, by omega, fun h => (h1024 h).1, hI.inv, hI.frame⟩, hrp,
        fun h => (h1024 h).2⟩ (by omega)
    cases hin : vptbl_map_inner L lp (if lp = 1 then PGDIR_SIZE - 1 else 0) (set_size a size)
        (e + 2 ^ (size * 2 - 2)) (2 ^ (size * 2 - 2) + 1) T e r with
    | next T2 e2 r2 a2 =>
      rw [hin] at R
      simp only [] at R ⊢
      obtain ⟨⟨hM, hr2, _⟩, hge, _⟩ := R
      have he2 : e2 = e + 2 ^ (size * 2 - 2) := by have := hM.hi; omega
      exact ⟨⟨by omega, by omega, hM.inv, hM.frame, hr2, fun h => by omega⟩, by omega⟩
    | stop st T1 =>
      rw [hin] at R
      simp only [] at R ⊢
      exact ⟨R.1, R.2.1, R.2.2, fun h => by omega⟩
  · -- the first page of the range in the block of `p`: a small-page chunk on a large page
    have heq : e = B := by omega
    have hblk : e / 1024 = p / 1024 := by omega
    have h6 : size < TLB_TSIZE_4M := by
      by_contra hc
      obtain ⟨d1, d2, d3⟩ := hlarge (by omega)
      generalize 2 ^ (size * 2 - 2) = P at *
      apply hsmall
      refine ⟨by omega, by omega, by omega⟩
    rw [if_neg (by omega : ¬ size ≥ TLB_TSIZE_4M)]
    have hcapp : e < cap L := by omega
    have hwT0 := hit_same_block L hL T0 hInv0 p e lv pg a1 hw hlv hblk
    have hcls : (walkL T (idxs L e)).cls = wcls.hit lv pg a1 := by
      have := hI.frame e hcapp (Or.inr (le_refl _))
      unfold PageCls at this
      rw [this, hwT0]
      rfl
    have hwT : walkL T (idxs L e) = walk_res.hit lv pg a1 := by
      cases hwe : walkL T (idxs L e) with
      | tbl S => rw [hwe] at hcls; simp [walk_res.cls] at hcls
      | miss l p' a' => rw [hwe] at hcls; simp [walk_res.cls] at hcls
      | nosize l p' a' => rw [hwe] at hcls; simp [walk_res.cls] at hcls
      | hit l p' a' =>
        rw [hwe] at hcls
        simp only [walk_res.cls, wcls.hit.injEq] at hcls
        rw [hcls.1, hcls.2.1, hcls.2.2]
    simp only [vptbl_map_inner]
    rw [if_pos (by omega)]
    have S := step_spec L 0 (if (0 : Nat) = 1 then PGDIR_SIZE - 1 else 0) (set_size a size) T e r
    simp only [Nat.sub_zero, Nat.mul_zero, Nat.shiftRight_zero] at S
    rw [hwT] at S
    simp only [] at S
    rw [if_pos ⟨trivial, hlv⟩] at S
    rw [S]
    simp only []
    refine ⟨by simp, hI.inv, ?_, fun h => ⟨rfl, hI.first (by omega)⟩⟩
    intro q hq hq2
    exact hI.frame q hq (by omega)

/-- A call of `vptbl_map` whose range holds a page `p` that a large page covers and that
the call would map with small pages does not complete, and walks every page below the
range, or from the 4 MiB block of `p` on, as before. -/
theorem map_small_on_large (L : Nat) (T0 : Table) (gpn rpn0 n a0 p lv pg a1 : Nat) (hL : 1 ≤ L)
    (hInv0 : Inv L T0)
    (h32 : gpn + n < 2 ^ 32) (hcap : gpn + n ≤ cap L) (hp1 : gpn ≤ p) (hp2 : p < gpn + n)
    (hw : walkL T0 (idxs L p) = walk_res.hit lv pg a1) (hlv : lv ≠ 0)
    (hsmall : ¬ (gpn ≤ p / 1024 * 1024 ∧ p / 1024 * 1024 + 1024 ≤ gpn + n ∧
      rpn0 % 1024 = gpn % 1024)) :
    (vptbl_map T0 gpn rpn0 n a0 L).1 ≠ map_status.done ∧
      SoStop L gpn (max gpn (p / 1024 * 1024)) T0 (vptbl_map T0 gpn rpn0 n a0 L).1
        (vptbl_map T0 gpn rpn0 n a0 L).2 := by
  unfold vptbl_map
  rw [add32_eq _ _ h32]
  have R := outer_rule L (gpn + n)
    (fun T e r _ => SoInv L gpn rpn0 (max gpn (p / 1024 * 1024)) T0 T e r)
    (SoStop L gpn (max gpn (p / 1024 * 1024)) T0)
    (fun T e r a hI he => so_chunk L gpn rpn0 n p lv pg a1 _ T0 hL hInv0 h32 hcap hp1 hp2
      hw hlv hsmall rfl T e r a hI he)
    (n + 1) T0 gpn rpn0 a0
    ⟨le_refl _, by omega, hInv0, fun _ _ _ => rfl, by simp, fun _ => rfl⟩ (by omega)
  rcases R with ⟨_, e2, _, _, hM, hge⟩ | h
  · have := hM.hi
    omega
  · exact h

theorem ilog2_aux_ge (f : Nat) : ∀ v k, k ≤ f → 2 ^ k ≤ v → k ≤ ilog2_aux f v := by
  induction f with
  | zero => intro v k hk _; omega
  | succ f ih =>
    intro v k hk hv
    simp only [ilog2_aux]
    cases k with
    | zero => omega
    | succ k =>
      rw [pow_succ] at hv
      have h2 : ¬ v < 2 := by
        have := Nat.two_pow_pos k
        omega
      rw [if_neg h2]
      have := ih (v / 2) k (by omega) (by omega)
      omega

/-- The size class the outer loop of `vptbl_map` picks at the start of a 4 MiB block that
lies in the rest of the range, when the real page is on a 4 MiB block too, is a large-page
class: the one case in which a page of the block is not mapped by a small-page chunk. -/
theorem block_chunk_large (e len r : Nat) (he : 1024 ∣ e) (hr : 1024 ∣ r) (hlen : 1024 ≤ len) :
    TLB_TSIZE_4M ≤ min (max_page_size e len) (natural_alignment r) := by
  have h1024 : (2 : Nat) ^ (6 * 2 - 2) = 1024 := by norm_num
  have a1 := natural_alignment_ge e 6 (by omega) (by rw [h1024]; exact he)
  have a2 := natural_alignment_ge r 6 (by omega) (by rw [h1024]; exact hr)
  have a3 : 6 ≤ pages_to_tsize len := by
    unfold pages_to_tsize ilog2 LONG_BITS
    have := ilog2_aux_ge 32 len 10 (by omega) (by omega)
    omega
  unfold max_page_size TLB_TSIZE_4M
  omega

/-- C8 (amended). Overlap rejection, small over large. For every table reachable from the
empty table by calls of `vptbl_map` (at least one level) in which guest page `p` is covered
by a leaf found above level 0 (a large-page leaf), and every call `vptbl_map(tbl, gpn, rpn,
n, attr, levels)` whose range holds `p`, does not wrap and lies within the
`2 ^ (10 * levels)` pages the table indexes, and which cannot map the 4 MiB block of `p` by
a large page (the block is not wholly inside `[gpn, gpn + n)`, or `gpn` and `rpn` are not
congruent modulo 1024), so that `p` falls into a small-page chunk: the call does not
complete; every page of the 4 MiB block of `p` translates as before the call, the large
page is not written; every page `q` that the table indexes and that is below `gpn` or not
below the block of `p` has the same valid translation after the call as before (only pages
of the range below the block of `p`, which belong to chunks before the conflict, can have
been rewritten); and when the block of `p` starts at or below `gpn`, so that the conflict
is in the first chunk, the call returns with the conflict "large page overwritten by a
small page" logged and the table is left as it was. -/
theorem vptbl_map_small_over_large (levels : Nat) (tbl : Table) (gpn rpn n attr p : Nat)
    (path : List Nat) (lv : Nat) (tbl1 : Table)
    (hL : 1 ≤ levels) (hT : Reachable levels tbl)
    (h32 : gpn + n < 2 ^ 32) (hcap : gpn + n ≤ 2 ^ (10 * levels))
    (hp1 : gpn ≤ p) (hp2 : p < gpn + n)
    (hleaf : vptbl_get_ptep tbl levels p false = ptep_result.ptr path lv tbl1) (hlv : lv ≠ 0)
    (hsmall : ¬ (gpn ≤ p / 1024 * 1024 ∧ p / 1024 * 1024 + 1024 ≤ gpn + n ∧
      rpn % 1024 = gpn % 1024)) :
    (vptbl_map tbl gpn rpn n attr levels).1 ≠ map_status.done ∧
    (∀ q, q / 1024 = p / 1024 →
      vptbl_xlate (vptbl_map tbl gpn rpn n attr levels).2 q levels
        = vptbl_xlate tbl q levels) ∧
    (∀ q, q < 2 ^ (10 * levels) → (q < gpn ∨ p / 1024 * 1024 ≤ q) →
      ∀ r a, a &&& PTE_VALID ≠ 0 →
        (vptbl_xlate (vptbl_map tbl gpn rpn n attr levels).2 q levels = Except.ok (r, a) ↔
          vptbl_xlate tbl q levels = Except.ok (r, a))) ∧
    (p / 1024 * 1024 ≤ gpn →
      (vptbl_map tbl gpn rpn n attr levels).1 = map_status.small_over_large ∧
      (vptbl_map tbl gpn rpn n attr levels).2 = tbl) := by
  have hInv := reachable_inv levels hL tbl hT
  have hw : ∃ pg a, walkL tbl (idxs levels p) = walk_res.hit lv pg a := by
    have h := get_ptep_false levels tbl p
    cases hw : walkL tbl (idxs levels p) with
    | tbl S => rw [hw] at h; simp only [] at h; rw [h] at hleaf; simp at hleaf
    | miss l pg a => rw [hw] at h; simp only [] at h; rw [h] at hleaf; simp at hleaf
    | nosize l pg a =>
      rw [hw] at h; simp only [] at h; rw [h] at hleaf
      by_cases hl : l = 0 <;> simp [hl] at hleaf
    | hit l pg a =>
      rw [hw] at h; simp only [] at h
      obtain ⟨path1, T1, h1, _, _⟩ := h
      rw [h1] at hleaf
      simp only [ptep_result.ptr.injEq] at hleaf
      exact ⟨pg, a, by rw [hleaf.2.1]⟩
  obtain ⟨pg, a1, hw⟩ := hw
  obtain ⟨hnd, _, hfr, hfirst⟩ :=
    map_small_on_large levels tbl gpn rpn n attr p lv pg a1 hL hInv h32 hcap hp1 hp2 hw hlv
      hsmall
  have hdc : 1024 ∣ 2 ^ (10 * levels) := by
    have : (1024 : Nat) = 2 ^ 10 := by norm_num
    rw [this]
    exact pow_dvd_pow 2 (by omega)
  have hfr2 : ∀ q, q < 2 ^ (10 * levels) → (q < gpn ∨ p / 1024 * 1024 ≤ q) →
      PageCls levels (vptbl_map tbl gpn rpn n attr levels).2 q = PageCls levels tbl q := by
    intro q hq hq2
    exact hfr q hq (by omega)
  refine ⟨hnd, ?_, ?_, ?_⟩
  · intro q hq
    have hqc : q < 2 ^ (10 * levels) := by
      generalize 2 ^ (10 * levels) = C at *
      omega
    have hc := hfr2 q hqc (Or.inr (by omega))
    have hq0 := hit_same_block levels hL tbl hInv p q lv pg a1 hw hlv hq
    have x1 := xlate_of_cls (vptbl_map tbl gpn rpn n attr levels).2 q levels
    have x0 := xlate_of_cls tbl q levels
    unfold PageCls at hc
    rw [hc] at x1
    rw [hq0] at x0 x1
    simp only [walk_res.cls] at x0 x1
    rw [x0, x1]
  · intro q hq hq2
    exact xlate_of_same_cls levels _ tbl q (hfr2 q hq hq2)
  · intro hb
    exact hfirst (by omega)

/-- Witness of C8: block 1 of a two-level table is one 4 MiB page; the call maps the two
pages `0x3ff` and `0x400` by small-page chunks, and the second chunk is on the large
page. -/
theorem vptbl_map_small_over_large_witness :
    (vptbl_map (vptbl_map empty_tbl 0x400 0x400 0x400 0x7f 2).2 0x3ff 0x7 2 0x7f 2).1
      ≠ map_status.done ∧
    (∀ q, q / 1024 = 0x400 / 1024 →
      vptbl_xlate
          (vptbl_map (vptbl_map empty_tbl 0x400 0x400 0x400 0x7f 2).2 0x3ff 0x7 2 0x7f 2).2 q 2
        = vptbl_xlate (vptbl_map empty_tbl 0x400 0x400 0x400 0x7f 2).2 q 2) ∧
    (∀ q, q < 2 ^ (10 * 2) → (q < 0x3ff ∨ 0x400 / 1024 * 1024 ≤ q) →
      ∀ r a, a &&& PTE_VALID ≠ 0 →
        (vptbl_xlate
            (vptbl_map (vptbl_map empty_tbl 0x400 0x400 0x400 0x7f 2).2 0x3ff 0x7 2 0x7f 2).2 q 2
            = Except.ok (r, a) ↔
          vptbl_xlate (vptbl_map empty_tbl 0x400 0x400 0x400 0x7f 2).2 q 2 = Except.ok (r, a))) ∧
    (0x400 / 1024 * 1024 ≤ 0x3ff →
      (vptbl_map (vptbl_map empty_tbl 0x400 0x400 0x400 0x7f 2).2 0x3ff 0x7 2 0x7f 2).1
        = map_status.small_over_large ∧
      (vptbl_map (vptbl_map empty_tbl 0x400 0x400 0x400 0x7f 2).2 0x3ff 0x7 2 0x7f 2).2
        = (vptbl_map empty_tbl 0x400 0x400 0x400 0x7f 2).2) :=
  vptbl_map_small_over_large 2 (vptbl_map empty_tbl 0x400 0x400 0x400 0x7f 2).2
    0x3ff 0x7 2 0x7f 0x400 [1] 1 (vptbl_map empty_tbl 0x400 0x400 0x400 0x7f 2).2
    (by decide) (Reachable.map empty_tbl 0x400 0x400 0x400 0x7f Reachable.empty)
    (by decide) (by decide) (by decide) (by decide) (by rfl) (by decide) (by decide)

end Hv
